import Mathlib

/-!
# Har_Transco_PESTD / Har_Transco_PreMai : reference tables, numeric detection, field conversion

Shallow embedding of the hash-coded reference tables (`BuildHashKey`,
`AddElementIn...HashKeyTable`, `FindElementIn...HashArrayTable`) and of the
string helpers (`LTrim`, `RTrim`, `Trim`, `isNumeric`) of the two transcoders,
of the field conversion (`Convert_InputField`, `isValidInputAmount`) and of the
amount correction (`CorrectFormatAmount`).

Conventions of the embedding.

* A C string is the list of the character codes that precede its terminating
  NUL (`CStr`).  `strcpy` is therefore the identity and `strcmp(a, b) == 0`
  is equality of lists.
* `char` is signed (gcc on x86): a byte `b >= 128` has the value `b - 256`.
* `long` and `long long` are 64-bit two's complement integers; arithmetic on
  them is done in `Int` and reduced with `wrapLL`.
* A table `T[x].stElt[y]` is a function of the two indexes.  An access whose
  column index is outside the array is not given a meaning: the operation
  returns `none`.
* The capacity of the local character buffers (`char x[50]`, ...) is not
  modelled: a string is never cut by the buffer that receives it.
* An output buffer written with `memset` / `memcpy` is the list of its bytes.
  A write that leaves the buffer, or a read outside a string and its NUL, is
  not given a meaning: the operation returns `none`.
* `CorrectFormatAmount` divides in `double`; the embedding divides and rounds
  in exact arithmetic (`roundRatio`).
-/

namespace HarTransco

/-! ## Constants -/

def TRUE : Int := 1
def FALSE : Int := 0
def HASH_ARRAY_SIZE : Nat := 1500
def HASH_CURRENCY_ARRAY_SIZE : Nat := 50
def HASH_DODGE_ARRAY_SIZE : Nat := 2000
def HASH_LOT_ARRAY_SIZE : Nat := 2000
def HASH_KEY_FOUND : Int := 1
def HASH_KEY_NOT_FOUND : Int := 0
def MAX_HASH_KEY_LENGTH : Nat := 18
def MAX_ID_ECRITU : Int := 999999
def LLONG_MAX : Int := 9223372036854775807

/-! ## C strings and 64-bit integers -/

/-- A C string: the character codes before the terminating NUL. -/
abbrev CStr := List Nat

/-- The character codes of a string literal. -/
def str (s : String) : CStr := s.toList.map Char.toNat

/-- Value of a `char` holding byte `b` (signed char). -/
def charVal (b : Nat) : Int := if b < 128 then (b : Int) else (b : Int) - 256

/-- Reduction of an integer to the range of a 64-bit signed `long long`. -/
def wrapLL (z : Int) : Int :=
  (z + 9223372036854775808) % 18446744073709551616 - 9223372036854775808

/-- The remainder operator of C: the result has the sign of the dividend. -/
def cRem (a b : Int) : Int := Int.tmod a b

/-! ## BuildHashKey -/

/-- Contribution of one character before the multiplication by the
coefficient: `c` when `c < ' '`, else `c - ' '`. -/
def hashDigit (b : Nat) : Int :=
  if charVal b < 32 then charVal b else charVal b - 32

/-- The loop of `BuildHashKey`.  The first argument holds the characters still
to visit, from `i_strKey[l_lIdY]` down to `i_strKey[0]`; `done` is
`l_lLength - 1 - l_lIdY`, the number of characters already visited. -/
def BuildHashKeyLoop : List Nat → Nat → Int → Int → Int
  | [], _, _, l_llHashKey => l_llHashKey
  | c :: rest, done, l_llCoef, l_llHashKey =>
    if done + 1 ≤ MAX_HASH_KEY_LENGTH then
      BuildHashKeyLoop rest (done + 1) (wrapLL (l_llCoef * 10))
        (wrapLL (l_llHashKey + wrapLL (hashDigit c * l_llCoef)))
    else
      l_llHashKey

/-- Result of `BuildHashKey`: the returned position and `*o_llHashKey`. -/
def BuildHashKey (i_strKey : CStr) (i_HashArraySize : Nat) : Int × Int :=
  let l_llHashKey := BuildHashKeyLoop i_strKey.reverse 0 1 0
  (cRem l_llHashKey i_HashArraySize, l_llHashKey)

/-! ## LTrim, RTrim, Trim -/

/-- Index reached by `while (s[i] == c) i++` started at `i = 0`; the
terminating NUL stops the scan. -/
def scanLeft (c : Nat) : CStr → Nat
  | [] => 0
  | a :: rest => if a = c then scanLeft c rest + 1 else 0

/-- Suppress spaces at the left side of a string.  The copy loop
`s[l_iIdxL] = s[l_iIdxR + l_iIdxL]` followed by the NUL leaves the characters
from index `l_iIdxR` on. -/
def LTrim (i_strField : CStr) : CStr :=
  let l_iFieldLength : Int := (i_strField.length : Int) - 1
  if i_strField.length ≠ 0 then
    let l_iIdxR := scanLeft 32 i_strField
    if (l_iIdxR : Int) ≤ l_iFieldLength then i_strField.drop l_iIdxR else []
  else i_strField

/-- One plus the index reached by `while (s[i] == ' ') i--` started at
`i = n - 1`.  The scan ends at the start of the buffer (index `-1`): the byte
that precedes the buffer is taken not to be a space.  Inside `Trim` the scan
never gets there, `LTrim` having emptied a string made of spaces. -/
def scanRight (s : CStr) : Nat → Nat
  | 0 => 0
  | n + 1 => if s.getD n 0 = 32 then scanRight s n else n + 1

/-- Suppress spaces at the right side of a string: a NUL is written at
`l_iIdx + 1`. -/
def RTrim (i_strField : CStr) : CStr :=
  if i_strField.length ≠ 0 then i_strField.take (scanRight i_strField i_strField.length)
  else i_strField

/-- Suppress spaces at the left and the right sides of a string. -/
def Trim (i_strField : CStr) : CStr := RTrim (LTrim i_strField)

/-! ## isNumeric -/

/-- The `isdigit` test of the C locale. -/
def isdigit (c : Nat) : Bool := decide (48 ≤ c) && decide (c ≤ 57)

/-- First loop of `isNumeric`: `(l_strSign, l_iSignPosit)` after the scan that
starts at index `i`; the scan is left at the first `'+'` or `'-'`. -/
def findSign : CStr → Nat → Nat × Nat
  | [], _ => (32, 0)
  | c :: rest, i => if c = 43 ∨ c = 45 then (c, i) else findSign rest (i + 1)

/-- Result of `isNumeric`: the returned value, `o_strField` and `*o_iSign`.
The second argument is the value of `*o_iSign` on entry, which an empty field
leaves untouched. -/
def isNumeric (i_strField : CStr) (o_iSign : Int) : Int × CStr × Int :=
  if i_strField.length ≠ 0 then
    let found := findSign i_strField 0
    let l_strSign := found.1
    let l_iSignPosit := found.2
    let signFound : Bool := decide (l_strSign = 43 ∨ l_strSign = 45)
    -- the sign is suppressed and the characters after it moved to the left
    let o_strField :=
      if signFound then i_strField.take l_iSignPosit ++ i_strField.drop (l_iSignPosit + 1)
      else i_strField
    let l_strSign := if signFound then l_strSign else 43
    let l_iSign : Int := if l_strSign = 43 then 1 else -1
    let o_strField := Trim o_strField
    if o_strField.all isdigit then (TRUE, o_strField, l_iSign)
    else (FALSE, i_strField, 0)
  else (FALSE, i_strField, o_iSign)

/-! ## Reference tables -/

/-- A table `T[x].stElt[y]`. -/
abbrev Table (S : Type) := Nat → Nat → S

/-- The table after a write to `T[x].stElt[y]`. -/
def Table.set {S : Type} (t : Table S) (x y : Nat) (s : S) : Table S :=
  fun i j => if i = x ∧ j = y then s else t i j

/-- Value returned by a `FindElementIn...` function with its two outputs. -/
structure FindResult where
  ret : Int
  o_lPositXHashKey : Int
  o_lPositYHashKey : Int
deriving DecidableEq

/-- Outcome of a lookup that fails. -/
def notFound : FindResult := ⟨HASH_KEY_NOT_FOUND, -1, -1⟩

/-- Outcome of a lookup that succeeds at `T[x].stElt[y]`. -/
def found (x y : Nat) : FindResult := ⟨HASH_KEY_FOUND, x, y⟩

/-- Test `memcmp(buf, key, n) == 0` for a buffer that holds the C string `s`
followed by NUL bytes (the buffers of the tables are zero-filled by the
`Initialize...` functions and each element is written once). -/
def memcmpEq (s key : CStr) (n : Nat) : Bool :=
  decide ((s ++ List.replicate n 0).take n = key.take n)

/-- The `for (l_lIdX ...)` loop shared by the `AddElementIn...HashKeyTable`
functions, in column `y`: `hashOf` and `keyOf` read the hash key and the
primary key of an element, `new` is the element written to a free position.
The first numeric argument counts the iterations left, the second is
`l_lIdX`. -/
def addLoop {S : Type} (hashOf : S → Int) (keyOf : S → CStr) (y : Nat) (key : CStr) (new : S) :
    Nat → Nat → Table S → Table S
  | 0, _, t => t
  | n + 1, x, t =>
    if hashOf (t x y) ≠ -1 then
      if keyOf (t x y) = key then t
      else addLoop hashOf keyOf y key new n (x + 1) t
    else t.set x y new

/-- The lookup loop of the SIAM, RTS and COMPTE_DODGE tables: an element with
an empty key ends the scan, a key is compared with
`memcmp(stored, l_strKey, strlen(l_strKey))`. -/
def findLoopMemcmp {S : Type} (keyOf : S → CStr) (y : Nat) (l_strKey : CStr) (t : Table S) :
    Nat → Nat → FindResult
  | 0, _ => notFound
  | n + 1, x =>
    if (keyOf (t x y)).length > 0 then
      if memcmpEq (keyOf (t x y)) l_strKey l_strKey.length then found x y
      else findLoopMemcmp keyOf y l_strKey t n (x + 1)
    else notFound

/-- The lookup loop of the CURRENCY and LOT tables: every row of the column
is compared with `strcmp`. -/
def findLoopStrcmp {S : Type} (keyOf : S → CStr) (y : Nat) (l_strKey : CStr) (t : Table S) :
    Nat → Nat → FindResult
  | 0, _ => notFound
  | n + 1, x =>
    if keyOf (t x y) = l_strKey then found x y
    else findLoopStrcmp keyOf y l_strKey t n (x + 1)

/-! ### SIAM table (PESTD) -/

/-- Data of one REF_TIERS.dat record. -/
structure RefTiersFile where
  strSIAM : CStr
  strRICOS_SC_ID : CStr
  strRICOS_CPY_ID : CStr
  strRTS_SC_ID : CStr
  strSC_INTITULE_USUEL : CStr
  strSIA_CIT_TYPE : CStr
deriving DecidableEq

/-- Element of the SIAMHashArray table. -/
structure SIAMHashElt where
  SIAMHashKey : Int
  strSIAM : CStr
  strRICOS_SC_ID : CStr
  strRICOS_CPY_ID : CStr
deriving DecidableEq

/-- The SIAM table after `InitializeSIAMHashKeyTable`: every hash key is -1
and every string is empty. -/
def InitializeSIAMHashKeyTable : Table SIAMHashElt := fun _ _ => ⟨-1, [], [], []⟩

/-- Add the SIAM key of the current REF_TIERS.dat record to the SIAM table. -/
def AddElementInSIAMHashKeyTable (t : Table SIAMHashElt) (r : RefTiersFile) :
    Option (Table SIAMHashElt) :=
  let h := BuildHashKey r.strSIAM HASH_ARRAY_SIZE
  if 0 ≤ h.1 then
    some (addLoop SIAMHashElt.SIAMHashKey SIAMHashElt.strSIAM h.1.toNat r.strSIAM
      ⟨h.2, r.strSIAM, r.strRICOS_SC_ID, r.strRICOS_CPY_ID⟩ HASH_ARRAY_SIZE 0 t)
  else none

/-- Find a key in the SIAM table: the key is trimmed, then `";"` is appended
to it before the emptiness test and the search. -/
def FindElementInSIAMHashArrayTable (t : Table SIAMHashElt) (i_strKey : CStr) :
    Option FindResult :=
  let l_strKey := Trim i_strKey ++ [59]
  if l_strKey.length > 0 then
    let h := BuildHashKey l_strKey HASH_ARRAY_SIZE
    if 0 ≤ h.1 then
      some (findLoopMemcmp SIAMHashElt.strSIAM h.1.toNat l_strKey t HASH_ARRAY_SIZE 0)
    else none
  else some notFound

/-! ### RTS table (PESTD) -/

/-- Element of the RTSHashArray table. -/
structure RTSHashElt where
  RTSHashKey : Int
  strRTS_SC_ID : CStr
  strRICOS_SC_ID : CStr
  strRICOS_CPY_ID : CStr
deriving DecidableEq

/-- The RTS table after `InitializeRTSHashKeyTable`. -/
def InitializeRTSHashKeyTable : Table RTSHashElt := fun _ _ => ⟨-1, [], [], []⟩

/-- Add the RTS_SC_ID key of the current REF_TIERS.dat record to the RTS
table. -/
def AddElementInRTSHashKeyTable (t : Table RTSHashElt) (r : RefTiersFile) :
    Option (Table RTSHashElt) :=
  let h := BuildHashKey r.strRTS_SC_ID HASH_ARRAY_SIZE
  if 0 ≤ h.1 then
    some (addLoop RTSHashElt.RTSHashKey RTSHashElt.strRTS_SC_ID h.1.toNat r.strRTS_SC_ID
      ⟨h.2, r.strRTS_SC_ID, r.strRICOS_SC_ID, r.strRICOS_CPY_ID⟩ HASH_ARRAY_SIZE 0 t)
  else none

/-- Find a key in the RTS table. -/
def FindElementInRTSHashArrayTable (t : Table RTSHashElt) (i_strKey : CStr) :
    Option FindResult :=
  let l_strKey := Trim i_strKey
  if l_strKey.length > 0 then
    let h := BuildHashKey l_strKey HASH_ARRAY_SIZE
    if 0 ≤ h.1 then
      some (findLoopMemcmp RTSHashElt.strRTS_SC_ID h.1.toNat l_strKey t HASH_ARRAY_SIZE 0)
    else none
  else some notFound

/-! ### CURRENCY table (both programs) -/

/-- Data of one REF_CURRENCY.dat record. -/
structure RefCurrencyFile where
  strCURRENCY_CD : CStr
  strDECIMAL_POS : CStr
deriving DecidableEq

/-- Element of the CURRENCYHashArray table. -/
structure CURRENCYHashElt where
  CURRENCYHashKey : Int
  strCURRENCY_CD : CStr
  strDECIMAL_POS : CStr
deriving DecidableEq

/-- The CURRENCY table after `InitializeCURRENCYHashKeyTable`. -/
def InitializeCURRENCYHashKeyTable : Table CURRENCYHashElt := fun _ _ => ⟨-1, [], []⟩

/-- Add the current REF_CURRENCY.dat record to the CURRENCY table. -/
def AddElementInCURRENCYHashKeyTable (t : Table CURRENCYHashElt) (r : RefCurrencyFile) :
    Option (Table CURRENCYHashElt) :=
  let h := BuildHashKey r.strCURRENCY_CD HASH_CURRENCY_ARRAY_SIZE
  if 0 ≤ h.1 then
    some (addLoop CURRENCYHashElt.CURRENCYHashKey CURRENCYHashElt.strCURRENCY_CD h.1.toNat
      r.strCURRENCY_CD ⟨h.2, r.strCURRENCY_CD, r.strDECIMAL_POS⟩ HASH_CURRENCY_ARRAY_SIZE 0 t)
  else none

/-- Find a key in the CURRENCY table. -/
def FindElementInCURRENCYHashArrayTable (t : Table CURRENCYHashElt) (i_strKey : CStr) :
    Option FindResult :=
  let l_strKey := Trim i_strKey
  if l_strKey.length > 0 then
    let h := BuildHashKey l_strKey HASH_CURRENCY_ARRAY_SIZE
    if 0 ≤ h.1 then
      some (findLoopStrcmp CURRENCYHashElt.strCURRENCY_CD h.1.toNat l_strKey t
        HASH_CURRENCY_ARRAY_SIZE 0)
    else none
  else some notFound

/-! ### COMPTE_DODGE table (PreMai) -/

/-- Useful data extracted from one REF_RCA_CPT.dat record. -/
structure RefRcaCptFile where
  strCOMPTE_DODGE : CStr
  strTOP_BILAN : CStr
  strTOP_INT_EXT : CStr
  strTVA : CStr
deriving DecidableEq

/-- Element of the COMPTE_DODGEHashArray table. -/
structure COMPTE_DODGEHashElt where
  COMPTE_DODGEHashKey : Int
  strCOMPTE_DODGE : CStr
  strTOP_BILAN : CStr
  strHB_IMPUTATION : CStr
  strTOP_INT_EXT : CStr
  strTVA : CStr
deriving DecidableEq

/-- The COMPTE_DODGE table after `InitializeCOMPTE_DODGEHashKeyTable`. -/
def InitializeCOMPTE_DODGEHashKeyTable : Table COMPTE_DODGEHashElt :=
  fun _ _ => ⟨-1, [], [], [], [], []⟩

/-- The `switch (strTOP_BILAN[0])` of the insertion: `"HB"` for `'H'`, `"BR"`
otherwise. -/
def hbImputation (strTOP_BILAN : CStr) : CStr :=
  if strTOP_BILAN.head? = some 72 then [72, 66] else [66, 82]

/-- Add the current REF_RCA_CPT.dat record to the COMPTE_DODGE table. -/
def AddElementInCOMPTE_DODGEHashKeyTable (t : Table COMPTE_DODGEHashElt) (r : RefRcaCptFile) :
    Option (Table COMPTE_DODGEHashElt) :=
  let h := BuildHashKey r.strCOMPTE_DODGE HASH_DODGE_ARRAY_SIZE
  if 0 ≤ h.1 then
    some (addLoop COMPTE_DODGEHashElt.COMPTE_DODGEHashKey COMPTE_DODGEHashElt.strCOMPTE_DODGE
      h.1.toNat r.strCOMPTE_DODGE
      ⟨h.2, r.strCOMPTE_DODGE, r.strTOP_BILAN, hbImputation r.strTOP_BILAN, r.strTOP_INT_EXT,
        r.strTVA⟩ HASH_DODGE_ARRAY_SIZE 0 t)
  else none

/-- Find a key in the COMPTE_DODGE table. -/
def FindElementInCOMPTE_DODGEHashArrayTable (t : Table COMPTE_DODGEHashElt) (i_strKey : CStr) :
    Option FindResult :=
  let l_strKey := Trim i_strKey
  if l_strKey.length > 0 then
    let h := BuildHashKey l_strKey HASH_DODGE_ARRAY_SIZE
    if 0 ≤ h.1 then
      some (findLoopMemcmp COMPTE_DODGEHashElt.strCOMPTE_DODGE h.1.toNat l_strKey t
        HASH_DODGE_ARRAY_SIZE 0)
    else none
  else some notFound

/-! ### LOT table (PreMai) -/

/-- Element of the LOTHashArray table. -/
structure LOTHashElt where
  LOTHashKey : Int
  strAPPLI_EMET_ID_LOT : CStr
  strAPPLI_EMET : CStr
  strID_LOT : CStr
  iLOT_NUM : Int
  iID_ECRITU : Int
deriving DecidableEq

/-- The LOT table after `InitializeLOTHashKeyTable`. -/
def InitializeLOTHashKeyTable : Table LOTHashElt := fun _ _ => ⟨-1, [], [], [], -1, -1⟩

/-- Find a key in the LOT table. -/
def FindElementInLOTHashArrayTable (t : Table LOTHashElt) (i_strKey : CStr) :
    Option FindResult :=
  let l_strKey := Trim i_strKey
  if l_strKey.length > 0 then
    let h := BuildHashKey l_strKey HASH_LOT_ARRAY_SIZE
    if 0 ≤ h.1 then
      some (findLoopStrcmp LOTHashElt.strAPPLI_EMET_ID_LOT h.1.toNat l_strKey t
        HASH_LOT_ARRAY_SIZE 0)
    else none
  else some notFound

/-! ### Loading REF_TIERS.dat (PESTD) -/

/-- Content of a zero-filled field after `memcpy(field, rec + start, len)`
followed by `field[nul] = 0`. -/
def copyField (rec : CStr) (start len nul : Nat) : CStr :=
  (((rec.drop start).take len ++ List.replicate (nul + 1 - len) 0).set nul 0).takeWhile
    (fun c => decide (c ≠ 0))

/-- Variables of the separator scan of `BuildTiersRicosTables`. -/
structure RefTiersScan where
  l_iNbSepInRecord : Nat
  l_iSepPositInRecord : Int
  fields : RefTiersFile

/-- One iteration of the separator scan, at index `l_iIdx` of the record.  The
last field is copied with a length `strlen(rec) - l_iIdx - 2`; a negative
length is not given a meaning. -/
def refTiersScanStep (rec : CStr) (st : RefTiersScan) (l_iIdx : Nat) : Option RefTiersScan :=
  if rec.getD l_iIdx 0 = 59 then
    let nb := st.l_iNbSepInRecord + 1
    let start := (st.l_iSepPositInRecord + 1).toNat
    let len := ((l_iIdx : Int) - st.l_iSepPositInRecord - 1).toNat
    let f := st.fields
    match nb with
    | 1 => some ⟨nb, l_iIdx, { f with strSIAM := copyField rec start len (len + 1) }⟩
    | 2 => some ⟨nb, l_iIdx, { f with strRICOS_SC_ID := copyField rec start len len }⟩
    | 3 => some ⟨nb, l_iIdx, { f with strRICOS_CPY_ID := copyField rec start len len }⟩
    | 4 => some ⟨nb, l_iIdx, { f with strRTS_SC_ID := copyField rec start len len }⟩
    | 5 =>
      if l_iIdx + 2 ≤ rec.length then
        some ⟨nb, l_iIdx,
          { f with
            strSC_INTITULE_USUEL := copyField rec start len len
            strSIA_CIT_TYPE :=
              copyField rec (l_iIdx + 1) (rec.length - l_iIdx - 2) (rec.length - l_iIdx - 2) }⟩
      else none
    | _ => some ⟨nb, l_iIdx, f⟩
  else some st

/-- The separator scan over a whole record. -/
def refTiersScan (rec : CStr) : Option RefTiersScan :=
  (List.range rec.length).foldl (fun st i => st.bind (fun s => refTiersScanStep rec s i))
    (some ⟨0, -1, ⟨[], [], [], [], [], []⟩⟩)

/-- Body of the reading loop of `BuildTiersRicosTables` for one record (with
its line terminator) on the SIAM and RTS tables. -/
def BuildTiersRicosTablesRecord (tabs : Table SIAMHashElt × Table RTSHashElt) (rec : CStr) :
    Option (Table SIAMHashElt × Table RTSHashElt) :=
  if rec.length > 1 then
    (refTiersScan rec).bind fun st =>
      if st.l_iNbSepInRecord ≠ 5 then some tabs
      else if st.fields.strSIAM.length = 0 ∧ st.fields.strRTS_SC_ID.length = 0 then some tabs
      else
        (if st.fields.strSIAM.length > 0 then AddElementInSIAMHashKeyTable tabs.1 st.fields
          else some tabs.1).bind fun t1 =>
        (if st.fields.strRTS_SC_ID.length > 0 then AddElementInRTSHashKeyTable tabs.2 st.fields
          else some tabs.2).bind fun t2 => some (t1, t2)
  else some tabs

/-- The tables built by `BuildTiersRicosTables` from the records of the file. -/
def BuildTiersRicosTables (records : List CStr) :
    Option (Table SIAMHashElt × Table RTSHashElt) :=
  records.foldl (fun tabs rec => tabs.bind (fun t => BuildTiersRicosTablesRecord t rec))
    (some (InitializeSIAMHashKeyTable, InitializeRTSHashKeyTable))

/-! ## Reference definition of the hash value -/

/-- Contribution of a character code as the hash function is described:
`c` when `c < 32`, else `c - 32`. -/
def adj (c : Nat) : Int := if c < 32 then (c : Int) else (c : Int) - 32

/-- The hash value as it is described: the sum over `i < min(len k, 18)` of
`adj(k[len k - 1 - i]) * 10 ^ i`. -/
def hashSum (k : CStr) : Int :=
  ∑ i in Finset.range (min k.length 18), adj (k.getD (k.length - 1 - i) 0) * 10 ^ i

/-- Weighted sum of the first `m` characters of a list read from the right
end of the key: the first character has weight 1, the next one 10, ... -/
def digitSum : List Nat → Nat → Int
  | [], _ => 0
  | _ :: _, 0 => 0
  | c :: rest, m + 1 => hashDigit c + 10 * digitSum rest m

/-! ## Reference definition of the numeric detection -/

/-- A sign character, `'+'` or `'-'`. -/
def isSignChar (c : Nat) : Bool := decide (c = 43 ∨ c = 45)

/-- The space character. -/
def isSpaceChar (c : Nat) : Bool := decide (c = 32)

/-- The field without the first `'+'` or `'-'` occurring in it, if any. -/
def deleteFirstSign (f : CStr) : CStr := f.eraseP isSignChar

/-- The string without its leading and trailing spaces. -/
def stripSpaces (s : CStr) : CStr := (s.dropWhile isSpaceChar).rdropWhile isSpaceChar

/-- What is left of a field once its first sign is deleted and the
surrounding spaces are stripped. -/
def numericRemainder (f : CStr) : CStr := stripSpaces (deleteFirstSign f)

/-- The sign of a field as described: `-1` when the first sign character of
the field is `'-'`, else `+1`. -/
def describedSign (f : CStr) : Int := if f.find? isSignChar = some 45 then -1 else 1

/-! ## Reachable table states and their invariants -/

/-- Table states reached from `init` by calls of the insertion `add`. -/
inductive Reachable {S R : Type} (init : Table S) (add : Table S → R → Option (Table S)) :
    Table S → Prop
  | init : Reachable init add init
  | step {t t' : Table S} {r : R} :
      Reachable init add t → add t r = some t' → Reachable init add t'

/-- No two occupied elements (hash key other than -1) hold the same primary
key. -/
def NoDuplicateKey {S : Type} (hashOf : S → Int) (keyOf : S → CStr) (t : Table S) : Prop :=
  ∀ x y x' y', hashOf (t x y) ≠ -1 → hashOf (t x' y') ≠ -1 →
    keyOf (t x y) = keyOf (t x' y') → x = x' ∧ y = y'

/-- In each column the occupied elements form a prefix of the rows: no free
element precedes an occupied one. -/
def OccupiedPrefix {S : Type} (hashOf : S → Int) (t : Table S) : Prop :=
  ∀ x y, hashOf (t x y) ≠ -1 → ∀ x', x' < x → hashOf (t x' y) ≠ -1

/-- Invariant of a table filled by insertions: an occupied element sits in the
column of its key and in a row of the array, the occupied elements of a column
form a prefix, no key is stored twice, and a free element has an empty key. -/
structure TableInv {S : Type} (hashOf : S → Int) (keyOf : S → CStr) (size : Nat)
    (t : Table S) : Prop where
  placed : ∀ x y, hashOf (t x y) ≠ -1 → (BuildHashKey (keyOf (t x y)) size).1 = (y : Int)
  rows : ∀ x y, hashOf (t x y) ≠ -1 → x < size
  pref : OccupiedPrefix hashOf t
  nodup : NoDuplicateKey hashOf keyOf t
  emptyKey : ∀ x y, hashOf (t x y) = -1 → keyOf (t x y) = []

/-! ## Sample table states -/

/-- The currency table after the insertion of `("EUR", "2")` into the
initialized table: hash value 4280, column 4280 mod 50 = 30, row 0. -/
def sampleCurrencyTable : Table CURRENCYHashElt :=
  InitializeCURRENCYHashKeyTable.set 0 30 ⟨4280, str "EUR", str "2"⟩

/-- The SIAM table after the insertion of the REF_TIERS.dat record
`CALYHKG;SC0000002325;2091;6847;CALYON;SIA`: hash value 38801469, column
38801469 mod 1500 = 969, row 0. -/
def sampleSIAMTable : Table SIAMHashElt :=
  InitializeSIAMHashKeyTable.set 0 969 ⟨38801469, str "CALYHKG", str "SC0000002325", str "2091"⟩

/-! ## Field formats and field conversion -/

/-- The output formats of a field (`enumFieldFormat`). -/
inductive enumFieldFormat where
  | skip
  | charED
  | charEG
  | entierEG
  | entierZG
  | entierSG
  | entierSZG
  | entierSD
  | entierSZD
  | amount3DEC
  | unknown
deriving DecidableEq

/-- One entry of `tabFieldOfRecord`. -/
structure FieldOfRecord where
  strFieldName : CStr
  strFieldFormat : CStr
  iFieldFormat : enumFieldFormat
  iFieldType : Int
  iFieldLengthInput : Int
  iFieldLengthOutput : Int
  iFieldStartPosInput : Int
  iFieldStartPosOutput : Int
deriving DecidableEq

/-- The macro `SIGN(x)`: `'-'` when `x < 0`, else `'+'`. -/
def SIGN (x : Int) : Nat := if x < 0 then 45 else 43

/-- Write of the bytes `src` at offset `off` of the buffer `b`
(`memcpy(b + off, src, n)`); a write that leaves the buffer is not given a
meaning. -/
def bufWrite (b : List Nat) (off : Int) (src : List Nat) : Option (List Nat) :=
  if 0 ≤ off ∧ off + src.length ≤ b.length then
    some (b.take off.toNat ++ src ++ b.drop (off.toNat + src.length))
  else none

/-- Fill of the first `n` bytes of a buffer (`memset(b, c, n)`). -/
def memsetBuf (b : List Nat) (c : Nat) (n : Int) : Option (List Nat) :=
  if 0 ≤ n then bufWrite b 0 (List.replicate n.toNat c) else none

/-- Copy of the first `n` bytes of the local buffer `loc` to the start of
the buffer `b` (`memcpy(b, l_strInputField, n)`). -/
def copyRaw (b : List Nat) (loc : List Nat) (n : Int) : Option (List Nat) :=
  if 0 ≤ n ∧ n ≤ loc.length then bufWrite b 0 (loc.take n.toNat) else none

/-- Suppress zeroes at the left side of a string (same loop as `LTrim`). -/
def LZTrim (i_strField : CStr) : CStr :=
  let l_iFieldLength : Int := (i_strField.length : Int) - 1
  if i_strField.length ≠ 0 then
    let l_iIdxR := scanLeft 48 i_strField
    if (l_iIdxR : Int) ≤ l_iFieldLength then i_strField.drop l_iIdxR else []
  else i_strField

/-- The scan of `isValidInputAmount` for the decimal symbol, from the right
end of the amount: the first argument is `l_iIdx + 1`, the second is
`l_iLastSpacePos`.  Result: `l_iDecimalSymbolPos` (`none` for -1) and
`l_iLastSpacePos`. -/
def amountScan (s : CStr) : Nat → Nat → Option Nat × Nat
  | 0, l_iLastSpacePos => (none, l_iLastSpacePos)
  | n + 1, l_iLastSpacePos =>
    if s.getD n 0 = 32 then amountScan s n n
    else if s.getD n 0 = 46 then (some n, l_iLastSpacePos)
    else amountScan s n l_iLastSpacePos

/-- Result of `isValidInputAmount`: the returned value, `o_strAmount`,
`*o_iSign` and `*o_iDecimalNumber`. -/
def isValidInputAmount (i_strAmount : CStr) : Int × CStr × Int × Int :=
  let sc := amountScan i_strAmount i_strAmount.length i_strAmount.length
  let l_iLastSpacePos := sc.2
  let l_iDecimalNumber : Int :=
    match sc.1 with
    | some p => (l_iLastSpacePos : Int) - p - 1
    | none => 0
  -- the decimal symbol is suppressed and the string is ended at `l_iLastSpacePos - 1`
  let l_strAmount :=
    match sc.1 with
    | some p => i_strAmount.take p ++ (i_strAmount.drop (p + 1)).take (l_iLastSpacePos - 1 - p)
    | none => i_strAmount
  let r := isNumeric l_strAmount 0
  if r.1 ≠ 0 then (TRUE, LZTrim r.2.1, r.2.2, l_iDecimalNumber)
  else (FALSE, i_strAmount, 0, 0)

/-- The numeric formats write the digits at `o + W - strlen(d) - shift`. -/
def padAndPlace (o : List Nat) (pad : Nat) (W : Int) (d : CStr) (shift : Int) :
    Option (List Nat) :=
  (memsetBuf o pad W).bind fun o1 => bufWrite o1 (W - d.length - shift) d

/-- Result of `Convert_InputField`: the content of the buffer
`o_strOutputField` after the call.  `fd` is `tabFieldOfRecord[*i_iIdx]`,
`uninit` stands for the bytes of the local buffer `l_strInputField` that
follow the terminating NUL of the copied input field, and `o_strOutputField`
is the content of the output buffer before the call.  A write outside the
output buffer is not given a meaning. -/
def Convert_InputField (fd : FieldOfRecord) (i_strInputField : CStr) (uninit : List Nat)
    (o_strOutputField : List Nat) : Option (List Nat) :=
  let l_strInputField := i_strInputField ++ 0 :: uninit
  let W := fd.iFieldLengthOutput
  let verbatim := copyRaw o_strOutputField l_strInputField fd.iFieldLengthInput
  match fd.iFieldFormat with
  | enumFieldFormat.skip => verbatim
  | enumFieldFormat.charED =>
    (memsetBuf o_strOutputField 32 W).bind fun o1 => bufWrite o1 0 (Trim i_strInputField)
  | enumFieldFormat.charEG =>
    (memsetBuf o_strOutputField 32 W).bind fun o1 =>
      bufWrite o1 (W - (Trim i_strInputField).length) (Trim i_strInputField)
  | enumFieldFormat.entierEG =>
    let r := isNumeric i_strInputField 0
    if r.1 ≠ 0 then padAndPlace o_strOutputField 32 W r.2.1 0 else verbatim
  | enumFieldFormat.entierZG =>
    let r := isNumeric i_strInputField 0
    if r.1 ≠ 0 then padAndPlace o_strOutputField 48 W r.2.1 0 else verbatim
  | enumFieldFormat.entierSG =>
    let r := isNumeric i_strInputField 0
    if r.1 ≠ 0 then
      (memsetBuf o_strOutputField 32 W).bind fun o1 =>
        (bufWrite o1 0 [SIGN r.2.2]).bind fun o2 => bufWrite o2 (W - r.2.1.length) r.2.1
    else verbatim
  | enumFieldFormat.entierSZG =>
    let r := isNumeric i_strInputField 0
    if r.1 ≠ 0 then
      (memsetBuf o_strOutputField 48 W).bind fun o1 =>
        (bufWrite o1 0 [SIGN r.2.2]).bind fun o2 => bufWrite o2 (W - r.2.1.length) r.2.1
    else verbatim
  | enumFieldFormat.entierSD =>
    let r := isNumeric i_strInputField 0
    if r.1 ≠ 0 then
      (padAndPlace o_strOutputField 32 W r.2.1 1).bind fun o2 => bufWrite o2 (W - 1) [SIGN r.2.2]
    else verbatim
  | enumFieldFormat.entierSZD =>
    let r := isNumeric i_strInputField 0
    if r.1 ≠ 0 then
      (padAndPlace o_strOutputField 48 W r.2.1 1).bind fun o2 => bufWrite o2 (W - 1) [SIGN r.2.2]
    else verbatim
  | enumFieldFormat.amount3DEC =>
    let r := isValidInputAmount i_strInputField
    if r.1 ≠ 0 then
      (memsetBuf o_strOutputField 48 W).bind fun o1 =>
        (bufWrite o1 0 [SIGN r.2.2.1]).bind fun o2 =>
          (bufWrite o2 (W - r.2.1.length - 1) r.2.1).bind fun o3 =>
            -- `sprintf(l_strDecimalNumber, "%d", n)` into `char[2]`, then one byte copied
            if 0 ≤ r.2.2.2 ∧ r.2.2.2 ≤ 9 then bufWrite o3 (W - 1) [48 + r.2.2.2.toNat]
            else none
    else verbatim
  | enumFieldFormat.unknown => verbatim

/-- The bytes of the output buffer that the caller copies to the output
record: the first `iFieldLengthOutput` bytes. -/
def outputField (fd : FieldOfRecord) (o : List Nat) : List Nat := o.take fd.iFieldLengthOutput.toNat


/-! ## Amount correction -/

/-- The `isspace` test of the C locale. -/
def isspace (c : Nat) : Bool := decide (c = 32) || (decide (9 ≤ c) && decide (c ≤ 13))

/-- Value of a string of decimal digits. -/
def digitsVal (s : CStr) : Nat := s.foldl (fun acc c => acc * 10 + (c - 48)) 0

/-- The function `atoi`: leading white space, an optional sign, then the
digits that follow (the range of `int` is not modelled). -/
def atoi (s : CStr) : Int :=
  match s.dropWhile isspace with
  | 45 :: rest => -(digitsVal (rest.takeWhile isdigit) : Int)
  | 43 :: rest => (digitsVal (rest.takeWhile isdigit) : Int)
  | t => (digitsVal (t.takeWhile isdigit) : Int)

/-- The decimal digits of `r` on `w` positions, zero filled
(`sprintf("%018.0f", r)` for `w = 18` and `r < 10 ^ 18`). -/
def digitsW : Nat → Nat → CStr
  | 0, _ => []
  | w + 1, r => digitsW w (r / 10) ++ [48 + r % 10]

/-- The macro `ROUND` applied to `num / den`, in exact arithmetic: the floor
when the fractional part is below 0.5, else the ceiling.  The program does
this computation on `double` values. -/
def roundRatio (num den : Nat) : Nat :=
  if 2 * (num % den) < den then num / den else num / den + 1

/-- Read of `n` bytes at offset `off` of a buffer that holds the C string `s`
and its terminating NUL; a read outside these bytes is not given a meaning. -/
def readBytes (s : CStr) (off n : Int) : Option (List Nat) :=
  if 0 ≤ off ∧ 0 ≤ n ∧ off + n ≤ s.length + 1 then
    some (((s ++ [0]).drop off.toNat).take n.toNat)
  else none

/-- The 20 bytes of `o_strAmount` built by each branch of
`CorrectFormatAmount`: `memset(o, '0', 20)`, the sign at `o[0]`, the
magnitude bytes `mag` at `o + 1`, then `"3"` at `o[19]` and a NUL at
`o[20]`. -/
def amountOut (sign : Nat) (mag : List Nat) : Option (List Nat) :=
  (bufWrite (List.replicate 21 48) 0 [sign]).bind fun o1 =>
    (bufWrite o1 1 mag).bind fun o2 =>
      (bufWrite o2 19 [51]).map fun o3 => o3.take 20

/-- Result of `CorrectFormatAmount`: the 20 bytes of `o_strAmount`.
`i_strAmount` is the sign, the amount and its number of decimals,
`i_strCurDecimalNr` the number of decimals of the currency.  In the branch
that divides, the magnitude is read by `atof` only when it is made of 18
digits, and the division and the rounding are done in exact arithmetic. -/
def CorrectFormatAmount (i_strAmount i_strCurDecimalNr : CStr) : Option (List Nat) :=
  match i_strAmount.getLast? with
  | none => none
  | some last =>
    if i_strCurDecimalNr.length > 1 then none
    else
      let cur := atoi i_strCurDecimalNr
      let amt := atoi [last]
      let sign := i_strAmount.headD 0
      if cur = amt then
        (readBytes i_strAmount (1 + 3 - cur) (18 - 3 + cur)).bind fun mag => amountOut sign mag
      else if cur > amt then
        let l_iDiffCurDecimalNr := cur - amt
        (readBytes i_strAmount (1 + l_iDiffCurDecimalNr) (18 - l_iDiffCurDecimalNr)).bind
          fun mag => amountOut sign mag
      else
        let l_iDiffCurDecimalNr := amt - cur
        let Exp := 3 - cur
        (readBytes i_strAmount 1 18).bind fun l_strAmount =>
          if l_strAmount.all isdigit then
            let Ratio := roundRatio (digitsVal l_strAmount) (10 ^ l_iDiffCurDecimalNr.toNat)
            if Ratio < 10 ^ 18 then
              (readBytes (digitsW 18 Ratio) Exp (18 - Exp)).bind fun mag => amountOut sign mag
            else none
          else none


/-! ## LOT sequence table (PreMai) -/

/-- The LOT table together with the counter `iLastLOT_NUM_USED`. -/
structure LOTState where
  LOTHashArray : Table LOTHashElt
  iLastLOT_NUM_USED : Int

/-- The state after `InitializeLOTHashKeyTable`, with `iLastLOT_NUM_USED` at
its initial value 0. -/
def initialLOTState : LOTState := ⟨InitializeLOTHashKeyTable, 0⟩

/-- The `for (l_lIdX ...)` loop of `AddElementInLOTHashKeyTable` in column
`y`.  The first numeric argument counts the iterations left, the second is
`l_lIdX`.  Result: the new state and the position written to
`*o_lPositXHashKey`, `*o_lPositYHashKey` (`none` when the loop ends without
writing them).  The range of the `int` fields is not modelled. -/
def addLoopLOT (y : Nat) (l_strAPPLI_EMET_ID_LOT i_strAPPLI_EMET i_strID_LOT : CStr)
    (l_llHashKey : Int) : Nat → Nat → LOTState → LOTState × Option (Nat × Nat)
  | 0, _, s => (s, none)
  | n + 1, x, s =>
    if (s.LOTHashArray x y).LOTHashKey ≠ -1 then
      if (s.LOTHashArray x y).strAPPLI_EMET_ID_LOT = l_strAPPLI_EMET_ID_LOT then
        let elt := s.LOTHashArray x y
        let elt1 : LOTHashElt :=
          if elt.iID_ECRITU < MAX_ID_ECRITU then { elt with iID_ECRITU := elt.iID_ECRITU + 1 }
          else { elt with iID_ECRITU := 1 }
        (⟨s.LOTHashArray.set x y elt1, s.iLastLOT_NUM_USED⟩, some (x, y))
      else
        addLoopLOT y l_strAPPLI_EMET_ID_LOT i_strAPPLI_EMET i_strID_LOT l_llHashKey n (x + 1) s
    else
      (⟨s.LOTHashArray.set x y
          ⟨l_llHashKey, l_strAPPLI_EMET_ID_LOT, i_strAPPLI_EMET, i_strID_LOT,
            s.iLastLOT_NUM_USED + 1, 1⟩,
        s.iLastLOT_NUM_USED + 1⟩, some (x, y))

/-- Add a LOT key in the LOT table: the column is given by the hash of
`i_strID_LOT`, the key compared and stored is `i_strAPPLI_EMET` followed by
`i_strID_LOT`.  A column index outside the array is not given a meaning. -/
def AddElementInLOTHashKeyTable (s : LOTState) (i_strAPPLI_EMET i_strID_LOT : CStr) :
    Option (LOTState × Option (Nat × Nat)) :=
  let l_strAPPLI_EMET_ID_LOT := i_strAPPLI_EMET ++ i_strID_LOT
  let h := BuildHashKey i_strID_LOT HASH_LOT_ARRAY_SIZE
  if 0 ≤ h.1 then
    some (addLoopLOT h.1.toNat l_strAPPLI_EMET_ID_LOT i_strAPPLI_EMET i_strID_LOT h.2
      HASH_LOT_ARRAY_SIZE 0 s)
  else none

/-- The decimal digits of a natural number. -/
def natDigits (n : Nat) : CStr := (Nat.toDigits 10 n).map Char.toNat

/-- The text written by `sprintf(buf, "%0<w>d", v)`. -/
def sprintfZeroD (w : Nat) (v : Int) : CStr :=
  if v < 0 then
    45 :: (List.replicate (w - 1 - (natDigits v.natAbs).length) 48 ++ natDigits v.natAbs)
  else List.replicate (w - (natDigits v.toNat).length) 48 ++ natDigits v.toNat

/-- Result of `FindIdLotIdEcriture`: the new state of the LOT table,
`o_strLOT_NUM` and `o_strID_ECRITU`.  The lookup is done with `i_strID_LOT`;
when it fails the pair is added.  A read of `LOTHashArray` at the position
-1 (the addition wrote no position) is not given a meaning. -/
def FindIdLotIdEcriture (s : LOTState) (i_strAPPLI_EMET i_strID_LOT : CStr) :
    Option (LOTState × CStr × CStr) :=
  (FindElementInLOTHashArrayTable s.LOTHashArray i_strID_LOT).bind fun r =>
    if r.ret ≠ 0 then
      if 0 ≤ r.o_lPositXHashKey ∧ 0 ≤ r.o_lPositYHashKey then
        let elt := s.LOTHashArray r.o_lPositXHashKey.toNat r.o_lPositYHashKey.toNat
        some (s, sprintfZeroD 17 elt.iLOT_NUM, sprintfZeroD 6 elt.iID_ECRITU)
      else none
    else
      (AddElementInLOTHashKeyTable s i_strAPPLI_EMET i_strID_LOT).bind fun a =>
        match a.2 with
        | some (x, y) =>
          let elt := a.1.LOTHashArray x y
          some (a.1, sprintfZeroD 17 elt.iLOT_NUM, sprintfZeroD 6 elt.iID_ECRITU)
        | none => none

/-- The texts returned by a sequence of `FindIdLotIdEcriture` calls, in
order, with the final state. -/
def lotCalls : LOTState → List (CStr × CStr) → Option (LOTState × List (CStr × CStr))
  | s, [] => some (s, [])
  | s, (e, l) :: rest =>
    (FindIdLotIdEcriture s e l).bind fun r =>
      (lotCalls r.1 rest).map fun q => (q.1, (r.2.1, r.2.2) :: q.2)
/-- The states of the LOT table that `AddElementInLOTHashKeyTable` calls
lead to from the initial state. -/
inductive LOTReachable : LOTState → Prop where
  | init : LOTReachable initialLOTState
  | step (s : LOTState) (i_strAPPLI_EMET i_strID_LOT : CStr)
      (r : LOTState × Option (Nat × Nat)) :
      LOTReachable s →
      AddElementInLOTHashKeyTable s i_strAPPLI_EMET i_strID_LOT = some r → LOTReachable r.1

/-- An occupied position of the LOT table: its hash key is not -1. -/
def LOTOccupied (s : LOTState) (x y : Nat) : Prop := (s.LOTHashArray x y).LOTHashKey ≠ -1

/-- The invariant of the LOT table. -/
structure LOTInv (s : LOTState) : Prop where
  nonneg : 0 ≤ s.iLastLOT_NUM_USED
  range : ∀ x y, LOTOccupied s x y →
    1 ≤ (s.LOTHashArray x y).iID_ECRITU ∧ (s.LOTHashArray x y).iID_ECRITU ≤ MAX_ID_ECRITU ∧
    1 ≤ (s.LOTHashArray x y).iLOT_NUM ∧ (s.LOTHashArray x y).iLOT_NUM ≤ s.iLastLOT_NUM_USED
  distinct : ∀ x y x1 y1, LOTOccupied s x y → LOTOccupied s x1 y1 →
    (s.LOTHashArray x y).iLOT_NUM = (s.LOTHashArray x1 y1).iLOT_NUM → x = x1 ∧ y = y1
  onto : ∀ n : Int, 1 ≤ n → n ≤ s.iLastLOT_NUM_USED →
    ∃ x y, LOTOccupied s x y ∧ (s.LOTHashArray x y).iLOT_NUM = n

/-- The state of the LOT table after the pair (`"ABC"`, `"X"`) is added to the
initial state. -/
def sampleLOTState : LOTState :=
  (addLoopLOT 56 (str "ABCX") (str "ABC") (str "X") 56 HASH_LOT_ARRAY_SIZE 0 initialLOTState).1

/-! ## Building the format of the output record -/

def HEADER_LENGTH_PESTD : Int := 155
def HEADER_LENGTH_PreMai : Int := 169
def AMOUNT_FIELD_LENGTH : Int := 18
def SIGN_FIELD_LENGTH : Int := 1
def DECIMAL_NR_FIELD_LENGTH : Int := 1
def TIERS_RICOS_FIELD_LENGTH : Int := 12
def ADD_RICOS_SC_CPY_USING_SIAM : Int := 10
def ADD_RICOS_SC_CPY_USING_RTS : Int := 100
def ADD_RICOS_SC_USING_RTS : Int := 200
def RICOS_SC_CPY_SIAM_INPUT_POSIT : Int := -10
def RICOS_SC_CPY_RTS_INPUT_POSIT : Int := -100
def RICOS_SC_RTS_INPUT_POSIT : Int := -200
def ADD_CD_TYPIMP_TYPEI_TVA : Int := 10
def UPDATE_MAI_MNT_IMP : Int := 110
def UPDATE_MAI_MNT_GES : Int := 120
def UPDATE_MAI_MNT_NOM : Int := 130
def CD_TYPIMP_TYPEI_TVA_INPUT_POSIT : Int := -10
def CD_TYPIMP_FIELD_LENGTH : Int := 2
def CD_TYPEI_FIELD_LENGTH : Int := 1
def CD_TVA_APP_FIELD_LENGTH : Int := 2

/-- Which output format for the field (`whichOutputFormat`). -/
def whichOutputFormat (i_strFieldFormat : CStr) : enumFieldFormat :=
  if i_strFieldFormat = str "skip" then enumFieldFormat.skip
  else if i_strFieldFormat = str "charED" then enumFieldFormat.charED
  else if i_strFieldFormat = str "charEG" then enumFieldFormat.charEG
  else if i_strFieldFormat = str "entierEG" then enumFieldFormat.entierEG
  else if i_strFieldFormat = str "entierZG" then enumFieldFormat.entierZG
  else if i_strFieldFormat = str "entierSG" then enumFieldFormat.entierSG
  else if i_strFieldFormat = str "entierSZG" then enumFieldFormat.entierSZG
  else if i_strFieldFormat = str "entierSD" then enumFieldFormat.entierSD
  else if i_strFieldFormat = str "entierSZD" then enumFieldFormat.entierSZD
  else if i_strFieldFormat = str "amount3DEC" then enumFieldFormat.amount3DEC
  else enumFieldFormat.unknown

/-- One call of `strtok` with the separator `";"` on the text `s` still to
scan: the token and the text that follows its separator; `none` stands for
the NULL returned when no token is left. -/
def strtok (s : CStr) : Option (CStr × CStr) :=
  let s1 := s.dropWhile (fun c => decide (c = 59))
  if s1 = [] then none
  else some (s1.takeWhile (fun c => !decide (c = 59)),
    (s1.dropWhile (fun c => !decide (c = 59))).drop 1)

/-- The three `strtok` calls done on a record of the configuration file:
the name of the field, its format and `atoi` of its length.  A NULL token
(passed to `strcpy` or `atoi` by the program) is not given a meaning. -/
def confRecordFields (rec : CStr) : Option (CStr × CStr × Int) :=
  (strtok rec).bind fun t1 =>
    (strtok t1.2).bind fun t2 =>
      (strtok t2.2).map fun t3 => (t1.1, t2.1, atoi t3.1)

/-- An entry of `tabFieldOfRecord` after the initialisation loop. -/
def blankField : FieldOfRecord := ⟨[], [], enumFieldFormat.unknown, -1, -1, -1, -1, -1⟩

/-- The variables of `BuildOutputRecordFormat`: `tab` holds the entries
`tabFieldOfRecord[0 .. l_iFieldNumber]` written so far (the capacity
MAX_FIELD_NUMBER of the table is not modelled). -/
structure FormatState where
  tab : List FieldOfRecord
  l_iRecNumber : Nat
  l_iPreviousInputFieldNumber : Nat
  l_iStartFieldPositionForInput : Int
  l_iStartFieldPositionForOutput : Int
  iInputRecordLength : Int

/-- The entry added after a field that triggers an addition: its output
starts where the output of the entry before it ends. -/
def addField (tab : List FieldOfRecord) (strFieldName strFieldFormat : CStr)
    (iFieldLengthOutput iFieldStartPosInput : Int) : List FieldOfRecord :=
  tab ++ [⟨strFieldName, strFieldFormat, whichOutputFormat strFieldFormat, -1, -1,
    iFieldLengthOutput, iFieldStartPosInput,
    (tab.getD (tab.length - 1) blankField).iFieldStartPosOutput +
      (tab.getD (tab.length - 1) blankField).iFieldLengthOutput⟩]

/-- The entry of the field read from a record of the configuration file, and
the two start positions after it is placed.  `sep` is the width of the field
separator of the input file (1 in PESTD, 0 in PreMai). -/
def readField (st : FormatState) (sep : Int) (name format : CStr) (len : Int) :
    FieldOfRecord × Int × Int :=
  if st.l_iRecNumber + 1 = 1 then
    (⟨name, format, whichOutputFormat format, -1, len, len,
        st.l_iStartFieldPositionForInput, st.l_iStartFieldPositionForOutput⟩,
      st.l_iStartFieldPositionForInput, st.l_iStartFieldPositionForOutput)
  else
    let posIn := st.l_iStartFieldPositionForInput +
      (st.tab.getD st.l_iPreviousInputFieldNumber blankField).iFieldLengthInput + sep
    let posOut := st.l_iStartFieldPositionForOutput +
      (st.tab.getD (st.tab.length - 1) blankField).iFieldLengthOutput
    (⟨name, format, whichOutputFormat format, -1, len, len, posIn, posOut⟩, posIn, posOut)

/-- Fields added after a PESTD field, by name of that field: the type given
to the field, then name, format and input position of each added field. -/
def additionsPESTD (name : CStr) : Option (Int × List (CStr × CStr × Int)) :=
  if name = str "TIERS" then
    some (ADD_RICOS_SC_CPY_USING_SIAM,
      [(str "TIERS_RICOS", str "charED", RICOS_SC_CPY_SIAM_INPUT_POSIT),
       (str "TIERS_RICOS_CY", str "entierZG", RICOS_SC_CPY_SIAM_INPUT_POSIT)])
  else if name = str "Z_ALIAS_ID_TIERS" then
    some (ADD_RICOS_SC_CPY_USING_RTS,
      [(str "TIERS_EXT_RICOS", str "charED", RICOS_SC_CPY_RTS_INPUT_POSIT),
       (str "TIERS_EXT_RICOS_CY", str "entierZG", RICOS_SC_CPY_RTS_INPUT_POSIT)])
  else if name = str "Z_ALIAS_ID_EMPPRET" then
    some (ADD_RICOS_SC_USING_RTS, [(str "TIERS_EMPPRET_RICOS", str "charED", RICOS_SC_RTS_INPUT_POSIT)])
  else if name = str "Z_ALIAS_ID_GARANT" then
    some (ADD_RICOS_SC_USING_RTS, [(str "TIERS_GARANT_RICOS", str "charED", RICOS_SC_RTS_INPUT_POSIT)])
  else if name = str "Z_ALIAS_ID_EMETTIT" then
    some (ADD_RICOS_SC_USING_RTS, [(str "TIERS_EMETTIT_RICOS", str "charED", RICOS_SC_RTS_INPUT_POSIT)])
  else if name = str "Z_ALIAS_ID_DEPOSIT" then
    some (ADD_RICOS_SC_USING_RTS, [(str "TIERS_DEPOSIT_RICOS", str "charED", RICOS_SC_RTS_INPUT_POSIT)])
  else if name = str "Z_ALIAS_ID_EMETSSJ" then
    some (ADD_RICOS_SC_USING_RTS, [(str "TIERS_EMETSSJ_RICOS", str "charED", RICOS_SC_RTS_INPUT_POSIT)])
  else if name = str "Z_ALIAS_ID_ACTR" then
    some (ADD_RICOS_SC_USING_RTS, [(str "TIERS_ACTR_RICOS", str "charED", RICOS_SC_RTS_INPUT_POSIT)])
  else if name = str "Z_ALIAS_ID_TIERORI" then
    some (ADD_RICOS_SC_USING_RTS, [(str "TIERS_ORI_RICOS", str "charED", RICOS_SC_RTS_INPUT_POSIT)])
  else none

/-- The body of the reading loop of the PESTD `BuildOutputRecordFormat` for
one record of struct_pestd.conf. -/
def formatStepPESTD (st : FormatState) (rec : CStr) : Option FormatState :=
  if rec.length > 1 then
    (confRecordFields rec).map fun f =>
      let r := readField st 1 f.1 f.2.1 f.2.2
      let l_iFieldNumber := st.tab.length
      match additionsPESTD f.1 with
      | some (type, adds) =>
        let tab1 := adds.foldl
          (fun tab a => addField tab a.1 a.2.1 TIERS_RICOS_FIELD_LENGTH a.2.2)
          (st.tab ++ [{ r.1 with iFieldType := type }])
        { tab := tab1
          l_iRecNumber := st.l_iRecNumber + 1
          l_iPreviousInputFieldNumber := l_iFieldNumber
          l_iStartFieldPositionForInput := r.2.1
          l_iStartFieldPositionForOutput :=
            (tab1.getD (tab1.length - 1) blankField).iFieldStartPosOutput
          iInputRecordLength := st.iInputRecordLength }
      | none =>
        { tab := st.tab ++ [r.1]
          l_iRecNumber := st.l_iRecNumber + 1
          l_iPreviousInputFieldNumber := l_iFieldNumber
          l_iStartFieldPositionForInput := r.2.1
          l_iStartFieldPositionForOutput := r.2.2
          iInputRecordLength := st.iInputRecordLength }
  else some st

/-- The state after an amount field of PreMai (`MAI_MNT_IMP`, `MAI_MNT_GES`,
`MAI_MNT_NOM`): the field gets the type `type`, the format `amount3DEC` and
the output length of a sign, an amount and a number of decimals. -/
def amountFormatState (st : FormatState) (r : FieldOfRecord × Int × Int) (type : Int) :
    FormatState :=
  { tab := st.tab ++ [{ r.1 with
      iFieldType := type
      strFieldFormat := str "amount3DEC"
      iFieldFormat := whichOutputFormat (str "amount3DEC")
      iFieldLengthOutput := SIGN_FIELD_LENGTH + AMOUNT_FIELD_LENGTH + DECIMAL_NR_FIELD_LENGTH }]
    l_iRecNumber := st.l_iRecNumber + 1
    l_iPreviousInputFieldNumber := st.tab.length
    l_iStartFieldPositionForInput := r.2.1
    l_iStartFieldPositionForOutput := r.2.2
    iInputRecordLength := st.iInputRecordLength + r.1.iFieldLengthInput }

/-- The body of the reading loop of the PreMai `BuildOutputRecordFormat` for
one record of struct_premai.conf. -/
def formatStepPreMai (st : FormatState) (rec : CStr) : Option FormatState :=
  if rec.length > 1 then
    (confRecordFields rec).map fun f =>
      let r := readField st 0 f.1 f.2.1 f.2.2
      let l_iFieldNumber := st.tab.length
      let iInputRecordLength := st.iInputRecordLength + r.1.iFieldLengthInput
      if f.1 = str "MAI_MNT_IMP" then amountFormatState st r UPDATE_MAI_MNT_IMP
      else if f.1 = str "MAI_MNT_GES" then amountFormatState st r UPDATE_MAI_MNT_GES
      else if f.1 = str "MAI_MNT_NOM" then amountFormatState st r UPDATE_MAI_MNT_NOM
      else if f.1 = str "MAI_TOP_MAJ" then
        let tab1 := addField (st.tab ++ [{ r.1 with iFieldType := ADD_CD_TYPIMP_TYPEI_TVA }])
          (str "CD_TYPIMP") (str "charED") CD_TYPIMP_FIELD_LENGTH CD_TYPIMP_TYPEI_TVA_INPUT_POSIT
        let tab2 := addField tab1
          (str "CD_TYPEI") (str "charED") CD_TYPEI_FIELD_LENGTH CD_TYPIMP_TYPEI_TVA_INPUT_POSIT
        let tab3 := addField tab2
          (str "CD_TVA_APP") (str "charED") CD_TVA_APP_FIELD_LENGTH CD_TYPIMP_TYPEI_TVA_INPUT_POSIT
        { tab := tab3
          l_iRecNumber := st.l_iRecNumber + 1
          l_iPreviousInputFieldNumber := l_iFieldNumber
          l_iStartFieldPositionForInput := r.2.1
          l_iStartFieldPositionForOutput :=
            (tab3.getD (tab3.length - 1) blankField).iFieldStartPosOutput
          iInputRecordLength := iInputRecordLength }
      else
        { tab := st.tab ++ [r.1]
          l_iRecNumber := st.l_iRecNumber + 1
          l_iPreviousInputFieldNumber := l_iFieldNumber
          l_iStartFieldPositionForInput := r.2.1
          l_iStartFieldPositionForOutput := r.2.2
          iInputRecordLength := iInputRecordLength }
  else some st

/-- The reading loop over the records returned by `fgets`. -/
def formatLoop (step : FormatState → CStr → Option FormatState) :
    FormatState → List CStr → Option FormatState
  | st, [] => some st
  | st, rec :: rest => (step st rec).bind fun st1 => formatLoop step st1 rest

/-- The table `tabFieldOfRecord` built by the PESTD `BuildOutputRecordFormat`
from the records of struct_pestd.conf. -/
def BuildOutputRecordFormat_PESTD (records : List CStr) : Option (List FieldOfRecord) :=
  (formatLoop formatStepPESTD ⟨[], 0, 0, 0, HEADER_LENGTH_PESTD, 1⟩ records).map fun st => st.tab

/-- The table `tabFieldOfRecord` and the value of `iInputRecordLength` built
by the PreMai `BuildOutputRecordFormat` from the records of
struct_premai.conf (`iInputRecordLength` starts at 1). -/
def BuildOutputRecordFormat_PreMai (records : List CStr) :
    Option (List FieldOfRecord × Int) :=
  (formatLoop formatStepPreMai ⟨[], 0, 0, 0, HEADER_LENGTH_PreMai, 1⟩ records).map
    fun st => (st.tab, st.iInputRecordLength)

/-- The relation between two consecutive entries of `tabFieldOfRecord`: the
output of the second starts where the output of the first ends. -/
def OutputFollows (a b : FieldOfRecord) : Prop :=
  b.iFieldStartPosOutput = a.iFieldStartPosOutput + a.iFieldLengthOutput

/-- The invariant of the reading loop of `BuildOutputRecordFormat`, for the
header length `hdr`. -/
structure FormatInv (hdr : Int) (st : FormatState) : Prop where
  chain : st.tab.Chain' OutputFollows
  head : ∀ d ∈ st.tab.head?, d.iFieldStartPosOutput = hdr
  last : ∀ d ∈ st.tab.getLast?, st.l_iStartFieldPositionForOutput = d.iFieldStartPosOutput
  empty : st.tab = [] → st.l_iRecNumber = 0 ∧ st.l_iStartFieldPositionForOutput = hdr
  recs : st.l_iRecNumber = 0 → st.tab = []
  posIn : 0 ≤ st.l_iStartFieldPositionForInput
  prev : st.tab ≠ [] →
    0 ≤ (st.tab.getD st.l_iPreviousInputFieldNumber blankField).iFieldLengthInput

/-- A record of the configuration file that is handled (more than one
character) and has the three fields name, format and length, the length
being non-negative; or a record that is skipped. -/
def ConfRecordOk (rec : CStr) : Prop :=
  rec.length ≤ 1 ∨ ∃ f, confRecordFields rec = some f ∧ 0 ≤ f.2.2

/-- The names of the fields of the records that are handled. -/
def confNames (records : List CStr) : List (Option CStr) :=
  (records.filter (fun rec => decide (rec.length > 1))).map
    fun rec => (confRecordFields rec).map (fun f => f.1)

/-- Format and output width of the fields added after a PESTD field, as the
specification gives them: two for `TIERS` and `Z_ALIAS_ID_TIERS`, one for
seven other aliases, none otherwise. -/
def injectedShapePESTD (name : CStr) : List (enumFieldFormat × Int) :=
  if name = str "TIERS" ∨ name = str "Z_ALIAS_ID_TIERS" then
    [(enumFieldFormat.charED, 12), (enumFieldFormat.entierZG, 12)]
  else if name = str "Z_ALIAS_ID_EMPPRET" ∨ name = str "Z_ALIAS_ID_GARANT" ∨
      name = str "Z_ALIAS_ID_EMETTIT" ∨ name = str "Z_ALIAS_ID_DEPOSIT" ∨
      name = str "Z_ALIAS_ID_EMETSSJ" ∨ name = str "Z_ALIAS_ID_ACTR" ∨
      name = str "Z_ALIAS_ID_TIERORI" then
    [(enumFieldFormat.charED, 12)]
  else []

/-- Name and output width of the fields added after a PreMai field, as the
specification gives them: three for `MAI_TOP_MAJ`, none otherwise. -/
def injectedShapePreMai (name : CStr) : List (CStr × Int) :=
  if name = str "MAI_TOP_MAJ" then
    [(str "CD_TYPIMP", 2), (str "CD_TYPEI", 1), (str "CD_TVA_APP", 2)]
  else []

/-- The table `ds` is made, field after field of the configuration, of the
entry of the field followed by the entries added after it: `groups` pairs
each field with its additions. -/
def ExpandedBy (names : List (Option CStr)) (groups : List (FieldOfRecord × List FieldOfRecord))
    (ds : List FieldOfRecord) : Prop :=
  ds = groups.flatMap (fun g => g.1 :: g.2) ∧
  groups.map (fun g => some g.1.strFieldName) = names ∧
  (∀ g ∈ groups, 0 ≤ g.1.iFieldStartPosInput ∧ ∀ d ∈ g.2, d.iFieldStartPosInput < 0)

/-- A configuration used as an example: four fields, among them an alias of
PESTD, an amount of PreMai and the field `MAI_TOP_MAJ` of PreMai. -/
def sampleConf : List CStr :=
  [str "A;charED;3\n", str "\n", str "TIERS;charED;7\n", str "MAI_MNT_IMP;entierZG;15\n",
   str "MAI_TOP_MAJ;charED;1\n"]

/-! ## Creation of the output record -/

def EXIT_OK : Int := 0
def EXIT_ERR : Int := 1
def MAX_FIELD_LENGTH : Nat := 500
def DATE_LENGTH : Int := 8
def TIME_LENGTH : Int := 6
def TIERS_RICOS_LENGTH : Nat := 50

/-- Read of `n` bytes at offset `off` of the buffer `b`
(the source of a `memcpy`); a read that leaves the buffer is not given a
meaning. -/
def bufRead (b : List Nat) (off n : Int) : Option (List Nat) :=
  if 0 ≤ off ∧ 0 ≤ n ∧ off + n ≤ b.length then some ((b.drop off.toNat).take n.toNat)
  else none

/-- The C string held by a buffer: the bytes before its first NUL.  A buffer
without a NUL holds no string. -/
def cstrOf (b : List Nat) : Option CStr :=
  if 0 ∈ b then some (b.takeWhile (fun c => !decide (c = 0))) else none

/-- The buffer after `strcpy(b, s)`. -/
def strcpyBuf (b : List Nat) (s : CStr) : Option (List Nat) := bufWrite b 0 (s ++ [0])

/-- The bytes of a `char[n]` member of a table element that holds the string
`s`: the tables are zero-filled before they are loaded. -/
def fieldBytes (s : CStr) (n : Nat) : List Nat := (s ++ List.replicate n 0).take n

/-- A write to the output record: `memcpy(o_OutputRecord + off, src, n)` is
the pair of `off` and of the `n` bytes of `src`. -/
abbrev RecordWrite := Int × List Nat

/-- The output record after a list of writes, done in order. -/
def applyWrites : List Nat → List RecordWrite → Option (List Nat)
  | o, [] => some o
  | o, w :: ws => (bufWrite o w.1 w.2).bind fun o1 => applyWrites o1 ws

/-- Is the year a leap year (`isLeapYear`). -/
def isLeapYear (i_iYear : Int) : Int :=
  if cRem i_iYear 4 ≠ 0 then FALSE
  else if cRem i_iYear 400 = 0 then TRUE
  else if cRem i_iYear 100 = 0 then FALSE
  else TRUE

/-- Is the input date valid (`isValidInputDate`); `i_strDate[i]` past the end
of the string is its terminating NUL, which stops the test of the digits. -/
def isValidInputDate (i_strDate : CStr) : Int :=
  if (List.range 8).all (fun i => isdigit (i_strDate.getD i 0)) then
    let l_iYear := atoi (i_strDate.take 4)
    let l_iMonth := atoi ((i_strDate.drop 4).take 2)
    let l_iDay := atoi ((i_strDate.drop 6).take 2)
    let l_itabNbDaysInMonth : List Int :=
      [0, 31, if isLeapYear l_iYear ≠ 0 then 29 else 28, 31, 30, 31, 30, 31, 31, 30, 31, 30, 31]
    if l_iMonth < 1 ∨ l_iMonth > 12 then FALSE
    else if l_iDay < 1 ∨ l_iDay > l_itabNbDaysInMonth.getD l_iMonth.toNat 0 then FALSE
    else TRUE
  else FALSE

/-- Is the input time valid (`isValidInputTime`). -/
def isValidInputTime (i_strTime : CStr) : Int :=
  if (List.range 6).all (fun i => isdigit (i_strTime.getD i 0)) then
    let l_iHour := atoi (i_strTime.take 2)
    let l_iMinute := atoi ((i_strTime.drop 2).take 2)
    let l_iSecond := atoi ((i_strTime.drop 4).take 2)
    if l_iHour < 0 ∨ l_iHour > 23 then FALSE
    else if l_iMinute < 0 ∨ l_iMinute > 59 then FALSE
    else if l_iSecond < 0 ∨ l_iSecond > 59 then FALSE
    else TRUE
  else FALSE

/-- The buffer `l_strInputField` after `memcpy(l_strInputField, src + off, n)`
and `l_strInputField[n] = '\0'`. -/
def loadField (l_strInputField src : List Nat) (off n : Int) : Option (List Nat) :=
  (bufRead src off n).bind fun bytes =>
    (bufWrite l_strInputField 0 bytes).bind fun b1 => bufWrite b1 n [0]

/-- The call `Convert_InputField(l_strInputField, &l_iIdx, l_strOutputField)`
followed by the copy of `iFieldLengthOutput` bytes of `l_strOutputField` to
the output record at `iFieldStartPosOutput`.  Result: the new content of
`l_strOutputField` and the write to the output record. -/
def convertAndCopy (fd : FieldOfRecord) (uninit l_strInputField l_strOutputField : List Nat) :
    Option (List Nat × RecordWrite) :=
  (cstrOf l_strInputField).bind fun s =>
    (Convert_InputField fd s uninit l_strOutputField).bind fun out1 =>
      (bufRead out1 0 fd.iFieldLengthOutput).map fun piece =>
        (out1, (fd.iFieldStartPosOutput, piece))

/-- The number of decimals of a currency, as the four currency blocks of
`Create_Output_Record` compute it into a `char[2]` buffer `dec`: `"3"` when
the currency field is `EMPTY_CURRENCY` or is not found in the CURRENCY table,
else the stored `strDECIMAL_POS`. -/
def currencyDecimalPos (CURRENCYHashArray : Table CURRENCYHashElt) (l_strInputField : CStr)
    (dec : List Nat) : Option (List Nat) :=
  if l_strInputField = str "   " then
    (bufWrite dec 0 [51]).bind fun d1 => bufWrite d1 1 [0]
  else
    (FindElementInCURRENCYHashArrayTable CURRENCYHashArray l_strInputField).bind fun r =>
      if r.ret ≠ 0 then
        strcpyBuf dec
          (CURRENCYHashArray r.o_lPositXHashKey.toNat r.o_lPositYHashKey.toNat).strDECIMAL_POS
      else (bufWrite dec 0 [51]).bind fun d1 => bufWrite d1 1 [0]

/-- A field added after the current one is filled from a member `src` of a
table element: `l_iIdx++`, copy of `iFieldLengthOutput` bytes of `src` to
`l_strInputField`, conversion and copy to the output record. -/
def addedFromTable (fd : FieldOfRecord) (uninit src l_strInputField l_strOutputField : List Nat) :
    Option (List Nat × List Nat × RecordWrite) :=
  (loadField l_strInputField src 0 fd.iFieldLengthOutput).bind fun in1 =>
    (convertAndCopy fd uninit in1 l_strOutputField).map fun c => (in1, c.1, c.2)

/-- A field added after the current one is filled with `'#'`: `l_iIdx++`,
`memset(l_strOutputField, '#', iFieldLengthOutput)` and copy to the output
record. -/
def addedHashes (fd : FieldOfRecord) (l_strOutputField : List Nat) :
    Option (List Nat × RecordWrite) :=
  (memsetBuf l_strOutputField 35 fd.iFieldLengthOutput).bind fun out1 =>
    (bufRead out1 0 fd.iFieldLengthOutput).map fun piece =>
      (out1, (fd.iFieldStartPosOutput, piece))

/-! ### PESTD -/

/-- The reference tables of PESTD. -/
structure TablesPESTD where
  SIAMHashArray : Table SIAMHashElt
  RTSHashArray : Table RTSHashElt
  CURRENCYHashArray : Table CURRENCYHashElt

/-- The local buffers of the PESTD `Create_Output_Record` that live across
the fields of a record. -/
structure LocalsPESTD where
  l_strInputField : List Nat
  l_strOutputField : List Nat
  l_strDEVISE_ISO_DECIMAL_POS : List Nat
  l_strZ_MNT_ESTD_DEVISE : List Nat

/-- The indeterminate bytes met by the PESTD `Create_Output_Record`: the initial
content of the local buffers that are not initialised, and for the call of
`Convert_InputField` on entry `i` the bytes of its local buffer that follow
the copied field. -/
structure IndeterminatePESTD where
  decimalPos : Nat → Nat
  amount : Nat → Nat
  convert : Nat → List Nat

/-- The fields added after a PESTD field with a type: the payload found
(`some` of the members copied, in order) or not (`none`), for `n` added
fields. -/
def addedFieldsPESTD (ds : List FieldOfRecord) (ind : IndeterminatePESTD) (l_iIdx : Nat)
    (payload : Option (List (List Nat))) (n : Nat) (l_strInputField l_strOutputField : List Nat) :
    Option (Nat × List Nat × List Nat × List RecordWrite) :=
  match payload with
  | some members =>
    members.foldl
      (fun acc src => acc.bind fun a =>
        (addedFromTable (ds.getD (a.1 + 1) blankField) (ind.convert (a.1 + 1)) src a.2.1
          a.2.2.1).map fun r => (a.1 + 1, r.1, r.2.1, a.2.2.2 ++ [r.2.2]))
      (some (l_iIdx, l_strInputField, l_strOutputField, []))
  | none =>
    (List.range n).foldl
      (fun acc _ => acc.bind fun a =>
        (addedHashes (ds.getD (a.1 + 1) blankField) a.2.2.1).map fun r =>
          (a.1 + 1, a.2.1, r.1, a.2.2.2 ++ [r.2]))
      (some (l_iIdx, l_strInputField, l_strOutputField, []))

/-- The `switch (tabFieldOfRecord[l_iIdx].iFieldType)` of the PESTD
`Create_Output_Record`: the payload looked up for the field, and the number
of fields added after it; `none` when the type adds nothing. -/
def lookupPESTD (tabs : TablesPESTD) (iFieldType : Int) (l_strInputField : CStr) :
    Option (Option (Option (List (List Nat)) × Nat)) :=
  if iFieldType = ADD_RICOS_SC_CPY_USING_SIAM then
    if l_strInputField.length > 0 then
      (FindElementInSIAMHashArrayTable tabs.SIAMHashArray l_strInputField).map fun r =>
        if r.ret ≠ 0 then
          let elt := tabs.SIAMHashArray r.o_lPositXHashKey.toNat r.o_lPositYHashKey.toNat
          some (some [fieldBytes elt.strRICOS_SC_ID TIERS_RICOS_LENGTH,
            fieldBytes elt.strRICOS_CPY_ID TIERS_RICOS_LENGTH], 2)
        else some (none, 2)
    else some (some (none, 2))
  else if iFieldType = ADD_RICOS_SC_CPY_USING_RTS then
    if l_strInputField.length > 0 then
      (FindElementInRTSHashArrayTable tabs.RTSHashArray l_strInputField).map fun r =>
        if r.ret ≠ 0 then
          let elt := tabs.RTSHashArray r.o_lPositXHashKey.toNat r.o_lPositYHashKey.toNat
          some (some [fieldBytes elt.strRICOS_SC_ID TIERS_RICOS_LENGTH,
            fieldBytes elt.strRICOS_CPY_ID TIERS_RICOS_LENGTH], 2)
        else some (none, 2)
    else some (some (none, 2))
  else if iFieldType = ADD_RICOS_SC_USING_RTS then
    if l_strInputField.length > 0 then
      (FindElementInRTSHashArrayTable tabs.RTSHashArray l_strInputField).map fun r =>
        if r.ret ≠ 0 then
          let elt := tabs.RTSHashArray r.o_lPositXHashKey.toNat r.o_lPositYHashKey.toNat
          some (some [fieldBytes elt.strRICOS_SC_ID TIERS_RICOS_LENGTH], 1)
        else some (none, 1)
    else some (some (none, 1))
  else some none

/-- The body of the `while` loop of the PESTD `Create_Output_Record` for the
entry `l_iIdx`.  Result: the value of `l_iIdx` after the final `l_iIdx++`, the
local buffers and the writes done to the output record, in order. -/
def recordStepPESTD (tabs : TablesPESTD) (ds : List FieldOfRecord) (ind : IndeterminatePESTD)
    (i_InputRecord : List Nat) (l_iIdx : Nat) (loc : LocalsPESTD) :
    Option (Nat × LocalsPESTD × List RecordWrite) :=
  let fd := ds.getD l_iIdx blankField
  (loadField loc.l_strInputField i_InputRecord fd.iFieldStartPosInput fd.iFieldLengthInput).bind
    fun inF =>
  (convertAndCopy fd (ind.convert l_iIdx) inF loc.l_strOutputField).bind fun c =>
  (cstrOf inF).bind fun field =>
  -- Emission Date : EMISS_CRS
  (if fd.strFieldName = str "EMISS_CRS" then
    (bufRead c.1 DATE_LENGTH TIME_LENGTH).map fun t =>
      let l_strEMISS_CRS_Time :=
        if isValidInputTime (t.takeWhile (fun ch => !decide (ch = 0))) ≠ 0 then t
        else str "000000"
      [(fd.iFieldStartPosOutput + DATE_LENGTH, l_strEMISS_CRS_Time)]
  else some []).bind fun wEmiss =>
  -- Currency : CODE_DEVISE_ISO
  (if fd.strFieldName = str "CODE_DEVISE_ISO" then
    currencyDecimalPos tabs.CURRENCYHashArray field loc.l_strDEVISE_ISO_DECIMAL_POS
  else some loc.l_strDEVISE_ISO_DECIMAL_POS).bind fun dec =>
  -- Number of decimals of Amount : QTE_DECIMALES
  (if fd.strFieldName = str "QTE_DECIMALES" then
    (bufRead i_InputRecord fd.iFieldStartPosInput fd.iFieldLengthInput).bind fun q =>
      (bufWrite loc.l_strZ_MNT_ESTD_DEVISE (SIGN_FIELD_LENGTH + AMOUNT_FIELD_LENGTH) q).bind
        fun z =>
          (bufRead (str "3" ++ [0]) 0 fd.iFieldLengthOutput).map fun three =>
            (z, [(fd.iFieldStartPosOutput, three)])
  else some (loc.l_strZ_MNT_ESTD_DEVISE, [])).bind fun zq =>
  -- Sign : I_SIGN_MNT_DEVISE
  (if fd.strFieldName = str "I_SIGN_MNT_DEVISE" then
    (bufRead c.1 0 fd.iFieldLengthOutput).bind fun sg => bufWrite zq.1 0 sg
  else some zq.1).bind fun zs =>
  -- Amount : Z_MNT_ESTD_DEVISE
  (if fd.strFieldName = str "Z_MNT_ESTD_DEVISE" then
    (bufRead c.1 0 fd.iFieldLengthOutput).bind fun am =>
      (bufWrite zs SIGN_FIELD_LENGTH am).bind fun z1 =>
        (bufWrite z1 (SIGN_FIELD_LENGTH + fd.iFieldLengthOutput + 1) [0]).bind fun z2 =>
          (cstrOf z2).bind fun l_strZ_MNT_ESTD_DEVISE =>
            (cstrOf dec).bind fun l_strDEVISE_ISO_DECIMAL_POS =>
              (CorrectFormatAmount l_strZ_MNT_ESTD_DEVISE l_strDEVISE_ISO_DECIMAL_POS).bind
                fun l_strOutputAmount =>
                  (bufRead (l_strOutputAmount ++ [0]) SIGN_FIELD_LENGTH
                    fd.iFieldLengthOutput).map fun piece =>
                      (z2, [(fd.iFieldStartPosOutput, piece)])
  else some (zs, [])).bind fun za =>
  -- Check if SIAM or RTS Field in Input Record
  (lookupPESTD tabs fd.iFieldType field).bind fun look =>
  (match look with
    | some (payload, n) => addedFieldsPESTD ds ind l_iIdx payload n inF c.1
    | none => some (l_iIdx, inF, c.1, [])).map
    fun (a : Nat × List Nat × List Nat × List RecordWrite) =>
  (a.1 + 1,
    { l_strInputField := a.2.1
      l_strOutputField := a.2.2.1
      l_strDEVISE_ISO_DECIMAL_POS := dec
      l_strZ_MNT_ESTD_DEVISE := za.1 },
    [c.2] ++ wEmiss ++ zq.2 ++ za.2 ++ a.2.2.2)

/-- The `while (strlen(tabFieldOfRecord[l_iIdx].strFieldName) > 0)` loop of
the PESTD `Create_Output_Record`; the first argument bounds the number of
iterations.  Result: the final `l_iIdx` and the writes done. -/
def recordLoopPESTD (tabs : TablesPESTD) (ds : List FieldOfRecord) (ind : IndeterminatePESTD)
    (i_InputRecord : List Nat) :
    Nat → Nat → LocalsPESTD → List RecordWrite → Option (Nat × List RecordWrite)
  | 0, _, _, _ => none
  | fuel + 1, l_iIdx, loc, ws =>
    if (ds.getD l_iIdx blankField).strFieldName.length > 0 then
      (recordStepPESTD tabs ds ind i_InputRecord l_iIdx loc).bind fun r =>
        recordLoopPESTD tabs ds ind i_InputRecord fuel r.1 r.2.1 (ws ++ r.2.2)
    else some (l_iIdx, ws)

/-- The local buffers of the PESTD `Create_Output_Record` before its loop. -/
def initialLocalsPESTD (ind : IndeterminatePESTD) : LocalsPESTD :=
  { l_strInputField := List.replicate MAX_FIELD_LENGTH 32
    l_strOutputField := List.replicate MAX_FIELD_LENGTH 32
    l_strDEVISE_ISO_DECIMAL_POS := (List.range 2).map ind.decimalPos
    l_strZ_MNT_ESTD_DEVISE := (List.range 21).map ind.amount }

/-- All the writes that the PESTD `Create_Output_Record` does to the output
record, in order, the last one being the terminating NUL. -/
def recordWritesPESTD (tabs : TablesPESTD) (ds : List FieldOfRecord) (ind : IndeterminatePESTD)
    (i_InputRecord : List Nat) : Option (List RecordWrite) :=
  (recordLoopPESTD tabs ds ind i_InputRecord (ds.length + 1) 0 (initialLocalsPESTD ind) []).bind
    fun r =>
    if r.1 = 0 then none
    else
      let last := ds.getD (r.1 - 1) blankField
      some (r.2 ++ [(last.iFieldStartPosOutput + last.iFieldLengthOutput, [0])])

/-- Result of the PESTD `Create_Output_Record`: the returned value and the
content of the buffer `o_OutputRecord` after the call.  `ds` is
`tabFieldOfRecord`, `i_InputRecord` the content of the buffer that holds the
input record. -/
def Create_Output_Record_PESTD (tabs : TablesPESTD) (ds : List FieldOfRecord)
    (ind : IndeterminatePESTD) (i_InputRecord o_OutputRecord : List Nat) : Option (Int × List Nat) :=
  (recordWritesPESTD tabs ds ind i_InputRecord).bind fun ws =>
    (applyWrites o_OutputRecord ws).map fun o => (EXIT_OK, o)

/-! ### PreMai -/

def HEADER_CD_CRE_LENGTH : Int := 20
def HEADER_ID_LOT_LENGTH : Int := 24
def HEADER_ID_COMPOST_LENGTH : Int := 25
def HEADER_ID_ECRITU_LENGTH : Int := 6
def NUM_CRE_IN_CD_REFOPER_LENGTH : Int := 6

/-- The reference tables of PreMai. -/
structure TablesPreMai where
  COMPTE_DODGEHashArray : Table COMPTE_DODGEHashElt
  CURRENCYHashArray : Table CURRENCYHashElt

/-- The local buffers of the PreMai `Create_Output_Record` that live across
the fields of a record. -/
structure LocalsPreMai where
  l_strInputField : List Nat
  l_strOutputField : List Nat
  l_strIdLot : List Nat
  l_strDAT_OPE : List Nat
  l_strAppliEmet : List Nat
  l_strHB_IMPUTATION : List Nat
  l_strTOP_INT_EXT : List Nat
  l_strTVA : List Nat
  l_strDEV_IMP_DECIMAL_POS : List Nat
  l_strDEV_GES_DECIMAL_POS : List Nat
  l_strDEV_CTP_DECIMAL_POS : List Nat

/-- The indeterminate bytes met by the PreMai `Create_Output_Record`: the
initial content of the local buffers that are not initialised, and for the
call of `Convert_InputField` on entry `i` the bytes of its local buffer that
follow the copied field. -/
structure IndeterminatePreMai where
  idLot : Nat → Nat
  datOpe : Nat → Nat
  appliEmet : Nat → Nat
  decimalPosImp : Nat → Nat
  decimalPosGes : Nat → Nat
  decimalPosCtp : Nat → Nat
  convert : Nat → List Nat

/-- An amount block of the PreMai `Create_Output_Record`: the converted
field is copied to a `char[21]` buffer and ended, `CorrectFormatAmount` is
called with the number of decimals `dec`, and `iFieldLengthOutput` bytes of
its result are copied to the output record. -/
def amountBlockPreMai (fd : FieldOfRecord) (l_strOutputField dec : List Nat) :
    Option (List RecordWrite) :=
  (bufRead l_strOutputField 0 fd.iFieldLengthOutput).bind fun am =>
    (bufWrite (List.replicate 21 0) 0 am).bind fun m1 =>
      (bufWrite m1 fd.iFieldLengthOutput [0]).bind fun m2 =>
        (cstrOf m2).bind fun l_strMAI_MNT =>
          (cstrOf dec).bind fun l_strDECIMAL_POS =>
            (CorrectFormatAmount l_strMAI_MNT l_strDECIMAL_POS).bind fun l_strOutputAmount =>
              (bufRead (l_strOutputAmount ++ [0]) 0 fd.iFieldLengthOutput).map fun piece =>
                [(fd.iFieldStartPosOutput, piece)]

/-- The block of the field `MAI_CPT_IMP`: lookup of the DODGE account, update
of `l_strIdLot`, and for the entity LCL the replacement of two accounts.
Result: the local buffers and the writes to the output record. -/
def blockCPT_IMP (tabs : TablesPreMai) (ds : List FieldOfRecord) (ENTITY : CStr) (field : CStr)
    (loc : LocalsPreMai) : Option (LocalsPreMai × List RecordWrite) :=
  (FindElementInCOMPTE_DODGEHashArrayTable tabs.COMPTE_DODGEHashArray field).bind fun r =>
    (if r.ret ≠ 0 then
      let elt := tabs.COMPTE_DODGEHashArray r.o_lPositXHashKey.toNat r.o_lPositYHashKey.toNat
      (strcpyBuf loc.l_strHB_IMPUTATION elt.strHB_IMPUTATION).bind fun hb =>
        (strcpyBuf loc.l_strTOP_INT_EXT elt.strTOP_INT_EXT).bind fun top =>
          (strcpyBuf loc.l_strTVA elt.strTVA).map fun tva => (hb, top, tva)
    else some (loc.l_strHB_IMPUTATION, loc.l_strTOP_INT_EXT, loc.l_strTVA)).bind fun h =>
    (bufRead h.1 0 CD_TYPIMP_FIELD_LENGTH).bind fun hb2 =>
      (bufWrite loc.l_strIdLot DATE_LENGTH hb2).bind fun lot1 =>
        (bufRead h.2.1 0 CD_TYPEI_FIELD_LENGTH).bind fun top1 =>
          (bufWrite lot1 (DATE_LENGTH + CD_TYPIMP_FIELD_LENGTH) top1).bind fun lot2 =>
            let loc1 : LocalsPreMai :=
              { loc with
                l_strHB_IMPUTATION := h.1
                l_strTOP_INT_EXT := h.2.1
                l_strTVA := h.2.2
                l_strIdLot := lot2 }
            if ENTITY = str "LCL" ∧ (field = str "530001001" ∨ field = str "530001002") then
              (strcpyBuf loc.l_strInputField (str "530001003")).bind fun in1 =>
                (bufRead in1 0 9).map fun acc =>
                  ({ loc1 with l_strInputField := in1 },
                    [((ds.getD 19 blankField).iFieldStartPosOutput, acc)])
            else some (loc1, [])

/-- The three fields added after a field of type ADD_CD_TYPIMP_TYPEI_TVA. -/
def addedFieldsPreMai (ds : List FieldOfRecord) (ind : IndeterminatePreMai) (l_iIdx : Nat)
    (loc : LocalsPreMai) : Option (Nat × LocalsPreMai × List RecordWrite) :=
  (addedFromTable (ds.getD (l_iIdx + 1) blankField) (ind.convert (l_iIdx + 1))
    loc.l_strHB_IMPUTATION loc.l_strInputField loc.l_strOutputField).bind fun a1 =>
    (addedFromTable (ds.getD (l_iIdx + 2) blankField) (ind.convert (l_iIdx + 2))
      loc.l_strTOP_INT_EXT a1.1 a1.2.1).bind fun a2 =>
      (addedFromTable (ds.getD (l_iIdx + 3) blankField) (ind.convert (l_iIdx + 3))
        loc.l_strTVA a2.1 a2.2.1).map fun a3 =>
        (l_iIdx + 3, { loc with l_strInputField := a3.1, l_strOutputField := a3.2.1 },
          [a1.2.2, a2.2.2, a3.2.2])

/-- The currency and amount blocks of the PreMai `Create_Output_Record`, in
the order of the source, for the entry `fd` whose field is `field` and whose
converted field is in `l_strOutputField`.  Result: the three buffers of
numbers of decimals (IMP, GES, CTP) and the writes to the output record. -/
def amountBlocksPreMai (tabs : TablesPreMai) (fd : FieldOfRecord) (field : CStr)
    (l_strOutputField : List Nat) (loc : LocalsPreMai) :
    Option (List Nat × List Nat × List Nat × List RecordWrite) :=
  -- Currency : MAI_DEV_IMP
  (if fd.strFieldName = str "MAI_DEV_IMP" then
    currencyDecimalPos tabs.CURRENCYHashArray field loc.l_strDEV_IMP_DECIMAL_POS
  else some loc.l_strDEV_IMP_DECIMAL_POS).bind fun decImp =>
  -- Amount : MAI_MNT_IMP
  (if fd.strFieldName = str "MAI_MNT_IMP" then amountBlockPreMai fd l_strOutputField decImp
  else some []).bind fun wImp =>
  -- Currency of Management : MAI_DEV_GES
  (if fd.strFieldName = str "MAI_DEV_GES" then
    currencyDecimalPos tabs.CURRENCYHashArray field loc.l_strDEV_GES_DECIMAL_POS
  else some loc.l_strDEV_GES_DECIMAL_POS).bind fun decGes =>
  -- Amount : MAI_MNT_GES
  (if fd.strFieldName = str "MAI_MNT_GES" then amountBlockPreMai fd l_strOutputField decGes
  else some []).bind fun wGes =>
  -- Original Currency of Operation : MAI_DEV_CTP
  (if fd.strFieldName = str "MAI_DEV_CTP" then
    currencyDecimalPos tabs.CURRENCYHashArray field loc.l_strDEV_CTP_DECIMAL_POS
  else some loc.l_strDEV_CTP_DECIMAL_POS).bind fun decCtp =>
  -- Amount : MAI_MNT_NOM
  (if fd.strFieldName = str "MAI_MNT_NOM" then amountBlockPreMai fd l_strOutputField decGes
  else some []).map fun wNom =>
  (decImp, decGes, decCtp, wImp ++ wGes ++ wNom)

/-- The block of the field `MAI_DAT_OPE`: its first four bytes go to
`l_strDAT_OPE`, its first eight bytes to the start of `l_strIdLot`. -/
def blockDAT_OPE (fd : FieldOfRecord) (loc : LocalsPreMai) : Option LocalsPreMai :=
  if fd.strFieldName = str "MAI_DAT_OPE" then
    (bufRead loc.l_strInputField 0 4).bind fun d4 =>
      (bufWrite loc.l_strDAT_OPE 0 d4).bind fun datOpe =>
        (bufRead loc.l_strInputField 0 DATE_LENGTH).bind fun d8 =>
          (bufWrite loc.l_strIdLot 0 d8).map fun idLot =>
            { loc with l_strDAT_OPE := datOpe, l_strIdLot := idLot }
  else some loc

/-- The block of the field `MAI_REF_OPE`, then the NUL that ends
`l_strIdLot` at every field. -/
def blockREF_OPE (fd : FieldOfRecord) (loc : LocalsPreMai) : Option LocalsPreMai :=
  (if fd.strFieldName = str "MAI_REF_OPE" then
    (bufRead loc.l_strInputField 11 NUM_CRE_IN_CD_REFOPER_LENGTH).bind fun num =>
      (bufWrite loc.l_strIdLot (DATE_LENGTH + CD_TYPIMP_FIELD_LENGTH + CD_TYPEI_FIELD_LENGTH)
        num).bind fun idLot =>
        (bufRead loc.l_strInputField 17 3).bind fun ae =>
          (bufWrite loc.l_strAppliEmet 0 ae).bind fun ae1 =>
            (bufWrite ae1 3 [0]).map fun ae2 => (idLot, ae2)
  else some (loc.l_strIdLot, loc.l_strAppliEmet)).bind fun ro =>
  (bufWrite ro.1 (DATE_LENGTH + CD_TYPIMP_FIELD_LENGTH + CD_TYPEI_FIELD_LENGTH +
    NUM_CRE_IN_CD_REFOPER_LENGTH) [0]).map fun idLot =>
    { loc with l_strIdLot := idLot, l_strAppliEmet := ro.2 }

/-- The body of the `while` loop of the PreMai `Create_Output_Record` for the
entry `l_iIdx`.  Result: the value of `l_iIdx` after the final `l_iIdx++`, the
local buffers and the writes done to the output record, in order. -/
def recordStepPreMai (tabs : TablesPreMai) (ds : List FieldOfRecord) (ENTITY : CStr)
    (ind : IndeterminatePreMai) (i_InputRecord : List Nat) (l_iIdx : Nat) (loc : LocalsPreMai) :
    Option (Nat × LocalsPreMai × List RecordWrite) :=
  let fd := ds.getD l_iIdx blankField
  (loadField loc.l_strInputField i_InputRecord fd.iFieldStartPosInput fd.iFieldLengthInput).bind
    fun inF =>
  (convertAndCopy fd (ind.convert l_iIdx) inF loc.l_strOutputField).bind fun c =>
  (cstrOf inF).bind fun field =>
  (amountBlocksPreMai tabs fd field c.1 loc).bind fun am =>
  (blockDAT_OPE fd
    { loc with
      l_strInputField := inF
      l_strOutputField := c.1
      l_strDEV_IMP_DECIMAL_POS := am.1
      l_strDEV_GES_DECIMAL_POS := am.2.1
      l_strDEV_CTP_DECIMAL_POS := am.2.2.1 }).bind fun loc1 =>
  (if fd.strFieldName = str "MAI_CPT_IMP" then blockCPT_IMP tabs ds ENTITY field loc1
  else some (loc1, [])).bind fun cp =>
  (blockREF_OPE fd cp.1).bind fun loc2 =>
  -- Check if Fields to add in Ouput Record
  (if fd.iFieldType = ADD_CD_TYPIMP_TYPEI_TVA then addedFieldsPreMai ds ind l_iIdx loc2
  else some (l_iIdx, loc2, [])).map
    fun (a : Nat × LocalsPreMai × List RecordWrite) =>
  (a.1 + 1, a.2.1, [c.2] ++ am.2.2.2 ++ cp.2 ++ a.2.2)

/-- The `while (strlen(tabFieldOfRecord[l_iIdx].strFieldName) > 0)` loop of
the PreMai `Create_Output_Record`; the first argument bounds the number of
iterations.  Result: the final `l_iIdx`, the local buffers and the writes
done. -/
def recordLoopPreMai (tabs : TablesPreMai) (ds : List FieldOfRecord) (ENTITY : CStr)
    (ind : IndeterminatePreMai) (i_InputRecord : List Nat) :
    Nat → Nat → LocalsPreMai → List RecordWrite →
      Option (Nat × LocalsPreMai × List RecordWrite)
  | 0, _, _, _ => none
  | fuel + 1, l_iIdx, loc, ws =>
    if (ds.getD l_iIdx blankField).strFieldName.length > 0 then
      (recordStepPreMai tabs ds ENTITY ind i_InputRecord l_iIdx loc).bind fun r =>
        recordLoopPreMai tabs ds ENTITY ind i_InputRecord fuel r.1 r.2.1 (ws ++ r.2.2)
    else some (l_iIdx, loc, ws)

/-- The local buffers of the PreMai `Create_Output_Record` before its loop. -/
def initialLocalsPreMai (ind : IndeterminatePreMai) : LocalsPreMai :=
  { l_strInputField := List.replicate MAX_FIELD_LENGTH 32
    l_strOutputField := List.replicate MAX_FIELD_LENGTH 32
    l_strIdLot := (List.range 18).map ind.idLot
    l_strDAT_OPE := (List.range 5).map ind.datOpe
    l_strAppliEmet := (List.range 4).map ind.appliEmet
    l_strHB_IMPUTATION := str "BR" ++ [0]
    l_strTOP_INT_EXT := str "E" ++ [0]
    l_strTVA := str "  " ++ [0]
    l_strDEV_IMP_DECIMAL_POS := (List.range 2).map ind.decimalPosImp
    l_strDEV_GES_DECIMAL_POS := (List.range 2).map ind.decimalPosGes
    l_strDEV_CTP_DECIMAL_POS := (List.range 2).map ind.decimalPosCtp }

/-- All the writes that the PreMai `Create_Output_Record` does to the output
record, in order, with the state of the LOT table after the call: the writes
of the loop, then the header (the label, the first four bytes of the date of
operation, the emitter, the lot number, the entry number) and the
terminating NUL. -/
def recordWritesPreMai (tabs : TablesPreMai) (ds : List FieldOfRecord) (ENTITY : CStr)
    (ind : IndeterminatePreMai) (lot : LOTState) (i_InputRecord : List Nat) :
    Option (List RecordWrite × LOTState) :=
  (recordLoopPreMai tabs ds ENTITY ind i_InputRecord (ds.length + 1) 0
    (initialLocalsPreMai ind) []).bind fun r =>
    (bufRead r.2.1.l_strDAT_OPE 0 4).bind fun datOpe =>
      (cstrOf r.2.1.l_strAppliEmet).bind fun l_strAppliEmet =>
        (cstrOf r.2.1.l_strIdLot).bind fun l_strIdLot =>
          (FindIdLotIdEcriture lot l_strAppliEmet l_strIdLot).bind fun f =>
            (bufRead r.2.1.l_strAppliEmet 0 3).bind fun ae =>
              (bufRead (f.2.1 ++ [0]) 0 17).bind fun l_strLotNum =>
                (bufRead (f.2.2 ++ [0]) 0 HEADER_ID_ECRITU_LENGTH).bind fun l_strIdEcriture =>
                  if r.1 = 0 then none
                  else
                    let last := ds.getD (r.1 - 1) blankField
                    some (r.2.2 ++
                      [(0, str "CPTA_MARCHE"),
                       (HEADER_CD_CRE_LENGTH, datOpe),
                       (HEADER_CD_CRE_LENGTH + 4, ae),
                       (HEADER_CD_CRE_LENGTH + 4 + 3, l_strLotNum),
                       (HEADER_CD_CRE_LENGTH + HEADER_ID_LOT_LENGTH + HEADER_ID_COMPOST_LENGTH,
                         l_strIdEcriture),
                       (last.iFieldStartPosOutput + last.iFieldLengthOutput, [0])], f.1)

/-- Result of the PreMai `Create_Output_Record`: the returned value, the
content of the buffer `o_OutputRecord` after the call and the state of the
LOT table. -/
def Create_Output_Record_PreMai (tabs : TablesPreMai) (ds : List FieldOfRecord) (ENTITY : CStr)
    (ind : IndeterminatePreMai) (lot : LOTState) (i_InputRecord o_OutputRecord : List Nat) :
    Option (Int × List Nat × LOTState) :=
  (recordWritesPreMai tabs ds ENTITY ind lot i_InputRecord).bind fun r =>
    (applyWrites o_OutputRecord r.1).map fun o => (EXIT_OK, o, r.2)

/-! ## The main loops -/

def HEADER_MVT_LABEL_LENGTH : Int := 20
def MAX_INPUT_REC_LENGTH_PESTD : Nat := 3500
def MAX_INPUT_REC_LENGTH_PreMai : Nat := 1000

/-- What a run of `main` leaves: the value returned by a `return` statement
(`none` when the end of `main` is reached) and the lines written to the output
file, in order. -/
structure RunResult where
  returned : Option Int
  output : List CStr
deriving DecidableEq

/-- The buffer `Accounting_Date` after
`strncpy(Accounting_Date, argv[2], DATE_LENGTH)` and
`Accounting_Date[DATE_LENGTH] = '\0'`. -/
def accountingDate (argv2 : CStr) : List Nat :=
  (argv2 ++ List.replicate 8 0).take 8 ++ [0]

/-- The reading loop of the PESTD `main` over the records returned by
`fgets`.  The arguments after the records are the number of records handled
so far, the content of `Input_Record_Struct`, the content of
`Output_Record_Struct` and the lines written so far. -/
def mainLoopPESTD (tabs : TablesPESTD) (ds : List FieldOfRecord)
    (ind : Nat → IndeterminatePESTD) (Accounting_Date : List Nat) :
    List CStr → Nat → List Nat → List Nat → List CStr → Option RunResult
  | [], _, _, _, out => some ⟨none, out⟩
  | rec :: rest, Record_Number, Input_Record, Output_Record_Struct, out =>
    (bufWrite Input_Record 0 (rec ++ [0])).bind fun inb =>
      (cstrOf inb).bind fun s =>
        if s.length > 1 then
          (memsetBuf Output_Record_Struct 32 HEADER_LENGTH_PESTD).bind fun h1 =>
            (bufWrite h1 0 (str "INV_MARCHE")).bind fun h2 =>
              (bufRead Accounting_Date 0 DATE_LENGTH).bind fun d =>
                (bufWrite h2 HEADER_MVT_LABEL_LENGTH d).bind fun h3 =>
                  (bufWrite h3 HEADER_LENGTH_PESTD
                    (List.replicate (MAX_INPUT_REC_LENGTH_PESTD + 11 * 12) 32)).bind fun o =>
                    (Create_Output_Record_PESTD tabs ds (ind Record_Number) inb o).bind fun r =>
                      if r.1 = EXIT_ERR then some ⟨some EXIT_ERR, out⟩
                      else
                        (cstrOf r.2).bind fun line =>
                          mainLoopPESTD tabs ds ind Accounting_Date rest (Record_Number + 1) inb
                            r.2 (out ++ [line ++ [10]])
        else
          mainLoopPESTD tabs ds ind Accounting_Date rest Record_Number inb Output_Record_Struct
            out

/-- The PESTD `main` from the check of the accounting date on, once the
configuration and the reference files are loaded into `ds` and `tabs`:
`argv2` is the second argument, `records` the input file as `fgets` returns
it. -/
def mainPESTD (tabs : TablesPESTD) (ds : List FieldOfRecord) (ind : Nat → IndeterminatePESTD)
    (argv2 : CStr) (records : List CStr) : Option RunResult :=
  (cstrOf (accountingDate argv2)).bind fun d =>
    if isValidInputDate d = 0 then some ⟨some EXIT_ERR, []⟩
    else
      mainLoopPESTD tabs ds ind (accountingDate argv2) records 0
        (List.replicate MAX_INPUT_REC_LENGTH_PESTD 0)
        (List.replicate (155 + (MAX_INPUT_REC_LENGTH_PESTD + 11 * 12)) 0) []

/-- The reading loop of the PreMai `main` over the records returned by
`fgets`.  The arguments after the records are the number of records handled
so far, the state of the LOT table, the content of `Input_Record_Struct`, the
content of `Output_Record_Struct` and the lines written so far. -/
def mainLoopPreMai (tabs : TablesPreMai) (ds : List FieldOfRecord) (ENTITY : CStr)
    (ind : Nat → IndeterminatePreMai) (iInputRecordLength : Int) :
    List CStr → Nat → LOTState → List Nat → List Nat → List CStr → Option RunResult
  | [], _, _, _, _, out => some ⟨none, out⟩
  | rec :: rest, Record_Number, lot, Input_Record, Output_Record_Struct, out =>
    (bufWrite Input_Record 0 (rec ++ [0])).bind fun inb =>
      (cstrOf inb).bind fun s =>
        if s.length > 1 then
          if (s.length : Int) = iInputRecordLength then
            (memsetBuf Output_Record_Struct 32 HEADER_LENGTH_PreMai).bind fun h1 =>
              (bufWrite h1 (HEADER_LENGTH_PreMai + 1)
                (List.replicate (MAX_INPUT_REC_LENGTH_PreMai + 3 * (1 + 1) + 2 + 1 + 2) 32)).bind
                fun o =>
                  (Create_Output_Record_PreMai tabs ds ENTITY (ind Record_Number) lot inb o).bind
                    fun r =>
                      if r.1 = EXIT_ERR then some ⟨some EXIT_ERR, out⟩
                      else
                        (cstrOf r.2.1).bind fun line =>
                          mainLoopPreMai tabs ds ENTITY ind iInputRecordLength rest
                            (Record_Number + 1) r.2.2 inb r.2.1 (out ++ [line ++ [10]])
          else some ⟨some EXIT_ERR, out⟩
        else
          mainLoopPreMai tabs ds ENTITY ind iInputRecordLength rest Record_Number lot inb
            Output_Record_Struct out

/-- The PreMai `main` from the check of the accounting date on, once the
configuration and the reference files are loaded: `argv2` is the second
argument, `ENTITY` the entity set from the third one, `records` the input
file as `fgets` returns it. -/
def mainPreMai (tabs : TablesPreMai) (ds : List FieldOfRecord) (ENTITY : CStr)
    (ind : Nat → IndeterminatePreMai) (iInputRecordLength : Int) (argv2 : CStr)
    (records : List CStr) : Option RunResult :=
  (cstrOf (accountingDate argv2)).bind fun d =>
    if isValidInputDate d = 0 then some ⟨some EXIT_ERR, []⟩
    else
      mainLoopPreMai tabs ds ENTITY ind iInputRecordLength records 0 initialLOTState
        (List.replicate MAX_INPUT_REC_LENGTH_PreMai 0)
        (List.replicate ((169 + 1) + (MAX_INPUT_REC_LENGTH_PreMai + 3 * (1 + 1) + 2 + 1 + 2 + 1))
          0) []

/-- Indeterminate bytes used in the examples: every byte is NUL. -/
def sampleIndeterminatePreMai : IndeterminatePreMai :=
  ⟨fun _ => 0, fun _ => 0, fun _ => 0, fun _ => 0, fun _ => 0, fun _ => 0, fun _ => []⟩

/-- Indeterminate bytes used in the examples: every byte is NUL. -/
def sampleIndeterminatePESTD : IndeterminatePESTD := ⟨fun _ => 0, fun _ => 0, fun _ => []⟩

/-- The tables of PreMai after their initialisation, nothing loaded. -/
def emptyTablesPreMai : TablesPreMai :=
  ⟨InitializeCOMPTE_DODGEHashKeyTable, InitializeCURRENCYHashKeyTable⟩

/-- The tables of PESTD after their initialisation, nothing loaded. -/
def emptyTablesPESTD : TablesPESTD :=
  ⟨InitializeSIAMHashKeyTable, InitializeRTSHashKeyTable, InitializeCURRENCYHashKeyTable⟩

/-- A configuration of PreMai used as an example. -/
def sampleConfPreMai : List CStr :=
  [str "MAI_DAT_OPE;charED;8\n", str "MAI_REF_OPE;charED;20\n", str "MAI_CPT_IMP;charED;9\n",
   str "MAI_TOP_MAJ;charED;1\n"]

/-- The table `tabFieldOfRecord` built from `sampleConfPreMai`. -/
def sampleFieldsPreMai : List FieldOfRecord :=
  [⟨str "MAI_DAT_OPE", str "charED", enumFieldFormat.charED, -1, 8, 8, 0, 169⟩,
   ⟨str "MAI_REF_OPE", str "charED", enumFieldFormat.charED, -1, 20, 20, 8, 177⟩,
   ⟨str "MAI_CPT_IMP", str "charED", enumFieldFormat.charED, -1, 9, 9, 28, 197⟩,
   ⟨str "MAI_TOP_MAJ", str "charED", enumFieldFormat.charED, 10, 1, 1, 37, 206⟩,
   ⟨str "CD_TYPIMP", str "charED", enumFieldFormat.charED, -1, -1, 2, -10, 207⟩,
   ⟨str "CD_TYPEI", str "charED", enumFieldFormat.charED, -1, -1, 1, -10, 209⟩,
   ⟨str "CD_TVA_APP", str "charED", enumFieldFormat.charED, -1, -1, 2, -10, 210⟩]


/-! ## The record-length check of PreMai, in the words of the specification -/

/-- The lengths declared by the records of the configuration that are
handled. -/
def confLengths (records : List CStr) : List Int :=
  (records.filter (fun rec => decide (rec.length > 1))).map
    fun rec => ((confRecordFields rec).map (fun f => f.2.2)).getD 0

/-- An input line is rejected when it is not empty (more than its line
terminator) and its length is not the declared length `L`. -/
def rejectedLine (L : Int) (rec : CStr) : Bool :=
  decide (rec.length > 1) && !decide ((rec.length : Int) = L)

/-- The lines written for a list of input lines none of which is rejected:
a line of at most one character gives nothing, any other line gives its
transcoding by `Create_Output_Record`, ended by a line feed.  The arguments
after the lines are those of `mainLoopPreMai`. -/
def transcodeLinesPreMai (tabs : TablesPreMai) (ds : List FieldOfRecord) (ENTITY : CStr)
    (ind : Nat → IndeterminatePreMai) :
    List CStr → Nat → LOTState → List Nat → List Nat → Option (List CStr)
  | [], _, _, _, _ => some []
  | rec :: rest, Record_Number, lot, Input_Record, Output_Record_Struct =>
    (bufWrite Input_Record 0 (rec ++ [0])).bind fun inb =>
      if rec.length > 1 then
        (memsetBuf Output_Record_Struct 32 HEADER_LENGTH_PreMai).bind fun h1 =>
          (bufWrite h1 (HEADER_LENGTH_PreMai + 1)
            (List.replicate (MAX_INPUT_REC_LENGTH_PreMai + 3 * (1 + 1) + 2 + 1 + 2) 32)).bind
            fun o =>
              (Create_Output_Record_PreMai tabs ds ENTITY (ind Record_Number) lot inb o).bind
                fun r =>
                  (cstrOf r.2.1).bind fun line =>
                    (transcodeLinesPreMai tabs ds ENTITY ind rest (Record_Number + 1) r.2.2 inb
                      r.2.1).map fun lines => (line ++ [10]) :: lines
      else transcodeLinesPreMai tabs ds ENTITY ind rest Record_Number lot inb Output_Record_Struct

/-! ## Output slices, writes of a field and examples of runs -/

/-- The type given to a PESTD field and the number of entries added after it
agree: two entries after a field of type ADD_RICOS_SC_CPY_USING_SIAM or
ADD_RICOS_SC_CPY_USING_RTS, one after a field of type ADD_RICOS_SC_USING_RTS,
none after a field without a type. -/
def TypedGroupPESTD (e : FieldOfRecord) (inj : List FieldOfRecord) : Prop :=
  ((e.iFieldType = ADD_RICOS_SC_CPY_USING_SIAM ∨ e.iFieldType = ADD_RICOS_SC_CPY_USING_RTS) ∧
    inj.length = 2) ∨
  (e.iFieldType = ADD_RICOS_SC_USING_RTS ∧ inj.length = 1) ∨
  (e.iFieldType = -1 ∧ inj = [])

/-- The field of an input slice, as `Create_Output_Record` reads it after the
copy of the slice and the NUL that ends it: the bytes of the slice before its
first NUL. -/
def fieldOf (bytes : List Nat) : CStr := bytes.takeWhile (fun c => !decide (c = 0))

/-- The output slice `[iFieldStartPosOutput, iFieldStartPosOutput +
iFieldLengthOutput)` of an entry in the output record `o`. -/
def outputSlice (o : List Nat) (fd : FieldOfRecord) : List Nat :=
  (o.drop fd.iFieldStartPosOutput.toNat).take fd.iFieldLengthOutput.toNat

/-- The fields of PESTD whose output is written a second time by a block of
`Create_Output_Record` after the call of `Convert_InputField`. -/
def rewrittenPESTD (name : CStr) : Prop :=
  name = str "EMISS_CRS" ∨ name = str "QTE_DECIMALES" ∨ name = str "Z_MNT_ESTD_DEVISE"

/-- What the list `W` of the writes of the PESTD `Create_Output_Record` holds
for the entry `g.1` of a field of the configuration and the entries `g.2` added
after it: unless the field is written a second time, the converted field is
written at the output position of `g.1` and no later write starts before its
end; when the lookup gave nothing, each added entry gets a write of `'#'` at
its output position and no later write starts before its end. -/
def GroupWrites (tabs : TablesPESTD) (ind : IndeterminatePESTD) (i_InputRecord : List Nat)
    (W : List RecordWrite) (g : FieldOfRecord × List FieldOfRecord) : Prop :=
  ∃ bytes, bufRead i_InputRecord g.1.iFieldStartPosInput g.1.iFieldLengthInput = some bytes ∧
    (¬ rewrittenPESTD g.1.strFieldName →
      ∃ (i : Nat) (prev out : List Nat) (W1 W2 : List RecordWrite),
        Convert_InputField g.1 (fieldOf bytes) (ind.convert i) prev = some out ∧
        W = W1 ++ (g.1.iFieldStartPosOutput, out.take g.1.iFieldLengthOutput.toNat) :: W2 ∧
        (out.take g.1.iFieldLengthOutput.toNat).length = g.1.iFieldLengthOutput.toNat ∧
        ∀ w ∈ W2, g.1.iFieldStartPosOutput + g.1.iFieldLengthOutput ≤ w.1) ∧
    (∀ n, lookupPESTD tabs g.1.iFieldType (fieldOf bytes) = some (some (none, n)) →
      ∀ d ∈ g.2, ∃ W1 W2 : List RecordWrite,
        W = W1 ++ (d.iFieldStartPosOutput, List.replicate d.iFieldLengthOutput.toNat 35) :: W2 ∧
        ∀ w ∈ W2, d.iFieldStartPosOutput + d.iFieldLengthOutput ≤ w.1)

/-- A configuration of PESTD used as an example: the trigger field `TIERS`,
the number of decimals `QTE_DECIMALES` and a signed number. -/
def sampleConfPESTD : List CStr :=
  [str "TIERS;charED;3\n", str "QTE_DECIMALES;charED;1\n", str "X;entierSZG;5\n"]

/-- The table `tabFieldOfRecord` built from `sampleConfPESTD`. -/
def sampleFieldsPESTD : List FieldOfRecord :=
  [⟨str "TIERS", str "charED", enumFieldFormat.charED, 10, 3, 3, 0, 155⟩,
   ⟨str "TIERS_RICOS", str "charED", enumFieldFormat.charED, -1, -1, 12, -10, 158⟩,
   ⟨str "TIERS_RICOS_CY", str "entierZG", enumFieldFormat.entierZG, -1, -1, 12, -10, 170⟩,
   ⟨str "QTE_DECIMALES", str "charED", enumFieldFormat.charED, -1, 1, 1, 4, 182⟩,
   ⟨str "X", str "entierSZG", enumFieldFormat.entierSZG, -1, 5, 5, 6, 183⟩]

/-- An input record of PESTD for `sampleConfPESTD`, in its buffer. -/
def sampleRecordPESTD : List Nat := str "XYZ|2|-12  \n" ++ [0]

/-- Does the text `p` occur somewhere in the text `s`. -/
def occursIn (p s : List Nat) : Bool :=
  (List.range (s.length + 1)).any fun i => decide ((s.drop i).take p.length = p)

/-- An input line of PreMai for `sampleConfPreMai`, as `fgets` returns it. -/
def sampleLinePreMai : CStr := str "20240131REFERENCE00000012ABC530001000X\n"

/-- The line written by the PreMai `main` for `sampleLinePreMai`. -/
def sampleOutputPreMai : CStr :=
  str "CPTA_MARCHE         2024ABC00000000000000001" ++ List.replicate 25 32 ++ str "000001" ++
    List.replicate 94 32 ++ str "20240131REFERENCE00000012ABC530001000XBRE  \n"


/-! ## The accounting date, in the words of the specification -/

/-- A leap year as the specification gives it: divisible by 4 and, not
divisible by 100 or divisible by 400. -/
def leapYear (y : Int) : Prop := 4 ∣ y ∧ (¬ 100 ∣ y ∨ 400 ∣ y)

/-- The number of days of the month `m` (1 to 12) of the year `y`: February
has 29 days in a leap year. -/
def daysInMonth (y : Int) (m : Nat) : Nat :=
  if m = 2 then (if 4 ∣ y ∧ (¬ 100 ∣ y ∨ 400 ∣ y) then 29 else 28)
  else if m = 4 ∨ m = 6 ∨ m = 9 ∨ m = 11 then 30
  else 31

/-- The date described by the first eight characters of a string: they are
decimal digits `YYYYMMDD`, the month is 1 to 12 and the day is a day of that
month in that year. -/
def validDate (s : CStr) : Prop :=
  (∀ i, i < 8 → 48 ≤ s.getD i 0 ∧ s.getD i 0 ≤ 57) ∧
  1 ≤ digitsVal ((s.drop 4).take 2) ∧ digitsVal ((s.drop 4).take 2) ≤ 12 ∧
  1 ≤ digitsVal ((s.drop 6).take 2) ∧
  digitsVal ((s.drop 6).take 2) ≤
    daysInMonth (digitsVal (s.take 4)) (digitsVal ((s.drop 4).take 2))


/-! ## The fields of a configuration -/

/-- The three fields (name, format, length) of the records of a configuration
file that are handled, in order. -/
def confFields (records : List CStr) : List (CStr × CStr × Int) :=
  (records.filter (fun rec => decide (rec.length > 1))).filterMap confRecordFields

/-- The names of the amount fields of PreMai. -/
def isAmountNamePreMai (name : CStr) : Prop :=
  name = str "MAI_MNT_IMP" ∨ name = str "MAI_MNT_GES" ∨ name = str "MAI_MNT_NOM"

/-! ## An enrichment from the RTS table -/

/-- A configuration of PESTD with the field `Z_ALIAS_ID_TIERS`, after which
`TIERS_EXT_RICOS` and `TIERS_EXT_RICOS_CY` are added. -/
def aliasConfPESTD : List CStr := [str "Z_ALIAS_ID_TIERS;charED;4\n"]

/-- The table `tabFieldOfRecord` built from `aliasConfPESTD`. -/
def aliasFieldsPESTD : List FieldOfRecord :=
  [⟨str "Z_ALIAS_ID_TIERS", str "charED", enumFieldFormat.charED, 100, 4, 4, 0, 155⟩,
   ⟨str "TIERS_EXT_RICOS", str "charED", enumFieldFormat.charED, -1, -1, 12, -100, 159⟩,
   ⟨str "TIERS_EXT_RICOS_CY", str "entierZG", enumFieldFormat.entierZG, -1, -1, 12, -100, 171⟩]

/-- The tables of PESTD with the records of REF_TIERS.dat loaded, when the
load succeeds. -/
def tablesWithTiers (records : List CStr) : Option TablesPESTD :=
  (BuildTiersRicosTables records).map fun t => ⟨t.1, t.2, emptyTablesPESTD.CURRENCYHashArray⟩

/-- An input record of PESTD for `aliasConfPESTD`, in its buffer. -/
def aliasRecordPESTD : List Nat := str "6464\n" ++ [0]

/-! ## The decimals of the currency of the counterpart (PreMai) -/

/-- The local buffers of the PreMai `Create_Output_Record` with the content
`x` in the buffer `l_strDEV_CTP_DECIMAL_POS`. -/
def setCtp (x : List Nat) (loc : LocalsPreMai) : LocalsPreMai :=
  { loc with l_strDEV_CTP_DECIMAL_POS := x }

/-- A configuration of PreMai with the three currency fields before the
three amount fields. -/
def pairConfPreMai : List CStr :=
  [str "MAI_DAT_OPE;charED;8\n", str "MAI_REF_OPE;charED;20\n",
   str "MAI_DEV_IMP;charED;3\n", str "MAI_DEV_GES;charED;3\n", str "MAI_DEV_CTP;charED;3\n",
   str "MAI_MNT_IMP;entierZG;8\n", str "MAI_MNT_GES;entierZG;8\n",
   str "MAI_MNT_NOM;entierZG;8\n"]

/-- The table `tabFieldOfRecord` built from `pairConfPreMai`. -/
def pairFieldsPreMai : List FieldOfRecord :=
  [⟨str "MAI_DAT_OPE", str "charED", enumFieldFormat.charED, -1, 8, 8, 0, 169⟩,
   ⟨str "MAI_REF_OPE", str "charED", enumFieldFormat.charED, -1, 20, 20, 8, 177⟩,
   ⟨str "MAI_DEV_IMP", str "charED", enumFieldFormat.charED, -1, 3, 3, 28, 197⟩,
   ⟨str "MAI_DEV_GES", str "charED", enumFieldFormat.charED, -1, 3, 3, 31, 200⟩,
   ⟨str "MAI_DEV_CTP", str "charED", enumFieldFormat.charED, -1, 3, 3, 34, 203⟩,
   ⟨str "MAI_MNT_IMP", str "amount3DEC", enumFieldFormat.amount3DEC, 110, 8, 20, 37, 206⟩,
   ⟨str "MAI_MNT_GES", str "amount3DEC", enumFieldFormat.amount3DEC, 120, 8, 20, 45, 226⟩,
   ⟨str "MAI_MNT_NOM", str "amount3DEC", enumFieldFormat.amount3DEC, 130, 8, 20, 53, 246⟩]

/-- An input record of PreMai for `pairConfPreMai`, in its buffer: the date
and the reference of the operation, the currencies USD, JPY and EUR, then the
three amounts. -/
def pairRecordPreMai : List Nat :=
  str "20240131REFERENCE00000012ABCUSDJPYEUR   12.50    1000    7.25\n" ++ [0]

/-- A CURRENCY table that holds USD (2 decimals), JPY (0 decimals) and EUR
with the number of decimals `ctp`, each at the position where
`AddElementInCURRENCYHashKeyTable` puts it in an empty table. -/
def pairCurrency (ctp : CStr) : Table CURRENCYHashElt := fun x y =>
  if x = 0 ∧ y = 46 then
    ⟨(BuildHashKey (str "USD") HASH_CURRENCY_ARRAY_SIZE).2, str "USD", str "2"⟩
  else if x = 0 ∧ y = 37 then
    ⟨(BuildHashKey (str "JPY") HASH_CURRENCY_ARRAY_SIZE).2, str "JPY", str "0"⟩
  else if x = 0 ∧ y = 30 then
    ⟨(BuildHashKey (str "EUR") HASH_CURRENCY_ARRAY_SIZE).2, str "EUR", ctp⟩
  else ⟨-1, [], []⟩

/-- The tables of PreMai with no DODGE account and the CURRENCY table
`pairCurrency ctp`. -/
def pairTablesPreMai (ctp : CStr) : TablesPreMai :=
  ⟨InitializeCOMPTE_DODGEHashKeyTable, pairCurrency ctp⟩

/-! ## The formats of the reference files -/

def REF_TIERS_RECORD_LENGTH : Nat := 300
def FIELD_NAME_LENGTH : Nat := 50
def FIELD_FORMAT_LENGTH : Nat := 20
def MAX_FIELD_NUMBER_CURRENCY : Int := 2
def MAX_FIELD_NUMBER_REF_RCA_CPT : Int := 55

/-- The text that `strRefTiersFileFormat` is compared with. -/
def expectedRefTiersFormat : CStr :=
  str "SIAM;RICOS_SC_ID;RICOS_CPY_ID;RTS_SC_ID;SC_INTITULE_USUEL;SIA_CIT_TYPE"

/-- Body of the reading loop of `BuildRefTiersRecordFormat` for one line
returned by `fgets`: the state is the content of the global buffer
`strRefTiersFileFormat` and `l_iTiersFieldLength`.  The line without its last
character is copied to the buffer; it is followed by a NUL, which does not
advance the length, when the line starts with `SIA_CIT_TYPE`, and by `";"`
otherwise.  A write outside the buffer is not given a meaning. -/
def refTiersFormatStep (st : List Nat × Int) (line : CStr) : Option (List Nat × Int) :=
  if line.length > 1 then
    let piece := line.take (line.length - 1)
    if memcmpEq line (str "SIA_CIT_TYPE") 12 then
      (bufWrite st.1 st.2 piece).bind fun b1 =>
        (bufWrite b1 (st.2 + piece.length) [0]).map fun b2 => (b2, st.2 + piece.length)
    else
      (bufWrite st.1 st.2 piece).bind fun b1 =>
        (bufWrite b1 (st.2 + piece.length) [59]).map fun b2 => (b2, st.2 + piece.length + 1)
  else some st

/-- Result of `BuildRefTiersRecordFormat` for the lines of REF_TIERS.conf as
`fgets` returns them: the returned value and the content of the global buffer
`strRefTiersFileFormat`, which is zero-filled before the call.  The value is
EXIT_ERR when `memcmp` of the first 70 bytes of the buffer with the expected
text is not 0. -/
def BuildRefTiersRecordFormat (records : List CStr) : Option (Int × List Nat) :=
  (records.foldl (fun st line => st.bind fun s => refTiersFormatStep s line)
    (some (List.replicate REF_TIERS_RECORD_LENGTH 0, 0))).map fun st =>
    if st.1.take 70 ≠ expectedRefTiersFormat.take 70 then (EXIT_ERR, st.1) else (EXIT_OK, st.1)

/-- An entry of `tabFieldOfRefCurrencyRecord`. -/
structure RefFormatField where
  strFieldName : CStr
  strFieldFormat : CStr
  iFieldFormat : enumFieldFormat
  iFieldLength : Int
  iFieldStartSepPosition : Int
deriving DecidableEq

/-- An entry of a table of fields of a reference file after its
initialisation. -/
def blankRefFormatField : RefFormatField := ⟨[], [], enumFieldFormat.unknown, -1, -1⟩

/-- The variables of `BuildRefCurrencyRecordFormat`: the counter
`l_iRefCurrencyFieldNumber` and the entries 0 and 1 of
`tabFieldOfRefCurrencyRecord`. -/
structure RefCurrencyFormatState where
  l_iRefCurrencyFieldNumber : Int
  field0 : RefFormatField
  field1 : RefFormatField
deriving DecidableEq

/-- A token that is copied by `strcpy` to a `char[n]` buffer: the copy of a
NULL token, or of a token that does not fit with its NUL, is not given a
meaning. -/
def strcpyToken (n : Nat) (t : Option (CStr × CStr)) : Option (CStr × CStr) :=
  t.bind fun x => if x.1.length < n then some x else none

/-- The reading loop of `BuildRefCurrencyRecordFormat` over the lines of
REF_CURRENCY.conf as `fgets` returns them.  Result: the returned value
(EXIT_ERR when a `return EXIT_ERR` is reached, EXIT_OK at the end of the
lines) and the variables. -/
def refCurrencyFormatLoop :
    List CStr → RefCurrencyFormatState → Option (Int × RefCurrencyFormatState)
  | [], st => some (EXIT_OK, st)
  | line :: rest, st =>
    if line.length > 1 then
      let n := st.l_iRefCurrencyFieldNumber + 1
      if n < MAX_FIELD_NUMBER_CURRENCY then
        (strcpyToken FIELD_NAME_LENGTH (strtok line)).bind fun t1 =>
          if memcmpEq t1.1 (str "CURRENCY_CD") 11 then
            if n = 0 then
              (strcpyToken FIELD_FORMAT_LENGTH (strtok t1.2)).bind fun t2 =>
                (strtok t2.2).bind fun t3 =>
                  refCurrencyFormatLoop rest
                    { l_iRefCurrencyFieldNumber := n
                      field0 := ⟨t1.1, t2.1, whichOutputFormat t2.1, atoi t3.1, atoi t3.1⟩
                      field1 := st.field1 }
            else some (EXIT_ERR, { st with l_iRefCurrencyFieldNumber := n })
          else if memcmpEq t1.1 (str "DECIMAL_POS") 11 then
            if n = 1 then
              (strcpyToken FIELD_FORMAT_LENGTH (strtok t1.2)).bind fun t2 =>
                (strtok t2.2).bind fun t3 =>
                  refCurrencyFormatLoop rest
                    { l_iRefCurrencyFieldNumber := n
                      field0 := st.field0
                      field1 := ⟨t1.1, t2.1, whichOutputFormat t2.1, atoi t3.1,
                        st.field0.iFieldLength + 1 + atoi t3.1⟩ }
            else some (EXIT_ERR, { st with l_iRefCurrencyFieldNumber := n })
          else refCurrencyFormatLoop rest { st with l_iRefCurrencyFieldNumber := n }
      else some (EXIT_ERR, { st with l_iRefCurrencyFieldNumber := n })
    else refCurrencyFormatLoop rest st

/-- Result of `BuildRefCurrencyRecordFormat` (the function is the same in
both programs) for the lines of REF_CURRENCY.conf. -/
def BuildRefCurrencyRecordFormat (records : List CStr) :
    Option (Int × RefCurrencyFormatState) :=
  refCurrencyFormatLoop records ⟨-1, blankRefFormatField, blankRefFormatField⟩

/-- The variables of `BuildRefRcaCptRecordFormat`: the counter
`l_iRefRcaCptFieldNumber` and, for the entries 0 to 3 of
`tabFieldOfRefRcaCptRecord`, the name and `iFieldStartSepPosition`. -/
structure RefRcaCptFormatState where
  l_iRefRcaCptFieldNumber : Int
  fields : List (CStr × Int)
deriving DecidableEq

/-- The reading loop of `BuildRefRcaCptRecordFormat` over the lines of
REF_RCA_CPT.conf as `fgets` returns them: the position of the lines that
start with `COMPTE_DODGE`, `TOP_BILAN`, `TOP_INT_EXT` and `CHAMPS_TVA` is
recorded in the entries 0 to 3. -/
def refRcaCptFormatLoop : List CStr → RefRcaCptFormatState → Int × RefRcaCptFormatState
  | [], st => (EXIT_OK, st)
  | line :: rest, st =>
    if line.length > 1 then
      let n := st.l_iRefRcaCptFieldNumber + 1
      if n < MAX_FIELD_NUMBER_REF_RCA_CPT then
        if memcmpEq line (str "COMPTE_DODGE") 12 then
          refRcaCptFormatLoop rest ⟨n, st.fields.set 0 (str "COMPTE_DODGE", n)⟩
        else if memcmpEq line (str "TOP_BILAN") 9 then
          refRcaCptFormatLoop rest ⟨n, st.fields.set 1 (str "TOP_BILAN", n)⟩
        else if memcmpEq line (str "TOP_INT_EXT") 11 then
          refRcaCptFormatLoop rest ⟨n, st.fields.set 2 (str "TOP_INT_EXT", n)⟩
        else if memcmpEq line (str "CHAMPS_TVA") 10 then
          refRcaCptFormatLoop rest ⟨n, st.fields.set 3 (str "CHAMPS_TVA", n)⟩
        else refRcaCptFormatLoop rest ⟨n, st.fields⟩
      else (EXIT_ERR, ⟨n, st.fields⟩)
    else refRcaCptFormatLoop rest st

/-- Result of `BuildRefRcaCptRecordFormat` for the lines of
REF_RCA_CPT.conf. -/
def BuildRefRcaCptRecordFormat (records : List CStr) : Int × RefRcaCptFormatState :=
  refRcaCptFormatLoop records ⟨-1, List.replicate 4 ([], -1)⟩

/-- The lines of a configuration file that the loops handle: those of more
than one character. -/
def handledLines (records : List CStr) : List CStr :=
  records.filter (fun line => decide (line.length > 1))

/-- The text that the loop of `BuildRefTiersRecordFormat` builds: each handled
line without its last character, followed by `";"` unless the line starts
with `SIA_CIT_TYPE`. -/
def refTiersFormatText (records : List CStr) : List Nat :=
  (handledLines records).flatMap fun line =>
    line.take (line.length - 1) ++
      (if memcmpEq line (str "SIA_CIT_TYPE") 12 then [] else [59])

/-- The lines of REF_TIERS.conf with the six expected names. -/
def sampleRefTiersConf : List CStr :=
  [str "SIAM\n", str "RICOS_SC_ID\n", str "RICOS_CPY_ID\n", str "RTS_SC_ID\n",
   str "SC_INTITULE_USUEL\n", str "SIA_CIT_TYPE\n"]

/-- The lines of REF_CURRENCY.conf with the two expected names. -/
def sampleRefCurrencyConf : List CStr :=
  [str "CURRENCY_CD;charED;3\n", str "DECIMAL_POS;entierZG;1\n"]

/-- A line of REF_CURRENCY.conf with its three tokens, the name and the format
fitting in the buffers they are copied to. -/
def RefFormatLineOk (line : CStr) : Prop :=
  ∃ t1 t2 t3, strtok line = some t1 ∧ strtok t1.2 = some t2 ∧ strtok t2.2 = some t3 ∧
    t1.1.length < FIELD_NAME_LENGTH ∧ t2.1.length < FIELD_FORMAT_LENGTH

/-- The first token of a line (empty when there is none). -/
def refFormatName (line : CStr) : CStr := ((strtok line).map fun t => t.1).getD []

/-- An input line of PESTD for `sampleConfPESTD`, as `fgets` returns it. -/
def sampleLinePESTD : CStr := str "XYZ|2|-12  \n"

/-- The line written by the PESTD `main` for `sampleLinePESTD` and the
accounting date `20231231`. -/
def sampleOutputPESTD : CStr :=
  str "INV_MARCHE          20231231" ++ List.replicate 127 32 ++
    str "XYZ########################3-0012\n"

/-! ## Theorems -/

theorem wrapLL_modEq (z : Int) : wrapLL z ≡ z [ZMOD 18446744073709551616] := by
  unfold Int.ModEq wrapLL
  omega

theorem wrapLL_congr {a b : Int} (h : a ≡ b [ZMOD 18446744073709551616]) :
    wrapLL a = wrapLL b := by
  unfold Int.ModEq at h
  unfold wrapLL
  omega

theorem wrapLL_of_range {z : Int} (h0 : -9223372036854775808 ≤ z) (h1 : z ≤ 9223372036854775807) :
    wrapLL z = z := by
  unfold wrapLL
  omega

theorem BuildHashKeyLoop_eq (l : List Nat) :
    ∀ (n : Nat) (C H : Int), n ≤ 18 →
      BuildHashKeyLoop l n (wrapLL C) (wrapLL H) = wrapLL (H + C * digitSum l (18 - n)) := by
  induction l with
  | nil => intro n C H _; simp [BuildHashKeyLoop, digitSum]
  | cons c rest ih =>
    intro n C H hn
    by_cases h18 : n + 1 ≤ 18
    · have e1 : wrapLL (wrapLL C * 10) = wrapLL (C * 10) :=
        wrapLL_congr ((wrapLL_modEq C).mul_right 10)
      have e2 : wrapLL (wrapLL H + wrapLL (hashDigit c * wrapLL C)) =
          wrapLL (H + hashDigit c * C) :=
        wrapLL_congr ((wrapLL_modEq H).add
          ((wrapLL_modEq _).trans ((wrapLL_modEq C).mul_left (hashDigit c))))
      have e3 : 18 - n = (18 - (n + 1)) + 1 := by omega
      rw [BuildHashKeyLoop, if_pos (by simpa [MAX_HASH_KEY_LENGTH] using h18), e1, e2,
        ih (n + 1) _ _ h18, e3, digitSum]
      congr 1
      ring
    · have e3 : 18 - n = 0 := by omega
      rw [BuildHashKeyLoop, if_neg (by simpa [MAX_HASH_KEY_LENGTH] using h18), e3, digitSum]
      simp

theorem BuildHashKey_hash_eq (k : CStr) (size : Nat) :
    (BuildHashKey k size).2 = wrapLL (digitSum k.reverse 18) := by
  have h := BuildHashKeyLoop_eq k.reverse 0 1 0 (by omega)
  have w1 : wrapLL 1 = 1 := by decide
  have w0 : wrapLL 0 = 0 := by decide
  rw [w1, w0] at h
  simp only [BuildHashKey, h]
  simp

theorem BuildHashKey_pos_eq (k : CStr) (size : Nat) :
    (BuildHashKey k size).1 = cRem (BuildHashKey k size).2 size := rfl

theorem digitSum_eq_sum (l : List Nat) :
    ∀ m : Nat, digitSum l m =
      ∑ i in Finset.range (min l.length m), hashDigit (l.getD i 0) * 10 ^ i := by
  induction l with
  | nil => intro m; simp [digitSum]
  | cons c rest ih =>
    intro m
    cases m with
    | zero => simp [digitSum]
    | succ m =>
      have e : min (c :: rest).length (m + 1) = min rest.length m + 1 := by
        simp [Nat.succ_min_succ]
      rw [digitSum, e, Finset.sum_range_succ', ih m, Finset.mul_sum]
      simp only [List.getD_cons_succ, List.getD_cons_zero, pow_zero, mul_one]
      rw [add_comm]
      congr 1
      apply Finset.sum_congr rfl
      intro i _
      ring

theorem getD_reverse_eq (k : List Nat) (i : Nat) (hi : i < k.length) :
    k.reverse.getD i 0 = k.getD (k.length - 1 - i) 0 := by
  rw [List.getD_eq_getElem?_getD, List.getD_eq_getElem?_getD, List.getElem?_reverse hi]

theorem hashDigit_eq_adj {c : Nat} (h : c < 128) : hashDigit c = adj c := by
  unfold hashDigit adj charVal
  rw [if_pos h]
  by_cases h32 : c < 32
  · rw [if_pos (by exact_mod_cast h32), if_pos h32]
  · rw [if_neg (by exact_mod_cast h32), if_neg h32]

theorem getD_mem_or_zero (k : List Nat) (i : Nat) : k.getD i 0 ∈ k ∨ k.getD i 0 = 0 := by
  rw [List.getD_eq_getElem?_getD]
  by_cases h : i < k.length
  · left
    rw [List.getElem?_eq_getElem h]
    exact List.getElem_mem h
  · right
    rw [List.getElem?_eq_none (by omega)]
    rfl

theorem digitSum_reverse_eq_hashSum (k : CStr) (hascii : ∀ c ∈ k, c < 128) :
    digitSum k.reverse 18 = hashSum k := by
  rw [digitSum_eq_sum, hashSum, List.length_reverse]
  apply Finset.sum_congr rfl
  intro i hi
  have hi' : i < k.length := by
    have := Finset.mem_range.mp hi
    omega
  rw [getD_reverse_eq k i hi']
  have hc : k.getD (k.length - 1 - i) 0 < 128 := by
    rcases getD_mem_or_zero k (k.length - 1 - i) with h | h
    · exact hascii _ h
    · omega
  rw [hashDigit_eq_adj hc]

theorem adj_nonneg (c : Nat) : 0 ≤ adj c := by
  unfold adj
  split <;> omega

theorem hashSum_nonneg (k : CStr) : 0 ≤ hashSum k := by
  unfold hashSum
  apply Finset.sum_nonneg
  intro i _
  exact mul_nonneg (adj_nonneg _) (by positivity)

/-- C1. For every key of ASCII characters, the hash value built by
`BuildHashKey` is the sum over `i < min(len k, 18)` of
`adj(k[len k - 1 - i]) * 10 ^ i` held in a 64-bit accumulator, and the returned
position is the remainder of that hash value by the table size; when the sum
fits a `long long` the hash value is the sum itself and the position is the
sum modulo the table size. -/
theorem BuildHashKey_eq_reference (k : CStr) (size : Nat) (hascii : ∀ c ∈ k, c < 128) :
    (BuildHashKey k size).2 = wrapLL (hashSum k) ∧
    (BuildHashKey k size).1 = cRem (wrapLL (hashSum k)) size ∧
    (hashSum k ≤ LLONG_MAX →
      (BuildHashKey k size).2 = hashSum k ∧ (BuildHashKey k size).1 = hashSum k % size) := by
  have h2 : (BuildHashKey k size).2 = wrapLL (hashSum k) := by
    rw [BuildHashKey_hash_eq, digitSum_reverse_eq_hashSum k hascii]
  refine ⟨h2, ?_, ?_⟩
  · rw [BuildHashKey_pos_eq, h2]
  · intro hmax
    have hw : wrapLL (hashSum k) = hashSum k :=
      wrapLL_of_range (by have := hashSum_nonneg k; omega) (by simpa [LLONG_MAX] using hmax)
    refine ⟨by rw [h2, hw], ?_⟩
    rw [BuildHashKey_pos_eq, h2, hw]
    exact Int.tmod_eq_emod (hashSum_nonneg k) (by positivity)

/-- Witness of C1 at the key `"EUR"` and the currency table size. -/
theorem BuildHashKey_eq_reference_witness :
    (∀ c ∈ str "EUR", c < 128) ∧
    (BuildHashKey (str "EUR") 50).2 = wrapLL (hashSum (str "EUR")) ∧
    (BuildHashKey (str "EUR") 50).1 = cRem (wrapLL (hashSum (str "EUR"))) (50 : Nat) ∧
    (hashSum (str "EUR") ≤ LLONG_MAX →
      (BuildHashKey (str "EUR") 50).2 = hashSum (str "EUR") ∧
      (BuildHashKey (str "EUR") 50).1 = hashSum (str "EUR") % (50 : Nat)) :=
  ⟨by decide, BuildHashKey_eq_reference (str "EUR") 50 (by decide)⟩

theorem digitSum_take (l : List Nat) : ∀ m : Nat, digitSum l m = digitSum (l.take m) m := by
  induction l with
  | nil => intro m; simp
  | cons c rest ih =>
    intro m
    cases m with
    | zero => simp [digitSum]
    | succ m => rw [List.take_succ_cons, digitSum, digitSum, ← ih m]

theorem BuildHashKey_hash_suffix (k : CStr) (size : Nat) :
    (BuildHashKey k size).2 = wrapLL (digitSum (k.drop (k.length - 18)).reverse 18) := by
  rw [BuildHashKey_hash_eq, digitSum_take, List.take_reverse]

/-- C2. Two keys whose last 18 characters are equal get the same hash value
and the same position, for every table size. -/
theorem BuildHashKey_suffix_deterministic (k1 k2 : CStr) (size : Nat)
    (h : k1.drop (k1.length - 18) = k2.drop (k2.length - 18)) :
    BuildHashKey k1 size = BuildHashKey k2 size := by
  have h2 : (BuildHashKey k1 size).2 = (BuildHashKey k2 size).2 := by
    rw [BuildHashKey_hash_suffix, BuildHashKey_hash_suffix, h]
  have h1 : (BuildHashKey k1 size).1 = (BuildHashKey k2 size).1 := by
    rw [BuildHashKey_pos_eq, BuildHashKey_pos_eq, h2]
  exact Prod.ext h1 h2

/-- Witness of C2: two keys of 20 and 21 characters with the same last 18. -/
theorem BuildHashKey_suffix_deterministic_witness :
    (str "XXIJKLMNOPQRSTUVWXYZ").drop ((str "XXIJKLMNOPQRSTUVWXYZ").length - 18) =
      (str "ABCIJKLMNOPQRSTUVWXYZ").drop ((str "ABCIJKLMNOPQRSTUVWXYZ").length - 18) ∧
    BuildHashKey (str "XXIJKLMNOPQRSTUVWXYZ") 1500 =
      BuildHashKey (str "ABCIJKLMNOPQRSTUVWXYZ") 1500 :=
  ⟨by decide, BuildHashKey_suffix_deterministic _ _ 1500 (by decide)⟩

theorem hashDigit_range {c : Nat} (h : c < 128) : 0 ≤ hashDigit c ∧ hashDigit c ≤ 95 := by
  rw [hashDigit_eq_adj h]
  unfold adj
  split <;> omega

theorem digitSum_bound (l : List Nat) (hl : ∀ c ∈ l, c < 128) :
    ∀ m : Nat, 0 ≤ digitSum l m ∧ 9 * digitSum l m ≤ 95 * (10 ^ l.length - 1) := by
  induction l with
  | nil => intro m; simp [digitSum]
  | cons c rest ih =>
    intro m
    cases m with
    | zero =>
      have : (1 : Int) ≤ 10 ^ (c :: rest).length := one_le_pow₀ (by norm_num)
      simp only [digitSum]
      omega
    | succ m =>
      have hc := hashDigit_range (hl c (List.mem_cons_self _ _))
      have hr := ih (fun x hx => hl x (List.mem_cons_of_mem _ hx)) m
      have e : (10 : Int) ^ (c :: rest).length = 10 * 10 ^ rest.length := by
        rw [List.length_cons, pow_succ]
        ring
      rw [digitSum, e]
      constructor
      · omega
      · omega

/-- A key of at most 17 ASCII characters cannot overflow the accumulator: its
hash value lies in `[0, LLONG_MAX]` and its position is a valid index. -/
theorem BuildHashKey_in_range (k : CStr) (size : Nat) (hascii : ∀ c ∈ k, c < 128)
    (hlen : k.length ≤ 17) (hsize : 0 < size) :
    0 ≤ (BuildHashKey k size).2 ∧ (BuildHashKey k size).2 ≤ LLONG_MAX ∧
    0 ≤ (BuildHashKey k size).1 ∧ (BuildHashKey k size).1 < size := by
  have hb := digitSum_bound k.reverse (fun c hc => hascii c (List.mem_reverse.mp hc)) 18
  rw [List.length_reverse] at hb
  have hp : (10 : Int) ^ k.length ≤ 10 ^ 17 := pow_le_pow_right₀ (by norm_num) hlen
  have hp' : (10 : Int) ^ 17 = 100000000000000000 := by norm_num
  have hw : wrapLL (digitSum k.reverse 18) = digitSum k.reverse 18 :=
    wrapLL_of_range (by omega) (by omega)
  have h2 : (BuildHashKey k size).2 = digitSum k.reverse 18 := by
    rw [BuildHashKey_hash_eq, hw]
  have hs : (0 : Int) < size := by exact_mod_cast hsize
  refine ⟨by rw [h2]; exact hb.1, by rw [h2]; unfold LLONG_MAX; omega, ?_, ?_⟩
  · rw [BuildHashKey_pos_eq, h2]
    unfold cRem
    rw [Int.tmod_eq_emod hb.1 (by omega)]
    exact Int.emod_nonneg _ (by omega)
  · rw [BuildHashKey_pos_eq, h2]
    unfold cRem
    rw [Int.tmod_eq_emod hb.1 (by omega)]
    exact Int.emod_lt_of_pos _ hs

set_option maxRecDepth 100000 in
/-- C3. The key of eighteen `'z'` is made of printable ASCII characters; its
exact sum 9999999999999999990 exceeds the `long long` maximum, the 64-bit
accumulator holds a negative value and the returned position is negative for
the three table sizes. -/
theorem BuildHashKey_eighteen_z_overflows :
    (∀ c ∈ str "zzzzzzzzzzzzzzzzzz", 32 ≤ c ∧ c < 127) ∧
    hashSum (str "zzzzzzzzzzzzzzzzzz") = 9999999999999999990 ∧
    LLONG_MAX < 9999999999999999990 ∧
    BuildHashKey (str "zzzzzzzzzzzzzzzzzz") HASH_CURRENCY_ARRAY_SIZE =
      (-26, -8446744073709551626) ∧
    BuildHashKey (str "zzzzzzzzzzzzzzzzzz") HASH_ARRAY_SIZE =
      (-1126, -8446744073709551626) ∧
    BuildHashKey (str "zzzzzzzzzzzzzzzzzz") HASH_DODGE_ARRAY_SIZE =
      (-1626, -8446744073709551626) := by
  refine ⟨by decide, ?_, by decide, by decide, by decide, by decide⟩
  rw [← digitSum_reverse_eq_hashSum _ (by decide)]
  decide

/-! ### Trim -/

theorem scanLeft_eq (c : Nat) (s : CStr) :
    scanLeft c s = (s.takeWhile (fun a => decide (a = c))).length := by
  induction s with
  | nil => rfl
  | cons a rest ih =>
    by_cases h : a = c
    · simp [scanLeft, List.takeWhile_cons, h, ih]
    · simp [scanLeft, List.takeWhile_cons, h]

theorem drop_scanLeft (c : Nat) (s : CStr) :
    s.drop (scanLeft c s) = s.dropWhile (fun a => decide (a = c)) := by
  induction s with
  | nil => rfl
  | cons a rest ih =>
    by_cases h : a = c
    · simp [scanLeft, List.dropWhile_cons, h, ih]
    · simp [scanLeft, List.dropWhile_cons, h]

theorem scanLeft_le (c : Nat) (s : CStr) : scanLeft c s ≤ s.length := by
  induction s with
  | nil => simp [scanLeft]
  | cons a rest ih =>
    simp only [scanLeft]
    split
    · simp
      omega
    · simp

theorem LTrim_eq (s : CStr) : LTrim s = s.dropWhile isSpaceChar := by
  have hd := drop_scanLeft 32 s
  have hl := scanLeft_le 32 s
  unfold LTrim
  by_cases h0 : s.length ≠ 0
  · simp only [h0, ne_eq, not_false_eq_true, if_true]
    by_cases h1 : (scanLeft 32 s : Int) ≤ (s.length : Int) - 1
    · rw [if_pos h1]
      exact hd
    · rw [if_neg h1]
      have : scanLeft 32 s = s.length := by omega
      rw [this, List.drop_length] at hd
      exact hd
  · have : s = [] := List.length_eq_zero.mp (by omega)
    subst this
    rfl

theorem scanRight_append (s t : CStr) :
    ∀ n : Nat, n ≤ s.length → scanRight (s ++ t) n = scanRight s n := by
  intro n
  induction n with
  | zero => intro _; rfl
  | succ n ih =>
    intro hn
    have hg : (s ++ t).getD n 0 = s.getD n 0 := List.getD_append s t 0 n (by omega)
    simp only [scanRight, hg]
    rw [ih (by omega)]

theorem scanRight_le (s : CStr) : ∀ n : Nat, scanRight s n ≤ n := by
  intro n
  induction n with
  | zero => simp [scanRight]
  | succ n ih =>
    simp only [scanRight]
    split <;> omega

theorem take_scanRight (s : CStr) :
    s.take (scanRight s s.length) = s.rdropWhile isSpaceChar := by
  induction s using List.reverseRecOn with
  | nil => rfl
  | append_singleton l a ih =>
    have hg : (l ++ [a]).getD l.length 0 = a := by
      rw [List.getD_eq_getElem?_getD]
      simp
    rw [List.length_append, List.length_singleton, scanRight, hg, List.rdropWhile_concat]
    by_cases ha : a = 32
    · have hp : isSpaceChar a = true := by simp [isSpaceChar, ha]
      rw [if_pos ha, if_pos hp, scanRight_append l [a] l.length (le_refl _),
        List.take_append_of_le_length (scanRight_le l l.length), ih]
    · have hp : ¬ isSpaceChar a = true := by simp [isSpaceChar, ha]
      rw [if_neg ha, if_neg hp]
      have : l.length + 1 = (l ++ [a]).length := by simp
      rw [this, List.take_length]

theorem RTrim_eq (s : CStr) : RTrim s = s.rdropWhile isSpaceChar := by
  unfold RTrim
  by_cases h0 : s.length ≠ 0
  · rw [if_pos h0]
    exact take_scanRight s
  · have : s = [] := List.length_eq_zero.mp (by omega)
    subst this
    rfl

theorem Trim_eq_stripSpaces (s : CStr) : Trim s = stripSpaces s := by
  unfold Trim stripSpaces
  rw [LTrim_eq, RTrim_eq]

/-! ### isNumeric -/

theorem findSign_spec (f : CStr) :
    ∀ i : Nat,
      (f.find? isSignChar = none ∧ findSign f i = (32, 0) ∧ f.eraseP isSignChar = f) ∨
      (∃ c n, f.find? isSignChar = some c ∧ findSign f i = (c, i + n) ∧ (c = 43 ∨ c = 45) ∧
        f.take n ++ f.drop (n + 1) = f.eraseP isSignChar) := by
  induction f with
  | nil => intro i; left; exact ⟨rfl, rfl, rfl⟩
  | cons a rest ih =>
    intro i
    by_cases ha : a = 43 ∨ a = 45
    · right
      have hp : isSignChar a = true := by simp [isSignChar, ha]
      refine ⟨a, 0, ?_, ?_, ha, ?_⟩
      · simp [List.find?_cons, hp]
      · simp [findSign, ha]
      · simp [List.eraseP_cons, hp]
    · have hp : isSignChar a = false := by simp [isSignChar, ha]
      rcases ih (i + 1) with ⟨h1, h2, h3⟩ | ⟨c, n, h1, h2, h3, h4⟩
      · left
        refine ⟨?_, ?_, ?_⟩
        · simp [List.find?_cons, hp, h1]
        · simp [findSign, ha, h2]
        · simp [List.eraseP_cons, hp, h3]
      · right
        refine ⟨c, n + 1, ?_, ?_, h3, ?_⟩
        · simp [List.find?_cons, hp, h1]
        · simp only [findSign, if_neg ha, h2]
          congr 1
          omega
        · simp [List.eraseP_cons, hp, h4]

theorem all_isdigit_iff (s : CStr) :
    s.all isdigit = true ↔ ∀ c ∈ s, 48 ≤ c ∧ c ≤ 57 := by
  simp [List.all_eq_true, isdigit]

theorem isNumeric_eq (f : CStr) (hf : f ≠ []) (s0 : Int) :
    isNumeric f s0 =
      if (numericRemainder f).all isdigit then (TRUE, numericRemainder f, describedSign f)
      else (FALSE, f, 0) := by
  have hlen : f.length ≠ 0 := fun h => hf (List.length_eq_zero.mp h)
  unfold isNumeric
  rw [if_pos hlen]
  rcases findSign_spec f 0 with ⟨h1, h2, h3⟩ | ⟨c, n, h1, h2, h3, h4⟩
  · have hd : describedSign f = 1 := by simp [describedSign, h1]
    have hr : numericRemainder f = Trim f := by
      rw [Trim_eq_stripSpaces, numericRemainder, deleteFirstSign, h3]
    simp only [h2, hd, hr]
    simp
  · have hr : numericRemainder f = Trim (f.take n ++ f.drop (n + 1)) := by
      rw [Trim_eq_stripSpaces, numericRemainder, deleteFirstSign, h4]
    have hd : describedSign f = if c = 43 then 1 else -1 := by
      rcases h3 with h | h
      · subst h
        simp [describedSign, h1]
      · subst h
        simp [describedSign, h1]
    simp only [h2, hd, hr, Nat.zero_add]
    simp [h3]

/-- C10. For every non-empty field, `isNumeric` returns TRUE iff every
character left after deleting the first `'+'` or `'-'` and stripping the
surrounding spaces is a decimal digit; on TRUE the output string is that
remainder and the sign is -1 iff the deleted character was `'-'`, else +1; on
FALSE the output string is the original field and the sign is 0. -/
theorem isNumeric_characterization (f : CStr) (hf : f ≠ []) (s0 : Int) :
    ((isNumeric f s0).1 = TRUE ↔ ∀ c ∈ numericRemainder f, 48 ≤ c ∧ c ≤ 57) ∧
    ((isNumeric f s0).1 = TRUE →
      (isNumeric f s0).2.1 = numericRemainder f ∧
      (isNumeric f s0).2.2 = (if f.find? isSignChar = some 45 then -1 else 1)) ∧
    ((isNumeric f s0).1 ≠ TRUE →
      (isNumeric f s0).1 = FALSE ∧ (isNumeric f s0).2.1 = f ∧ (isNumeric f s0).2.2 = 0) := by
  rw [isNumeric_eq f hf s0, ← all_isdigit_iff]
  by_cases h : (numericRemainder f).all isdigit = true
  · simp [h, TRUE, describedSign]
  · simp [h, TRUE, FALSE]

/-- Witness of C10 at the field `"12-34"`. -/
theorem isNumeric_characterization_witness :
    str "12-34" ≠ [] ∧
    ((isNumeric (str "12-34") 0).1 = TRUE ↔
      ∀ c ∈ numericRemainder (str "12-34"), 48 ≤ c ∧ c ≤ 57) ∧
    ((isNumeric (str "12-34") 0).1 = TRUE →
      (isNumeric (str "12-34") 0).2.1 = numericRemainder (str "12-34") ∧
      (isNumeric (str "12-34") 0).2.2 =
        (if (str "12-34").find? isSignChar = some 45 then -1 else 1)) ∧
    ((isNumeric (str "12-34") 0).1 ≠ TRUE →
      (isNumeric (str "12-34") 0).1 = FALSE ∧ (isNumeric (str "12-34") 0).2.1 = str "12-34" ∧
      (isNumeric (str "12-34") 0).2.2 = 0) :=
  ⟨by decide, isNumeric_characterization (str "12-34") (by decide) 0⟩

/-- The two examples given with the characterization: `"12-34"` gives
`"1234"` with sign -1 and `"+-5"` is rejected. -/
theorem isNumeric_examples :
    isNumeric (str "12-34") 0 = (TRUE, str "1234", -1) ∧
    isNumeric (str "+-5") 0 = (FALSE, str "+-5", 0) := by
  constructor <;> decide

/-! ### Insertion loop -/

theorem Table.set_same {S : Type} (t : Table S) (x y : Nat) (s : S) : (t.set x y s) x y = s := by
  simp [Table.set]

theorem Table.set_other {S : Type} (t : Table S) (x y : Nat) (s : S) (i j : Nat)
    (h : ¬ (i = x ∧ j = y)) : (t.set x y s) i j = t i j := by
  simp [Table.set, h]

/-- The insertion loop started at row `x` leaves the rows before `x` and the
other columns untouched. -/
theorem addLoop_other {S : Type} (hashOf : S → Int) (keyOf : S → CStr) (y : Nat) (key : CStr)
    (new : S) :
    ∀ (n x : Nat) (t : Table S) (i j : Nat), (i < x ∨ j ≠ y) →
      addLoop hashOf keyOf y key new n x t i j = t i j := by
  intro n
  induction n with
  | zero => intro x t i j _; rfl
  | succ n ih =>
    intro x t i j h
    rw [addLoop]
    split
    · split
      · rfl
      · exact ih (x + 1) t i j (by omega)
    · exact Table.set_other t x y new i j (by omega)

/-- Outcome of the insertion loop: the table is unchanged because the key is
already stored, or because every row of the column is taken by another key,
or the new element is written to the first free row. -/
theorem addLoop_cases {S : Type} (hashOf : S → Int) (keyOf : S → CStr) (y : Nat) (key : CStr)
    (new : S) :
    ∀ (n x : Nat) (t : Table S),
      (addLoop hashOf keyOf y key new n x t = t ∧
        ∃ x0, x ≤ x0 ∧ x0 < x + n ∧ hashOf (t x0 y) ≠ -1 ∧ keyOf (t x0 y) = key) ∨
      (addLoop hashOf keyOf y key new n x t = t ∧
        ∀ i, x ≤ i → i < x + n → hashOf (t i y) ≠ -1 ∧ keyOf (t i y) ≠ key) ∨
      (∃ x0, x ≤ x0 ∧ x0 < x + n ∧ hashOf (t x0 y) = -1 ∧
        (∀ i, x ≤ i → i < x0 → hashOf (t i y) ≠ -1 ∧ keyOf (t i y) ≠ key) ∧
        addLoop hashOf keyOf y key new n x t = t.set x0 y new) := by
  intro n
  induction n with
  | zero =>
    intro x t
    right; left
    exact ⟨rfl, fun i h1 h2 => by omega⟩
  | succ n ih =>
    intro x t
    rw [addLoop]
    by_cases hocc : hashOf (t x y) ≠ -1
    · rw [if_pos hocc]
      by_cases hkey : keyOf (t x y) = key
      · rw [if_pos hkey]
        left
        exact ⟨rfl, x, le_refl _, by omega, hocc, hkey⟩
      · rw [if_neg hkey]
        rcases ih (x + 1) t with ⟨h1, x0, h2, h3, h4, h5⟩ | ⟨h1, h2⟩ | ⟨x0, h1, h2, h3, h4, h5⟩
        · left
          exact ⟨h1, x0, by omega, by omega, h4, h5⟩
        · right; left
          refine ⟨h1, fun i hi1 hi2 => ?_⟩
          by_cases hix : i = x
          · subst hix
            exact ⟨hocc, hkey⟩
          · exact h2 i (by omega) (by omega)
        · right; right
          refine ⟨x0, by omega, by omega, h3, fun i hi1 hi2 => ?_, h5⟩
          by_cases hix : i = x
          · subst hix
            exact ⟨hocc, hkey⟩
          · exact h4 i (by omega) hi2
    · rw [if_neg hocc]
      right; right
      exact ⟨x, le_refl _, by omega, not_not.mp hocc, fun i h1 h2 => by omega, rfl⟩

/-- A second insertion under the key of the element just written changes
nothing, whatever element it carries. -/
theorem addLoop_idem {S : Type} (hashOf : S → Int) (keyOf : S → CStr) (y : Nat) (key : CStr)
    (new new2 : S) (hnew : hashOf new ≠ -1) (hkey : keyOf new = key) :
    ∀ (n x : Nat) (t : Table S),
      addLoop hashOf keyOf y key new2 n x (addLoop hashOf keyOf y key new n x t) =
        addLoop hashOf keyOf y key new n x t := by
  intro n
  induction n with
  | zero => intro x t; rfl
  | succ n ih =>
    intro x t
    by_cases hocc : hashOf (t x y) ≠ -1
    · by_cases hk : keyOf (t x y) = key
      · have e : addLoop hashOf keyOf y key new (n + 1) x t = t := by
          rw [addLoop, if_pos hocc, if_pos hk]
        rw [e, addLoop, if_pos hocc, if_pos hk]
      · have e : addLoop hashOf keyOf y key new (n + 1) x t =
            addLoop hashOf keyOf y key new n (x + 1) t := by
          rw [addLoop, if_pos hocc, if_neg hk]
        have hx : addLoop hashOf keyOf y key new n (x + 1) t x y = t x y :=
          addLoop_other hashOf keyOf y key new n (x + 1) t x y (by omega)
        rw [e, addLoop, hx, if_pos hocc, if_neg hk]
        exact ih (x + 1) t
    · have e : addLoop hashOf keyOf y key new (n + 1) x t = t.set x y new := by
        rw [addLoop, if_neg hocc]
      rw [e, addLoop, Table.set_same, if_pos hnew, if_pos hkey]

/-- A hash value whose position is a valid index is not the sentinel -1. -/
theorem hash_ne_sentinel (k : CStr) (size : Nat) (hsize : 2 ≤ size)
    (h : 0 ≤ (BuildHashKey k size).1) : (BuildHashKey k size).2 ≠ -1 := by
  intro h1
  rw [BuildHashKey_pos_eq, h1] at h
  have : cRem (-1) (size : Int) = -1 := by
    have e : Int.tmod (-1) (size : Int) = -(((1 % size : Nat)) : Int) := rfl
    unfold cRem
    rw [e, Nat.mod_eq_of_lt (by omega)]
    rfl
  omega

/-- Two insertions in a row under one key, for a table described by its
accessors: the second one changes nothing. -/
theorem add_twice {S : Type} (hashOf : S → Int) (keyOf : S → CStr) (size : Nat)
    (hsize : 2 ≤ size) (key : CStr) (new new2 : S) (t : Table S)
    (hnew : hashOf new = (BuildHashKey key size).2) (hkey : keyOf new = key) :
    (if 0 ≤ (BuildHashKey key size).1 then
        some (addLoop hashOf keyOf (BuildHashKey key size).1.toNat key new size 0 t)
      else none).bind
      (fun t' =>
        if 0 ≤ (BuildHashKey key size).1 then
          some (addLoop hashOf keyOf (BuildHashKey key size).1.toNat key new2 size 0 t')
        else none) =
    (if 0 ≤ (BuildHashKey key size).1 then
        some (addLoop hashOf keyOf (BuildHashKey key size).1.toNat key new size 0 t)
      else none) := by
  by_cases h : 0 ≤ (BuildHashKey key size).1
  · have hne : hashOf new ≠ -1 := by
      rw [hnew]
      exact hash_ne_sentinel key size hsize h
    rw [if_pos h]
    show (if 0 ≤ (BuildHashKey key size).1 then some _ else none) = _
    rw [if_pos h, addLoop_idem hashOf keyOf _ key new new2 hne hkey]
  · simp only [if_neg h, Option.bind_none]

/-- C7. In each of the four reference tables (SIAM, RTS, CURRENCY,
COMPTE_DODGE) and for every table state, an insertion that follows an
insertion under the same key leaves the table as the first insertion left it,
whether the payload is the same or not. -/
theorem insert_twice_first_wins :
    (∀ (t : Table SIAMHashElt) (k sc cpy rts lib typ sc2 cpy2 rts2 lib2 typ2 : CStr),
      (AddElementInSIAMHashKeyTable t ⟨k, sc, cpy, rts, lib, typ⟩).bind
          (fun t1 => AddElementInSIAMHashKeyTable t1 ⟨k, sc2, cpy2, rts2, lib2, typ2⟩) =
        AddElementInSIAMHashKeyTable t ⟨k, sc, cpy, rts, lib, typ⟩) ∧
    (∀ (t : Table RTSHashElt) (k siam sc cpy lib typ siam2 sc2 cpy2 lib2 typ2 : CStr),
      (AddElementInRTSHashKeyTable t ⟨siam, sc, cpy, k, lib, typ⟩).bind
          (fun t1 => AddElementInRTSHashKeyTable t1 ⟨siam2, sc2, cpy2, k, lib2, typ2⟩) =
        AddElementInRTSHashKeyTable t ⟨siam, sc, cpy, k, lib, typ⟩) ∧
    (∀ (t : Table CURRENCYHashElt) (k d d2 : CStr),
      (AddElementInCURRENCYHashKeyTable t ⟨k, d⟩).bind
          (fun t1 => AddElementInCURRENCYHashKeyTable t1 ⟨k, d2⟩) =
        AddElementInCURRENCYHashKeyTable t ⟨k, d⟩) ∧
    (∀ (t : Table COMPTE_DODGEHashElt) (k bil ie tva bil2 ie2 tva2 : CStr),
      (AddElementInCOMPTE_DODGEHashKeyTable t ⟨k, bil, ie, tva⟩).bind
          (fun t1 => AddElementInCOMPTE_DODGEHashKeyTable t1 ⟨k, bil2, ie2, tva2⟩) =
        AddElementInCOMPTE_DODGEHashKeyTable t ⟨k, bil, ie, tva⟩) := by
  refine ⟨?_, ?_, ?_, ?_⟩
  · intro t k sc cpy rts lib typ sc2 cpy2 rts2 lib2 typ2
    exact add_twice SIAMHashElt.SIAMHashKey SIAMHashElt.strSIAM HASH_ARRAY_SIZE (by decide) k
      _ _ t rfl rfl
  · intro t k siam sc cpy lib typ siam2 sc2 cpy2 lib2 typ2
    exact add_twice RTSHashElt.RTSHashKey RTSHashElt.strRTS_SC_ID HASH_ARRAY_SIZE (by decide) k
      _ _ t rfl rfl
  · intro t k d d2
    exact add_twice CURRENCYHashElt.CURRENCYHashKey CURRENCYHashElt.strCURRENCY_CD
      HASH_CURRENCY_ARRAY_SIZE (by decide) k _ _ t rfl rfl
  · intro t k bil ie tva bil2 ie2 tva2
    exact add_twice COMPTE_DODGEHashElt.COMPTE_DODGEHashKey COMPTE_DODGEHashElt.strCOMPTE_DODGE
      HASH_DODGE_ARRAY_SIZE (by decide) k _ _ t rfl rfl

/-! ### Invariants of the reachable states -/

theorem inv_addLoop {S : Type} (hashOf : S → Int) (keyOf : S → CStr) (size : Nat) (y : Nat)
    (key : CStr) (new : S) (t : Table S) (hinv : TableInv hashOf keyOf size t)
    (hpos : (BuildHashKey key size).1 = (y : Int)) (hnew : hashOf new ≠ -1)
    (hkey : keyOf new = key) :
    TableInv hashOf keyOf size (addLoop hashOf keyOf y key new size 0 t) := by
  rcases addLoop_cases hashOf keyOf y key new size 0 t with
    ⟨h1, _⟩ | ⟨h1, _⟩ | ⟨x0, _, hx0, hfree, hbefore, h1⟩
  · rw [h1]; exact hinv
  · rw [h1]; exact hinv
  · rw [h1]
    have hslot : ∀ i j, (i = x0 ∧ j = y ∧ t.set x0 y new i j = new) ∨
        (¬ (i = x0 ∧ j = y) ∧ t.set x0 y new i j = t i j) := by
      intro i j
      by_cases h : i = x0 ∧ j = y
      · left
        rcases h with ⟨rfl, rfl⟩
        exact ⟨rfl, rfl, Table.set_same t _ _ new⟩
      · right
        exact ⟨h, Table.set_other t x0 y new i j h⟩
    have hold : ∀ i j, hashOf (t i j) ≠ -1 → keyOf (t i j) = key → False := by
      intro i j hocc hk
      have hj : (j : Int) = (y : Int) := by
        rw [← hinv.placed i j hocc, hk, hpos]
      have hj' : j = y := by exact_mod_cast hj
      subst hj'
      rcases Nat.lt_trichotomy i x0 with hlt | heq | hgt
      · exact (hbefore i (Nat.zero_le _) hlt).2 hk
      · subst heq
        exact hocc hfree
      · exact hinv.pref i j hocc x0 hgt hfree
    refine ⟨?_, ?_, ?_, ?_, ?_⟩
    · intro i j hocc
      rcases hslot i j with ⟨rfl, rfl, e⟩ | ⟨_, e⟩
      · rw [e, hkey]; exact hpos
      · rw [e] at hocc ⊢
        exact hinv.placed i j hocc
    · intro i j hocc
      rcases hslot i j with ⟨rfl, rfl, _⟩ | ⟨_, e⟩
      · omega
      · rw [e] at hocc
        exact hinv.rows i j hocc
    · intro i j hocc i' hi'
      have hprev : hashOf (t i' j) ≠ -1 := by
        rcases hslot i j with ⟨rfl, rfl, _⟩ | ⟨_, e⟩
        · exact (hbefore i' (Nat.zero_le _) hi').1
        · rw [e] at hocc
          exact hinv.pref i j hocc i' hi'
      rcases hslot i' j with ⟨_, _, e⟩ | ⟨_, e⟩
      · rw [e]; exact hnew
      · rw [e]; exact hprev
    · intro i j i' j' hocc hocc' hk
      rcases hslot i j with ⟨rfl, rfl, e⟩ | ⟨_, e⟩
      · rcases hslot i' j' with ⟨rfl, rfl, _⟩ | ⟨_, e'⟩
        · exact ⟨rfl, rfl⟩
        · rw [e'] at hocc'
          rw [e, e', hkey] at hk
          exact (hold i' j' hocc' hk.symm).elim
      · rcases hslot i' j' with ⟨rfl, rfl, e'⟩ | ⟨_, e'⟩
        · rw [e] at hocc
          rw [e, e', hkey] at hk
          exact (hold i j hocc hk).elim
        · rw [e] at hocc
          rw [e'] at hocc'
          rw [e, e'] at hk
          exact hinv.nodup i j i' j' hocc hocc' hk
    · intro i j hfr
      rcases hslot i j with ⟨_, _, e⟩ | ⟨_, e⟩
      · rw [e] at hfr
        exact (hnew hfr).elim
      · rw [e] at hfr ⊢
        exact hinv.emptyKey i j hfr

/-- Every state reached by insertions satisfies the table invariant, for a
table described by its accessors. -/
theorem reachable_inv {S R : Type} (hashOf : S → Int) (keyOf : S → CStr) (size : Nat)
    (hsize : 2 ≤ size) (init : Table S) (add : Table S → R → Option (Table S))
    (recKey : R → CStr) (mk : R → Int → S)
    (hinit : ∀ x y, hashOf (init x y) = -1 ∧ keyOf (init x y) = [])
    (hadd : ∀ t r, add t r =
      if 0 ≤ (BuildHashKey (recKey r) size).1 then
        some (addLoop hashOf keyOf (BuildHashKey (recKey r) size).1.toNat (recKey r)
          (mk r (BuildHashKey (recKey r) size).2) size 0 t)
      else none)
    (hmk1 : ∀ r h, hashOf (mk r h) = h) (hmk2 : ∀ r h, keyOf (mk r h) = recKey r) :
    ∀ t, Reachable init add t → TableInv hashOf keyOf size t := by
  intro t ht
  induction ht with
  | init =>
    exact ⟨fun x y h => (h (hinit x y).1).elim, fun x y h => (h (hinit x y).1).elim,
      fun x y h => (h (hinit x y).1).elim, fun x y _ _ h => (h (hinit x y).1).elim,
      fun x y _ => (hinit x y).2⟩
  | @step t0 t1 r _ hstep ih =>
    rw [hadd] at hstep
    by_cases hp : 0 ≤ (BuildHashKey (recKey r) size).1
    · rw [if_pos hp] at hstep
      have e := Option.some.inj hstep
      rw [← e]
      apply inv_addLoop hashOf keyOf size _ (recKey r) _ t0 ih
      · exact (Int.toNat_of_nonneg hp).symm
      · rw [hmk1]
        exact hash_ne_sentinel _ size hsize hp
      · exact hmk2 _ _
    · rw [if_neg hp] at hstep
      exact (Option.noConfusion hstep)

theorem reachable_inv_SIAM (t : Table SIAMHashElt)
    (h : Reachable InitializeSIAMHashKeyTable AddElementInSIAMHashKeyTable t) :
    TableInv SIAMHashElt.SIAMHashKey SIAMHashElt.strSIAM HASH_ARRAY_SIZE t :=
  reachable_inv SIAMHashElt.SIAMHashKey SIAMHashElt.strSIAM HASH_ARRAY_SIZE (by decide) _ _
    RefTiersFile.strSIAM
    (fun r h => ⟨h, r.strSIAM, r.strRICOS_SC_ID, r.strRICOS_CPY_ID⟩)
    (fun _ _ => ⟨rfl, rfl⟩) (fun _ _ => rfl) (fun _ _ => rfl) (fun _ _ => rfl) t h

theorem reachable_inv_RTS (t : Table RTSHashElt)
    (h : Reachable InitializeRTSHashKeyTable AddElementInRTSHashKeyTable t) :
    TableInv RTSHashElt.RTSHashKey RTSHashElt.strRTS_SC_ID HASH_ARRAY_SIZE t :=
  reachable_inv RTSHashElt.RTSHashKey RTSHashElt.strRTS_SC_ID HASH_ARRAY_SIZE (by decide) _ _
    RefTiersFile.strRTS_SC_ID
    (fun r h => ⟨h, r.strRTS_SC_ID, r.strRICOS_SC_ID, r.strRICOS_CPY_ID⟩)
    (fun _ _ => ⟨rfl, rfl⟩) (fun _ _ => rfl) (fun _ _ => rfl) (fun _ _ => rfl) t h

theorem reachable_inv_CURRENCY (t : Table CURRENCYHashElt)
    (h : Reachable InitializeCURRENCYHashKeyTable AddElementInCURRENCYHashKeyTable t) :
    TableInv CURRENCYHashElt.CURRENCYHashKey CURRENCYHashElt.strCURRENCY_CD
      HASH_CURRENCY_ARRAY_SIZE t :=
  reachable_inv CURRENCYHashElt.CURRENCYHashKey CURRENCYHashElt.strCURRENCY_CD
    HASH_CURRENCY_ARRAY_SIZE (by decide) _ _ RefCurrencyFile.strCURRENCY_CD
    (fun r h => ⟨h, r.strCURRENCY_CD, r.strDECIMAL_POS⟩)
    (fun _ _ => ⟨rfl, rfl⟩) (fun _ _ => rfl) (fun _ _ => rfl) (fun _ _ => rfl) t h

theorem reachable_inv_COMPTE_DODGE (t : Table COMPTE_DODGEHashElt)
    (h : Reachable InitializeCOMPTE_DODGEHashKeyTable AddElementInCOMPTE_DODGEHashKeyTable t) :
    TableInv COMPTE_DODGEHashElt.COMPTE_DODGEHashKey COMPTE_DODGEHashElt.strCOMPTE_DODGE
      HASH_DODGE_ARRAY_SIZE t :=
  reachable_inv COMPTE_DODGEHashElt.COMPTE_DODGEHashKey COMPTE_DODGEHashElt.strCOMPTE_DODGE
    HASH_DODGE_ARRAY_SIZE (by decide) _ _ RefRcaCptFile.strCOMPTE_DODGE
    (fun r h => ⟨h, r.strCOMPTE_DODGE, r.strTOP_BILAN, hbImputation r.strTOP_BILAN,
      r.strTOP_INT_EXT, r.strTVA⟩)
    (fun _ _ => ⟨rfl, rfl⟩) (fun _ _ => rfl) (fun _ _ => rfl) (fun _ _ => rfl) t h

/-- C8. Starting from the initialized table, after any sequence of insertions
no two occupied elements of a reference table hold the same primary key, and
in each column the occupied elements form a prefix of the rows; this holds for
the SIAM, RTS, CURRENCY and COMPTE_DODGE tables. -/
theorem reachable_no_duplicate_key :
    (∀ t, Reachable InitializeSIAMHashKeyTable AddElementInSIAMHashKeyTable t →
      NoDuplicateKey SIAMHashElt.SIAMHashKey SIAMHashElt.strSIAM t ∧
      OccupiedPrefix SIAMHashElt.SIAMHashKey t) ∧
    (∀ t, Reachable InitializeRTSHashKeyTable AddElementInRTSHashKeyTable t →
      NoDuplicateKey RTSHashElt.RTSHashKey RTSHashElt.strRTS_SC_ID t ∧
      OccupiedPrefix RTSHashElt.RTSHashKey t) ∧
    (∀ t, Reachable InitializeCURRENCYHashKeyTable AddElementInCURRENCYHashKeyTable t →
      NoDuplicateKey CURRENCYHashElt.CURRENCYHashKey CURRENCYHashElt.strCURRENCY_CD t ∧
      OccupiedPrefix CURRENCYHashElt.CURRENCYHashKey t) ∧
    (∀ t, Reachable InitializeCOMPTE_DODGEHashKeyTable AddElementInCOMPTE_DODGEHashKeyTable t →
      NoDuplicateKey COMPTE_DODGEHashElt.COMPTE_DODGEHashKey
        COMPTE_DODGEHashElt.strCOMPTE_DODGE t ∧
      OccupiedPrefix COMPTE_DODGEHashElt.COMPTE_DODGEHashKey t) :=
  ⟨fun t h => ⟨(reachable_inv_SIAM t h).nodup, (reachable_inv_SIAM t h).pref⟩,
   fun t h => ⟨(reachable_inv_RTS t h).nodup, (reachable_inv_RTS t h).pref⟩,
   fun t h => ⟨(reachable_inv_CURRENCY t h).nodup, (reachable_inv_CURRENCY t h).pref⟩,
   fun t h => ⟨(reachable_inv_COMPTE_DODGE t h).nodup, (reachable_inv_COMPTE_DODGE t h).pref⟩⟩

theorem sampleCurrencyTable_add :
    AddElementInCURRENCYHashKeyTable InitializeCURRENCYHashKeyTable ⟨str "EUR", str "2"⟩ =
      some sampleCurrencyTable := by
  rfl

theorem sampleCurrencyTable_reachable :
    Reachable InitializeCURRENCYHashKeyTable AddElementInCURRENCYHashKeyTable
      sampleCurrencyTable :=
  Reachable.step Reachable.init sampleCurrencyTable_add

/-- Witness of C8 on the currency table that holds `"EUR"`. -/
theorem reachable_no_duplicate_key_witness :
    Reachable InitializeCURRENCYHashKeyTable AddElementInCURRENCYHashKeyTable
      sampleCurrencyTable ∧
    NoDuplicateKey CURRENCYHashElt.CURRENCYHashKey CURRENCYHashElt.strCURRENCY_CD
      sampleCurrencyTable ∧
    OccupiedPrefix CURRENCYHashElt.CURRENCYHashKey sampleCurrencyTable :=
  ⟨sampleCurrencyTable_reachable,
    reachable_no_duplicate_key.2.2.1 sampleCurrencyTable sampleCurrencyTable_reachable⟩

/-! ### Lookup loops -/

theorem findLoopStrcmp_found {S : Type} (keyOf : S → CStr) (y : Nat) (k : CStr) (t : Table S)
    (x0 : Nat) (hk : keyOf (t x0 y) = k) :
    ∀ (n x : Nat), x ≤ x0 → x0 < x + n → (∀ i, x ≤ i → i < x0 → keyOf (t i y) ≠ k) →
      findLoopStrcmp keyOf y k t n x = found x0 y := by
  intro n
  induction n with
  | zero => intro x h1 h2 _; omega
  | succ n ih =>
    intro x h1 h2 hb
    rw [findLoopStrcmp]
    by_cases hx : x = x0
    · subst hx
      rw [if_pos hk]
    · rw [if_neg (hb x (le_refl _) (by omega))]
      exact ih (x + 1) (by omega) (by omega) (fun i hi1 hi2 => hb i (by omega) hi2)

theorem findLoopStrcmp_congr {S : Type} (keyOf : S → CStr) (y : Nat) (k : CStr)
    (t t' : Table S) (h : ∀ i, keyOf (t i y) = k ↔ keyOf (t' i y) = k) :
    ∀ (n x : Nat), findLoopStrcmp keyOf y k t n x = findLoopStrcmp keyOf y k t' n x := by
  intro n
  induction n with
  | zero => intro x; rfl
  | succ n ih =>
    intro x
    rw [findLoopStrcmp, findLoopStrcmp]
    by_cases hx : keyOf (t x y) = k
    · rw [if_pos hx, if_pos ((h x).mp hx)]
    · rw [if_neg hx, if_neg (fun h' => hx ((h x).mpr h'))]
      exact ih (x + 1)

theorem dropWhile_no_space (l : CStr) (h : ∀ ch ∈ l, ch ≠ 32) : l.dropWhile isSpaceChar = l := by
  cases l with
  | nil => rfl
  | cons a rest =>
    have : isSpaceChar a = false := by simp [isSpaceChar, h a (List.mem_cons_self _ _)]
    simp [List.dropWhile_cons, this]

theorem rdropWhile_no_space (l : CStr) (h : ∀ ch ∈ l, ch ≠ 32) :
    l.rdropWhile isSpaceChar = l := by
  induction l using List.reverseRecOn with
  | nil => rfl
  | append_singleton l a _ =>
    have : ¬ isSpaceChar a = true := by simp [isSpaceChar, h a (by simp)]
    exact List.rdropWhile_concat_neg _ _ _ this

theorem Trim_no_space (l : CStr) (h : ∀ ch ∈ l, ch ≠ 32) : Trim l = l := by
  rw [Trim_eq_stripSpaces, stripSpaces, dropWhile_no_space l h, rdropWhile_no_space l h]

/-! ### Currency table: insertion then lookup -/

theorem FindElementInCURRENCY_eq (t : Table CURRENCYHashElt) (k : CStr) :
    FindElementInCURRENCYHashArrayTable t k =
      if (Trim k).length > 0 then
        if 0 ≤ (BuildHashKey (Trim k) HASH_CURRENCY_ARRAY_SIZE).1 then
          some (findLoopStrcmp CURRENCYHashElt.strCURRENCY_CD
            (BuildHashKey (Trim k) HASH_CURRENCY_ARRAY_SIZE).1.toNat (Trim k) t
            HASH_CURRENCY_ARRAY_SIZE 0)
        else none
      else some notFound := rfl

/-- C5 as stated fails on keys that differ from the inserted code only by
surrounding spaces: `"EUR "` is another key than `"EUR"`, its lookup misses
before the insertion of `"EUR"` and hits after it. -/
theorem currency_other_key_counterexample :
    str "EUR " ≠ str "EUR" ∧
    FindElementInCURRENCYHashArrayTable InitializeCURRENCYHashKeyTable (str "EUR ") =
      some notFound ∧
    (AddElementInCURRENCYHashKeyTable InitializeCURRENCYHashKeyTable ⟨str "EUR", str "2"⟩).bind
      (fun t => FindElementInCURRENCYHashArrayTable t (str "EUR ")) = some (found 0 30) := by
  refine ⟨by decide, by decide, by decide⟩

/-- C5 (amended). In a currency table reached by insertions, for a non-empty
code `c` without spaces that is not stored yet and whose column has a free
row, after the insertion of `(c, d)` the lookup of `c` returns HASH_KEY_FOUND
at a position whose `strDECIMAL_POS` is `d`, and the lookup of every key whose
trimmed form differs from `c` returns what it returned before. -/
theorem currency_insert_then_lookup (t t' : Table CURRENCYHashElt) (c d : CStr)
    (hreach : Reachable InitializeCURRENCYHashKeyTable AddElementInCURRENCYHashKeyTable t)
    (hne : c ≠ []) (hnosp : ∀ ch ∈ c, ch ≠ 32)
    (habsent : ∀ x y, (t x y).CURRENCYHashKey ≠ -1 → (t x y).strCURRENCY_CD ≠ c)
    (hroom : ∃ x, x < HASH_CURRENCY_ARRAY_SIZE ∧
      (t x (BuildHashKey c HASH_CURRENCY_ARRAY_SIZE).1.toNat).CURRENCYHashKey = -1)
    (hadd : AddElementInCURRENCYHashKeyTable t ⟨c, d⟩ = some t') :
    (∃ x y, FindElementInCURRENCYHashArrayTable t' c = some (found x y) ∧
      (t' x y).strDECIMAL_POS = d) ∧
    (∀ k, Trim k ≠ c →
      FindElementInCURRENCYHashArrayTable t' k = FindElementInCURRENCYHashArrayTable t k) := by
  have hinv := reachable_inv_CURRENCY t hreach
  have hlen : c.length > 0 := List.length_pos.mpr hne
  have hadd' : (if 0 ≤ (BuildHashKey c HASH_CURRENCY_ARRAY_SIZE).1 then
      some (addLoop CURRENCYHashElt.CURRENCYHashKey CURRENCYHashElt.strCURRENCY_CD
        (BuildHashKey c HASH_CURRENCY_ARRAY_SIZE).1.toNat c
        ⟨(BuildHashKey c HASH_CURRENCY_ARRAY_SIZE).2, c, d⟩ HASH_CURRENCY_ARRAY_SIZE 0 t)
      else none) = some t' := hadd
  by_cases hp : 0 ≤ (BuildHashKey c HASH_CURRENCY_ARRAY_SIZE).1
  · rw [if_pos hp] at hadd'
    have e := Option.some.inj hadd'
    rcases addLoop_cases CURRENCYHashElt.CURRENCYHashKey CURRENCYHashElt.strCURRENCY_CD
        (BuildHashKey c HASH_CURRENCY_ARRAY_SIZE).1.toNat c
        ⟨(BuildHashKey c HASH_CURRENCY_ARRAY_SIZE).2, c, d⟩ HASH_CURRENCY_ARRAY_SIZE 0 t with
      ⟨_, x0, _, _, h4, h5⟩ | ⟨_, h2⟩ | ⟨x0, _, hx0, hfree, hbefore, h1⟩
    · exact (habsent _ _ h4 h5).elim
    · rcases hroom with ⟨x, hx, hxf⟩
      exact ((h2 x (Nat.zero_le _) (by omega)).1 hxf).elim
    · rw [h1] at e
      subst e
      constructor
      · refine ⟨x0, (BuildHashKey c HASH_CURRENCY_ARRAY_SIZE).1.toNat, ?_, ?_⟩
        · rw [FindElementInCURRENCY_eq, Trim_no_space c hnosp, if_pos hlen, if_pos hp]
          congr 1
          apply findLoopStrcmp_found _ _ _ _ x0
          · rw [Table.set_same]
          · exact Nat.zero_le _
          · omega
          · intro i _ hi
            rw [Table.set_other _ _ _ _ _ _ (by omega)]
            exact (hbefore i (Nat.zero_le _) hi).2
        · rw [Table.set_same]
      · intro k hk
        rw [FindElementInCURRENCY_eq, FindElementInCURRENCY_eq]
        by_cases hkl : (Trim k).length > 0
        · rw [if_pos hkl, if_pos hkl]
          by_cases hkp : 0 ≤ (BuildHashKey (Trim k) HASH_CURRENCY_ARRAY_SIZE).1
          · rw [if_pos hkp, if_pos hkp]
            congr 1
            apply findLoopStrcmp_congr
            intro i
            by_cases hs : i = x0 ∧ (BuildHashKey (Trim k) HASH_CURRENCY_ARRAY_SIZE).1.toNat =
                (BuildHashKey c HASH_CURRENCY_ARRAY_SIZE).1.toNat
            · rcases hs with ⟨rfl, hy⟩
              rw [hy, Table.set_same]
              have hempty := hinv.emptyKey i _ hfree
              constructor
              · intro h
                exact (hk h.symm).elim
              · intro h
                rw [hempty] at h
                rw [← h] at hkl
                simp at hkl
            · rw [Table.set_other _ _ _ _ _ _ hs]
          · rw [if_neg hkp, if_neg hkp]
        · rw [if_neg hkl, if_neg hkl]
  · rw [if_neg hp] at hadd'
    exact Option.noConfusion hadd'

/-- Witness of C5 (amended): the insertion of `("EUR", "2")` into the
initialized currency table. -/
theorem currency_insert_then_lookup_witness :
    (∃ x y, FindElementInCURRENCYHashArrayTable sampleCurrencyTable (str "EUR") =
        some (found x y) ∧ (sampleCurrencyTable x y).strDECIMAL_POS = str "2") ∧
    (∀ k, Trim k ≠ str "EUR" →
      FindElementInCURRENCYHashArrayTable sampleCurrencyTable k =
        FindElementInCURRENCYHashArrayTable InitializeCURRENCYHashKeyTable k) :=
  currency_insert_then_lookup InitializeCURRENCYHashKeyTable sampleCurrencyTable (str "EUR")
    (str "2") Reachable.init (by decide) (by decide) (fun _ _ h => (h rfl).elim)
    ⟨0, by decide, rfl⟩ sampleCurrencyTable_add

/-! ### SIAM table: lookup after insertion -/

theorem findLoopMemcmp_miss {S : Type} (keyOf : S → CStr) (y : Nat) (l : CStr) (t : Table S)
    (h : ∀ i, (keyOf (t i y)).length > 0 → memcmpEq (keyOf (t i y)) l l.length = false) :
    ∀ (n x : Nat), findLoopMemcmp keyOf y l t n x = notFound := by
  intro n
  induction n with
  | zero => intro x; rfl
  | succ n ih =>
    intro x
    rw [findLoopMemcmp]
    split
    · rename_i hpos
      rw [h x hpos]
      exact ih (x + 1)
    · rfl

theorem memcmpEq_semicolon_false (k l : CStr) (h59 : 59 ∉ k) :
    memcmpEq k (l ++ [59]) (l ++ [59]).length = false := by
  unfold memcmpEq
  rw [List.take_length, decide_eq_false_iff_not]
  intro he
  have hm : (59 : Nat) ∈ l ++ [59] := by simp
  rw [← he] at hm
  have hm' := List.mem_of_mem_take hm
  rw [List.mem_append] at hm'
  rcases hm' with h | h
  · exact h59 h
  · have := List.eq_of_mem_replicate h
    omega

/-- On the SIAM table that holds a single key, stored without `';'`, the
lookup of that key never succeeds. -/
theorem SIAM_single_insert_never_found (r : RefTiersFile) (t : Table SIAMHashElt)
    (h59 : 59 ∉ r.strSIAM)
    (hadd : AddElementInSIAMHashKeyTable InitializeSIAMHashKeyTable r = some t)
    (res : FindResult) (hfind : FindElementInSIAMHashArrayTable t r.strSIAM = some res) :
    res = notFound := by
  have hadd' : (if 0 ≤ (BuildHashKey r.strSIAM HASH_ARRAY_SIZE).1 then
      some (addLoop SIAMHashElt.SIAMHashKey SIAMHashElt.strSIAM
        (BuildHashKey r.strSIAM HASH_ARRAY_SIZE).1.toNat r.strSIAM
        ⟨(BuildHashKey r.strSIAM HASH_ARRAY_SIZE).2, r.strSIAM, r.strRICOS_SC_ID,
          r.strRICOS_CPY_ID⟩ HASH_ARRAY_SIZE 0 InitializeSIAMHashKeyTable)
      else none) = some t := hadd
  have hfind' : (if 0 ≤ (BuildHashKey (Trim r.strSIAM ++ [59]) HASH_ARRAY_SIZE).1 then
      some (findLoopMemcmp SIAMHashElt.strSIAM
        (BuildHashKey (Trim r.strSIAM ++ [59]) HASH_ARRAY_SIZE).1.toNat (Trim r.strSIAM ++ [59])
        t HASH_ARRAY_SIZE 0)
      else none) = some res := by
    have e : (Trim r.strSIAM ++ [59]).length > 0 := by simp
    unfold FindElementInSIAMHashArrayTable at hfind
    simp only [e, if_true] at hfind
    exact hfind
  by_cases hp : 0 ≤ (BuildHashKey r.strSIAM HASH_ARRAY_SIZE).1
  · rw [if_pos hp] at hadd'
    have et := Option.some.inj hadd'
    by_cases hq : 0 ≤ (BuildHashKey (Trim r.strSIAM ++ [59]) HASH_ARRAY_SIZE).1
    · rw [if_pos hq] at hfind'
      rw [← Option.some.inj hfind']
      apply findLoopMemcmp_miss
      intro i hlen
      have hstored : SIAMHashElt.strSIAM
          (t i (BuildHashKey (Trim r.strSIAM ++ [59]) HASH_ARRAY_SIZE).1.toNat) = r.strSIAM := by
        rcases addLoop_cases SIAMHashElt.SIAMHashKey SIAMHashElt.strSIAM
            (BuildHashKey r.strSIAM HASH_ARRAY_SIZE).1.toNat r.strSIAM
            ⟨(BuildHashKey r.strSIAM HASH_ARRAY_SIZE).2, r.strSIAM, r.strRICOS_SC_ID,
              r.strRICOS_CPY_ID⟩ HASH_ARRAY_SIZE 0 InitializeSIAMHashKeyTable with
          ⟨h1, _⟩ | ⟨h1, _⟩ | ⟨x0, _, _, _, _, h1⟩
        · rw [← et, h1] at hlen
          simp [InitializeSIAMHashKeyTable] at hlen
        · rw [← et, h1] at hlen
          simp [InitializeSIAMHashKeyTable] at hlen
        · rw [← et, h1] at hlen ⊢
          by_cases hs : i = x0 ∧
              (BuildHashKey (Trim r.strSIAM ++ [59]) HASH_ARRAY_SIZE).1.toNat =
                (BuildHashKey r.strSIAM HASH_ARRAY_SIZE).1.toNat
          · rcases hs with ⟨rfl, hy⟩
            rw [hy, Table.set_same]
          · rw [Table.set_other _ _ _ _ _ _ hs] at hlen
            simp [InitializeSIAMHashKeyTable] at hlen
      rw [hstored]
      exact memcmpEq_semicolon_false _ _ h59
    · rw [if_neg hq] at hfind'
      exact Option.noConfusion hfind'
  · rw [if_neg hp] at hadd'
    exact Option.noConfusion hadd'


set_option maxRecDepth 100000 in
/-- C4. The REF_TIERS.dat record `CALYHKG;SC0000002325;2091;6847;CALYON;SIA`
is split into its six fields, its SIAM key `"CALYHKG"` is stored with its
payload at row 0 of column 969, and the lookup of `"CALYHKG"` in the table so
built returns HASH_KEY_NOT_FOUND with both positions -1: the lookup searches
`"CALYHKG;"`, whose column is 717. -/
theorem SIAM_lookup_after_insert_misses :
    (refTiersScan (str "CALYHKG;SC0000002325;2091;6847;CALYON;SIA\n")).map
        (fun st => st.fields) =
      some ⟨str "CALYHKG", str "SC0000002325", str "2091", str "6847", str "CALYON",
        str "SIA"⟩ ∧
    (BuildTiersRicosTables [str "CALYHKG;SC0000002325;2091;6847;CALYON;SIA\n"]).map
        (fun tabs => tabs.1 0 969) =
      some ⟨38801469, str "CALYHKG", str "SC0000002325", str "2091"⟩ ∧
    BuildHashKey (str "CALYHKG") HASH_ARRAY_SIZE = (969, 38801469) ∧
    BuildHashKey (str "CALYHKG;") HASH_ARRAY_SIZE = (717, 388014717) ∧
    (BuildTiersRicosTables [str "CALYHKG;SC0000002325;2091;6847;CALYON;SIA\n"]).bind
        (fun tabs => FindElementInSIAMHashArrayTable tabs.1 (str "CALYHKG")) =
      some notFound ∧
    notFound = ⟨HASH_KEY_NOT_FOUND, -1, -1⟩ := by
  refine ⟨by decide, by decide, by decide, by decide, by decide, rfl⟩

/-! ### RTS and COMPTE_DODGE tables: lookup by a prefix -/

set_option maxRecDepth 100000 in
/-- C6. A lookup key that is a proper prefix of a stored key and falls in the
same column is reported as found: with only `"6464"` stored in the RTS table
the lookup of `"64"` returns HASH_KEY_FOUND at row 0 of column 240, and with
only `"530001000"` stored in the COMPTE_DODGE table the lookup of `"53000"`
returns HASH_KEY_FOUND at row 0 of column 776. -/
theorem lookup_matches_prefix :
    BuildHashKey (str "6464") HASH_ARRAY_SIZE = (240, 24240) ∧
    BuildHashKey (str "64") HASH_ARRAY_SIZE = (240, 240) ∧
    (BuildTiersRicosTables [str "CALYHKG;SC0000002325;2091;6464;CALYON;SIA\n"]).bind
        (fun tabs => FindElementInRTSHashArrayTable tabs.2 (str "64")) =
      some (found 0 240) ∧
    (BuildTiersRicosTables [str "CALYHKG;SC0000002325;2091;6464;CALYON;SIA\n"]).map
        (fun tabs => (tabs.2 0 240).strRTS_SC_ID) = some (str "6464") ∧
    BuildHashKey (str "530001000") HASH_DODGE_ARRAY_SIZE = (776, 2307778776) ∧
    BuildHashKey (str "53000") HASH_DODGE_ARRAY_SIZE = (776, 230776) ∧
    (AddElementInCOMPTE_DODGEHashKeyTable InitializeCOMPTE_DODGEHashKeyTable
        ⟨str "530001000", str "B", str "E", str "00"⟩).bind
        (fun t => FindElementInCOMPTE_DODGEHashArrayTable t (str "53000")) =
      some (found 0 776) ∧
    (AddElementInCOMPTE_DODGEHashKeyTable InitializeCOMPTE_DODGEHashKeyTable
        ⟨str "530001000", str "B", str "E", str "00"⟩).map
        (fun t => (t 0 776).strCOMPTE_DODGE) = some (str "530001000") := by
  refine ⟨by decide, by decide, by decide, by decide, by decide, by decide, by decide, by decide⟩

/-! ### Lookup of a blank key -/

theorem Trim_blank (k : CStr) (hk : ∀ ch ∈ k, ch = 32) : Trim k = [] := by
  have h : k.dropWhile isSpaceChar = [] := by
    rw [List.dropWhile_eq_nil_iff]
    intro x hx
    simp [isSpaceChar, hk x hx]
  rw [Trim_eq_stripSpaces, stripSpaces, h]
  rfl

theorem findLoopMemcmp_semicolon {S : Type} (keyOf : S → CStr) (y : Nat) (t : Table S)
    (h : ∀ x, (keyOf (t x y)).head? ≠ some 59) :
    ∀ (n x : Nat), findLoopMemcmp keyOf y [59] t n x = notFound := by
  intro n
  induction n with
  | zero => intro x; rfl
  | succ n ih =>
    intro x
    rw [findLoopMemcmp]
    split
    · have hm : memcmpEq (keyOf (t x y)) [59] [59].length = false := by
        have hx := h x
        cases hs : keyOf (t x y) with
        | nil => simp [memcmpEq]
        | cons a rest =>
          rw [hs] at hx
          simp at hx
          simp [memcmpEq, hx]
      rw [hm]
      exact ih (x + 1)
    · rfl

theorem copyField_mem (rec : CStr) (start len nul c : Nat)
    (h : c ∈ copyField rec start len nul) : c ∈ (rec.drop start).take len ∨ c = 0 := by
  unfold copyField at h
  have h1 := (List.takeWhile_sublist _).subset h
  rcases List.mem_or_eq_of_mem_set h1 with h2 | h2
  · rcases List.mem_append.mp h2 with h3 | h3
    · exact Or.inl h3
    · exact Or.inr (List.eq_of_mem_replicate h3)
  · exact Or.inr h2

theorem take_no_semicolon (rec : CStr) (i : Nat) (h : ∀ j, j < i → rec.getD j 0 ≠ 59) :
    59 ∉ rec.take i := by
  intro hm
  rcases List.mem_take_iff_getElem.mp hm with ⟨j, hj, e⟩
  have hj1 : j < i := by
    have := Nat.min_le_left i rec.length
    omega
  have hj2 : j < rec.length := by
    have := Nat.min_le_right i rec.length
    omega
  apply h j hj1
  rw [List.getD_eq_getElem?_getD, List.getElem?_eq_getElem hj2]
  exact e

/-- One step of the separator scan keeps `';'` out of the SIAM field. -/
theorem refTiersScanStep_inv (rec : CStr) (i : Nat) (st st' : RefTiersScan)
    (h1 : 59 ∉ st.fields.strSIAM)
    (h2 : st.l_iNbSepInRecord = 0 →
      st.l_iSepPositInRecord = -1 ∧ ∀ j, j < i → rec.getD j 0 ≠ 59)
    (h : refTiersScanStep rec st i = some st') :
    59 ∉ st'.fields.strSIAM ∧
    (st'.l_iNbSepInRecord = 0 →
      st'.l_iSepPositInRecord = -1 ∧ ∀ j, j < i + 1 → rec.getD j 0 ≠ 59) := by
  rcases st with ⟨nb, sep, f⟩
  by_cases hsep : rec.getD i 0 = 59
  · rcases nb with _ | _ | _ | _ | _ | nb
    · rcases h2 rfl with ⟨hs, hbefore⟩
      simp only at hs
      subst hs
      simp only [refTiersScanStep, hsep, if_true, Option.some.injEq] at h
      subst h
      refine ⟨?_, fun h0 => by simp at h0⟩
      intro hm
      rcases copyField_mem _ _ _ _ _ hm with h3 | h3
      · have e1 : ((-1 : Int) + 1).toNat = 0 := by decide
        have e2 : ((i : Int) - -1 - 1).toNat = i := by omega
        rw [e1, e2, List.drop_zero] at h3
        exact take_no_semicolon rec i hbefore h3
      · omega
    · simp only [refTiersScanStep, hsep, if_true, Option.some.injEq] at h
      subst h
      exact ⟨h1, fun h0 => by simp at h0⟩
    · simp only [refTiersScanStep, hsep, if_true, Option.some.injEq] at h
      subst h
      exact ⟨h1, fun h0 => by simp at h0⟩
    · simp only [refTiersScanStep, hsep, if_true, Option.some.injEq] at h
      subst h
      exact ⟨h1, fun h0 => by simp at h0⟩
    · simp only [refTiersScanStep, hsep, if_true] at h
      split at h
      · simp only [Option.some.injEq] at h
        subst h
        exact ⟨h1, fun h0 => by simp at h0⟩
      · exact Option.noConfusion h
    · simp only [refTiersScanStep, hsep, if_true, Option.some.injEq] at h
      subst h
      exact ⟨h1, fun h0 => by simp at h0⟩
  · simp only [refTiersScanStep, hsep, if_false, Option.some.injEq] at h
    subst h
    refine ⟨h1, fun h0 => ?_⟩
    rcases h2 h0 with ⟨hs, hbefore⟩
    refine ⟨hs, fun j hj => ?_⟩
    by_cases hji : j = i
    · subst hji
      exact hsep
    · exact hbefore j (by omega)

theorem refTiersScan_prefix_inv (rec : CStr) :
    ∀ (n : Nat) (st : RefTiersScan),
      (List.range n).foldl (fun st i => st.bind (fun s => refTiersScanStep rec s i))
        (some ⟨0, -1, ⟨[], [], [], [], [], []⟩⟩) = some st →
      59 ∉ st.fields.strSIAM ∧
      (st.l_iNbSepInRecord = 0 →
        st.l_iSepPositInRecord = -1 ∧ ∀ j, j < n → rec.getD j 0 ≠ 59) := by
  intro n
  induction n with
  | zero =>
    intro st h
    simp only [List.range_zero, List.foldl_nil, Option.some.injEq] at h
    subst h
    exact ⟨by simp, fun _ => ⟨rfl, fun j hj => by omega⟩⟩
  | succ n ih =>
    intro st h
    rw [List.range_succ, List.foldl_append, List.foldl_cons, List.foldl_nil] at h
    rcases Option.bind_eq_some.mp h with ⟨st0, h0, hstep⟩
    rcases ih st0 h0 with ⟨i1, i2⟩
    exact refTiersScanStep_inv rec n st0 st i1 i2 hstep

theorem refTiersScan_no_semicolon (rec : CStr) (st : RefTiersScan)
    (h : refTiersScan rec = some st) : 59 ∉ st.fields.strSIAM :=
  (refTiersScan_prefix_inv rec rec.length st h).1

theorem AddElementInSIAM_no_semicolon (t t' : Table SIAMHashElt) (r : RefTiersFile)
    (ht : ∀ x y, 59 ∉ (t x y).strSIAM) (hr : 59 ∉ r.strSIAM)
    (h : AddElementInSIAMHashKeyTable t r = some t') : ∀ x y, 59 ∉ (t' x y).strSIAM := by
  have h' : (if 0 ≤ (BuildHashKey r.strSIAM HASH_ARRAY_SIZE).1 then
      some (addLoop SIAMHashElt.SIAMHashKey SIAMHashElt.strSIAM
        (BuildHashKey r.strSIAM HASH_ARRAY_SIZE).1.toNat r.strSIAM
        ⟨(BuildHashKey r.strSIAM HASH_ARRAY_SIZE).2, r.strSIAM, r.strRICOS_SC_ID,
          r.strRICOS_CPY_ID⟩ HASH_ARRAY_SIZE 0 t)
      else none) = some t' := h
  by_cases hp : 0 ≤ (BuildHashKey r.strSIAM HASH_ARRAY_SIZE).1
  · rw [if_pos hp] at h'
    have e := Option.some.inj h'
    intro x y
    rcases addLoop_cases SIAMHashElt.SIAMHashKey SIAMHashElt.strSIAM
        (BuildHashKey r.strSIAM HASH_ARRAY_SIZE).1.toNat r.strSIAM
        ⟨(BuildHashKey r.strSIAM HASH_ARRAY_SIZE).2, r.strSIAM, r.strRICOS_SC_ID,
          r.strRICOS_CPY_ID⟩ HASH_ARRAY_SIZE 0 t with
      ⟨h1, _⟩ | ⟨h1, _⟩ | ⟨x0, _, _, _, _, h1⟩
    · rw [← e, h1]; exact ht x y
    · rw [← e, h1]; exact ht x y
    · rw [← e, h1]
      by_cases hs : x = x0 ∧ y = (BuildHashKey r.strSIAM HASH_ARRAY_SIZE).1.toNat
      · rcases hs with ⟨rfl, rfl⟩
        rw [Table.set_same]
        exact hr
      · rw [Table.set_other _ _ _ _ _ _ hs]
        exact ht x y
  · rw [if_neg hp] at h'
    exact Option.noConfusion h'

theorem BuildTiersRicosTablesRecord_no_semicolon
    (tabs tabs' : Table SIAMHashElt × Table RTSHashElt) (rec : CStr)
    (ht : ∀ x y, 59 ∉ (tabs.1 x y).strSIAM)
    (h : BuildTiersRicosTablesRecord tabs rec = some tabs') :
    ∀ x y, 59 ∉ (tabs'.1 x y).strSIAM := by
  unfold BuildTiersRicosTablesRecord at h
  split at h
  · rcases Option.bind_eq_some.mp h with ⟨st, hst, h1⟩
    have hno := refTiersScan_no_semicolon rec st hst
    split at h1
    · rw [← Option.some.inj h1]; exact ht
    · split at h1
      · rw [← Option.some.inj h1]; exact ht
      · rcases Option.bind_eq_some.mp h1 with ⟨t1, ht1, h2⟩
        rcases Option.bind_eq_some.mp h2 with ⟨t2, _, h3⟩
        rw [← Option.some.inj h3]
        split at ht1
        · exact AddElementInSIAM_no_semicolon tabs.1 t1 st.fields ht hno ht1
        · rw [← Option.some.inj ht1]; exact ht
  · rw [← Option.some.inj h]; exact ht

/-- No SIAM key of a table built by `BuildTiersRicosTables` holds a `';'`:
the SIAM field of a record ends before its first separator. -/
theorem BuildTiersRicosTables_no_semicolon (records : List CStr)
    (tabs : Table SIAMHashElt × Table RTSHashElt)
    (h : BuildTiersRicosTables records = some tabs) : ∀ x y, 59 ∉ (tabs.1 x y).strSIAM := by
  have gen : ∀ (l : List CStr) (init : Option (Table SIAMHashElt × Table RTSHashElt)),
      (∀ t0, init = some t0 → ∀ x y, 59 ∉ (t0.1 x y).strSIAM) →
      l.foldl (fun tabs rec => tabs.bind (fun t => BuildTiersRicosTablesRecord t rec)) init =
        some tabs → ∀ x y, 59 ∉ (tabs.1 x y).strSIAM := by
    intro l
    induction l with
    | nil =>
      intro init hinit hf
      exact hinit tabs hf
    | cons rec rest ih =>
      intro init hinit hf
      rw [List.foldl_cons] at hf
      apply ih _ _ hf
      intro t1 ht1
      rcases Option.bind_eq_some.mp ht1 with ⟨t0, e0, hrec⟩
      exact BuildTiersRicosTablesRecord_no_semicolon t0 t1 rec (hinit t0 e0) hrec
  refine gen records _ ?_ h
  intro t0 e0
  rw [← Option.some.inj e0]
  intro x y
  simp [InitializeSIAMHashKeyTable]

/-- A lookup key that is empty or made of spaces only yields
HASH_KEY_NOT_FOUND with both positions -1 in every state of the RTS,
CURRENCY, COMPTE_DODGE and LOT tables, and in every state of the SIAM table
in which no key stored in column 27 begins with `';'`, which includes every
SIAM table built by `BuildTiersRicosTables`. -/
theorem blank_key_lookup_misses (k : CStr) (hk : ∀ ch ∈ k, ch = 32) :
    (∀ t : Table SIAMHashElt, (∀ x, (t x 27).strSIAM.head? ≠ some 59) →
      FindElementInSIAMHashArrayTable t k = some ⟨HASH_KEY_NOT_FOUND, -1, -1⟩) ∧
    (∀ records tabs, BuildTiersRicosTables records = some tabs →
      FindElementInSIAMHashArrayTable tabs.1 k = some ⟨HASH_KEY_NOT_FOUND, -1, -1⟩) ∧
    (∀ t : Table RTSHashElt,
      FindElementInRTSHashArrayTable t k = some ⟨HASH_KEY_NOT_FOUND, -1, -1⟩) ∧
    (∀ t : Table CURRENCYHashElt,
      FindElementInCURRENCYHashArrayTable t k = some ⟨HASH_KEY_NOT_FOUND, -1, -1⟩) ∧
    (∀ t : Table COMPTE_DODGEHashElt,
      FindElementInCOMPTE_DODGEHashArrayTable t k = some ⟨HASH_KEY_NOT_FOUND, -1, -1⟩) ∧
    (∀ t : Table LOTHashElt,
      FindElementInLOTHashArrayTable t k = some ⟨HASH_KEY_NOT_FOUND, -1, -1⟩) := by
  have ht := Trim_blank k hk
  have hsiam : ∀ t : Table SIAMHashElt, (∀ x, (t x 27).strSIAM.head? ≠ some 59) →
      FindElementInSIAMHashArrayTable t k = some ⟨HASH_KEY_NOT_FOUND, -1, -1⟩ := by
    intro t h
    have e : FindElementInSIAMHashArrayTable t k =
        some (findLoopMemcmp SIAMHashElt.strSIAM 27 [59] t HASH_ARRAY_SIZE 0) := by
      unfold FindElementInSIAMHashArrayTable
      rw [ht]
      rfl
    rw [e, findLoopMemcmp_semicolon SIAMHashElt.strSIAM 27 t h]
    rfl
  refine ⟨hsiam, ?_, ?_, ?_, ?_, ?_⟩
  · intro records tabs hb
    apply hsiam
    intro x hh
    exact BuildTiersRicosTables_no_semicolon records tabs hb x 27 (List.mem_of_mem_head? hh)
  · intro t
    unfold FindElementInRTSHashArrayTable
    rw [ht]
    rfl
  · intro t
    unfold FindElementInCURRENCYHashArrayTable
    rw [ht]
    rfl
  · intro t
    unfold FindElementInCOMPTE_DODGEHashArrayTable
    rw [ht]
    rfl
  · intro t
    unfold FindElementInLOTHashArrayTable
    rw [ht]
    rfl

/-- The blank key `"  "` misses in the SIAM table that holds `"CALYHKG"`, in
every table built by `BuildTiersRicosTables` and in every state of the other
tables. -/
theorem blank_key_lookup_misses_witness :
    (∀ ch ∈ str "  ", ch = 32) ∧
    FindElementInSIAMHashArrayTable sampleSIAMTable (str "  ") =
      some ⟨HASH_KEY_NOT_FOUND, -1, -1⟩ ∧
    (∀ records tabs, BuildTiersRicosTables records = some tabs →
      FindElementInSIAMHashArrayTable tabs.1 (str "  ") = some ⟨HASH_KEY_NOT_FOUND, -1, -1⟩) ∧
    (∀ t : Table RTSHashElt,
      FindElementInRTSHashArrayTable t (str "  ") = some ⟨HASH_KEY_NOT_FOUND, -1, -1⟩) ∧
    (∀ t : Table CURRENCYHashElt,
      FindElementInCURRENCYHashArrayTable t (str "  ") = some ⟨HASH_KEY_NOT_FOUND, -1, -1⟩) ∧
    (∀ t : Table COMPTE_DODGEHashElt,
      FindElementInCOMPTE_DODGEHashArrayTable t (str "  ") =
        some ⟨HASH_KEY_NOT_FOUND, -1, -1⟩) ∧
    (∀ t : Table LOTHashElt,
      FindElementInLOTHashArrayTable t (str "  ") = some ⟨HASH_KEY_NOT_FOUND, -1, -1⟩) :=
  ⟨by decide,
    (blank_key_lookup_misses (str "  ") (by decide)).1 sampleSIAMTable
      (fun x => by simp [sampleSIAMTable, Table.set, InitializeSIAMHashKeyTable]),
    (blank_key_lookup_misses (str "  ") (by decide)).2⟩

/-! ### Buffers -/

theorem bufWrite_mid (a m c src : List Nat) (off : Int) (hoff : off = a.length)
    (h : m.length = src.length) :
    bufWrite (a ++ m ++ c) off src = some (a ++ src ++ c) := by
  subst hoff
  unfold bufWrite
  have h1 : (0 : Int) ≤ (a.length : Int) ∧
      (a.length : Int) + (src.length : Int) ≤ ((a ++ m ++ c).length : Int) := by
    simp only [List.length_append, Nat.cast_add]
    omega
  rw [if_pos h1]
  have e1 : ((a.length : Int)).toNat = a.length := Int.toNat_natCast _
  rw [e1]
  have e2 : (a ++ m ++ c).take a.length = a := by
    rw [List.append_assoc, List.take_left]
  have e3 : (a ++ m ++ c).drop (a.length + src.length) = c := by
    have : a.length + src.length = (a ++ m).length := by simp [h]
    rw [this, List.drop_left]
  rw [e2, e3]

theorem memsetBuf_eq (o : List Nat) (c : Nat) (W : Nat) (hW : W ≤ o.length) :
    memsetBuf o c (W : Int) = some (List.replicate W c ++ o.drop W) := by
  unfold memsetBuf
  rw [if_pos (Int.natCast_nonneg W), Int.toNat_natCast]
  have h := bufWrite_mid [] (o.take W) (o.drop W) (List.replicate W c) 0 rfl
    (by simp [hW])
  simpa using h

theorem padAndPlace_eq (o : List Nat) (pad : Nat) (W : Nat) (d : CStr) (shift : Nat)
    (hW : W ≤ o.length) (hd : d.length + shift ≤ W) :
    padAndPlace o pad (W : Int) d (shift : Int) =
      some (List.replicate (W - d.length - shift) pad ++ d ++ List.replicate shift pad ++
        o.drop W) := by
  unfold padAndPlace
  rw [memsetBuf_eq o pad W hW]
  have e : List.replicate W pad =
      List.replicate (W - d.length - shift) pad ++ List.replicate d.length pad ++
        List.replicate shift pad := by
    rw [← List.replicate_add, ← List.replicate_add]
    congr 1
    omega
  have h := bufWrite_mid (List.replicate (W - d.length - shift) pad)
    (List.replicate d.length pad) (List.replicate shift pad ++ o.drop W) d
    ((W : Int) - d.length - shift) (by simp; omega) (by simp)
  rw [e]
  simp only [Option.bind_some, List.append_assoc] at h ⊢
  exact h

theorem take_append_exact (a b : List Nat) (n : Nat) (h : a.length = n) :
    (a ++ b).take n = a := by
  rw [← h, List.take_left]


/-! ### Fields accepted by isNumeric -/

theorem isNumeric_nil (s0 : Int) : isNumeric [] s0 = (FALSE, [], s0) := rfl

theorem isNumeric_accept (f : CStr) (s0 : Int) (h : (isNumeric f s0).1 = TRUE) :
    f ≠ [] ∧ (isNumeric f s0).2.1 = numericRemainder f ∧
    (isNumeric f s0).2.2 = describedSign f ∧
    (numericRemainder f).all isdigit = true := by
  have hf : f ≠ [] := by
    intro e
    subst e
    rw [isNumeric_nil] at h
    have h' : FALSE = TRUE := h
    exact absurd h' (by decide)
  rw [isNumeric_eq f hf s0] at h ⊢
  by_cases hd : (numericRemainder f).all isdigit = true
  · simp [hd, hf]
  · rw [if_neg hd] at h
    have h' : FALSE = TRUE := h
    exact absurd h' (by decide)

theorem isNumeric_reject (f : CStr) (h : (isNumeric f 0).1 = 0) :
    (isNumeric f 0).2.1 = f := by
  by_cases hf : f = []
  · subst hf
    rfl
  · rw [isNumeric_eq f hf 0] at h ⊢
    by_cases hd : (numericRemainder f).all isdigit = true
    · rw [if_pos hd] at h
      have h' : TRUE = 0 := h
      exact absurd h' (by decide)
    · simp [hd]

theorem mem_eraseP_of_ne {p : Nat → Bool} (a c : Nat) :
    ∀ l : List Nat, l.find? p = some c → a ∈ l → a ≠ c → a ∈ l.eraseP p := by
  intro l
  induction l with
  | nil => intro _ h _; exact absurd h (List.not_mem_nil a)
  | cons x xs ih =>
    intro hfind hmem hne
    by_cases hp : p x = true
    · rw [List.find?_cons_of_pos _ hp] at hfind
      have hxc : x = c := Option.some.inj hfind
      rw [List.eraseP_cons_of_pos hp]
      rcases List.mem_cons.mp hmem with h | h
      · exact absurd (h.trans hxc) hne
      · exact h
    · rw [List.find?_cons_of_neg _ hp] at hfind
      rw [List.eraseP_cons_of_neg hp]
      rcases List.mem_cons.mp hmem with h | h
      · rw [h]; exact List.mem_cons_self _ _
      · exact List.mem_cons_of_mem _ (ih hfind h hne)

theorem mem_dropWhile_of_not {p : Nat → Bool} (a : Nat) (l : List Nat) (hmem : a ∈ l)
    (hp : p a = false) : a ∈ l.dropWhile p := by
  have h := List.takeWhile_append_dropWhile p l
  rw [← h] at hmem
  rcases List.mem_append.mp hmem with h1 | h1
  · have := List.mem_takeWhile_imp h1
    rw [hp] at this
    exact absurd this (by decide)
  · exact h1

theorem mem_stripSpaces (a : Nat) (l : CStr) (hmem : a ∈ l) (ha : a ≠ 32) :
    a ∈ stripSpaces l := by
  have hp : isSpaceChar a = false := by simp [isSpaceChar, ha]
  unfold stripSpaces List.rdropWhile
  rw [List.mem_reverse]
  apply mem_dropWhile_of_not a _ _ hp
  rw [List.mem_reverse]
  exact mem_dropWhile_of_not a l hmem hp

/-- In a field accepted by `isNumeric` the sign is -1 exactly when the field
holds a `'-'`. -/
theorem SIGN_accept (f : CStr) (h : (isNumeric f 0).1 = TRUE) :
    SIGN (isNumeric f 0).2.2 = if 45 ∈ f then 45 else 43 := by
  rcases isNumeric_accept f 0 h with ⟨_, _, hs, hd⟩
  rw [hs]
  unfold describedSign
  by_cases hfind : f.find? isSignChar = some 45
  · have hm : (45 : Nat) ∈ f := List.mem_of_find?_eq_some hfind
    rw [if_pos hfind, if_pos hm]
    rfl
  · rw [if_neg hfind]
    have hm : (45 : Nat) ∉ f := by
      intro hm
      cases hc : f.find? isSignChar with
      | none =>
        have := List.find?_eq_none.mp hc 45 hm
        simp [isSignChar] at this
      | some c =>
        have hne : (45 : Nat) ≠ c := by
          intro e
          rw [← e] at hc
          exact hfind hc
        have h1 := mem_eraseP_of_ne 45 c f hc hm hne
        have h2 := mem_stripSpaces 45 _ h1 (by decide)
        have h3 := (all_isdigit_iff _).mp hd 45 h2
        omega
    rw [if_neg hm]
    rfl

theorem digits_of_accept (f : CStr) (h : (isNumeric f 0).1 = TRUE) :
    ∀ c ∈ (isNumeric f 0).2.1, 48 ≤ c ∧ c ≤ 57 := by
  rcases isNumeric_accept f 0 h with ⟨_, hd, _, hall⟩
  rw [hd]
  exact (all_isdigit_iff _).mp hall


/-! ### Convert_InputField : numeric formats -/

theorem nonzero_of_TRUE {x : Int} (h : x = TRUE) : x ≠ 0 := by
  rw [h]
  decide

theorem outputField_append (fd : FieldOfRecord) (W : Nat) (a rest : List Nat)
    (hW : fd.iFieldLengthOutput = (W : Int)) (ha : a.length = W) :
    outputField fd (a ++ rest) = a := by
  unfold outputField
  rw [hW, Int.toNat_natCast]
  exact take_append_exact _ _ _ ha

/-- The buffer left by the unsigned formats. -/
theorem Convert_unsigned_buffer (fd : FieldOfRecord) (f : CStr) (uninit o : List Nat)
    (W : Nat) (pad : Nat)
    (hfmt : (fd.iFieldFormat = enumFieldFormat.entierEG ∧ pad = 32) ∨
      (fd.iFieldFormat = enumFieldFormat.entierZG ∧ pad = 48))
    (hW : fd.iFieldLengthOutput = (W : Int)) (hacc : (isNumeric f 0).1 = TRUE)
    (hlen : (isNumeric f 0).2.1.length ≤ W) (hbuf : W ≤ o.length) :
    Convert_InputField fd f uninit o =
      some ((List.replicate (W - (isNumeric f 0).2.1.length) pad ++ (isNumeric f 0).2.1) ++
        o.drop W) := by
  have hnz := nonzero_of_TRUE hacc
  have hpp := padAndPlace_eq o pad W (isNumeric f 0).2.1 0 hbuf (by omega)
  have hconv : Convert_InputField fd f uninit o =
      padAndPlace o pad (W : Int) (isNumeric f 0).2.1 0 := by
    unfold Convert_InputField
    rcases hfmt with ⟨h1, h2⟩ | ⟨h1, h2⟩
    · simp only [h1, hW, if_pos hnz, h2]
    · simp only [h1, hW, if_pos hnz, h2]
  rw [hconv]
  simp only [List.replicate_zero, List.append_nil, Nat.sub_zero] at hpp
  exact hpp

/-- The buffer left by the formats that put the sign at the right side. -/
theorem Convert_sign_right_buffer (fd : FieldOfRecord) (f : CStr) (uninit o : List Nat)
    (W : Nat) (pad : Nat)
    (hfmt : (fd.iFieldFormat = enumFieldFormat.entierSD ∧ pad = 32) ∨
      (fd.iFieldFormat = enumFieldFormat.entierSZD ∧ pad = 48))
    (hW : fd.iFieldLengthOutput = (W : Int)) (hacc : (isNumeric f 0).1 = TRUE)
    (hlen : (isNumeric f 0).2.1.length < W) (hbuf : W ≤ o.length) :
    Convert_InputField fd f uninit o =
      some ((List.replicate (W - 1 - (isNumeric f 0).2.1.length) pad ++ (isNumeric f 0).2.1 ++
        [SIGN (isNumeric f 0).2.2]) ++ o.drop W) := by
  have hnz := nonzero_of_TRUE hacc
  have hpp := padAndPlace_eq o pad W (isNumeric f 0).2.1 1 hbuf (by omega)
  have hconv : Convert_InputField fd f uninit o =
      (padAndPlace o pad (W : Int) (isNumeric f 0).2.1 1).bind
        (fun o2 => bufWrite o2 ((W : Int) - 1) [SIGN (isNumeric f 0).2.2]) := by
    unfold Convert_InputField
    rcases hfmt with ⟨h1, h2⟩ | ⟨h1, h2⟩
    · simp only [h1, hW, if_pos hnz, h2]
    · simp only [h1, hW, if_pos hnz, h2]
  have hk : W - (isNumeric f 0).2.1.length - 1 = W - 1 - (isNumeric f 0).2.1.length := by omega
  have hw := bufWrite_mid
    (List.replicate (W - 1 - (isNumeric f 0).2.1.length) pad ++ (isNumeric f 0).2.1)
    [pad] (o.drop W) [SIGN (isNumeric f 0).2.2] ((W : Int) - 1) (by simp; omega) rfl
  have hpp' : padAndPlace o pad (W : Int) (isNumeric f 0).2.1 1 =
      some (List.replicate (W - 1 - (isNumeric f 0).2.1.length) pad ++ (isNumeric f 0).2.1 ++
        [pad] ++ o.drop W) := by
    have h1 : ((1 : Nat) : Int) = 1 := rfl
    rw [h1] at hpp
    rw [hpp, hk]
    rfl
  rw [hconv, hpp']
  show bufWrite _ _ _ = _
  rw [hw]

/-- The bytes written by the sign-left formats when the digit string leaves
room for the sign. -/
theorem sign_left_bytes (o : List Nat) (pad : Nat) (W : Nat) (d : CStr) (sg : Nat)
    (hbuf : W ≤ o.length) (hlen : d.length < W) :
    ((memsetBuf o pad (W : Int)).bind fun o1 =>
      (bufWrite o1 0 [sg]).bind fun o2 => bufWrite o2 ((W : Int) - d.length) d) =
      some ([sg] ++ List.replicate (W - 1 - d.length) pad ++ d ++ o.drop W) := by
  rw [memsetBuf_eq o pad W hbuf]
  have e : List.replicate W pad =
      [pad] ++ List.replicate (W - 1 - d.length) pad ++ List.replicate d.length pad := by
    have : [pad] = List.replicate 1 pad := rfl
    rw [this, ← List.replicate_add, ← List.replicate_add]
    congr 1
    omega
  have h1 := bufWrite_mid [] [pad]
    (List.replicate (W - 1 - d.length) pad ++ List.replicate d.length pad ++ o.drop W) [sg] 0
    rfl rfl
  have h2 := bufWrite_mid ([sg] ++ List.replicate (W - 1 - d.length) pad)
    (List.replicate d.length pad) (o.drop W) d ((W : Int) - d.length) (by simp; omega) (by simp)
  rw [e]
  simp only [List.append_assoc, List.nil_append] at h1 h2 ⊢
  rw [Option.some_bind, h1, Option.some_bind]
  exact h2

/-- The buffer left by the formats that put the sign at the left side, when
the digit string is shorter than the width. -/
theorem Convert_sign_left_buffer (fd : FieldOfRecord) (f : CStr) (uninit o : List Nat)
    (W : Nat) (pad : Nat)
    (hfmt : (fd.iFieldFormat = enumFieldFormat.entierSG ∧ pad = 32) ∨
      (fd.iFieldFormat = enumFieldFormat.entierSZG ∧ pad = 48))
    (hW : fd.iFieldLengthOutput = (W : Int)) (hacc : (isNumeric f 0).1 = TRUE)
    (hlen : (isNumeric f 0).2.1.length < W) (hbuf : W ≤ o.length) :
    Convert_InputField fd f uninit o =
      some (([SIGN (isNumeric f 0).2.2] ++
        List.replicate (W - 1 - (isNumeric f 0).2.1.length) pad ++ (isNumeric f 0).2.1) ++
        o.drop W) := by
  have hnz := nonzero_of_TRUE hacc
  have hb := sign_left_bytes o pad W (isNumeric f 0).2.1 (SIGN (isNumeric f 0).2.2) hbuf hlen
  have hconv : Convert_InputField fd f uninit o =
      ((memsetBuf o pad (W : Int)).bind fun o1 =>
        (bufWrite o1 0 [SIGN (isNumeric f 0).2.2]).bind fun o2 =>
          bufWrite o2 ((W : Int) - (isNumeric f 0).2.1.length) (isNumeric f 0).2.1) := by
    unfold Convert_InputField
    rcases hfmt with ⟨h1, h2⟩ | ⟨h1, h2⟩
    · simp only [h1, hW, if_pos hnz, h2]
    · simp only [h1, hW, if_pos hnz, h2]
  rw [hconv, hb]

/-- C14. For a field accepted by `isNumeric` with digit string `d` and an
output width `W >= len(d)`, `Convert_InputField` with entierEG yields
`W - len(d)` spaces followed by `d`, with entierZG `W - len(d)` characters
`'0'` followed by `d`, and no sign character appears in these `W` bytes. -/
theorem unsigned_formats_pad_left (fd : FieldOfRecord) (f : CStr) (uninit o : List Nat)
    (W : Nat) (pad : Nat)
    (hfmt : (fd.iFieldFormat = enumFieldFormat.entierEG ∧ pad = 32) ∨
      (fd.iFieldFormat = enumFieldFormat.entierZG ∧ pad = 48))
    (hW : fd.iFieldLengthOutput = (W : Int)) (hacc : (isNumeric f 0).1 = TRUE)
    (hlen : (isNumeric f 0).2.1.length ≤ W) (hbuf : W ≤ o.length) :
    ∃ o', Convert_InputField fd f uninit o = some o' ∧
      outputField fd o' =
        List.replicate (W - (isNumeric f 0).2.1.length) pad ++ (isNumeric f 0).2.1 ∧
      (outputField fd o').length = W ∧
      ∀ c ∈ outputField fd o', c ≠ 43 ∧ c ≠ 45 := by
  have hout := outputField_append fd W
    (List.replicate (W - (isNumeric f 0).2.1.length) pad ++ (isNumeric f 0).2.1) (o.drop W) hW
    (by simp; omega)
  refine ⟨_, Convert_unsigned_buffer fd f uninit o W pad hfmt hW hacc hlen hbuf, hout, ?_, ?_⟩
  · rw [hout]
    simp
    omega
  · rw [hout]
    intro c hc
    rcases List.mem_append.mp hc with h | h
    · have := List.eq_of_mem_replicate h
      rcases hfmt with ⟨_, h2⟩ | ⟨_, h2⟩ <;> omega
    · have := digits_of_accept f hacc c h
      omega

/-- C13. For a field accepted by `isNumeric` with digit string `d` and an
output width `W > len(d)`, `Convert_InputField` with entierSD (pad `' '`) or
entierSZD (pad `'0'`) yields `W - 1 - len(d)` pad characters, then `d`, then
the sign character in the last byte: `'-'` when the field holds a `'-'`, else
`'+'`. -/
theorem sign_right_formats (fd : FieldOfRecord) (f : CStr) (uninit o : List Nat)
    (W : Nat) (pad : Nat)
    (hfmt : (fd.iFieldFormat = enumFieldFormat.entierSD ∧ pad = 32) ∨
      (fd.iFieldFormat = enumFieldFormat.entierSZD ∧ pad = 48))
    (hW : fd.iFieldLengthOutput = (W : Int)) (hacc : (isNumeric f 0).1 = TRUE)
    (hlen : (isNumeric f 0).2.1.length < W) (hbuf : W ≤ o.length) :
    ∃ o', Convert_InputField fd f uninit o = some o' ∧
      outputField fd o' =
        List.replicate (W - 1 - (isNumeric f 0).2.1.length) pad ++ (isNumeric f 0).2.1 ++
          [if 45 ∈ f then 45 else 43] ∧
      (outputField fd o').length = W := by
  have hout := outputField_append fd W
    (List.replicate (W - 1 - (isNumeric f 0).2.1.length) pad ++ (isNumeric f 0).2.1 ++
      [SIGN (isNumeric f 0).2.2]) (o.drop W) hW (by simp; omega)
  refine ⟨_, Convert_sign_right_buffer fd f uninit o W pad hfmt hW hacc hlen hbuf, ?_, ?_⟩
  · rw [hout, SIGN_accept f hacc]
  · rw [hout]
    simp
    omega

/-- C12 as stated fails when the field is made of digits only: the digit
string fills the whole width and is copied over the sign.  For the field
`"123"` and the width 3, byte 0 of the output is `'1'`. -/
theorem sign_left_counterexample :
    (isNumeric (str "123") 0).1 = TRUE ∧
    (str "123").length = 3 ∧
    Convert_InputField ⟨[], [], enumFieldFormat.entierSG, 0, 3, 3, 0, 0⟩ (str "123") []
      (List.replicate 8 32) = some (str "123     ") ∧
    Convert_InputField ⟨[], [], enumFieldFormat.entierSZG, 0, 3, 3, 0, 0⟩ (str "123") []
      (List.replicate 8 32) = some (str "123     ") ∧
    (str "123     ").head? ≠ some 43 := by
  refine ⟨by decide, by decide, by decide, by decide, by decide⟩

/-- C12 (amended). For a field accepted by `isNumeric` whose digit string `d`
is shorter than the output width `W` (with `W` equal to the field's length:
when the field holds a sign character or a space), `Convert_InputField` with
entierSG or entierSZG yields the sign character in byte 0 (`'-'` when the
field holds a `'-'`, else `'+'`), then `W - 1 - len(d)` pad characters, then
`d`. -/
theorem sign_left_formats (fd : FieldOfRecord) (f : CStr) (uninit o : List Nat)
    (W : Nat) (pad : Nat)
    (hfmt : (fd.iFieldFormat = enumFieldFormat.entierSG ∧ pad = 32) ∨
      (fd.iFieldFormat = enumFieldFormat.entierSZG ∧ pad = 48))
    (hW : fd.iFieldLengthOutput = (W : Int)) (hacc : (isNumeric f 0).1 = TRUE)
    (hlen : (isNumeric f 0).2.1.length < W) (hbuf : W ≤ o.length) :
    ∃ o', Convert_InputField fd f uninit o = some o' ∧
      (outputField fd o').head? = some (if 45 ∈ f then 45 else 43) ∧
      outputField fd o' =
        [if 45 ∈ f then 45 else 43] ++
          List.replicate (W - 1 - (isNumeric f 0).2.1.length) pad ++ (isNumeric f 0).2.1 := by
  have hout := outputField_append fd W
    ([SIGN (isNumeric f 0).2.2] ++
      List.replicate (W - 1 - (isNumeric f 0).2.1.length) pad ++ (isNumeric f 0).2.1)
    (o.drop W) hW (by simp; omega)
  refine ⟨_, Convert_sign_left_buffer fd f uninit o W pad hfmt hW hacc hlen hbuf, ?_, ?_⟩
  · rw [hout, SIGN_accept f hacc]
    rfl
  · rw [hout, SIGN_accept f hacc]

/-! ### Convert_InputField : text formats and verbatim copy -/

/-- C15. For every input field `x` and every output width
`W >= len(Trim(x))`, `Convert_InputField` with charED yields `Trim(x)`
followed by `W - len(Trim(x))` spaces and with charEG the same spaces followed
by `Trim(x)`; `Trim(x)` is `x` without its leading and trailing spaces, the
interior spaces are kept. -/
theorem text_formats_trim_then_pad (fd : FieldOfRecord) (x : CStr) (uninit o : List Nat)
    (W : Nat) (hW : fd.iFieldLengthOutput = (W : Int)) (hlen : (Trim x).length ≤ W)
    (hbuf : W ≤ o.length)
    (hfmt : fd.iFieldFormat = enumFieldFormat.charED ∨
      fd.iFieldFormat = enumFieldFormat.charEG) :
    ∃ o', Convert_InputField fd x uninit o = some o' ∧
      outputField fd o' =
        (if fd.iFieldFormat = enumFieldFormat.charED then
          Trim x ++ List.replicate (W - (Trim x).length) 32
        else List.replicate (W - (Trim x).length) 32 ++ Trim x) ∧
      Trim x = (x.dropWhile isSpaceChar).rdropWhile isSpaceChar := by
  have hms := memsetBuf_eq o 32 W hbuf
  rcases hfmt with hfmt | hfmt
  · have hconv : Convert_InputField fd x uninit o =
        (memsetBuf o 32 (W : Int)).bind fun o1 => bufWrite o1 0 (Trim x) := by
      unfold Convert_InputField
      simp only [hfmt, hW]
    have e : List.replicate W 32 =
        List.replicate (Trim x).length 32 ++ List.replicate (W - (Trim x).length) 32 := by
      rw [← List.replicate_add]
      congr 1
      omega
    have h1 := bufWrite_mid [] (List.replicate (Trim x).length 32)
      (List.replicate (W - (Trim x).length) 32 ++ o.drop W) (Trim x) 0 rfl (by simp)
    refine ⟨Trim x ++ List.replicate (W - (Trim x).length) 32 ++ o.drop W, ?_, ?_,
      Trim_eq_stripSpaces x⟩
    · rw [hconv, hms, Option.some_bind, e]
      simp only [List.append_assoc, List.nil_append] at h1 ⊢
      exact h1
    · rw [if_pos hfmt]
      unfold outputField
      rw [hW, Int.toNat_natCast]
      exact take_append_exact _ _ _ (by simp; omega)
  · have hconv : Convert_InputField fd x uninit o =
        (memsetBuf o 32 (W : Int)).bind
          fun o1 => bufWrite o1 ((W : Int) - (Trim x).length) (Trim x) := by
      unfold Convert_InputField
      simp only [hfmt, hW]
    have e : List.replicate W 32 =
        List.replicate (W - (Trim x).length) 32 ++ List.replicate (Trim x).length 32 := by
      rw [← List.replicate_add]
      congr 1
      omega
    have h1 := bufWrite_mid (List.replicate (W - (Trim x).length) 32)
      (List.replicate (Trim x).length 32) (o.drop W) (Trim x) ((W : Int) - (Trim x).length)
      (by simp; omega) (by simp)
    refine ⟨List.replicate (W - (Trim x).length) 32 ++ Trim x ++ o.drop W, ?_, ?_,
      Trim_eq_stripSpaces x⟩
    · rw [hconv, hms, Option.some_bind, e]
      exact h1
    · rw [if_neg (by rw [hfmt]; decide)]
      unfold outputField
      rw [hW, Int.toNat_natCast]
      exact take_append_exact _ _ _ (by simp; omega)

/-- Witness of C15: the field `" a b "`, the format charED and the width 5. -/
theorem text_formats_trim_then_pad_witness :
    (Trim (str " a b ")).length ≤ 5 ∧ 5 ≤ (List.replicate 8 35).length ∧
    ∃ o', Convert_InputField ⟨[], [], enumFieldFormat.charED, 0, 5, 5, 0, 0⟩ (str " a b ") []
        (List.replicate 8 35) = some o' ∧
      outputField ⟨[], [], enumFieldFormat.charED, 0, 5, 5, 0, 0⟩ o' =
        (if (⟨[], [], enumFieldFormat.charED, 0, 5, 5, 0, 0⟩ : FieldOfRecord).iFieldFormat =
            enumFieldFormat.charED then
          Trim (str " a b ") ++ List.replicate (5 - (Trim (str " a b ")).length) 32
        else List.replicate (5 - (Trim (str " a b ")).length) 32 ++ Trim (str " a b ")) ∧
      Trim (str " a b ") = ((str " a b ").dropWhile isSpaceChar).rdropWhile isSpaceChar :=
  ⟨by decide, by decide,
    text_formats_trim_then_pad ⟨[], [], enumFieldFormat.charED, 0, 5, 5, 0, 0⟩ (str " a b ") []
      (List.replicate 8 35) 5 rfl (by decide) (by decide) (Or.inl rfl)⟩

/-- The two text formats on the field `" a b "` and the width 5. -/
theorem text_formats_examples :
    Convert_InputField ⟨[], [], enumFieldFormat.charED, 0, 5, 5, 0, 0⟩ (str " a b ") []
      (List.replicate 8 35) = some (str "a b  ###") ∧
    Convert_InputField ⟨[], [], enumFieldFormat.charEG, 0, 5, 5, 0, 0⟩ (str " a b ") []
      (List.replicate 8 35) = some (str "  a b###") := by
  constructor <;> decide

theorem copyRaw_eq (o f uninit : List Nat) (L : Nat) (hfield : L ≤ f.length)
    (hbuf : L ≤ o.length) :
    copyRaw o (f ++ 0 :: uninit) (L : Int) = some (f.take L ++ o.drop L) := by
  unfold copyRaw
  have h0 : (0 : Int) ≤ (L : Int) ∧ (L : Int) ≤ ((f ++ 0 :: uninit).length : Int) := by
    simp only [List.length_append, List.length_cons, Nat.cast_add]
    omega
  rw [if_pos h0, Int.toNat_natCast, List.take_append_of_le_length hfield]
  have h := bufWrite_mid [] (o.take L) (o.drop L) (f.take L) 0 rfl (by simp; omega)
  simpa using h

/-- C11. For each numeric format, when the numeric check rejects the input
field (`isNumeric` for the six entier formats, `isValidInputAmount` for
amount3DEC), `Convert_InputField` copies the first `iFieldLengthInput` bytes
of the raw field to the start of the output buffer and leaves the rest of the
buffer as it was: no trimming, no padding, no sign. -/
theorem non_numeric_fallback_verbatim (fd : FieldOfRecord) (f : CStr) (uninit o : List Nat)
    (L : Nat) (hL : fd.iFieldLengthInput = (L : Int)) (hfield : L ≤ f.length)
    (hbuf : L ≤ o.length)
    (hrej : ((fd.iFieldFormat = enumFieldFormat.entierEG ∨
          fd.iFieldFormat = enumFieldFormat.entierZG ∨
          fd.iFieldFormat = enumFieldFormat.entierSG ∨
          fd.iFieldFormat = enumFieldFormat.entierSZG ∨
          fd.iFieldFormat = enumFieldFormat.entierSD ∨
          fd.iFieldFormat = enumFieldFormat.entierSZD) ∧ (isNumeric f 0).1 = FALSE) ∨
      (fd.iFieldFormat = enumFieldFormat.amount3DEC ∧ (isValidInputAmount f).1 = FALSE)) :
    Convert_InputField fd f uninit o = some (f.take L ++ o.drop L) := by
  have hc := copyRaw_eq o f uninit L hfield hbuf
  rcases hrej with ⟨hfmt, hr⟩ | ⟨hfmt, hr⟩
  · have hz : ¬ (isNumeric f 0).1 ≠ 0 := by
      rw [hr]
      decide
    unfold Convert_InputField
    rcases hfmt with h | h | h | h | h | h <;> simp only [h, hL, if_neg hz] <;> exact hc
  · have hz : ¬ (isValidInputAmount f).1 ≠ 0 := by
      rw [hr]
      decide
    unfold Convert_InputField
    simp only [hfmt, hL, if_neg hz]
    exact hc

/-- Witness of C11: the field `"1a2"` with the format entierZG. -/
theorem non_numeric_fallback_verbatim_witness :
    3 ≤ (str "1a2").length ∧ (isNumeric (str "1a2") 0).1 = FALSE ∧
    Convert_InputField ⟨[], [], enumFieldFormat.entierZG, 0, 3, 3, 0, 0⟩ (str "1a2") []
        (List.replicate 8 35) =
      some ((str "1a2").take 3 ++ (List.replicate 8 35).drop 3) :=
  ⟨by decide, by decide,
    non_numeric_fallback_verbatim ⟨[], [], enumFieldFormat.entierZG, 0, 3, 3, 0, 0⟩ (str "1a2")
      [] (List.replicate 8 35) 3 rfl (by decide) (by decide)
      (Or.inl ⟨Or.inr (Or.inl rfl), by decide⟩)⟩


/-- Witness of C14: the field `"-12"`, the format entierZG and the width 3. -/
theorem unsigned_formats_pad_left_witness :
    (isNumeric (str "-12") 0).1 = TRUE ∧ (isNumeric (str "-12") 0).2.1.length ≤ 3 ∧
    ∃ o', Convert_InputField ⟨[], [], enumFieldFormat.entierZG, 0, 3, 3, 0, 0⟩ (str "-12") []
        (List.replicate 8 35) = some o' ∧
      outputField ⟨[], [], enumFieldFormat.entierZG, 0, 3, 3, 0, 0⟩ o' =
        List.replicate (3 - (isNumeric (str "-12") 0).2.1.length) 48 ++
          (isNumeric (str "-12") 0).2.1 ∧
      (outputField ⟨[], [], enumFieldFormat.entierZG, 0, 3, 3, 0, 0⟩ o').length = 3 ∧
      ∀ c ∈ outputField ⟨[], [], enumFieldFormat.entierZG, 0, 3, 3, 0, 0⟩ o', c ≠ 43 ∧ c ≠ 45 :=
  ⟨by decide, by decide,
    unsigned_formats_pad_left ⟨[], [], enumFieldFormat.entierZG, 0, 3, 3, 0, 0⟩ (str "-12") []
      (List.replicate 8 35) 3 48 (Or.inr ⟨rfl, rfl⟩) rfl (by decide) (by decide) (by decide)⟩

/-- Witness of C13: the field `"-12 "`, the format entierSZD and the width 4. -/
theorem sign_right_formats_witness :
    (isNumeric (str "-12 ") 0).1 = TRUE ∧ (isNumeric (str "-12 ") 0).2.1.length < 4 ∧
    ∃ o', Convert_InputField ⟨[], [], enumFieldFormat.entierSZD, 0, 4, 4, 0, 0⟩ (str "-12 ") []
        (List.replicate 8 35) = some o' ∧
      outputField ⟨[], [], enumFieldFormat.entierSZD, 0, 4, 4, 0, 0⟩ o' =
        List.replicate (4 - 1 - (isNumeric (str "-12 ") 0).2.1.length) 48 ++
          (isNumeric (str "-12 ") 0).2.1 ++ [if 45 ∈ str "-12 " then 45 else 43] ∧
      (outputField ⟨[], [], enumFieldFormat.entierSZD, 0, 4, 4, 0, 0⟩ o').length = 4 :=
  ⟨by decide, by decide,
    sign_right_formats ⟨[], [], enumFieldFormat.entierSZD, 0, 4, 4, 0, 0⟩ (str "-12 ") []
      (List.replicate 8 35) 4 48 (Or.inr ⟨rfl, rfl⟩) rfl (by decide) (by decide) (by decide)⟩

/-- Witness of C12 (amended): the field `"-12"`, the format entierSG and the
width 3. -/
theorem sign_left_formats_witness :
    (isNumeric (str "-12") 0).1 = TRUE ∧ (isNumeric (str "-12") 0).2.1.length < 3 ∧
    ∃ o', Convert_InputField ⟨[], [], enumFieldFormat.entierSG, 0, 3, 3, 0, 0⟩ (str "-12") []
        (List.replicate 8 35) = some o' ∧
      (outputField ⟨[], [], enumFieldFormat.entierSG, 0, 3, 3, 0, 0⟩ o').head? =
        some (if 45 ∈ str "-12" then 45 else 43) ∧
      outputField ⟨[], [], enumFieldFormat.entierSG, 0, 3, 3, 0, 0⟩ o' =
        [if 45 ∈ str "-12" then 45 else 43] ++
          List.replicate (3 - 1 - (isNumeric (str "-12") 0).2.1.length) 32 ++
          (isNumeric (str "-12") 0).2.1 :=
  ⟨by decide, by decide,
    sign_left_formats ⟨[], [], enumFieldFormat.entierSG, 0, 3, 3, 0, 0⟩ (str "-12") []
      (List.replicate 8 35) 3 32 (Or.inl ⟨rfl, rfl⟩) rfl (by decide) (by decide) (by decide)⟩

/-- The numeric formats on sample fields. -/
theorem numeric_formats_examples :
    Convert_InputField ⟨[], [], enumFieldFormat.entierEG, 0, 3, 3, 0, 0⟩ (str "-12") []
      (List.replicate 8 35) = some (str " 12#####") ∧
    Convert_InputField ⟨[], [], enumFieldFormat.entierZG, 0, 3, 3, 0, 0⟩ (str "-12") []
      (List.replicate 8 35) = some (str "012#####") ∧
    Convert_InputField ⟨[], [], enumFieldFormat.entierSG, 0, 4, 4, 0, 0⟩ (str " -12") []
      (List.replicate 8 35) = some (str "- 12####") ∧
    Convert_InputField ⟨[], [], enumFieldFormat.entierSZG, 0, 4, 4, 0, 0⟩ (str " -12") []
      (List.replicate 8 35) = some (str "-012####") ∧
    Convert_InputField ⟨[], [], enumFieldFormat.entierSD, 0, 4, 4, 0, 0⟩ (str "-12 ") []
      (List.replicate 8 35) = some (str " 12-####") ∧
    Convert_InputField ⟨[], [], enumFieldFormat.entierSZD, 0, 4, 4, 0, 0⟩ (str "-12 ") []
      (List.replicate 8 35) = some (str "012-####") := by
  refine ⟨by decide, by decide, by decide, by decide, by decide, by decide⟩


/-! ### CorrectFormatAmount -/

theorem atoi_digit (d : Nat) (hd : d ≤ 9) : atoi [48 + d] = (d : Int) := by
  interval_cases d <;> rfl

theorem readBytes_mid (a b c : List Nat) (off n : Int) (hoff : off = a.length)
    (hn : n = b.length) : readBytes (a ++ b ++ c) off n = some b := by
  subst hoff hn
  unfold readBytes
  have h : (0 : Int) ≤ (a.length : Int) ∧ (0 : Int) ≤ (b.length : Int) ∧
      (a.length : Int) + (b.length : Int) ≤ ((a ++ b ++ c).length : Int) + 1 := by
    simp only [List.length_append, Nat.cast_add]
    omega
  rw [if_pos h, Int.toNat_natCast, Int.toNat_natCast]
  have e : (a ++ b ++ c ++ [0]).drop a.length = b ++ (c ++ [0]) := by
    rw [List.append_assoc, List.append_assoc, List.drop_left]
  rw [e, List.take_left]

theorem amountOut_eq (sign : Nat) (mag : List Nat) (hm : mag.length ≤ 18) :
    amountOut sign mag =
      some ([sign] ++ mag ++ List.replicate (18 - mag.length) 48 ++ [51]) := by
  unfold amountOut
  have e0 : List.replicate 21 48 =
      [48] ++ List.replicate mag.length 48 ++ List.replicate (18 - mag.length) 48 ++ [48] ++
        [48] := by
    have h1 : ([48] : List Nat) = List.replicate 1 48 := rfl
    rw [h1, ← List.replicate_add, ← List.replicate_add, ← List.replicate_add,
      ← List.replicate_add]
    congr 1
    omega
  have w1 := bufWrite_mid [] [48]
    (List.replicate mag.length 48 ++ List.replicate (18 - mag.length) 48 ++ [48] ++ [48])
    [sign] 0 rfl rfl
  have w2 := bufWrite_mid [sign] (List.replicate mag.length 48)
    (List.replicate (18 - mag.length) 48 ++ [48] ++ [48]) mag 1 rfl (by simp)
  have w3 := bufWrite_mid ([sign] ++ mag ++ List.replicate (18 - mag.length) 48) [48] [48]
    [51] 19 (by simp; omega) rfl
  rw [e0]
  simp only [List.append_assoc, List.nil_append] at w1 w2 w3 ⊢
  rw [w1, Option.some_bind, w2, Option.some_bind, w3, Option.map_some']
  congr 1
  have : [sign] ++ (mag ++ (List.replicate (18 - mag.length) 48 ++ ([51] ++ [48]))) =
      ([sign] ++ (mag ++ (List.replicate (18 - mag.length) 48 ++ [51]))) ++ [48] := by
    simp
  rw [this]
  exact take_append_exact _ _ _ (by simp; omega)

/-- The branch of `CorrectFormatAmount` taken when the currency and the
amount have the same number of decimals `d <= 3`: the first `3 - d` digits of
the magnitude are dropped and `3 - d` zeroes are appended. -/
theorem CorrectFormatAmount_same_decimals (sign : Nat) (m : List Nat) (d : Nat)
    (hm : m.length = 18) (hd : d ≤ 3) :
    CorrectFormatAmount ([sign] ++ m ++ [48 + d]) [48 + d] =
      some ([sign] ++ m.drop (3 - d) ++ List.replicate (3 - d) 48 ++ [51]) := by
  have hlast : ([sign] ++ m ++ [48 + d]).getLast? = some (48 + d) :=
    List.getLast?_concat _
  have hhead : ([sign] ++ m ++ [48 + d]).headD 0 = sign := by simp
  have hat := atoi_digit d (by omega)
  have hrd : readBytes ([sign] ++ m ++ [48 + d]) (1 + 3 - (d : Int)) (18 - 3 + (d : Int)) =
      some (m.drop (3 - d)) := by
    have e : [sign] ++ m ++ [48 + d] = ([sign] ++ m.take (3 - d)) ++ m.drop (3 - d) ++ [48 + d] := by
      simp
    rw [e]
    exact readBytes_mid _ _ _ _ _ (by simp; omega) (by simp; omega)
  unfold CorrectFormatAmount
  simp only [hlast, hhead, hat, List.length_singleton, gt_iff_lt, lt_self_iff_false, if_false,
    if_true, hrd, Option.some_bind]
  rw [amountOut_eq sign _ (by simp; omega)]
  congr 2
  simp
  omega


set_option maxRecDepth 100000 in
/-- C18. With a currency of 4 decimals and an amount of 4 decimals the
output holds the sign byte twice: byte 1 is `'+'`, not a digit, and the last
digit of the magnitude is overwritten by `'3'`.  With 5 decimals on both sides
the source of the copy starts before the amount. -/
theorem rescale_shape_four_decimals :
    CorrectFormatAmount (str "+0000000000000012344") (str "4") =
      some (str "++000000000000001233") ∧
    (str "++000000000000001233").getD 1 0 = 43 ∧
    isdigit 43 = false ∧
    CorrectFormatAmount (str "+0000000000000012345") (str "5") = none := by
  refine ⟨by decide, by decide, by decide, by decide⟩

set_option maxRecDepth 100000 in
/-- C19 as stated fails when the common number of decimals is below 3: with
2 decimals the magnitude `000000000000012345` comes out as
`000000000000123450`, which is not the input magnitude. -/
theorem rescale_same_decimals_counterexample :
    CorrectFormatAmount (str "+0000000000000123452") (str "2") =
      some (str "+0000000000001234503") ∧
    str "+0000000000001234503" ≠ str "+" ++ str "000000000000012345" ++ str "3" := by
  refine ⟨by decide, by decide⟩

/-- C19 (amended). For every sign byte, every magnitude `m` of 18 characters
and every number of decimals `d <= 3` common to the currency and the amount,
`CorrectFormatAmount` produces the sign, then `m` without its first `3 - d`
characters followed by `3 - d` zeroes, then `"3"`; for `d = 3` the magnitude
is `m` itself. -/
theorem rescale_same_decimals (sign : Nat) (m : List Nat) (d : Nat) (hm : m.length = 18)
    (hd : d ≤ 3) :
    CorrectFormatAmount ([sign] ++ m ++ [48 + d]) [48 + d] =
      some ([sign] ++ (m.drop (3 - d) ++ List.replicate (3 - d) 48) ++ [51]) ∧
    (m.drop (3 - d) ++ List.replicate (3 - d) 48).length = 18 ∧
    (d = 3 → m.drop (3 - d) ++ List.replicate (3 - d) 48 = m) := by
  refine ⟨?_, ?_, ?_⟩
  · rw [CorrectFormatAmount_same_decimals sign m d hm hd]
    simp
  · simp
    omega
  · intro h
    subst h
    simp

/-- Witness of C19 (amended): the magnitude `000000000000012345` with 2
decimals. -/
theorem rescale_same_decimals_witness :
    (str "000000000000012345").length = 18 ∧ 2 ≤ 3 ∧
    CorrectFormatAmount ([43] ++ str "000000000000012345" ++ [48 + 2]) [48 + 2] =
      some ([43] ++ ((str "000000000000012345").drop (3 - 2) ++ List.replicate (3 - 2) 48) ++
        [51]) ∧
    ((str "000000000000012345").drop (3 - 2) ++ List.replicate (3 - 2) 48).length = 18 ∧
    (2 = 3 → (str "000000000000012345").drop (3 - 2) ++ List.replicate (3 - 2) 48 =
      str "000000000000012345") :=
  ⟨by decide, by decide,
    rescale_same_decimals 43 (str "000000000000012345") 2 (by decide) (by decide)⟩

set_option maxRecDepth 100000 in
/-- C20 as stated fails: the result for the magnitude `000000000000123456`
with 5 decimals and a currency of 2 decimals is not `000000000000123000`. -/
theorem rescale_division_counterexample :
    CorrectFormatAmount (str "+0000000000001234565") (str "2") ≠
      some (str "+0000000000001230003") ∧
    CorrectFormatAmount (str "-0000000000001234565") (str "2") ≠
      some (str "-0000000000001230003") := by
  refine ⟨by decide, by decide⟩

set_option maxRecDepth 100000 in
/-- C20 (amended). For either sign, `CorrectFormatAmount` applied to the
magnitude `000000000000123456` with 5 decimals and a currency of 2 decimals
returns the sign, the magnitude `000000000000001230` and `"3"`: 123456 / 1000
rounds to 123, printed on 18 digits, of which the first `3 - 2` is dropped and
a zero appended (1.23456 becomes 1.230). -/
theorem rescale_division_worked_case :
    roundRatio 123456 (10 ^ 3) = 123 ∧
    CorrectFormatAmount (str "+" ++ str "000000000000123456" ++ str "5") (str "2") =
      some (str "+" ++ str "000000000000001230" ++ str "3") ∧
    CorrectFormatAmount (str "-" ++ str "000000000000123456" ++ str "5") (str "2") =
      some (str "-" ++ str "000000000000001230" ++ str "3") := by
  refine ⟨by decide, by decide, by decide⟩


/-! ### Reading back a formatted field -/

theorem describedSign_pm (f : CStr) : describedSign f = 1 ∨ describedSign f = -1 := by
  unfold describedSign
  split
  · right; rfl
  · left; rfl

theorem SIGN_back (s : Int) (hs : s = 1 ∨ s = -1) :
    (if SIGN s = 45 then (-1 : Int) else 1) = s := by
  rcases hs with h | h <;> subst h <;> decide

theorem SIGN_isSign (s : Int) : SIGN s = 43 ∨ SIGN s = 45 := by
  unfold SIGN
  split
  · right; rfl
  · left; rfl

theorem isNumeric_no_sign (l : CStr) (hne : l ≠ []) (hns : ∀ c ∈ l, ¬ isSignChar c = true)
    (hd : (stripSpaces l).all isdigit = true) :
    isNumeric l 0 = (TRUE, stripSpaces l, 1) := by
  have he : l.eraseP isSignChar = l := List.eraseP_of_forall_not hns
  have hf : l.find? isSignChar = none := List.find?_eq_none.mpr hns
  rw [isNumeric_eq l hne 0]
  unfold numericRemainder deleteFirstSign describedSign
  rw [he, hf, if_pos hd]
  simp

theorem isNumeric_sign_front (sg : Nat) (l : CStr) (hsg : sg = 43 ∨ sg = 45)
    (hd : (stripSpaces l).all isdigit = true) :
    isNumeric (sg :: l) 0 = (TRUE, stripSpaces l, if sg = 45 then -1 else 1) := by
  have hp : isSignChar sg = true := by simp [isSignChar, hsg]
  rw [isNumeric_eq (sg :: l) (List.cons_ne_nil _ _) 0]
  unfold numericRemainder deleteFirstSign describedSign
  rw [List.eraseP_cons_of_pos hp, List.find?_cons_of_pos _ hp, if_pos hd]
  simp

theorem isNumeric_sign_back (sg : Nat) (l : CStr) (hsg : sg = 43 ∨ sg = 45)
    (hns : ∀ c ∈ l, ¬ isSignChar c = true) (hd : (stripSpaces l).all isdigit = true) :
    isNumeric (l ++ [sg]) 0 = (TRUE, stripSpaces l, if sg = 45 then -1 else 1) := by
  have hp : isSignChar sg = true := by simp [isSignChar, hsg]
  have he : (l ++ [sg]).eraseP isSignChar = l := by
    rw [List.eraseP_append_right _ hns, List.eraseP_cons_of_pos hp, List.append_nil]
  have hf : (l ++ [sg]).find? isSignChar = some sg := by
    rw [List.find?_append, List.find?_eq_none.mpr hns, List.find?_cons_of_pos _ hp]
    rfl
  rw [isNumeric_eq (l ++ [sg]) (by simp) 0]
  unfold numericRemainder deleteFirstSign describedSign
  rw [he, hf, if_pos hd]
  simp

theorem dropWhile_spaces_append (k : Nat) (d : CStr) :
    (List.replicate k 32 ++ d).dropWhile isSpaceChar = d.dropWhile isSpaceChar := by
  induction k with
  | zero => rfl
  | succ k ih =>
    rw [List.replicate_succ, List.cons_append, List.dropWhile_cons_of_pos (by decide), ih]

theorem digits_no_space (d : CStr) (hd : ∀ c ∈ d, 48 ≤ c ∧ c ≤ 57) : ∀ c ∈ d, c ≠ 32 := by
  intro c hc
  have := hd c hc
  omega

theorem stripSpaces_spaces_digits (k : Nat) (d : CStr) (hd : ∀ c ∈ d, 48 ≤ c ∧ c ≤ 57) :
    stripSpaces (List.replicate k 32 ++ d) = d := by
  unfold stripSpaces
  rw [dropWhile_spaces_append, dropWhile_no_space d (digits_no_space d hd),
    rdropWhile_no_space d (digits_no_space d hd)]

theorem stripSpaces_no_space (l : CStr) (h : ∀ c ∈ l, c ≠ 32) : stripSpaces l = l := by
  unfold stripSpaces
  rw [dropWhile_no_space l h, rdropWhile_no_space l h]

theorem digitsVal_zeros (k : Nat) (d : CStr) :
    digitsVal (List.replicate k 48 ++ d) = digitsVal d := by
  unfold digitsVal
  rw [List.foldl_append]
  congr 1
  induction k with
  | zero => rfl
  | succ k ih =>
    rw [List.replicate_succ, List.foldl_cons]
    exact ih

theorem pad_digits_mem (k pad : Nat) (d : CStr) (hpad : pad = 32 ∨ pad = 48)
    (hd : ∀ c ∈ d, 48 ≤ c ∧ c ≤ 57) :
    ∀ c ∈ List.replicate k pad ++ d, c = 32 ∨ (48 ≤ c ∧ c ≤ 57) := by
  intro c hc
  rcases List.mem_append.mp hc with h | h
  · have := List.eq_of_mem_replicate h
    rcases hpad with h1 | h1 <;> omega
  · exact Or.inr (hd c h)

theorem not_sign_of_space_or_digit (l : CStr) (h : ∀ c ∈ l, c = 32 ∨ (48 ≤ c ∧ c ≤ 57)) :
    ∀ c ∈ l, ¬ isSignChar c = true := by
  intro c hc
  have := h c hc
  simp only [isSignChar, decide_eq_true_eq]
  omega

/-- What `stripSpaces` leaves of the padded digit string, for the two pad
characters: the digit string itself after spaces, the zeroes and the digit
string after zeroes; in both cases digits of the same value. -/
theorem stripSpaces_padded (k pad : Nat) (d : CStr) (hpad : pad = 32 ∨ pad = 48)
    (hd : ∀ c ∈ d, 48 ≤ c ∧ c ≤ 57) :
    (stripSpaces (List.replicate k pad ++ d)).all isdigit = true ∧
    digitsVal (stripSpaces (List.replicate k pad ++ d)) = digitsVal d := by
  rcases hpad with h | h
  · subst h
    rw [stripSpaces_spaces_digits k d hd]
    exact ⟨(all_isdigit_iff d).mpr hd, rfl⟩
  · subst h
    have hall : ∀ c ∈ List.replicate k 48 ++ d, 48 ≤ c ∧ c ≤ 57 := by
      intro c hc
      rcases List.mem_append.mp hc with h | h
      · have := List.eq_of_mem_replicate h
        omega
      · exact hd c h
    rw [stripSpaces_no_space _ (digits_no_space _ hall)]
    exact ⟨(all_isdigit_iff _).mpr hall, digitsVal_zeros k d⟩


/-! ### Format round-trip -/

set_option maxRecDepth 100000 in
/-- C16 as stated fails for the unsigned formats on a negative value and for
amount3DEC: entierEG turns `"-12"` into `" 12"`, which reads back with the
sign +1, and amount3DEC turns `"12"` into `"+0000000000000000120"`, whose
digits read back as 120. -/
theorem format_round_trip_counterexample :
    isNumeric (str "-12") 0 = (TRUE, str "12", -1) ∧
    Convert_InputField ⟨[], [], enumFieldFormat.entierEG, 0, 3, 3, 0, 0⟩ (str "-12") []
      (List.replicate 8 35) = some (str " 12#####") ∧
    isNumeric (str " 12") 0 = (TRUE, str "12", 1) ∧
    isValidInputAmount (str "12") = (TRUE, str "12", 1, 0) ∧
    Convert_InputField ⟨[], [], enumFieldFormat.amount3DEC, 0, 2, 20, 0, 0⟩ (str "12") []
      (List.replicate 22 35) = some (str "+0000000000000000120##") ∧
    isNumeric (str "+0000000000000000120") 0 = (TRUE, str "0000000000000000120", 1) ∧
    digitsVal (str "0000000000000000120") = 120 ∧ digitsVal (str "12") = 12 := by
  refine ⟨by decide, by decide, by decide, by decide, by decide, by decide, by decide,
    by decide⟩

/-- C16 (amended). For a field accepted by `isNumeric` with digit string `d`
and sign `s`, and an output width `W` that holds `d` and, in the four signed
formats, one more byte for the sign: `isNumeric` applied to the `W` bytes
written by `Convert_InputField` succeeds and gives digits of the same value as
`d`; it gives the sign `s` in the formats entierSG, entierSZG, entierSD and
entierSZD, and in the formats entierEG and entierZG when the field holds no
`'-'`. -/
theorem format_round_trip (fd : FieldOfRecord) (f : CStr) (uninit o : List Nat)
    (W : Nat) (pad : Nat)
    (hW : fd.iFieldLengthOutput = (W : Int)) (hacc : (isNumeric f 0).1 = TRUE)
    (hbuf : W ≤ o.length)
    (hcase :
      (((fd.iFieldFormat = enumFieldFormat.entierEG ∧ pad = 32) ∨
          (fd.iFieldFormat = enumFieldFormat.entierZG ∧ pad = 48)) ∧
        45 ∉ f ∧ (isNumeric f 0).2.1.length ≤ W ∧ 1 ≤ W) ∨
      (((fd.iFieldFormat = enumFieldFormat.entierSG ∧ pad = 32) ∨
          (fd.iFieldFormat = enumFieldFormat.entierSZG ∧ pad = 48)) ∧
        (isNumeric f 0).2.1.length < W) ∨
      (((fd.iFieldFormat = enumFieldFormat.entierSD ∧ pad = 32) ∨
          (fd.iFieldFormat = enumFieldFormat.entierSZD ∧ pad = 48)) ∧
        (isNumeric f 0).2.1.length < W)) :
    ∃ o', Convert_InputField fd f uninit o = some o' ∧
      (isNumeric (outputField fd o') 0).1 = TRUE ∧
      (isNumeric (outputField fd o') 0).2.2 = (isNumeric f 0).2.2 ∧
      digitsVal (isNumeric (outputField fd o') 0).2.1 = digitsVal (isNumeric f 0).2.1 := by
  have hdig := digits_of_accept f hacc
  have hs : (isNumeric f 0).2.2 = 1 ∨ (isNumeric f 0).2.2 = -1 := by
    rw [(isNumeric_accept f 0 hacc).2.2.1]
    exact describedSign_pm f
  rcases hcase with ⟨hfmt, hneg, hlen, hW1⟩ | ⟨hfmt, hlen⟩ | ⟨hfmt, hlen⟩
  · have hpad : pad = 32 ∨ pad = 48 := by
      rcases hfmt with ⟨_, h⟩ | ⟨_, h⟩
      · exact Or.inl h
      · exact Or.inr h
    have hout := outputField_append fd W
      (List.replicate (W - (isNumeric f 0).2.1.length) pad ++ (isNumeric f 0).2.1) (o.drop W) hW
      (by simp; omega)
    have hsp := stripSpaces_padded (W - (isNumeric f 0).2.1.length) pad _ hpad hdig
    have hne : List.replicate (W - (isNumeric f 0).2.1.length) pad ++ (isNumeric f 0).2.1 ≠
        [] := by
      intro e
      have := congrArg List.length e
      rw [List.length_append, List.length_replicate, List.length_nil] at this
      omega
    have hre := isNumeric_no_sign _ hne
      (not_sign_of_space_or_digit _ (pad_digits_mem _ pad _ hpad hdig)) hsp.1
    have hplus : (isNumeric f 0).2.2 = 1 := by
      have h1 := SIGN_accept f hacc
      rw [if_neg hneg] at h1
      rcases hs with h | h
      · exact h
      · rw [h] at h1
        exact absurd h1 (by decide)
    refine ⟨_, Convert_unsigned_buffer fd f uninit o W pad hfmt hW hacc hlen hbuf, ?_, ?_, ?_⟩
    · rw [hout, hre]
    · rw [hout, hre, hplus]
    · rw [hout, hre]
      exact hsp.2
  · have hpad : pad = 32 ∨ pad = 48 := by
      rcases hfmt with ⟨_, h⟩ | ⟨_, h⟩
      · exact Or.inl h
      · exact Or.inr h
    have hout := outputField_append fd W
      ([SIGN (isNumeric f 0).2.2] ++
        List.replicate (W - 1 - (isNumeric f 0).2.1.length) pad ++ (isNumeric f 0).2.1)
      (o.drop W) hW (by simp; omega)
    have hsp := stripSpaces_padded (W - 1 - (isNumeric f 0).2.1.length) pad _ hpad hdig
    have hre := isNumeric_sign_front (SIGN (isNumeric f 0).2.2)
      (List.replicate (W - 1 - (isNumeric f 0).2.1.length) pad ++ (isNumeric f 0).2.1)
      (SIGN_isSign _) hsp.1
    have e : [SIGN (isNumeric f 0).2.2] ++
        List.replicate (W - 1 - (isNumeric f 0).2.1.length) pad ++ (isNumeric f 0).2.1 =
        SIGN (isNumeric f 0).2.2 ::
          (List.replicate (W - 1 - (isNumeric f 0).2.1.length) pad ++ (isNumeric f 0).2.1) := by
      simp
    refine ⟨_, Convert_sign_left_buffer fd f uninit o W pad hfmt hW hacc hlen hbuf, ?_, ?_, ?_⟩
    · rw [hout, e, hre]
    · rw [hout, e, hre]
      exact SIGN_back _ hs
    · rw [hout, e, hre]
      exact hsp.2
  · have hpad : pad = 32 ∨ pad = 48 := by
      rcases hfmt with ⟨_, h⟩ | ⟨_, h⟩
      · exact Or.inl h
      · exact Or.inr h
    have hout := outputField_append fd W
      (List.replicate (W - 1 - (isNumeric f 0).2.1.length) pad ++ (isNumeric f 0).2.1 ++
        [SIGN (isNumeric f 0).2.2]) (o.drop W) hW (by simp; omega)
    have hsp := stripSpaces_padded (W - 1 - (isNumeric f 0).2.1.length) pad _ hpad hdig
    have hre := isNumeric_sign_back (SIGN (isNumeric f 0).2.2)
      (List.replicate (W - 1 - (isNumeric f 0).2.1.length) pad ++ (isNumeric f 0).2.1)
      (SIGN_isSign _)
      (not_sign_of_space_or_digit _ (pad_digits_mem _ pad _ hpad hdig)) hsp.1
    refine ⟨_, Convert_sign_right_buffer fd f uninit o W pad hfmt hW hacc hlen hbuf, ?_, ?_, ?_⟩
    · rw [hout, hre]
    · rw [hout, hre]
      exact SIGN_back _ hs
    · rw [hout, hre]
      exact hsp.2

/-- Witness of C16 (amended): the field `"-12 "`, the format entierSZD and
the width 4. -/
theorem format_round_trip_witness :
    (isNumeric (str "-12 ") 0).1 = TRUE ∧ (isNumeric (str "-12 ") 0).2.1.length < 4 ∧
    ∃ o', Convert_InputField ⟨[], [], enumFieldFormat.entierSZD, 0, 4, 4, 0, 0⟩ (str "-12 ") []
        (List.replicate 8 35) = some o' ∧
      (isNumeric (outputField ⟨[], [], enumFieldFormat.entierSZD, 0, 4, 4, 0, 0⟩ o') 0).1 =
        TRUE ∧
      (isNumeric (outputField ⟨[], [], enumFieldFormat.entierSZD, 0, 4, 4, 0, 0⟩ o') 0).2.2 =
        (isNumeric (str "-12 ") 0).2.2 ∧
      digitsVal (isNumeric (outputField ⟨[], [], enumFieldFormat.entierSZD, 0, 4, 4, 0, 0⟩ o')
          0).2.1 = digitsVal (isNumeric (str "-12 ") 0).2.1 :=
  ⟨by decide, by decide,
    format_round_trip ⟨[], [], enumFieldFormat.entierSZD, 0, 4, 4, 0, 0⟩ (str "-12 ") []
      (List.replicate 8 35) 4 48 rfl (by decide) (by decide)
      (Or.inr (Or.inr ⟨Or.inr ⟨rfl, rfl⟩, by decide⟩))⟩


/-! ### amount3DEC -/

set_option maxRecDepth 100000 in
/-- C17. The amount field `"12.50-"` is accepted by `isValidInputAmount`
with the magnitude `"1250"` and the sign -1, but its two digits after the
`'.'` are counted as 3 (the sign that follows them is counted as a decimal):
byte 19 of the output is `'3'`.  The fields `"12.50"` and `"-12.50"` give
byte 19 = `'2'`.  The field `"12.50 -"` is accepted with the sign +1: the
string is ended at the last space, before the sign. -/
theorem amount_trailing_sign_miscounted :
    isValidInputAmount (str "12.50-") = (TRUE, str "1250", -1, 3) ∧
    Convert_InputField ⟨[], [], enumFieldFormat.amount3DEC, 0, 6, 20, 0, 0⟩ (str "12.50-") []
      (List.replicate 22 35) = some (str "-0000000000000012503##") ∧
    Convert_InputField ⟨[], [], enumFieldFormat.amount3DEC, 0, 6, 20, 0, 0⟩ (str "-12.50") []
      (List.replicate 22 35) = some (str "-0000000000000012502##") ∧
    Convert_InputField ⟨[], [], enumFieldFormat.amount3DEC, 0, 5, 20, 0, 0⟩ (str "12.50") []
      (List.replicate 22 35) = some (str "+0000000000000012502##") ∧
    isValidInputAmount (str "12.50 -") = (TRUE, str "1250", 1, 2) ∧
    Convert_InputField ⟨[], [], enumFieldFormat.amount3DEC, 0, 7, 20, 0, 0⟩ (str "12.50 -") []
      (List.replicate 22 35) = some (str "+0000000000000012502##") := by
  refine ⟨by decide, by decide, by decide, by decide, by decide, by decide⟩


theorem digitsW_length (w r : Nat) : (digitsW w r).length = w := by
  induction w generalizing r with
  | zero => rfl
  | succ w ih => simp [digitsW, ih]

theorem digitsW_mod (w r : Nat) : digitsW w (r % 10 ^ w) = digitsW w r := by
  induction w generalizing r with
  | zero => rfl
  | succ w ih =>
    have h1 : r % 10 ^ (w + 1) % 10 = r % 10 := by
      rw [pow_succ]
      exact Nat.mod_mul_left_mod r (10 ^ w) 10
    have h2 : r % 10 ^ (w + 1) / 10 = (r / 10) % 10 ^ w := by
      rw [pow_succ, Nat.mul_comm, Nat.mod_mul_right_div_self]
    simp only [digitsW, h1, h2, ih]

theorem digitsW_mul_pow (w k r : Nat) :
    digitsW (w + k) (r * 10 ^ k) = digitsW w r ++ List.replicate k 48 := by
  induction k with
  | zero => simp
  | succ k ih =>
    have h1 : r * 10 ^ (k + 1) / 10 = r * 10 ^ k := by
      rw [pow_succ, ← Nat.mul_assoc, Nat.mul_div_cancel _ (by norm_num)]
    have h2 : r * 10 ^ (k + 1) % 10 = 0 := by
      rw [pow_succ, ← Nat.mul_assoc, Nat.mul_mod_left]
    rw [← Nat.add_assoc, digitsW, h1, h2, ih, List.replicate_succ', List.append_assoc]

theorem digitsW_drop (w k r : Nat) : (digitsW (k + w) r).drop k = digitsW w r := by
  induction w generalizing r with
  | zero =>
    rw [Nat.add_zero, List.drop_of_length_le (by rw [digitsW_length])]
    rfl
  | succ w ih =>
    rw [← Nat.add_assoc, digitsW, digitsW, List.drop_append_of_le_length (by rw [digitsW_length]; omega), ih]

theorem digitsVal_foldl_lt (m : List Nat) :
    ∀ acc : Nat, (∀ x ∈ m, isdigit x = true) →
      m.foldl (fun acc c => acc * 10 + (c - 48)) acc < (acc + 1) * 10 ^ m.length := by
  induction m with
  | nil => intro acc _; simp
  | cons x m ih =>
    intro acc h
    have hx := h x (List.mem_cons_self _ _)
    simp only [isdigit, Bool.and_eq_true, decide_eq_true_eq] at hx
    have := ih (acc * 10 + (x - 48)) (fun y hy => h y (List.mem_cons_of_mem _ hy))
    rw [List.foldl_cons, List.length_cons, pow_succ]
    calc _ < (acc * 10 + (x - 48) + 1) * 10 ^ m.length := this
      _ ≤ ((acc + 1) * 10) * 10 ^ m.length := Nat.mul_le_mul_right _ (by omega)
      _ = (acc + 1) * (10 ^ m.length * 10) := by ring

theorem digitsVal_lt (m : List Nat) (h : ∀ x ∈ m, isdigit x = true) :
    digitsVal m < 10 ^ m.length := by
  have := digitsVal_foldl_lt m 0 h
  simpa [digitsVal] using this

theorem roundRatio_floor_ceil (n d : Nat) (hd : 0 < d) :
    (roundRatio n d : Int) =
      if Int.fract ((n : ℚ) / d) < 1 / 2 then ⌊(n : ℚ) / d⌋ else ⌈(n : ℚ) / d⌉ := by
  have hdq : (0 : ℚ) < d := by exact_mod_cast hd
  have hfl : ⌊(n : ℚ) / d⌋ = ((n / d : Nat) : Int) := by
    have := Rat.floor_intCast_div_natCast (n : Int) d
    simpa using this
  have hdiv : (n : ℚ) = ((n / d : Nat) : ℚ) * d + ((n % d : Nat) : ℚ) := by
    have := Nat.div_add_mod n d
    have h2 : (n : ℚ) = ((d * (n / d) + n % d : Nat) : ℚ) := by rw [this]
    rw [h2]; push_cast; ring
  have hq : (n : ℚ) / d = ((n / d : Nat) : ℚ) + ((n % d : Nat) : ℚ) / d := by
    field_simp
    exact hdiv
  have hfr : Int.fract ((n : ℚ) / d) = ((n % d : Nat) : ℚ) / d := by
    rw [Int.fract, hfl, Int.cast_natCast, hq]
    ring
  have hlt : (((n % d : Nat) : ℚ) / d < 1 / 2) ↔ 2 * (n % d) < d := by
    rw [div_lt_div_iff₀ hdq (by norm_num)]
    constructor
    · intro h
      have h2 : ((2 * (n % d) : Nat) : ℚ) < (d : ℚ) := by push_cast; linarith
      exact_mod_cast h2
    · intro h
      have h2 : ((2 * (n % d) : Nat) : ℚ) < (d : ℚ) := by exact_mod_cast h
      push_cast at h2
      linarith
  rw [hfr]
  unfold roundRatio
  by_cases h : 2 * (n % d) < d
  · rw [if_pos h, if_pos (hlt.mpr h), hfl]
  · rw [if_neg h, if_neg (fun h2 => h (hlt.mp h2))]
    have hr : 0 < n % d := by omega
    have hrd : n % d < d := Nat.mod_lt _ hd
    symm
    rw [Int.ceil_eq_iff, hq]
    simp only [Nat.cast_add, Nat.cast_one, Int.cast_add, Int.cast_one, Int.cast_natCast]
    have h1 : (0 : ℚ) < ((n % d : Nat) : ℚ) / d := div_pos (by exact_mod_cast hr) hdq
    have h2 : ((n % d : Nat) : ℚ) / d < 1 := by
      rw [div_lt_one hdq]
      exact_mod_cast hrd
    constructor
    · linarith
    · linarith

theorem roundRatio_lt (n d k : Nat) (hd : 10 ≤ d) (hn : n < 10 ^ (k + 1)) :
    roundRatio n d < 10 ^ (k + 1) := by
  have h1 : n / d ≤ n / 10 := Nat.div_le_div_left hd (by norm_num)
  have h2 : n / 10 < 10 ^ k := by
    rw [Nat.div_lt_iff_lt_mul (by norm_num)]
    rw [pow_succ] at hn
    exact hn
  have h3 : 10 ^ k + 1 ≤ 10 ^ (k + 1) := by
    have : 0 < 10 ^ k := Nat.pow_pos (by norm_num)
    rw [pow_succ]
    omega
  unfold roundRatio
  split <;> omega

/-- The branch of `CorrectFormatAmount` that divides: the amount has more
decimals than the currency. -/
theorem CorrectFormatAmount_division (s : Nat) (m : List Nat) (a c : Nat)
    (hm : m.length = 18) (hdig : ∀ x ∈ m, isdigit x = true) (hca : c < a) (ha : a ≤ 9)
    (hc : c ≤ 3) :
    CorrectFormatAmount (s :: m ++ [48 + a]) [48 + c] =
      some (s :: ((digitsW 18 (roundRatio (digitsVal m) (10 ^ (a - c)))).drop (3 - c) ++
        List.replicate (3 - c) 48) ++ [51]) := by
  have hlast : (s :: m ++ [48 + a]).getLast? = some (48 + a) := by
    rw [show s :: m ++ [48 + a] = (s :: m) ++ [48 + a] from rfl]
    exact List.getLast?_concat _
  have hhead : (s :: m ++ [48 + a]).headD 0 = s := rfl
  have hac := atoi_digit c (by omega)
  have haa := atoi_digit a ha
  have hrd : readBytes (s :: m ++ [48 + a]) 1 18 = some m := by
    have e : s :: m ++ [48 + a] = [s] ++ m ++ [48 + a] := rfl
    rw [e]
    exact readBytes_mid _ _ _ _ _ rfl (by simp [hm])
  have hall : m.all isdigit = true := by
    rw [List.all_eq_true]
    exact hdig
  have hr := roundRatio_lt (digitsVal m) (10 ^ (a - c)) 17
    (by
      have : 10 ^ 1 ≤ 10 ^ (a - c) := Nat.pow_le_pow_right (by norm_num) (by omega)
      simpa using this)
    (by have := digitsVal_lt m hdig; rwa [hm] at this)
  have hdiff : ((a : Int) - (c : Int)).toNat = a - c := by omega
  have hrd2 : readBytes (digitsW 18 (roundRatio (digitsVal m) (10 ^ (a - c)))) (3 - (c : Int))
      (18 - (3 - (c : Int))) =
      some ((digitsW 18 (roundRatio (digitsVal m) (10 ^ (a - c)))).drop (3 - c)) := by
    have e : digitsW 18 (roundRatio (digitsVal m) (10 ^ (a - c))) =
        (digitsW 18 (roundRatio (digitsVal m) (10 ^ (a - c)))).take (3 - c) ++
          (digitsW 18 (roundRatio (digitsVal m) (10 ^ (a - c)))).drop (3 - c) ++ [] := by
      simp
    rw [e]
    rw [readBytes_mid _ _ _ _ _ (by simp [digitsW_length]; omega)
      (by simp [digitsW_length]; omega)]
    simp
  have hne : ¬ ((c : Int) = (a : Int)) := by omega
  have hgt : ¬ ((c : Int) > (a : Int)) := by omega
  unfold CorrectFormatAmount
  simp only [hlast, hhead, hac, haa, List.length_singleton, gt_iff_lt, lt_self_iff_false,
    if_false, hne, hgt, hrd, Option.some_bind, hall, if_true, hdiff, hr, hrd2]
  rw [amountOut_eq s _ (by simp [digitsW_length])]
  congr 1
  simp [digitsW_length]
  omega

/-- C21. In the branch of `CorrectFormatAmount` that divides (currency
decimals `c` below the decimals `a` of the amount, `c <= 3`), for every sign
byte and every magnitude `m` of 18 digits, with the division done in exact
arithmetic: the quotient `q = m / 10^(a-c)` is rounded to `r`, its floor when
the fractional part of `q` is below 1/2 and its ceiling otherwise (so a
fractional part of exactly 1/2 rounds up); `r` is below `10^18`, and the
output is the sign, then the 18 digits of `r` without the first `3 - c` of them
and with `3 - c` zeroes appended, which are the last 18 digits of
`r * 10^(3-c)`, then the decimal marker `'3'`. -/
theorem rescale_division_rounds_half_up (s : Nat) (m : List Nat) (a c : Nat)
    (hm : m.length = 18) (hdig : ∀ x ∈ m, isdigit x = true) (hca : c < a) (ha : a ≤ 9)
    (hc : c ≤ 3) :
    ∃ r : Nat,
      (r : Int) =
        (if Int.fract ((digitsVal m : ℚ) / (10 ^ (a - c) : Nat)) < 1 / 2 then
          ⌊(digitsVal m : ℚ) / (10 ^ (a - c) : Nat)⌋
        else ⌈(digitsVal m : ℚ) / (10 ^ (a - c) : Nat)⌉) ∧
      r < 10 ^ 18 ∧
      CorrectFormatAmount (s :: m ++ [48 + a]) [48 + c] =
        some (s :: ((digitsW 18 r).drop (3 - c) ++ List.replicate (3 - c) 48) ++ [51]) ∧
      (digitsW 18 r).drop (3 - c) ++ List.replicate (3 - c) 48 =
        digitsW 18 (r * 10 ^ (3 - c)) := by
  refine ⟨roundRatio (digitsVal m) (10 ^ (a - c)),
    roundRatio_floor_ceil _ _ (Nat.pow_pos (by norm_num)), ?_,
    CorrectFormatAmount_division s m a c hm hdig hca ha hc, ?_⟩
  · exact roundRatio_lt (digitsVal m) (10 ^ (a - c)) 17
      (by
        have : 10 ^ 1 ≤ 10 ^ (a - c) := Nat.pow_le_pow_right (by norm_num) (by omega)
        simpa using this)
      (by have := digitsVal_lt m hdig; rwa [hm] at this)
  · have e : 18 = (3 - c) + (18 - (3 - c)) := by omega
    have e2 : 18 = (18 - (3 - c)) + (3 - c) := by omega
    conv_lhs => rw [e, digitsW_drop]
    conv_rhs => rw [e2, digitsW_mul_pow]

set_option maxRecDepth 100000 in
theorem rescale_division_rounds_half_up_witness :
    ∃ r : Nat,
      (r : Int) =
        (if Int.fract ((digitsVal (str "000000000000001235") : ℚ) / (10 ^ (3 - 2) : Nat)) < 1 / 2
          then ⌊(digitsVal (str "000000000000001235") : ℚ) / (10 ^ (3 - 2) : Nat)⌋
        else ⌈(digitsVal (str "000000000000001235") : ℚ) / (10 ^ (3 - 2) : Nat)⌉) ∧
      r < 10 ^ 18 ∧
      CorrectFormatAmount (43 :: str "000000000000001235" ++ [48 + 3]) [48 + 2] =
        some (43 :: ((digitsW 18 r).drop (3 - 2) ++ List.replicate (3 - 2) 48) ++ [51]) ∧
      (digitsW 18 r).drop (3 - 2) ++ List.replicate (3 - 2) 48 =
        digitsW 18 (r * 10 ^ (3 - 2)) :=
  rescale_division_rounds_half_up 43 (str "000000000000001235") 3 2 (by decide) (by decide)
    (by decide) (by decide) (by decide)

set_option maxRecDepth 100000 in
theorem rescale_division_half_example :
    roundRatio 1235 10 = 124 ∧
    CorrectFormatAmount (str "+0000000000000012353") (str "2") =
      some (str "+0000000000000012403") ∧
    CorrectFormatAmount (str "+0000000000000012343") (str "2") =
      some (str "+0000000000000012303") := by
  refine ⟨by decide, by decide, by decide⟩

theorem Table_set_apply {S : Type} (t : Table S) (x y : Nat) (v : S) (i j : Nat) :
    (t.set x y v) i j = if i = x ∧ j = y then v else t i j := rfl

theorem LOT_hash_ne_neg_one (k : CStr) (h : 0 ≤ (BuildHashKey k HASH_LOT_ARRAY_SIZE).1) :
    (BuildHashKey k HASH_LOT_ARRAY_SIZE).2 ≠ -1 := by
  intro h1
  unfold BuildHashKey at h h1
  simp only at h h1
  rw [h1] at h
  exact absurd h (by decide)

theorem LOTInv_init : LOTInv initialLOTState := by
  refine ⟨by decide, ?_, ?_, ?_⟩
  · intro x y h
    exact absurd rfl h
  · intro x y x1 y1 h
    exact absurd rfl h
  · intro n h1 h2
    have : initialLOTState.iLastLOT_NUM_USED = 0 := rfl
    omega

theorem LOTInv_increment (s : LOTState) (x y : Nat) (hinv : LOTInv s)
    (hocc : LOTOccupied s x y) :
    LOTInv ⟨s.LOTHashArray.set x y
      (if (s.LOTHashArray x y).iID_ECRITU < MAX_ID_ECRITU then
        { s.LOTHashArray x y with iID_ECRITU := (s.LOTHashArray x y).iID_ECRITU + 1 }
      else { s.LOTHashArray x y with iID_ECRITU := 1 }), s.iLastLOT_NUM_USED⟩ := by
  have hr := hinv.range x y hocc
  have hM : MAX_ID_ECRITU = 999999 := rfl
  -- the new element keeps the hash key and the lot number
  have key : ∀ i j,
      ((s.LOTHashArray.set x y
        (if (s.LOTHashArray x y).iID_ECRITU < MAX_ID_ECRITU then
          { s.LOTHashArray x y with iID_ECRITU := (s.LOTHashArray x y).iID_ECRITU + 1 }
        else { s.LOTHashArray x y with iID_ECRITU := 1 })) i j).LOTHashKey =
        (s.LOTHashArray i j).LOTHashKey ∧
      ((s.LOTHashArray.set x y
        (if (s.LOTHashArray x y).iID_ECRITU < MAX_ID_ECRITU then
          { s.LOTHashArray x y with iID_ECRITU := (s.LOTHashArray x y).iID_ECRITU + 1 }
        else { s.LOTHashArray x y with iID_ECRITU := 1 })) i j).iLOT_NUM =
        (s.LOTHashArray i j).iLOT_NUM ∧
      (1 ≤ (s.LOTHashArray i j).iID_ECRITU ∧ (s.LOTHashArray i j).iID_ECRITU ≤ MAX_ID_ECRITU →
        1 ≤ ((s.LOTHashArray.set x y
        (if (s.LOTHashArray x y).iID_ECRITU < MAX_ID_ECRITU then
          { s.LOTHashArray x y with iID_ECRITU := (s.LOTHashArray x y).iID_ECRITU + 1 }
        else { s.LOTHashArray x y with iID_ECRITU := 1 })) i j).iID_ECRITU ∧
        ((s.LOTHashArray.set x y
        (if (s.LOTHashArray x y).iID_ECRITU < MAX_ID_ECRITU then
          { s.LOTHashArray x y with iID_ECRITU := (s.LOTHashArray x y).iID_ECRITU + 1 }
        else { s.LOTHashArray x y with iID_ECRITU := 1 })) i j).iID_ECRITU ≤ MAX_ID_ECRITU) := by
    intro i j
    rw [Table_set_apply]
    by_cases hij : i = x ∧ j = y
    · rw [if_pos hij, hij.1, hij.2]
      by_cases hlt : (s.LOTHashArray x y).iID_ECRITU < MAX_ID_ECRITU
      · rw [if_pos hlt]
        refine ⟨rfl, rfl, ?_⟩
        intro h
        show 1 ≤ (s.LOTHashArray x y).iID_ECRITU + 1 ∧
          (s.LOTHashArray x y).iID_ECRITU + 1 ≤ MAX_ID_ECRITU
        omega
      · rw [if_neg hlt]
        refine ⟨rfl, rfl, ?_⟩
        intro _
        show (1 : Int) ≤ 1 ∧ (1 : Int) ≤ MAX_ID_ECRITU
        rw [hM]
        omega
    · rw [if_neg hij]
      exact ⟨rfl, rfl, fun h => h⟩
  refine ⟨hinv.nonneg, ?_, ?_, ?_⟩
  · intro i j ho
    have ho' : LOTOccupied s i j := by
      unfold LOTOccupied at ho ⊢
      rw [← (key i j).1]
      exact ho
    have := hinv.range i j ho'
    refine ⟨((key i j).2.2 ⟨this.1, this.2.1⟩).1, ((key i j).2.2 ⟨this.1, this.2.1⟩).2, ?_, ?_⟩
    · show 1 ≤ ((s.LOTHashArray.set x y _) i j).iLOT_NUM
      rw [(key i j).2.1]
      exact this.2.2.1
    · show ((s.LOTHashArray.set x y _) i j).iLOT_NUM ≤ s.iLastLOT_NUM_USED
      rw [(key i j).2.1]
      exact this.2.2.2
  · intro i j i1 j1 ho ho1 he
    have ho' : LOTOccupied s i j := by
      unfold LOTOccupied at ho ⊢
      rw [← (key i j).1]
      exact ho
    have ho1' : LOTOccupied s i1 j1 := by
      unfold LOTOccupied at ho1 ⊢
      rw [← (key i1 j1).1]
      exact ho1
    apply hinv.distinct i j i1 j1 ho' ho1'
    rw [← (key i j).2.1, ← (key i1 j1).2.1]
    exact he
  · intro n h1 h2
    obtain ⟨i, j, ho, hn⟩ := hinv.onto n h1 h2
    refine ⟨i, j, ?_, ?_⟩
    · unfold LOTOccupied at ho ⊢
      show ((s.LOTHashArray.set x y _) i j).LOTHashKey ≠ -1
      rw [(key i j).1]
      exact ho
    · show ((s.LOTHashArray.set x y _) i j).iLOT_NUM = n
      rw [(key i j).2.1]
      exact hn

theorem LOTInv_new (s : LOTState) (x y : Nat) (hinv : LOTInv s) (hfree : ¬ LOTOccupied s x y)
    (hash : Int) (hh : hash ≠ -1) (key e l : CStr) :
    LOTInv ⟨s.LOTHashArray.set x y ⟨hash, key, e, l, s.iLastLOT_NUM_USED + 1, 1⟩,
      s.iLastLOT_NUM_USED + 1⟩ := by
  have hnn := hinv.nonneg
  have hM : MAX_ID_ECRITU = 999999 := rfl
  have old : ∀ i j, ¬ (i = x ∧ j = y) →
      (s.LOTHashArray.set x y ⟨hash, key, e, l, s.iLastLOT_NUM_USED + 1, 1⟩) i j =
        s.LOTHashArray i j := by
    intro i j h
    rw [Table_set_apply, if_neg h]
  have new : (s.LOTHashArray.set x y ⟨hash, key, e, l, s.iLastLOT_NUM_USED + 1, 1⟩) x y =
      ⟨hash, key, e, l, s.iLastLOT_NUM_USED + 1, 1⟩ := by
    rw [Table_set_apply, if_pos ⟨rfl, rfl⟩]
  refine ⟨by show 0 ≤ s.iLastLOT_NUM_USED + 1; omega, ?_, ?_, ?_⟩
  · intro i j ho
    show 1 ≤ ((s.LOTHashArray.set x y _) i j).iID_ECRITU ∧
      ((s.LOTHashArray.set x y _) i j).iID_ECRITU ≤ MAX_ID_ECRITU ∧
      1 ≤ ((s.LOTHashArray.set x y _) i j).iLOT_NUM ∧
      ((s.LOTHashArray.set x y _) i j).iLOT_NUM ≤ s.iLastLOT_NUM_USED + 1
    by_cases hij : i = x ∧ j = y
    · rw [hij.1, hij.2, new]
      simp only
      rw [hM]
      omega
    · have ho' : LOTOccupied s i j := by
        unfold LOTOccupied at ho ⊢
        have : ((s.LOTHashArray.set x y ⟨hash, key, e, l, s.iLastLOT_NUM_USED + 1, 1⟩) i j).LOTHashKey ≠ -1 := ho
        rwa [old i j hij] at this
      have := hinv.range i j ho'
      rw [old i j hij]
      omega
  · intro i j i1 j1 ho ho1 he
    have he' : ((s.LOTHashArray.set x y ⟨hash, key, e, l, s.iLastLOT_NUM_USED + 1, 1⟩) i j).iLOT_NUM =
        ((s.LOTHashArray.set x y ⟨hash, key, e, l, s.iLastLOT_NUM_USED + 1, 1⟩) i1 j1).iLOT_NUM := he
    have ho_ : ((s.LOTHashArray.set x y ⟨hash, key, e, l, s.iLastLOT_NUM_USED + 1, 1⟩) i j).LOTHashKey ≠ -1 := ho
    have ho1_ : ((s.LOTHashArray.set x y ⟨hash, key, e, l, s.iLastLOT_NUM_USED + 1, 1⟩) i1 j1).LOTHashKey ≠ -1 := ho1
    by_cases hij : i = x ∧ j = y
    · by_cases hij1 : i1 = x ∧ j1 = y
      · exact ⟨hij.1.trans hij1.1.symm, hij.2.trans hij1.2.symm⟩
      · exfalso
        rw [old i1 j1 hij1] at he' ho1_
        rw [hij.1, hij.2, new] at he'
        have := hinv.range i1 j1 ho1_
        simp only at he'
        omega
    · by_cases hij1 : i1 = x ∧ j1 = y
      · exfalso
        rw [old i j hij] at he' ho_
        rw [hij1.1, hij1.2, new] at he'
        have := hinv.range i j ho_
        simp only at he'
        omega
      · rw [old i j hij] at he' ho_
        rw [old i1 j1 hij1] at he' ho1_
        exact hinv.distinct i j i1 j1 ho_ ho1_ he'
  · intro n h1 h2
    have h2' : n ≤ s.iLastLOT_NUM_USED + 1 := h2
    by_cases hn : n = s.iLastLOT_NUM_USED + 1
    · refine ⟨x, y, ?_, ?_⟩
      · show ((s.LOTHashArray.set x y _) x y).LOTHashKey ≠ -1
        rw [new]
        exact hh
      · show ((s.LOTHashArray.set x y _) x y).iLOT_NUM = n
        rw [new, hn]
    · obtain ⟨i, j, ho, hnum⟩ := hinv.onto n h1 (by omega)
      have hij : ¬ (i = x ∧ j = y) := by
        intro h
        rw [h.1, h.2] at ho
        exact hfree ho
      refine ⟨i, j, ?_, ?_⟩
      · show ((s.LOTHashArray.set x y _) i j).LOTHashKey ≠ -1
        rw [old i j hij]
        exact ho
      · show ((s.LOTHashArray.set x y _) i j).iLOT_NUM = n
        rw [old i j hij]
        exact hnum

theorem LOTInv_addLoop (y : Nat) (key e l : CStr) (hash : Int) (hh : hash ≠ -1) :
    ∀ (n x : Nat) (s : LOTState), LOTInv s → LOTInv (addLoopLOT y key e l hash n x s).1 := by
  intro n
  induction n with
  | zero => intro x s h; exact h
  | succ n ih =>
    intro x s h
    rw [addLoopLOT]
    by_cases hocc : (s.LOTHashArray x y).LOTHashKey ≠ -1
    · rw [if_pos hocc]
      by_cases hk : (s.LOTHashArray x y).strAPPLI_EMET_ID_LOT = key
      · rw [if_pos hk]
        exact LOTInv_increment s x y h hocc
      · rw [if_neg hk]
        exact ih (x + 1) s h
    · rw [if_neg hocc]
      exact LOTInv_new s x y h hocc hash hh key e l

theorem LOTInv_reachable (s : LOTState) (h : LOTReachable s) : LOTInv s := by
  induction h with
  | init => exact LOTInv_init
  | step s e l r _ hadd ih =>
    unfold AddElementInLOTHashKeyTable at hadd
    simp only at hadd
    by_cases hp : 0 ≤ (BuildHashKey l HASH_LOT_ARRAY_SIZE).1
    · rw [if_pos hp] at hadd
      have hr := Option.some.inj hadd
      rw [← hr]
      exact LOTInv_addLoop _ _ _ _ _ (LOT_hash_ne_neg_one l hp) _ _ s ih
    · rw [if_neg hp] at hadd
      exact absurd hadd (by simp)
set_option maxRecDepth 1000000 in
/-- C22. With the emitter code `"00H"` and the lot identifiers `"X"` (key A)
and `"00HX"` (key B), the three calls A, B, A from the initial state return
(lot 1, entry 1), (lot 1, entry 1), (lot 1, entry 2): the second call looks up
the lot identifier `"00HX"` alone, which is the stored key of A and falls in
the same column 56, so B is given the numbers of A and is never added.  With
the lot identifier `"00HY"` for B the calls return (1, 1), (2, 1), (1, 2). -/
theorem lot_sequence_second_key_collides :
    BuildHashKey (str "X") HASH_LOT_ARRAY_SIZE = (56, 56) ∧
    BuildHashKey (str "00HX") HASH_LOT_ARRAY_SIZE = (56, 18056) ∧
    (lotCalls initialLOTState
        [(str "00H", str "X"), (str "00H", str "00HX"), (str "00H", str "X")]).map
        (fun r => r.2) =
      some [(str "00000000000000001", str "000001"), (str "00000000000000001", str "000001"),
        (str "00000000000000001", str "000002")] ∧
    (lotCalls initialLOTState
        [(str "00H", str "X"), (str "00H", str "00HY"), (str "00H", str "X")]).map
        (fun r => r.2) =
      some [(str "00000000000000001", str "000001"), (str "00000000000000002", str "000001"),
        (str "00000000000000001", str "000002")] := by
  refine ⟨by decide, by decide, by decide, by decide⟩

set_option maxRecDepth 1000000 in
/-- C23. After the calls (`"ABC"`, `"20HX"`) and (`"20H"`, `"X"`) from the
initial state, which return (lot 1, entry 1) and (lot 2, entry 1), a second
call on the pair (`"ABC"`, `"20HX"`) returns (lot 2, entry 1), the numbers of
the other pair, and leaves every entry counter unchanged: the lookup is done
with the lot identifier `"20HX"` alone, which is the stored key of the pair
(`"20H"`, `"X"`), in the same column 56.  A pair with an empty emitter code is
found by that lookup at its second call, which returns entry 1 again. -/
theorem lot_lookup_uses_lot_id_alone :
    BuildHashKey (str "20HX") HASH_LOT_ARRAY_SIZE = (56, 20056) ∧
    (lotCalls initialLOTState
        [(str "ABC", str "20HX"), (str "20H", str "X"), (str "ABC", str "20HX")]).map
        (fun r => r.2) =
      some [(str "00000000000000001", str "000001"), (str "00000000000000002", str "000001"),
        (str "00000000000000002", str "000001")] ∧
    (lotCalls initialLOTState
        [(str "ABC", str "20HX"), (str "20H", str "X"), (str "ABC", str "20HX")]).map
        (fun r => ((r.1.LOTHashArray 0 56).iID_ECRITU, (r.1.LOTHashArray 1 56).iID_ECRITU)) =
      some (1, 1) ∧
    (lotCalls initialLOTState [(str "", str "X"), (str "", str "X")]).map (fun r => r.2) =
      some [(str "00000000000000001", str "000001"), (str "00000000000000001", str "000001")] := by
  refine ⟨by decide, by decide, by decide, by decide⟩

/-- C24. In every state of the LOT table reached from the initial state
(`InitializeLOTHashKeyTable`, `iLastLOT_NUM_USED = 0`) by
`AddElementInLOTHashKeyTable` calls: every occupied position has
`1 <= iID_ECRITU <= 999999` and `1 <= iLOT_NUM <= iLastLOT_NUM_USED`, two
distinct occupied positions have distinct `iLOT_NUM`, and the values of
`iLOT_NUM` at the occupied positions are exactly the integers from 1 to
`iLastLOT_NUM_USED`. -/
theorem lot_table_invariant (s : LOTState) (h : LOTReachable s) :
    (∀ x y, (s.LOTHashArray x y).LOTHashKey ≠ -1 →
      1 ≤ (s.LOTHashArray x y).iID_ECRITU ∧ (s.LOTHashArray x y).iID_ECRITU ≤ 999999 ∧
      1 ≤ (s.LOTHashArray x y).iLOT_NUM ∧
      (s.LOTHashArray x y).iLOT_NUM ≤ s.iLastLOT_NUM_USED) ∧
    (∀ x y x1 y1, (s.LOTHashArray x y).LOTHashKey ≠ -1 →
      (s.LOTHashArray x1 y1).LOTHashKey ≠ -1 → (x, y) ≠ (x1, y1) →
      (s.LOTHashArray x y).iLOT_NUM ≠ (s.LOTHashArray x1 y1).iLOT_NUM) ∧
    (∀ n : Int,
      (∃ x y, (s.LOTHashArray x y).LOTHashKey ≠ -1 ∧ (s.LOTHashArray x y).iLOT_NUM = n) ↔
        1 ≤ n ∧ n ≤ s.iLastLOT_NUM_USED) := by
  have hinv := LOTInv_reachable s h
  refine ⟨fun x y ho => hinv.range x y ho, ?_, ?_⟩
  · intro x y x1 y1 ho ho1 hne he
    have := hinv.distinct x y x1 y1 ho ho1 he
    exact hne (by rw [this.1, this.2])
  · intro n
    constructor
    · rintro ⟨x, y, ho, hn⟩
      have := hinv.range x y ho
      rw [hn] at this
      exact ⟨this.2.2.1, this.2.2.2⟩
    · rintro ⟨h1, h2⟩
      exact hinv.onto n h1 h2

theorem lot_table_invariant_witness :
    LOTReachable sampleLOTState ∧
    (sampleLOTState.LOTHashArray 0 56).LOTHashKey ≠ -1 ∧
    sampleLOTState.iLastLOT_NUM_USED = 1 ∧
    ((∀ x y, (sampleLOTState.LOTHashArray x y).LOTHashKey ≠ -1 →
      1 ≤ (sampleLOTState.LOTHashArray x y).iID_ECRITU ∧
      (sampleLOTState.LOTHashArray x y).iID_ECRITU ≤ 999999 ∧
      1 ≤ (sampleLOTState.LOTHashArray x y).iLOT_NUM ∧
      (sampleLOTState.LOTHashArray x y).iLOT_NUM ≤ sampleLOTState.iLastLOT_NUM_USED) ∧
    (∀ x y x1 y1, (sampleLOTState.LOTHashArray x y).LOTHashKey ≠ -1 →
      (sampleLOTState.LOTHashArray x1 y1).LOTHashKey ≠ -1 → (x, y) ≠ (x1, y1) →
      (sampleLOTState.LOTHashArray x y).iLOT_NUM ≠ (sampleLOTState.LOTHashArray x1 y1).iLOT_NUM) ∧
    (∀ n : Int,
      (∃ x y, (sampleLOTState.LOTHashArray x y).LOTHashKey ≠ -1 ∧
        (sampleLOTState.LOTHashArray x y).iLOT_NUM = n) ↔
        1 ≤ n ∧ n ≤ sampleLOTState.iLastLOT_NUM_USED)) :=
  have hr : LOTReachable sampleLOTState :=
    LOTReachable.step initialLOTState (str "ABC") (str "X")
      (addLoopLOT 56 (str "ABCX") (str "ABC") (str "X") 56 HASH_LOT_ARRAY_SIZE 0 initialLOTState)
      LOTReachable.init rfl
  ⟨hr, by decide, by decide, lot_table_invariant sampleLOTState hr⟩

theorem getD_last (tab : List FieldOfRecord) (h : tab ≠ []) :
    tab.getLast? = some (tab.getD (tab.length - 1) blankField) := by
  rw [List.getLast?_eq_getElem?, List.getD_eq_getElem?_getD]
  have : tab.length - 1 < tab.length := by
    have := List.length_pos.mpr h
    omega
  rw [List.getElem?_eq_getElem this]
  rfl

theorem addField_eq (tab : List FieldOfRecord) (n f : CStr) (w p : Int) :
    ∃ e : FieldOfRecord, addField tab n f w p = tab ++ [e] ∧ e.strFieldName = n ∧
      e.iFieldFormat = whichOutputFormat f ∧ e.iFieldLengthOutput = w ∧
      e.iFieldStartPosInput = p ∧ e.iFieldLengthInput = -1 ∧
      (∀ d ∈ tab.getLast?, OutputFollows d e) := by
  refine ⟨_, rfl, rfl, rfl, rfl, rfl, rfl, ?_⟩
  intro d hd
  have hne : tab ≠ [] := by
    intro h
    rw [h] at hd
    simp at hd
  rw [getD_last tab hne] at hd
  have := Option.some.inj hd
  rw [← this]
  rfl
theorem readField_facts (hdr : Int) (st : FormatState) (sep : Int) (n f : CStr) (len : Int)
    (hinv : FormatInv hdr st) (hsep : 0 ≤ sep) :
    (readField st sep n f len).1.strFieldName = n ∧
    (readField st sep n f len).1.strFieldFormat = f ∧
    (readField st sep n f len).1.iFieldFormat = whichOutputFormat f ∧
    (readField st sep n f len).1.iFieldLengthInput = len ∧
    (readField st sep n f len).1.iFieldLengthOutput = len ∧
    (readField st sep n f len).2.1 = (readField st sep n f len).1.iFieldStartPosInput ∧
    (readField st sep n f len).2.2 = (readField st sep n f len).1.iFieldStartPosOutput ∧
    0 ≤ (readField st sep n f len).1.iFieldStartPosInput ∧
    (∀ d ∈ st.tab.getLast?, OutputFollows d (readField st sep n f len).1) ∧
    (st.tab = [] → (readField st sep n f len).1.iFieldStartPosOutput = hdr) := by
  unfold readField
  by_cases h1 : st.l_iRecNumber + 1 = 1
  · rw [if_pos h1]
    have h0 : st.l_iRecNumber = 0 := by omega
    have ht := hinv.recs h0
    refine ⟨rfl, rfl, rfl, rfl, rfl, rfl, rfl, hinv.posIn, ?_, ?_⟩
    · intro d hd
      rw [ht] at hd
      simp at hd
    · intro _
      exact (hinv.empty ht).2
  · rw [if_neg h1]
    have hne : st.tab ≠ [] := by
      intro h
      have := (hinv.empty h).1
      omega
    refine ⟨rfl, rfl, rfl, rfl, rfl, rfl, rfl, ?_, ?_, ?_⟩
    · have := hinv.prev hne
      have := hinv.posIn
      show 0 ≤ st.l_iStartFieldPositionForInput +
        (st.tab.getD st.l_iPreviousInputFieldNumber blankField).iFieldLengthInput + sep
      omega
    · intro d hd
      have hl := hinv.last d hd
      rw [getD_last st.tab hne] at hd
      have := Option.some.inj hd
      show st.l_iStartFieldPositionForOutput +
        (st.tab.getD (st.tab.length - 1) blankField).iFieldLengthOutput =
          d.iFieldStartPosOutput + d.iFieldLengthOutput
      rw [this, hl]
    · intro h
      exact absurd h hne

theorem FormatInv_extend (hdr : Int) (st st1 : FormatState) (e : FieldOfRecord)
    (inj : List FieldOfRecord) (hinv : FormatInv hdr st)
    (htab : st1.tab = st.tab ++ e :: inj)
    (hchain : st1.tab.Chain' OutputFollows)
    (hhead : st.tab = [] → e.iFieldStartPosOutput = hdr)
    (hrec : st1.l_iRecNumber = st.l_iRecNumber + 1)
    (hprev : st1.l_iPreviousInputFieldNumber = st.tab.length)
    (hlen : 0 ≤ e.iFieldLengthInput)
    (hin : 0 ≤ st1.l_iStartFieldPositionForInput)
    (hout : ∀ d ∈ st1.tab.getLast?, st1.l_iStartFieldPositionForOutput = d.iFieldStartPosOutput) :
    FormatInv hdr st1 := by
  have hne : st1.tab ≠ [] := by rw [htab]; simp
  refine ⟨hchain, ?_, hout, fun h => absurd h hne, fun h => by omega, hin, ?_⟩
  · intro d hd
    rw [htab] at hd
    cases ht : st.tab with
    | nil =>
      rw [ht] at hd
      simp at hd
      rw [← hd]
      exact hhead ht
    | cons a l =>
      rw [ht] at hd
      simp at hd
      apply hinv.head
      rw [ht, ← hd]
      rfl
  · intro _
    rw [hprev, htab, List.getD_eq_getElem?_getD, List.getElem?_append_right (le_refl _)]
    simpa using hlen

theorem foldl_addField (w : Int) :
    ∀ (adds : List (CStr × CStr × Int)) (base : List FieldOfRecord), base ≠ [] →
      ∃ inj, adds.foldl (fun tab a => addField tab a.1 a.2.1 w a.2.2) base = base ++ inj ∧
        inj.map (fun d => (d.iFieldFormat, d.iFieldLengthOutput)) =
          adds.map (fun a => (whichOutputFormat a.2.1, w)) ∧
        inj.map (fun d => d.iFieldStartPosInput) = adds.map (fun a => a.2.2) ∧
        (base.Chain' OutputFollows → (base ++ inj).Chain' OutputFollows) := by
  intro adds
  induction adds with
  | nil =>
    intro base _
    exact ⟨[], by simp, rfl, rfl, by simp⟩
  | cons a adds ih =>
    intro base hb
    obtain ⟨e, he, _, hf, hw, hp, _, hfol⟩ := addField_eq base a.1 a.2.1 w a.2.2
    obtain ⟨inj, h1, h2, h3, h4⟩ := ih (base ++ [e]) (by simp)
    refine ⟨e :: inj, ?_, ?_, ?_, ?_⟩
    · rw [List.foldl_cons, he, h1]
      simp
    · simp [h2, hf, hw]
    · simp [h3, hp]
    · intro hc
      have := h4 (List.Chain'.append hc (List.chain'_singleton e) (by
        intro x hx y hy
        simp at hy
        rw [← hy]
        exact hfol x hx))
      simpa using this
set_option maxRecDepth 100000 in
theorem additionsPESTD_shape (name : CStr) :
    (∀ r ∈ additionsPESTD name,
      r.2.map (fun a => (whichOutputFormat a.2.1, TIERS_RICOS_FIELD_LENGTH)) =
        injectedShapePESTD name ∧
      ∀ p ∈ r.2.map (fun a => a.2.2), p < 0) ∧
    (additionsPESTD name = none → injectedShapePESTD name = []) := by
  by_cases h1 : name = str "TIERS"
  · subst h1; decide
  by_cases h2 : name = str "Z_ALIAS_ID_TIERS"
  · subst h2; decide
  by_cases h3 : name = str "Z_ALIAS_ID_EMPPRET"
  · subst h3; decide
  by_cases h4 : name = str "Z_ALIAS_ID_GARANT"
  · subst h4; decide
  by_cases h5 : name = str "Z_ALIAS_ID_EMETTIT"
  · subst h5; decide
  by_cases h6 : name = str "Z_ALIAS_ID_DEPOSIT"
  · subst h6; decide
  by_cases h7 : name = str "Z_ALIAS_ID_EMETSSJ"
  · subst h7; decide
  by_cases h8 : name = str "Z_ALIAS_ID_ACTR"
  · subst h8; decide
  by_cases h9 : name = str "Z_ALIAS_ID_TIERORI"
  · subst h9; decide
  have ha : additionsPESTD name = none := by
    unfold additionsPESTD
    rw [if_neg h1, if_neg h2, if_neg h3, if_neg h4, if_neg h5, if_neg h6, if_neg h7, if_neg h8,
      if_neg h9]
  have hs : injectedShapePESTD name = [] := by
    unfold injectedShapePESTD
    rw [if_neg (by tauto), if_neg (by tauto)]
  refine ⟨?_, fun _ => hs⟩
  intro r h
  rw [ha] at h
  exact absurd h (by simp)
theorem formatStepPESTD_ok (st : FormatState) (rec : CStr) (f : CStr × CStr × Int)
    (hinv : FormatInv HEADER_LENGTH_PESTD st) (hl : rec.length > 1)
    (hf : confRecordFields rec = some f) (h0 : 0 ≤ f.2.2) :
    ∃ st1 e inj, formatStepPESTD st rec = some st1 ∧ FormatInv HEADER_LENGTH_PESTD st1 ∧
      st1.tab = st.tab ++ e :: inj ∧ e.strFieldName = f.1 ∧ 0 ≤ e.iFieldStartPosInput ∧
      inj.map (fun d => (d.iFieldFormat, d.iFieldLengthOutput)) = injectedShapePESTD f.1 ∧
      (∀ d ∈ inj, d.iFieldStartPosInput < 0) := by
  obtain ⟨rn, rf, rfmt, rli, rlo, r21, r22, rpos, rfol, rhd⟩ :=
    readField_facts HEADER_LENGTH_PESTD st 1 f.1 f.2.1 f.2.2 hinv (by decide)
  obtain ⟨hsome, hnone⟩ := additionsPESTD_shape f.1
  unfold formatStepPESTD
  rw [if_pos hl, hf, Option.map_some']
  cases ha : additionsPESTD f.1 with
  | none =>
    simp only
    refine ⟨_, (readField st 1 f.1 f.2.1 f.2.2).1, [], rfl, ?_, rfl, rn, rpos, ?_, ?_⟩
    · refine FormatInv_extend HEADER_LENGTH_PESTD st _ (readField st 1 f.1 f.2.1 f.2.2).1 []
        hinv rfl ?_ rhd rfl rfl (by rw [rli]; exact h0) (by show 0 ≤ (readField st 1 f.1 f.2.1 f.2.2).2.1; rw [r21]; exact rpos) ?_
      · exact List.Chain'.append hinv.chain (List.chain'_singleton _) (by
          intro x hx y hy
          simp at hy
          rw [← hy]
          exact rfol x hx)
      · intro d hd
        simp at hd
        show (readField st 1 f.1 f.2.1 f.2.2).2.2 = d.iFieldStartPosOutput
        rw [r22, hd]
    · rw [hnone ha]; rfl
    · intro d hd; simp at hd
  | some ta =>
    obtain ⟨type, adds⟩ := ta
    simp only
    obtain ⟨hshape, hneg⟩ := hsome (type, adds) ha
    obtain ⟨inj, hfold, hmap, hpos, hch⟩ := foldl_addField TIERS_RICOS_FIELD_LENGTH adds
      (st.tab ++ [{ (readField st 1 f.1 f.2.1 f.2.2).1 with iFieldType := type }]) (by simp)
    have hchain0 : (st.tab ++
        [{ (readField st 1 f.1 f.2.1 f.2.2).1 with iFieldType := type }]).Chain' OutputFollows :=
      List.Chain'.append hinv.chain (List.chain'_singleton _) (by
        intro x hx y hy
        simp at hy
        rw [← hy]
        exact rfol x hx)
    refine ⟨_, { (readField st 1 f.1 f.2.1 f.2.2).1 with iFieldType := type }, inj, rfl, ?_, ?_,
      rn, rpos, ?_, ?_⟩
    · refine FormatInv_extend HEADER_LENGTH_PESTD st _
        { (readField st 1 f.1 f.2.1 f.2.2).1 with iFieldType := type } inj hinv ?_ ?_ rhd rfl rfl
        (by show 0 ≤ (readField st 1 f.1 f.2.1 f.2.2).1.iFieldLengthInput; rw [rli]; exact h0)
        (by show 0 ≤ (readField st 1 f.1 f.2.1 f.2.2).2.1; rw [r21]; exact rpos) ?_
      · show List.foldl _ _ adds = _
        rw [hfold]
        simp
      · show List.Chain' OutputFollows (List.foldl _ _ adds)
        rw [hfold]
        exact hch hchain0
      · intro d hd
        have hne : List.foldl (fun tab a => addField tab a.1 a.2.1 TIERS_RICOS_FIELD_LENGTH a.2.2)
            (st.tab ++ [{ (readField st 1 f.1 f.2.1 f.2.2).1 with iFieldType := type }]) adds ≠ [] := by
          rw [hfold]; simp
        have hd' : (List.foldl (fun tab a => addField tab a.1 a.2.1 TIERS_RICOS_FIELD_LENGTH a.2.2)
            (st.tab ++ [{ (readField st 1 f.1 f.2.1 f.2.2).1 with iFieldType := type }]) adds).getLast? =
            some d := hd
        rw [getD_last _ hne] at hd'
        have := Option.some.inj hd'
        rw [← this]
    · rw [hfold]; simp
    · rw [hmap]; exact hshape
    · intro d hd
      apply hneg
      rw [← hpos]
      exact List.mem_map_of_mem _ hd
theorem formatStepPreMai_amount (st : FormatState) (f : CStr × CStr × Int) (type : Int)
    (hinv : FormatInv HEADER_LENGTH_PreMai st) (h0 : 0 ≤ f.2.2)
    (hname : f.1 ≠ str "MAI_TOP_MAJ") (st1 : FormatState)
    (h1 : st1 = amountFormatState st (readField st 0 f.1 f.2.1 f.2.2) type) :
    ∃ e inj, FormatInv HEADER_LENGTH_PreMai st1 ∧
      st1.tab = st.tab ++ e :: inj ∧ e.strFieldName = f.1 ∧ 0 ≤ e.iFieldStartPosInput ∧
      inj.map (fun d => (d.strFieldName, d.iFieldLengthOutput)) = injectedShapePreMai f.1 ∧
      (∀ d ∈ inj, d.iFieldStartPosInput < 0) ∧
      st1.iInputRecordLength = st.iInputRecordLength + f.2.2 ∧
      e.iFieldLengthOutput = 20 := by
  obtain ⟨rn, rf, rfmt, rli, rlo, r21, r22, rpos, rfol, rhd⟩ :=
    readField_facts HEADER_LENGTH_PreMai st 0 f.1 f.2.1 f.2.2 hinv (by decide)
  subst h1
  unfold amountFormatState
  refine ⟨_, [], ?_, rfl, rn, rpos, ?_, ?_, ?_, rfl⟩
  · refine FormatInv_extend HEADER_LENGTH_PreMai st _ _ [] hinv rfl ?_ rhd rfl rfl
      (by show 0 ≤ (readField st 0 f.1 f.2.1 f.2.2).1.iFieldLengthInput; rw [rli]; exact h0)
      (by show 0 ≤ (readField st 0 f.1 f.2.1 f.2.2).2.1; rw [r21]; exact rpos) ?_
    · exact List.Chain'.append hinv.chain (List.chain'_singleton _) (by
        intro x hx y hy
        simp at hy
        rw [← hy]
        exact rfol x hx)
    · intro d hd
      simp at hd
      show (readField st 0 f.1 f.2.1 f.2.2).2.2 = d.iFieldStartPosOutput
      rw [r22, ← hd]
  · unfold injectedShapePreMai
    rw [if_neg hname]
    rfl
  · intro d hd; simp at hd
  · show st.iInputRecordLength + (readField st 0 f.1 f.2.1 f.2.2).1.iFieldLengthInput = _
    rw [rli]

theorem formatStepPreMai_ok (st : FormatState) (rec : CStr) (f : CStr × CStr × Int)
    (hinv : FormatInv HEADER_LENGTH_PreMai st) (hl : rec.length > 1)
    (hf : confRecordFields rec = some f) (h0 : 0 ≤ f.2.2) :
    ∃ st1 e inj, formatStepPreMai st rec = some st1 ∧ FormatInv HEADER_LENGTH_PreMai st1 ∧
      st1.tab = st.tab ++ e :: inj ∧ e.strFieldName = f.1 ∧ 0 ≤ e.iFieldStartPosInput ∧
      inj.map (fun d => (d.strFieldName, d.iFieldLengthOutput)) = injectedShapePreMai f.1 ∧
      (∀ d ∈ inj, d.iFieldStartPosInput < 0) ∧
      st1.iInputRecordLength = st.iInputRecordLength + f.2.2 ∧
      (f.1 = str "MAI_MNT_IMP" ∨ f.1 = str "MAI_MNT_GES" ∨ f.1 = str "MAI_MNT_NOM" →
        e.iFieldLengthOutput = 20) := by
  obtain ⟨rn, rf, rfmt, rli, rlo, r21, r22, rpos, rfol, rhd⟩ :=
    readField_facts HEADER_LENGTH_PreMai st 0 f.1 f.2.1 f.2.2 hinv (by decide)
  unfold formatStepPreMai
  rw [if_pos hl, hf, Option.map_some']
  simp only
  by_cases h1 : f.1 = str "MAI_MNT_IMP"
  · rw [if_pos h1]
    obtain ⟨e, inj, a1, a2, a3, a4, a5, a6, a7, a8⟩ :=
      formatStepPreMai_amount st f UPDATE_MAI_MNT_IMP hinv h0 (by rw [h1]; decide) _ rfl
    exact ⟨_, e, inj, rfl, a1, a2, a3, a4, a5, a6, a7, fun _ => a8⟩
  rw [if_neg h1]
  by_cases h2 : f.1 = str "MAI_MNT_GES"
  · rw [if_pos h2]
    obtain ⟨e, inj, a1, a2, a3, a4, a5, a6, a7, a8⟩ :=
      formatStepPreMai_amount st f UPDATE_MAI_MNT_GES hinv h0 (by rw [h2]; decide) _ rfl
    exact ⟨_, e, inj, rfl, a1, a2, a3, a4, a5, a6, a7, fun _ => a8⟩
  rw [if_neg h2]
  by_cases h3 : f.1 = str "MAI_MNT_NOM"
  · rw [if_pos h3]
    obtain ⟨e, inj, a1, a2, a3, a4, a5, a6, a7, a8⟩ :=
      formatStepPreMai_amount st f UPDATE_MAI_MNT_NOM hinv h0 (by rw [h3]; decide) _ rfl
    exact ⟨_, e, inj, rfl, a1, a2, a3, a4, a5, a6, a7, fun _ => a8⟩
  rw [if_neg h3]
  have hchain0 : ∀ type : Int, (st.tab ++
      [{ (readField st 0 f.1 f.2.1 f.2.2).1 with iFieldType := type }]).Chain' OutputFollows :=
    fun type => List.Chain'.append hinv.chain (List.chain'_singleton _) (by
      intro x hx y hy
      simp at hy
      rw [← hy]
      exact rfol x hx)
  by_cases h4 : f.1 = str "MAI_TOP_MAJ"
  · rw [if_pos h4]
    obtain ⟨e1, he1, hn1, _, hw1, hp1, _, hfol1⟩ := addField_eq
      (st.tab ++ [{ (readField st 0 f.1 f.2.1 f.2.2).1 with iFieldType := ADD_CD_TYPIMP_TYPEI_TVA }])
      (str "CD_TYPIMP") (str "charED") CD_TYPIMP_FIELD_LENGTH CD_TYPIMP_TYPEI_TVA_INPUT_POSIT
    rw [he1]
    obtain ⟨e2, he2, hn2, _, hw2, hp2, _, hfol2⟩ := addField_eq
      (st.tab ++ [{ (readField st 0 f.1 f.2.1 f.2.2).1 with iFieldType := ADD_CD_TYPIMP_TYPEI_TVA }]
        ++ [e1])
      (str "CD_TYPEI") (str "charED") CD_TYPEI_FIELD_LENGTH CD_TYPIMP_TYPEI_TVA_INPUT_POSIT
    rw [he2]
    obtain ⟨e3, he3, hn3, _, hw3, hp3, _, hfol3⟩ := addField_eq
      (st.tab ++ [{ (readField st 0 f.1 f.2.1 f.2.2).1 with iFieldType := ADD_CD_TYPIMP_TYPEI_TVA }]
        ++ [e1] ++ [e2])
      (str "CD_TVA_APP") (str "charED") CD_TVA_APP_FIELD_LENGTH CD_TYPIMP_TYPEI_TVA_INPUT_POSIT
    rw [he3]
    have c1 := List.Chain'.append (hchain0 ADD_CD_TYPIMP_TYPEI_TVA) (List.chain'_singleton e1) (by
      intro x hx y hy
      simp at hy
      rw [← hy]
      exact hfol1 x hx)
    have c2 := List.Chain'.append c1 (List.chain'_singleton e2) (by
      intro x hx y hy
      simp at hy
      rw [← hy]
      exact hfol2 x hx)
    have c3 := List.Chain'.append c2 (List.chain'_singleton e3) (by
      intro x hx y hy
      simp at hy
      rw [← hy]
      exact hfol3 x hx)
    refine ⟨_, { (readField st 0 f.1 f.2.1 f.2.2).1 with iFieldType := ADD_CD_TYPIMP_TYPEI_TVA },
      [e1, e2, e3], rfl, ?_, ?_, rn, rpos, ?_, ?_, ?_, ?_⟩
    · refine FormatInv_extend HEADER_LENGTH_PreMai st _
        { (readField st 0 f.1 f.2.1 f.2.2).1 with iFieldType := ADD_CD_TYPIMP_TYPEI_TVA }
        [e1, e2, e3] hinv (by simp) c3 rhd rfl rfl
        (by show 0 ≤ (readField st 0 f.1 f.2.1 f.2.2).1.iFieldLengthInput; rw [rli]; exact h0)
        (by show 0 ≤ (readField st 0 f.1 f.2.1 f.2.2).2.1; rw [r21]; exact rpos) ?_
      intro d hd
      have hd' : (st.tab ++
          [{ (readField st 0 f.1 f.2.1 f.2.2).1 with iFieldType := ADD_CD_TYPIMP_TYPEI_TVA }]
          ++ [e1] ++ [e2] ++ [e3]).getLast? = some d := hd
      rw [getD_last _ (by simp)] at hd'
      have := Option.some.inj hd'
      rw [← this]
    · simp
    · rw [h4]
      simp only [List.map_cons, List.map_nil, hn1, hn2, hn3, hw1, hw2, hw3]
      rfl
    · intro d hd
      simp only [List.mem_cons, List.mem_nil_iff, or_false] at hd
      rcases hd with h | h | h <;> rw [h]
      · rw [hp1]; decide
      · rw [hp2]; decide
      · rw [hp3]; decide
    · show st.iInputRecordLength + (readField st 0 f.1 f.2.1 f.2.2).1.iFieldLengthInput = _
      rw [rli]
    · intro h
      rcases h with h | h | h
      · exact absurd h h1
      · exact absurd h h2
      · exact absurd h h3
  · rw [if_neg h4]
    refine ⟨_, (readField st 0 f.1 f.2.1 f.2.2).1, [], rfl, ?_, rfl, rn, rpos, ?_, ?_, ?_, ?_⟩
    · refine FormatInv_extend HEADER_LENGTH_PreMai st _ (readField st 0 f.1 f.2.1 f.2.2).1 []
        hinv rfl ?_ rhd rfl rfl (by rw [rli]; exact h0)
        (by show 0 ≤ (readField st 0 f.1 f.2.1 f.2.2).2.1; rw [r21]; exact rpos) ?_
      · exact List.Chain'.append hinv.chain (List.chain'_singleton _) (by
          intro x hx y hy
          simp at hy
          rw [← hy]
          exact rfol x hx)
      · intro d hd
        simp at hd
        show (readField st 0 f.1 f.2.1 f.2.2).2.2 = d.iFieldStartPosOutput
        rw [r22, hd]
    · unfold injectedShapePreMai
      rw [if_neg h4]
      rfl
    · intro d hd; simp at hd
    · show st.iInputRecordLength + (readField st 0 f.1 f.2.1 f.2.2).1.iFieldLengthInput = _
      rw [rli]
    · intro h
      rcases h with h | h | h
      · exact absurd h h1
      · exact absurd h h2
      · exact absurd h h3
theorem formatLoop_ok (hdr : Int) (step : FormatState → CStr → Option FormatState)
    (Q : CStr → FieldOfRecord → List FieldOfRecord → Prop)
    (hstep : ∀ st rec f, FormatInv hdr st → rec.length > 1 → confRecordFields rec = some f →
      0 ≤ f.2.2 → ∃ st1 e inj, step st rec = some st1 ∧ FormatInv hdr st1 ∧
        st1.tab = st.tab ++ e :: inj ∧ e.strFieldName = f.1 ∧ 0 ≤ e.iFieldStartPosInput ∧
        (∀ d ∈ inj, d.iFieldStartPosInput < 0) ∧ Q f.1 e inj)
    (hskip : ∀ st rec, ¬ rec.length > 1 → step st rec = some st) :
    ∀ (records : List CStr) (st : FormatState), FormatInv hdr st →
      (∀ rec ∈ records, ConfRecordOk rec) →
      ∃ (st1 : FormatState) (groups : List (FieldOfRecord × List FieldOfRecord)),
        formatLoop step st records = some st1 ∧ FormatInv hdr st1 ∧
        st1.tab = st.tab ++ groups.flatMap (fun g => g.1 :: g.2) ∧
        groups.map (fun g => some g.1.strFieldName) = confNames records ∧
        (∀ g ∈ groups, 0 ≤ g.1.iFieldStartPosInput ∧ (∀ d ∈ g.2, d.iFieldStartPosInput < 0) ∧
          Q g.1.strFieldName g.1 g.2) := by
  intro records
  induction records with
  | nil =>
    intro st hinv _
    exact ⟨st, [], rfl, hinv, by simp, rfl, by simp⟩
  | cons rec rest ih =>
    intro st hinv hok
    have hrest : ∀ r ∈ rest, ConfRecordOk r := fun r hr => hok r (List.mem_cons_of_mem _ hr)
    by_cases hl : rec.length > 1
    · rcases hok rec (List.mem_cons_self _ _) with h | ⟨f, hf, h0⟩
      · omega
      obtain ⟨st1, e, inj, hs, hinv1, htab, hname, hpos, hneg, hq⟩ := hstep st rec f hinv hl hf h0
      obtain ⟨st2, groups, hloop, hinv2, htab2, hnames, hall⟩ := ih st1 hinv1 hrest
      refine ⟨st2, (e, inj) :: groups, ?_, hinv2, ?_, ?_, ?_⟩
      · rw [formatLoop, hs, Option.some_bind, hloop]
      · rw [htab2, htab]
        simp
      · unfold confNames
        rw [List.filter_cons_of_pos (by simpa using hl), List.map_cons, List.map_cons, hf]
        simp only [Option.map_some']
        rw [hname]
        congr 1
      · intro g hg
        rcases List.mem_cons.mp hg with h | h
        · rw [h]
          exact ⟨hpos, hneg, by rw [hname]; exact hq⟩
        · exact hall g h
    · obtain ⟨st2, groups, hloop, hinv2, htab2, hnames, hall⟩ := ih st hinv hrest
      refine ⟨st2, groups, ?_, hinv2, htab2, ?_, hall⟩
      · rw [formatLoop, hskip st rec hl, Option.some_bind, hloop]
      · unfold confNames
        rw [List.filter_cons_of_neg (by simpa using hl)]
        exact hnames

theorem FormatInv_initial (hdr : Int) : FormatInv hdr ⟨[], 0, 0, 0, hdr, 1⟩ := by
  refine ⟨List.chain'_nil, ?_, ?_, fun _ => ⟨rfl, rfl⟩, fun _ => rfl, le_refl _,
    fun h => absurd rfl h⟩
  · intro d hd; simp at hd
  · intro d hd; simp at hd

theorem formatStepPESTD_skip (st : FormatState) (rec : CStr) (h : ¬ rec.length > 1) :
    formatStepPESTD st rec = some st := by
  unfold formatStepPESTD
  rw [if_neg h]

theorem formatStepPreMai_skip (st : FormatState) (rec : CStr) (h : ¬ rec.length > 1) :
    formatStepPreMai st rec = some st := by
  unfold formatStepPreMai
  rw [if_neg h]

theorem BuildOutputRecordFormat_PESTD_ok (records : List CStr)
    (hok : ∀ rec ∈ records, ConfRecordOk rec) :
    ∃ (ds : List FieldOfRecord) (groups : List (FieldOfRecord × List FieldOfRecord)),
      BuildOutputRecordFormat_PESTD records = some ds ∧
      ds.Chain' OutputFollows ∧ (∀ d ∈ ds.head?, d.iFieldStartPosOutput = HEADER_LENGTH_PESTD) ∧
      ds = groups.flatMap (fun g => g.1 :: g.2) ∧
      groups.map (fun g => some g.1.strFieldName) = confNames records ∧
      (∀ g ∈ groups, 0 ≤ g.1.iFieldStartPosInput ∧ (∀ d ∈ g.2, d.iFieldStartPosInput < 0) ∧
        g.2.map (fun d => (d.iFieldFormat, d.iFieldLengthOutput)) =
          injectedShapePESTD g.1.strFieldName) := by
  obtain ⟨st1, groups, hloop, hinv, htab, hnames, hall⟩ :=
    formatLoop_ok HEADER_LENGTH_PESTD formatStepPESTD
      (fun n _ inj => inj.map (fun d => (d.iFieldFormat, d.iFieldLengthOutput)) =
        injectedShapePESTD n)
      (by
        intro st rec f hinv hl hf h0
        obtain ⟨st1, e, inj, a1, a2, a3, a4, a5, a6, a7⟩ := formatStepPESTD_ok st rec f hinv hl hf h0
        exact ⟨st1, e, inj, a1, a2, a3, a4, a5, a7, a6⟩)
      formatStepPESTD_skip records _ (FormatInv_initial _) hok
  refine ⟨st1.tab, groups, ?_, hinv.chain, hinv.head, ?_, hnames, hall⟩
  · unfold BuildOutputRecordFormat_PESTD
    rw [hloop]
    rfl
  · simpa using htab

theorem BuildOutputRecordFormat_PreMai_ok (records : List CStr)
    (hok : ∀ rec ∈ records, ConfRecordOk rec) :
    ∃ (ds : List FieldOfRecord) (len : Int) (groups : List (FieldOfRecord × List FieldOfRecord)),
      BuildOutputRecordFormat_PreMai records = some (ds, len) ∧
      ds.Chain' OutputFollows ∧ (∀ d ∈ ds.head?, d.iFieldStartPosOutput = HEADER_LENGTH_PreMai) ∧
      ds = groups.flatMap (fun g => g.1 :: g.2) ∧
      groups.map (fun g => some g.1.strFieldName) = confNames records ∧
      (∀ g ∈ groups, 0 ≤ g.1.iFieldStartPosInput ∧ (∀ d ∈ g.2, d.iFieldStartPosInput < 0) ∧
        g.2.map (fun d => (d.strFieldName, d.iFieldLengthOutput)) =
          injectedShapePreMai g.1.strFieldName ∧
        (g.1.strFieldName = str "MAI_MNT_IMP" ∨ g.1.strFieldName = str "MAI_MNT_GES" ∨
          g.1.strFieldName = str "MAI_MNT_NOM" → g.1.iFieldLengthOutput = 20)) := by
  obtain ⟨st1, groups, hloop, hinv, htab, hnames, hall⟩ :=
    formatLoop_ok HEADER_LENGTH_PreMai formatStepPreMai
      (fun n e inj => inj.map (fun d => (d.strFieldName, d.iFieldLengthOutput)) =
        injectedShapePreMai n ∧
        (n = str "MAI_MNT_IMP" ∨ n = str "MAI_MNT_GES" ∨ n = str "MAI_MNT_NOM" →
          e.iFieldLengthOutput = 20))
      (by
        intro st rec f hinv hl hf h0
        obtain ⟨st1, e, inj, a1, a2, a3, a4, a5, a6, a7, _, a9⟩ :=
          formatStepPreMai_ok st rec f hinv hl hf h0
        exact ⟨st1, e, inj, a1, a2, a3, a4, a5, a7, a6, a9⟩)
      formatStepPreMai_skip records _ (FormatInv_initial _) hok
  refine ⟨st1.tab, st1.iInputRecordLength, groups, ?_, hinv.chain, hinv.head, ?_, hnames, hall⟩
  · unfold BuildOutputRecordFormat_PreMai
    rw [hloop]
    rfl
  · simpa using htab
theorem chain_getD (ds : List FieldOfRecord) (h : ds.Chain' OutputFollows) (i : Nat)
    (hi : i + 1 < ds.length) :
    (ds.getD (i + 1) blankField).iFieldStartPosOutput =
      (ds.getD i blankField).iFieldStartPosOutput + (ds.getD i blankField).iFieldLengthOutput := by
  have := (List.chain'_iff_get.mp h) i (by omega)
  rw [List.getD_eq_getElem?_getD, List.getD_eq_getElem?_getD, List.getElem?_eq_getElem hi,
    List.getElem?_eq_getElem (by omega : i < ds.length)]
  exact this

theorem head_getD (ds : List FieldOfRecord) (hdr : Int)
    (h : ∀ d ∈ ds.head?, d.iFieldStartPosOutput = hdr) (hne : ds ≠ []) :
    (ds.getD 0 blankField).iFieldStartPosOutput = hdr := by
  cases ds with
  | nil => exact absurd rfl hne
  | cons a l => exact h a rfl

theorem length_flatMap_groups (groups : List (FieldOfRecord × List FieldOfRecord)) :
    (groups.flatMap (fun g => g.1 :: g.2)).length =
      groups.length + (groups.map (fun g => g.2.length)).sum := by
  induction groups with
  | nil => rfl
  | cons g gs ih =>
    rw [List.flatMap_cons, List.length_append, ih]
    simp
    omega

theorem sampleConf_ok : ∀ rec ∈ sampleConf, ConfRecordOk rec := by
  intro rec h
  simp only [sampleConf, List.mem_cons, List.mem_nil_iff, or_false] at h
  rcases h with h | h | h | h | h <;> subst h
  · exact Or.inr ⟨(str "A", str "charED", 3), by decide, by decide⟩
  · exact Or.inl (by decide)
  · exact Or.inr ⟨(str "TIERS", str "charED", 7), by decide, by decide⟩
  · exact Or.inr ⟨(str "MAI_MNT_IMP", str "entierZG", 15), by decide, by decide⟩
  · exact Or.inr ⟨(str "MAI_TOP_MAJ", str "charED", 1), by decide, by decide⟩

/-- C25. For every configuration whose handled records have the three fields
name, format and length, in both programs `BuildOutputRecordFormat` builds a
table `d_0 .. d_n` in which the output of `d_0` starts at HEADER_LENGTH (155 in
PESTD, 169 in PreMai) and the output of `d_(i+1)` starts where the output of
`d_i` ends, for every `i`: this covers the added entries and the amount fields
of PreMai, whose output length is 20. -/
theorem output_offsets_contiguous (records : List CStr)
    (hok : ∀ rec ∈ records, ConfRecordOk rec) :
    (∃ ds, BuildOutputRecordFormat_PESTD records = some ds ∧
      (ds ≠ [] → (ds.getD 0 blankField).iFieldStartPosOutput = 155) ∧
      ∀ i, i + 1 < ds.length →
        (ds.getD (i + 1) blankField).iFieldStartPosOutput =
          (ds.getD i blankField).iFieldStartPosOutput +
            (ds.getD i blankField).iFieldLengthOutput) ∧
    (∃ ds len, BuildOutputRecordFormat_PreMai records = some (ds, len) ∧
      (ds ≠ [] → (ds.getD 0 blankField).iFieldStartPosOutput = 169) ∧
      (∀ i, i + 1 < ds.length →
        (ds.getD (i + 1) blankField).iFieldStartPosOutput =
          (ds.getD i blankField).iFieldStartPosOutput +
            (ds.getD i blankField).iFieldLengthOutput) ∧
      ∀ d ∈ ds, d.strFieldName = str "MAI_MNT_IMP" ∨ d.strFieldName = str "MAI_MNT_GES" ∨
        d.strFieldName = str "MAI_MNT_NOM" → 0 ≤ d.iFieldStartPosInput →
        d.iFieldLengthOutput = 20) := by
  constructor
  · obtain ⟨ds, groups, h1, h2, h3, _⟩ := BuildOutputRecordFormat_PESTD_ok records hok
    exact ⟨ds, h1, head_getD ds _ h3, chain_getD ds h2⟩
  · obtain ⟨ds, len, groups, h1, h2, h3, h4, _, h6⟩ :=
      BuildOutputRecordFormat_PreMai_ok records hok
    refine ⟨ds, len, h1, head_getD ds _ h3, chain_getD ds h2, ?_⟩
    intro d hd hname hpos
    rw [h4, List.mem_flatMap] at hd
    obtain ⟨g, hg, hdg⟩ := hd
    obtain ⟨_, hneg, _, hamt⟩ := h6 g hg
    rcases List.mem_cons.mp hdg with h | h
    · rw [h] at hname ⊢
      exact hamt hname
    · have := hneg d h
      omega

theorem output_offsets_contiguous_witness :
    (∀ rec ∈ sampleConf, ConfRecordOk rec) ∧
    ((∃ ds, BuildOutputRecordFormat_PESTD sampleConf = some ds ∧
      (ds ≠ [] → (ds.getD 0 blankField).iFieldStartPosOutput = 155) ∧
      ∀ i, i + 1 < ds.length →
        (ds.getD (i + 1) blankField).iFieldStartPosOutput =
          (ds.getD i blankField).iFieldStartPosOutput +
            (ds.getD i blankField).iFieldLengthOutput) ∧
    (∃ ds len, BuildOutputRecordFormat_PreMai sampleConf = some (ds, len) ∧
      (ds ≠ [] → (ds.getD 0 blankField).iFieldStartPosOutput = 169) ∧
      (∀ i, i + 1 < ds.length →
        (ds.getD (i + 1) blankField).iFieldStartPosOutput =
          (ds.getD i blankField).iFieldStartPosOutput +
            (ds.getD i blankField).iFieldLengthOutput) ∧
      ∀ d ∈ ds, d.strFieldName = str "MAI_MNT_IMP" ∨ d.strFieldName = str "MAI_MNT_GES" ∨
        d.strFieldName = str "MAI_MNT_NOM" → 0 ≤ d.iFieldStartPosInput →
        d.iFieldLengthOutput = 20)) :=
  ⟨sampleConf_ok, output_offsets_contiguous sampleConf sampleConf_ok⟩

set_option maxRecDepth 100000 in
/-- The two tables built from the example configuration. -/
theorem sampleConf_tables :
    BuildOutputRecordFormat_PESTD sampleConf =
      some [⟨str "A", str "charED", enumFieldFormat.charED, -1, 3, 3, 0, 155⟩,
        ⟨str "TIERS", str "charED", enumFieldFormat.charED, 10, 7, 7, 4, 158⟩,
        ⟨str "TIERS_RICOS", str "charED", enumFieldFormat.charED, -1, -1, 12, -10, 165⟩,
        ⟨str "TIERS_RICOS_CY", str "entierZG", enumFieldFormat.entierZG, -1, -1, 12, -10, 177⟩,
        ⟨str "MAI_MNT_IMP", str "entierZG", enumFieldFormat.entierZG, -1, 15, 15, 12, 189⟩,
        ⟨str "MAI_TOP_MAJ", str "charED", enumFieldFormat.charED, -1, 1, 1, 28, 204⟩] ∧
    BuildOutputRecordFormat_PreMai sampleConf =
      some ([⟨str "A", str "charED", enumFieldFormat.charED, -1, 3, 3, 0, 169⟩,
        ⟨str "TIERS", str "charED", enumFieldFormat.charED, -1, 7, 7, 3, 172⟩,
        ⟨str "MAI_MNT_IMP", str "amount3DEC", enumFieldFormat.amount3DEC, 110, 15, 20, 10, 179⟩,
        ⟨str "MAI_TOP_MAJ", str "charED", enumFieldFormat.charED, 10, 1, 1, 25, 199⟩,
        ⟨str "CD_TYPIMP", str "charED", enumFieldFormat.charED, -1, -1, 2, -10, 200⟩,
        ⟨str "CD_TYPEI", str "charED", enumFieldFormat.charED, -1, -1, 1, -10, 202⟩,
        ⟨str "CD_TVA_APP", str "charED", enumFieldFormat.charED, -1, -1, 2, -10, 203⟩], 27) := by
  refine ⟨by decide, by decide⟩

/-- C26. For every configuration whose handled records have the three fields
name, format and a non-negative length, the table built by
`BuildOutputRecordFormat` is, field after field of the configuration, the
entry of the field followed by the entries added after it.  In PESTD the
added entries are two (charED then entierZG, output width 12) after `TIERS`
and `Z_ALIAS_ID_TIERS`, one (charED, output width 12) after each of the seven
other aliases, none after any other field; in PreMai they are three
(`CD_TYPIMP` of width 2, `CD_TYPEI` of width 1, `CD_TVA_APP` of width 2) after
`MAI_TOP_MAJ` and none after any other field.  Every added entry has a
negative input start, every entry of a field of the configuration a
non-negative one, and the number of entries is the number of handled records
plus the number of added entries. -/
theorem schema_expansion (records : List CStr) (hok : ∀ rec ∈ records, ConfRecordOk rec) :
    (∃ (ds : List FieldOfRecord) (groups : List (FieldOfRecord × List FieldOfRecord)),
      BuildOutputRecordFormat_PESTD records = some ds ∧
      ExpandedBy (confNames records) groups ds ∧
      (∀ g ∈ groups, g.2.map (fun d => (d.iFieldFormat, d.iFieldLengthOutput)) =
        injectedShapePESTD g.1.strFieldName) ∧
      ds.length = (confNames records).length + (groups.map (fun g => g.2.length)).sum) ∧
    (∃ (ds : List FieldOfRecord) (len : Int)
        (groups : List (FieldOfRecord × List FieldOfRecord)),
      BuildOutputRecordFormat_PreMai records = some (ds, len) ∧
      ExpandedBy (confNames records) groups ds ∧
      (∀ g ∈ groups, g.2.map (fun d => (d.strFieldName, d.iFieldLengthOutput)) =
        injectedShapePreMai g.1.strFieldName) ∧
      ds.length = (confNames records).length + (groups.map (fun g => g.2.length)).sum) := by
  constructor
  · obtain ⟨ds, groups, h1, _, _, h4, h5, h6⟩ := BuildOutputRecordFormat_PESTD_ok records hok
    refine ⟨ds, groups, h1, ⟨h4, h5, fun g hg => ⟨(h6 g hg).1, (h6 g hg).2.1⟩⟩,
      fun g hg => (h6 g hg).2.2, ?_⟩
    rw [h4, length_flatMap_groups, ← h5, List.length_map]
  · obtain ⟨ds, len, groups, h1, _, _, h4, h5, h6⟩ :=
      BuildOutputRecordFormat_PreMai_ok records hok
    refine ⟨ds, len, groups, h1, ⟨h4, h5, fun g hg => ⟨(h6 g hg).1, (h6 g hg).2.1⟩⟩,
      fun g hg => (h6 g hg).2.2.1, ?_⟩
    rw [h4, length_flatMap_groups, ← h5, List.length_map]

theorem schema_expansion_witness :
    (∀ rec ∈ sampleConf, ConfRecordOk rec) ∧
    ((∃ (ds : List FieldOfRecord) (groups : List (FieldOfRecord × List FieldOfRecord)),
      BuildOutputRecordFormat_PESTD sampleConf = some ds ∧
      ExpandedBy (confNames sampleConf) groups ds ∧
      (∀ g ∈ groups, g.2.map (fun d => (d.iFieldFormat, d.iFieldLengthOutput)) =
        injectedShapePESTD g.1.strFieldName) ∧
      ds.length = (confNames sampleConf).length + (groups.map (fun g => g.2.length)).sum) ∧
    (∃ (ds : List FieldOfRecord) (len : Int)
        (groups : List (FieldOfRecord × List FieldOfRecord)),
      BuildOutputRecordFormat_PreMai sampleConf = some (ds, len) ∧
      ExpandedBy (confNames sampleConf) groups ds ∧
      (∀ g ∈ groups, g.2.map (fun d => (d.strFieldName, d.iFieldLengthOutput)) =
        injectedShapePreMai g.1.strFieldName) ∧
      ds.length = (confNames sampleConf).length + (groups.map (fun g => g.2.length)).sum)) :=
  ⟨sampleConf_ok, schema_expansion sampleConf sampleConf_ok⟩

theorem bufWrite_length (b : List Nat) (off : Int) (src b1 : List Nat)
    (h : bufWrite b off src = some b1) : b1.length = b.length := by
  unfold bufWrite at h
  split at h
  · rename_i hc
    have := Option.some.inj h
    rw [← this]
    simp only [List.length_append, List.length_take, List.length_drop]
    omega
  · exact absurd h (by simp)

theorem cstrOf_terminated (s rest : List Nat) (hs : 0 ∉ s) : cstrOf (s ++ 0 :: rest) = some s := by
  unfold cstrOf
  rw [if_pos (by simp)]
  congr 1
  rw [List.takeWhile_append_of_pos (by
    intro x hx
    have : x ≠ 0 := fun h => hs (h ▸ hx)
    simpa using this)]
  simp

theorem bufWrite_zero (b src : List Nat) (h : src.length ≤ b.length) :
    bufWrite b 0 src = some (src ++ b.drop src.length) := by
  unfold bufWrite
  rw [if_pos (by simp; exact_mod_cast h)]
  simp

theorem fgets_cstr (b rec : List Nat) (h0 : 0 ∉ rec) (hl : rec.length < b.length) :
    ∃ inb, bufWrite b 0 (rec ++ [0]) = some inb ∧ cstrOf inb = some rec ∧
      inb.length = b.length := by
  have hw := bufWrite_zero b (rec ++ [0]) (by simp; omega)
  refine ⟨_, hw, ?_, bufWrite_length _ _ _ _ hw⟩
  rw [List.append_assoc]
  exact cstrOf_terminated rec _ h0

theorem Create_Output_Record_PreMai_ret (tabs : TablesPreMai) (ds : List FieldOfRecord)
    (ENTITY : CStr) (ind : IndeterminatePreMai) (lot : LOTState) (i o : List Nat)
    (r : Int × List Nat × LOTState)
    (h : Create_Output_Record_PreMai tabs ds ENTITY ind lot i o = some r) : r.1 = EXIT_OK := by
  unfold Create_Output_Record_PreMai at h
  simp only [Option.bind_eq_some, Option.map_eq_some'] at h
  obtain ⟨_, _, _, _, h⟩ := h
  rw [← h]

theorem mainLoopPreMai_eq (tabs : TablesPreMai) (ds : List FieldOfRecord) (ENTITY : CStr)
    (ind : Nat → IndeterminatePreMai) (L : Int) :
    ∀ (records : List CStr) (n : Nat) (lot : LOTState) (inb os : List Nat) (out : List CStr),
      (∀ rec ∈ records, 0 ∉ rec ∧ rec.length < inb.length) →
      mainLoopPreMai tabs ds ENTITY ind L records n lot inb os out =
        (transcodeLinesPreMai tabs ds ENTITY ind
          (records.takeWhile (fun rec => !rejectedLine L rec)) n lot inb os).map
          fun lines =>
            ⟨if records.any (rejectedLine L) then some EXIT_ERR else none, out ++ lines⟩ := by
  intro records
  induction records with
  | nil =>
    intro n lot inb os out _
    simp [mainLoopPreMai, transcodeLinesPreMai]
  | cons rec rest ih =>
    intro n lot inb os out hrec
    obtain ⟨h0, hl⟩ := hrec rec (List.mem_cons_self _ _)
    obtain ⟨inb1, hw, hc, hlen⟩ := fgets_cstr inb rec h0 hl
    have hrest : ∀ r ∈ rest, 0 ∉ r ∧ r.length < inb1.length := by
      intro r hr
      rw [hlen]
      exact hrec r (List.mem_cons_of_mem _ hr)
    rw [mainLoopPreMai, hw, Option.some_bind, hc, Option.some_bind]
    by_cases h1 : rec.length > 1
    · rw [if_pos h1]
      by_cases h2 : (rec.length : Int) = L
      · have hrej : rejectedLine L rec = false := by simp [rejectedLine, h2]
        rw [if_pos h2, List.takeWhile_cons_of_pos (by simp [hrej]), transcodeLinesPreMai, hw,
          Option.some_bind, if_pos h1]
        cases hm : memsetBuf os 32 HEADER_LENGTH_PreMai with
        | none => simp
        | some m1 =>
          simp only [Option.some_bind]
          cases hb : bufWrite m1 (HEADER_LENGTH_PreMai + 1)
              (List.replicate (MAX_INPUT_REC_LENGTH_PreMai + 3 * (1 + 1) + 2 + 1 + 2) 32) with
          | none => simp
          | some o =>
            simp only [Option.some_bind]
            cases hcr : Create_Output_Record_PreMai tabs ds ENTITY (ind n) lot inb1 o with
            | none => simp
            | some r =>
              have hret := Create_Output_Record_PreMai_ret _ _ _ _ _ _ _ _ hcr
              simp only [Option.some_bind]
              rw [if_neg (by rw [hret]; decide)]
              cases hline : cstrOf r.2.1 with
              | none => simp
              | some line =>
                simp only [Option.some_bind]
                rw [ih (n + 1) r.2.2 inb1 r.2.1 (out ++ [line ++ [10]]) hrest]
                cases transcodeLinesPreMai tabs ds ENTITY ind
                    (List.takeWhile (fun rec => !rejectedLine L rec) rest) (n + 1) r.2.2 inb1
                    r.2.1 with
                | none => rfl
                | some ls => simp [List.any_cons, hrej]
      · have hrej : rejectedLine L rec = true := by simp [rejectedLine, h1, h2]
        rw [if_neg h2, List.takeWhile_cons_of_neg (by simp [hrej]), transcodeLinesPreMai]
        simp [List.any_cons, hrej]
    · have hrej : rejectedLine L rec = false := by simp [rejectedLine, h1]
      rw [if_neg h1, List.takeWhile_cons_of_pos (by simp [hrej]), transcodeLinesPreMai, hw,
        Option.some_bind, if_neg h1, ih n lot inb1 os out hrest]
      simp [List.any_cons, hrej]
theorem readField_len (st : FormatState) (sep : Int) (n f : CStr) (len : Int) :
    (readField st sep n f len).1.iFieldLengthInput = len := by
  unfold readField
  split <;> rfl

theorem formatStepPreMai_length (st st1 : FormatState) (rec : CStr)
    (h : formatStepPreMai st rec = some st1) :
    st1.iInputRecordLength = st.iInputRecordLength + (confLengths [rec]).sum := by
  unfold formatStepPreMai at h
  by_cases hl : rec.length > 1
  · rw [if_pos hl] at h
    cases hf : confRecordFields rec with
    | none =>
      rw [hf] at h
      exact absurd h (by simp)
    | some f =>
      rw [hf, Option.map_some'] at h
      have hs := Option.some.inj h
      have hc : (confLengths [rec]).sum = f.2.2 := by
        unfold confLengths
        rw [List.filter_cons_of_pos (by simpa using hl)]
        simp [hf]
      rw [hc, ← hs]
      simp only
      split
      · show st.iInputRecordLength + (readField st 0 f.1 f.2.1 f.2.2).1.iFieldLengthInput = _
        rw [readField_len]
      · split
        · show st.iInputRecordLength + (readField st 0 f.1 f.2.1 f.2.2).1.iFieldLengthInput = _
          rw [readField_len]
        · split
          · show st.iInputRecordLength + (readField st 0 f.1 f.2.1 f.2.2).1.iFieldLengthInput = _
            rw [readField_len]
          · split
            · show st.iInputRecordLength + (readField st 0 f.1 f.2.1 f.2.2).1.iFieldLengthInput = _
              rw [readField_len]
            · show st.iInputRecordLength + (readField st 0 f.1 f.2.1 f.2.2).1.iFieldLengthInput = _
              rw [readField_len]
  · rw [if_neg hl] at h
    have hs := Option.some.inj h
    have hc : (confLengths [rec]).sum = 0 := by
      unfold confLengths
      rw [List.filter_cons_of_neg (by simpa using hl)]
      rfl
    rw [hc, ← hs]
    omega

theorem confLengths_cons (rec : CStr) (rest : List CStr) :
    (confLengths (rec :: rest)).sum = (confLengths [rec]).sum + (confLengths rest).sum := by
  unfold confLengths
  by_cases hl : rec.length > 1
  · rw [List.filter_cons_of_pos (by simpa using hl), List.filter_cons_of_pos (by simpa using hl)]
    simp
  · rw [List.filter_cons_of_neg (by simpa using hl), List.filter_cons_of_neg (by simpa using hl)]
    simp

theorem formatLoopPreMai_length :
    ∀ (records : List CStr) (st st1 : FormatState),
      formatLoop formatStepPreMai st records = some st1 →
      st1.iInputRecordLength = st.iInputRecordLength + (confLengths records).sum := by
  intro records
  induction records with
  | nil =>
    intro st st1 h
    rw [formatLoop] at h
    rw [← Option.some.inj h]
    simp [confLengths]
  | cons rec rest ih =>
    intro st st1 h
    rw [formatLoop] at h
    cases hs : formatStepPreMai st rec with
    | none =>
      rw [hs] at h
      exact absurd h (by simp)
    | some st2 =>
      rw [hs, Option.some_bind] at h
      rw [ih st2 st1 h, formatStepPreMai_length st st2 rec hs]
      have := confLengths_cons rec rest
      omega

theorem BuildOutputRecordFormat_PreMai_length (records : List CStr) (ds : List FieldOfRecord)
    (L : Int) (h : BuildOutputRecordFormat_PreMai records = some (ds, L)) :
    L = 1 + (confLengths records).sum := by
  unfold BuildOutputRecordFormat_PreMai at h
  cases hl : formatLoop formatStepPreMai ⟨[], 0, 0, 0, HEADER_LENGTH_PreMai, 1⟩ records with
  | none =>
    rw [hl] at h
    exact absurd h (by simp)
  | some st =>
    rw [hl, Option.map_some'] at h
    have := Option.some.inj h
    have h2 := formatLoopPreMai_length records _ st hl
    have h3 : st.iInputRecordLength = L := by
      have := congrArg Prod.snd this
      exact this
    rw [← h3, h2]

theorem transcodeLinesPreMai_length (tabs : TablesPreMai) (ds : List FieldOfRecord)
    (ENTITY : CStr) (ind : Nat → IndeterminatePreMai) :
    ∀ (records : List CStr) (n : Nat) (lot : LOTState) (inb os : List Nat) (lines : List CStr),
      transcodeLinesPreMai tabs ds ENTITY ind records n lot inb os = some lines →
      lines.length = (records.filter (fun rec => decide (rec.length > 1))).length := by
  intro records
  induction records with
  | nil =>
    intro n lot inb os lines h
    rw [transcodeLinesPreMai] at h
    rw [← Option.some.inj h]
    rfl
  | cons rec rest ih =>
    intro n lot inb os lines h
    rw [transcodeLinesPreMai] at h
    simp only [Option.bind_eq_some] at h
    obtain ⟨inb1, _, h⟩ := h
    by_cases h1 : rec.length > 1
    · rw [if_pos h1] at h
      simp only [Option.bind_eq_some, Option.map_eq_some'] at h
      obtain ⟨_, _, _, _, r, _, line, _, ls, hls, hl⟩ := h
      rw [← hl, List.filter_cons_of_pos (by simpa using h1), List.length_cons, List.length_cons,
        ih _ _ _ _ _ hls]
    · rw [if_neg h1] at h
      rw [List.filter_cons_of_neg (by simpa using h1)]
      exact ih _ _ _ _ _ h
theorem sampleConfPreMai_ok : ∀ rec ∈ sampleConfPreMai, ConfRecordOk rec := by
  intro rec h
  simp only [sampleConfPreMai, List.mem_cons, List.mem_nil_iff, or_false] at h
  rcases h with h | h | h | h <;> subst h
  · exact Or.inr ⟨(str "MAI_DAT_OPE", str "charED", 8), by decide, by decide⟩
  · exact Or.inr ⟨(str "MAI_REF_OPE", str "charED", 20), by decide, by decide⟩
  · exact Or.inr ⟨(str "MAI_CPT_IMP", str "charED", 9), by decide, by decide⟩
  · exact Or.inr ⟨(str "MAI_TOP_MAJ", str "charED", 1), by decide, by decide⟩

set_option maxRecDepth 1000000 in
/-- The table and the record length built from `sampleConfPreMai`. -/
theorem sampleConfPreMai_built :
    BuildOutputRecordFormat_PreMai sampleConfPreMai = some (sampleFieldsPreMai, 39) := by
  decide

set_option maxRecDepth 1000000 in
/-- C30 as stated fails on an empty line: with the declared length 39 of
`sampleConfPreMai`, an input made of one empty line (length 1, which is not
39) is read to its end without failure, and no line is written. -/
theorem record_length_check_counterexample :
    BuildOutputRecordFormat_PreMai sampleConfPreMai = some (sampleFieldsPreMai, 39) ∧
    (str "\n").length = 1 ∧
    mainPreMai emptyTablesPreMai sampleFieldsPreMai [] (fun _ => sampleIndeterminatePreMai) 39
      (str "20240131") [str "\n"] = some ⟨none, []⟩ := by
  refine ⟨by decide, by decide, by decide⟩

/-- C30, amended.  For every configuration whose handled records have the
three fields name, format and length, the declared length `L` built by
`BuildOutputRecordFormat` is 1 plus the sum of the declared lengths.  For
every list of input lines (as `fgets` returns them: no NUL, shorter than the
buffer), a line is rejected when it has more than one character and its
length is not `L`; the main loop of PreMai returns EXIT_ERR iff some line is
rejected; the lines written are the transcodings of the lines that precede
the first rejected line, lines of at most one character being skipped; one
line is written for each of these lines that has more than one character, in
the order of the input. -/
theorem record_length_check (conf : List CStr) (hconf : ∀ rec ∈ conf, ConfRecordOk rec)
    (records : List CStr)
    (hrec : ∀ rec ∈ records, 0 ∉ rec ∧ rec.length < MAX_INPUT_REC_LENGTH_PreMai)
    (tabs : TablesPreMai) (ENTITY : CStr) (ind : Nat → IndeterminatePreMai) :
    ∃ ds L, BuildOutputRecordFormat_PreMai conf = some (ds, L) ∧
      L = 1 + (confLengths conf).sum ∧
      ∀ (n : Nat) (lot : LOTState) (inb os : List Nat) (out : List CStr),
        inb.length = MAX_INPUT_REC_LENGTH_PreMai →
        mainLoopPreMai tabs ds ENTITY ind L records n lot inb os out =
          (transcodeLinesPreMai tabs ds ENTITY ind
            (records.takeWhile (fun rec => !rejectedLine L rec)) n lot inb os).map
            (fun lines =>
              ⟨if records.any (rejectedLine L) then some EXIT_ERR else none, out ++ lines⟩) ∧
        ∀ lines,
          transcodeLinesPreMai tabs ds ENTITY ind
            (records.takeWhile (fun rec => !rejectedLine L rec)) n lot inb os = some lines →
          lines.length =
            ((records.takeWhile (fun rec => !rejectedLine L rec)).filter
              (fun rec => decide (rec.length > 1))).length := by
  obtain ⟨ds, L, groups, hb, _⟩ := BuildOutputRecordFormat_PreMai_ok conf hconf
  refine ⟨ds, L, hb, BuildOutputRecordFormat_PreMai_length conf ds L hb, ?_⟩
  intro n lot inb os out hinb
  refine ⟨mainLoopPreMai_eq tabs ds ENTITY ind L records n lot inb os out ?_, ?_⟩
  · intro rec hr
    rw [hinb]
    exact hrec rec hr
  · intro lines hl
    exact transcodeLinesPreMai_length tabs ds ENTITY ind _ n lot inb os lines hl

theorem record_length_check_witness :
    (∀ rec ∈ sampleConfPreMai, ConfRecordOk rec) ∧
    (∀ rec ∈ [str "\n", str "20240131REFERENCE00000012ABC530001000X\n", str "AB\n"],
      0 ∉ rec ∧ rec.length < MAX_INPUT_REC_LENGTH_PreMai) ∧
    ∃ ds L, BuildOutputRecordFormat_PreMai sampleConfPreMai = some (ds, L) ∧
      L = 1 + (confLengths sampleConfPreMai).sum ∧
      ∀ (n : Nat) (lot : LOTState) (inb os : List Nat) (out : List CStr),
        inb.length = MAX_INPUT_REC_LENGTH_PreMai →
        mainLoopPreMai emptyTablesPreMai ds [] (fun _ => sampleIndeterminatePreMai) L
            [str "\n", str "20240131REFERENCE00000012ABC530001000X\n", str "AB\n"] n lot inb os
            out =
          (transcodeLinesPreMai emptyTablesPreMai ds [] (fun _ => sampleIndeterminatePreMai)
            ([str "\n", str "20240131REFERENCE00000012ABC530001000X\n", str "AB\n"].takeWhile
              (fun rec => !rejectedLine L rec)) n lot inb os).map
            (fun lines =>
              ⟨if [str "\n", str "20240131REFERENCE00000012ABC530001000X\n", str "AB\n"].any
                  (rejectedLine L) then some EXIT_ERR else none, out ++ lines⟩) ∧
        ∀ lines,
          transcodeLinesPreMai emptyTablesPreMai ds [] (fun _ => sampleIndeterminatePreMai)
            ([str "\n", str "20240131REFERENCE00000012ABC530001000X\n", str "AB\n"].takeWhile
              (fun rec => !rejectedLine L rec)) n lot inb os = some lines →
          lines.length =
            (([str "\n", str "20240131REFERENCE00000012ABC530001000X\n", str "AB\n"].takeWhile
              (fun rec => !rejectedLine L rec)).filter
              (fun rec => decide (rec.length > 1))).length :=
  ⟨sampleConfPreMai_ok, by decide,
    record_length_check sampleConfPreMai sampleConfPreMai_ok
      [str "\n", str "20240131REFERENCE00000012ABC530001000X\n", str "AB\n"] (by decide)
      emptyTablesPreMai [] (fun _ => sampleIndeterminatePreMai)⟩

theorem length_two (l : List Nat) (h : l.length = 2) : ∃ a b, l = [a, b] := by
  match l, h with
  | [a, b], _ => exact ⟨a, b, rfl⟩

theorem currencyDecimalPos_default (cur : Table CURRENCYHashElt) (field : CStr) (dec : List Nat)
    (hdec : dec.length = 2)
    (h : field = str "   " ∨ FindElementInCURRENCYHashArrayTable cur field = some notFound) :
    currencyDecimalPos cur field dec = some (str "3" ++ [0]) := by
  obtain ⟨a, b, rfl⟩ := length_two dec hdec
  have hw : (bufWrite [a, b] 0 [51]).bind (fun d1 => bufWrite d1 1 [0]) = some (str "3" ++ [0]) := by
    rfl
  unfold currencyDecimalPos
  by_cases h1 : field = str "   "
  · rw [if_pos h1, hw]
  · rw [if_neg h1]
    rcases h with h | h
    · exact absurd h h1
    · rw [h, Option.some_bind, if_neg (by decide), hw]

theorem currencyDecimalPos_found (cur : Table CURRENCYHashElt) (field : CStr) (dec : List Nat)
    (hdec : dec.length = 2) (x y : Nat) (h1 : field ≠ str "   ")
    (h : FindElementInCURRENCYHashArrayTable cur field = some (found x y))
    (hlen : (cur x y).strDECIMAL_POS.length ≤ 1) (h0 : 0 ∉ (cur x y).strDECIMAL_POS) :
    ∃ d, currencyDecimalPos cur field dec = some d ∧
      cstrOf d = some (cur x y).strDECIMAL_POS := by
  unfold currencyDecimalPos
  have hret : (found x y).ret ≠ 0 := by
    show HASH_KEY_FOUND ≠ 0
    decide
  rw [if_neg h1, h, Option.some_bind, if_pos hret]
  have hx : (found x y).o_lPositXHashKey.toNat = x := by simp [found]
  have hy : (found x y).o_lPositYHashKey.toNat = y := by simp [found]
  rw [hx, hy]
  unfold strcpyBuf
  rw [bufWrite_zero _ _ (by simp; omega)]
  refine ⟨_, rfl, ?_⟩
  rw [List.append_assoc]
  exact cstrOf_terminated _ _ h0
theorem recordStepPESTD_currency (tabs : TablesPESTD) (ds : List FieldOfRecord)
    (ind : IndeterminatePESTD) (rec : List Nat) (idx : Nat) (loc : LocalsPESTD)
    (r : Nat × LocalsPESTD × List RecordWrite)
    (h : recordStepPESTD tabs ds ind rec idx loc = some r)
    (hn : (ds.getD idx blankField).strFieldName = str "CODE_DEVISE_ISO") :
    ∃ inF field,
      loadField loc.l_strInputField rec (ds.getD idx blankField).iFieldStartPosInput
        (ds.getD idx blankField).iFieldLengthInput = some inF ∧
      cstrOf inF = some field ∧
      currencyDecimalPos tabs.CURRENCYHashArray field loc.l_strDEVISE_ISO_DECIMAL_POS =
        some r.2.1.l_strDEVISE_ISO_DECIMAL_POS := by
  unfold recordStepPESTD at h
  simp only [Option.bind_eq_some, Option.map_eq_some', hn] at h
  obtain ⟨inF, hload, c, _, field, hfield, _, _, dec, hdec, _, _, _, _, _, _, _, _, a, _, hr⟩ := h
  refine ⟨inF, field, hload, hfield, ?_⟩
  rw [← hr]
  rw [if_pos True.intro] at hdec
  exact hdec

theorem recordStepPESTD_amount (tabs : TablesPESTD) (ds : List FieldOfRecord)
    (ind : IndeterminatePESTD) (rec : List Nat) (idx : Nat) (loc : LocalsPESTD)
    (r : Nat × LocalsPESTD × List RecordWrite)
    (h : recordStepPESTD tabs ds ind rec idx loc = some r)
    (hn : (ds.getD idx blankField).strFieldName = str "Z_MNT_ESTD_DEVISE") :
    ∃ amount decimals l_strOutputAmount piece,
      cstrOf loc.l_strDEVISE_ISO_DECIMAL_POS = some decimals ∧
      CorrectFormatAmount amount decimals = some l_strOutputAmount ∧
      bufRead (l_strOutputAmount ++ [0]) SIGN_FIELD_LENGTH
        (ds.getD idx blankField).iFieldLengthOutput = some piece ∧
      ((ds.getD idx blankField).iFieldStartPosOutput, piece) ∈ r.2.2 := by
  unfold recordStepPESTD at h
  simp only [Option.bind_eq_some, Option.map_eq_some', hn] at h
  obtain ⟨inF, hload, c, _, field, hfield, wE, _, dec, hdec, zq, hzq, zs, _, za, hza, look, _, a,
    _, hr⟩ := h
  rw [if_neg (by decide)] at hdec
  rw [if_neg (by decide)] at hzq
  rw [if_pos True.intro] at hza
  simp only [Option.bind_eq_some, Option.map_eq_some'] at hza
  obtain ⟨am, _, z1, _, z2, _, amount, _, decimals, hd, out, hout, piece, hp, hza⟩ := hza
  have hdec' := Option.some.inj hdec
  refine ⟨amount, decimals, out, piece, by rw [hdec']; exact hd, hout, hp, ?_⟩
  rw [← hr, ← hza]
  simp
theorem amountBlockPreMai_eq (fd : FieldOfRecord) (outF dec : List Nat) (ws : List RecordWrite)
    (h : amountBlockPreMai fd outF dec = some ws) :
    ∃ amount decimals l_strOutputAmount piece,
      cstrOf dec = some decimals ∧
      CorrectFormatAmount amount decimals = some l_strOutputAmount ∧
      bufRead (l_strOutputAmount ++ [0]) 0 fd.iFieldLengthOutput = some piece ∧
      ws = [(fd.iFieldStartPosOutput, piece)] := by
  unfold amountBlockPreMai at h
  simp only [Option.bind_eq_some, Option.map_eq_some'] at h
  obtain ⟨am, _, m1, _, m2, _, amount, _, decimals, hd, out, hout, piece, hp, hw⟩ := h
  exact ⟨amount, decimals, out, piece, hd, hout, hp, hw.symm⟩

theorem blockDAT_OPE_decimals (fd : FieldOfRecord) (loc loc1 : LocalsPreMai)
    (h : blockDAT_OPE fd loc = some loc1) :
    loc1.l_strDEV_IMP_DECIMAL_POS = loc.l_strDEV_IMP_DECIMAL_POS ∧
    loc1.l_strDEV_GES_DECIMAL_POS = loc.l_strDEV_GES_DECIMAL_POS ∧
    loc1.l_strDEV_CTP_DECIMAL_POS = loc.l_strDEV_CTP_DECIMAL_POS := by
  unfold blockDAT_OPE at h
  split at h
  · simp only [Option.bind_eq_some, Option.map_eq_some'] at h
    obtain ⟨_, _, _, _, _, _, _, _, h⟩ := h
    rw [← h]
    exact ⟨rfl, rfl, rfl⟩
  · rw [← Option.some.inj h]
    exact ⟨rfl, rfl, rfl⟩

theorem blockREF_OPE_decimals (fd : FieldOfRecord) (loc loc1 : LocalsPreMai)
    (h : blockREF_OPE fd loc = some loc1) :
    loc1.l_strDEV_IMP_DECIMAL_POS = loc.l_strDEV_IMP_DECIMAL_POS ∧
    loc1.l_strDEV_GES_DECIMAL_POS = loc.l_strDEV_GES_DECIMAL_POS ∧
    loc1.l_strDEV_CTP_DECIMAL_POS = loc.l_strDEV_CTP_DECIMAL_POS := by
  unfold blockREF_OPE at h
  simp only [Option.bind_eq_some, Option.map_eq_some'] at h
  obtain ⟨_, _, _, _, h⟩ := h
  rw [← h]
  exact ⟨rfl, rfl, rfl⟩

theorem blockCPT_IMP_decimals (tabs : TablesPreMai) (ds : List FieldOfRecord) (ENTITY field : CStr)
    (loc : LocalsPreMai) (r : LocalsPreMai × List RecordWrite)
    (h : blockCPT_IMP tabs ds ENTITY field loc = some r) :
    r.1.l_strDEV_IMP_DECIMAL_POS = loc.l_strDEV_IMP_DECIMAL_POS ∧
    r.1.l_strDEV_GES_DECIMAL_POS = loc.l_strDEV_GES_DECIMAL_POS ∧
    r.1.l_strDEV_CTP_DECIMAL_POS = loc.l_strDEV_CTP_DECIMAL_POS := by
  unfold blockCPT_IMP at h
  simp only [Option.bind_eq_some, Option.map_eq_some'] at h
  obtain ⟨_, _, _, _, _, _, _, _, _, _, _, _, h⟩ := h
  split at h
  · simp only [Option.bind_eq_some, Option.map_eq_some'] at h
    obtain ⟨_, _, _, _, h⟩ := h
    rw [← h]
    exact ⟨rfl, rfl, rfl⟩
  · rw [← Option.some.inj h]
    exact ⟨rfl, rfl, rfl⟩

theorem addedFieldsPreMai_decimals (ds : List FieldOfRecord) (ind : IndeterminatePreMai)
    (idx : Nat) (loc : LocalsPreMai) (r : Nat × LocalsPreMai × List RecordWrite)
    (h : addedFieldsPreMai ds ind idx loc = some r) :
    r.2.1.l_strDEV_IMP_DECIMAL_POS = loc.l_strDEV_IMP_DECIMAL_POS ∧
    r.2.1.l_strDEV_GES_DECIMAL_POS = loc.l_strDEV_GES_DECIMAL_POS ∧
    r.2.1.l_strDEV_CTP_DECIMAL_POS = loc.l_strDEV_CTP_DECIMAL_POS := by
  unfold addedFieldsPreMai at h
  simp only [Option.bind_eq_some, Option.map_eq_some'] at h
  obtain ⟨_, _, _, _, _, _, h⟩ := h
  rw [← h]
  exact ⟨rfl, rfl, rfl⟩

/-- The step of PreMai: the field, the result of the currency and amount
blocks, and the three buffers of numbers of decimals after the step. -/
theorem recordStepPreMai_blocks (tabs : TablesPreMai) (ds : List FieldOfRecord) (ENTITY : CStr)
    (ind : IndeterminatePreMai) (rec : List Nat) (idx : Nat) (loc : LocalsPreMai)
    (r : Nat × LocalsPreMai × List RecordWrite)
    (h : recordStepPreMai tabs ds ENTITY ind rec idx loc = some r) :
    ∃ inF c field am,
      loadField loc.l_strInputField rec (ds.getD idx blankField).iFieldStartPosInput
        (ds.getD idx blankField).iFieldLengthInput = some inF ∧
      convertAndCopy (ds.getD idx blankField) (ind.convert idx) inF loc.l_strOutputField =
        some c ∧
      cstrOf inF = some field ∧
      amountBlocksPreMai tabs (ds.getD idx blankField) field c.1 loc = some am ∧
      r.2.1.l_strDEV_IMP_DECIMAL_POS = am.1 ∧
      r.2.1.l_strDEV_GES_DECIMAL_POS = am.2.1 ∧
      r.2.1.l_strDEV_CTP_DECIMAL_POS = am.2.2.1 ∧
      ∀ w ∈ am.2.2.2, w ∈ r.2.2 := by
  unfold recordStepPreMai at h
  simp only [Option.bind_eq_some, Option.map_eq_some'] at h
  obtain ⟨inF, hload, c, hc, field, hfield, am, ham, loc1, h1, cp, hcp, loc2, h2, a, ha, hr⟩ := h
  refine ⟨inF, c, field, am, hload, hc, hfield, ham, ?_⟩
  have d1 := blockDAT_OPE_decimals _ _ _ h1
  have d2 : cp.1.l_strDEV_IMP_DECIMAL_POS = loc1.l_strDEV_IMP_DECIMAL_POS ∧
      cp.1.l_strDEV_GES_DECIMAL_POS = loc1.l_strDEV_GES_DECIMAL_POS ∧
      cp.1.l_strDEV_CTP_DECIMAL_POS = loc1.l_strDEV_CTP_DECIMAL_POS := by
    split at hcp
    · exact blockCPT_IMP_decimals _ _ _ _ _ _ hcp
    · rw [← Option.some.inj hcp]
      exact ⟨rfl, rfl, rfl⟩
  have d3 := blockREF_OPE_decimals _ _ _ h2
  have d4 : a.2.1.l_strDEV_IMP_DECIMAL_POS = loc2.l_strDEV_IMP_DECIMAL_POS ∧
      a.2.1.l_strDEV_GES_DECIMAL_POS = loc2.l_strDEV_GES_DECIMAL_POS ∧
      a.2.1.l_strDEV_CTP_DECIMAL_POS = loc2.l_strDEV_CTP_DECIMAL_POS := by
    split at ha
    · exact addedFieldsPreMai_decimals _ _ _ _ _ ha
    · rw [← Option.some.inj ha]
      exact ⟨rfl, rfl, rfl⟩
  rw [← hr]
  refine ⟨?_, ?_, ?_, ?_⟩
  · show a.2.1.l_strDEV_IMP_DECIMAL_POS = _
    rw [d4.1, d3.1, d2.1, d1.1]
  · show a.2.1.l_strDEV_GES_DECIMAL_POS = _
    rw [d4.2.1, d3.2.1, d2.2.1, d1.2.1]
  · show a.2.1.l_strDEV_CTP_DECIMAL_POS = _
    rw [d4.2.2, d3.2.2, d2.2.2, d1.2.2]
  · intro w hw
    simp [hw]
theorem amountBlocksPreMai_DEV_IMP (tabs : TablesPreMai) (fd : FieldOfRecord) (field : CStr)
    (outF : List Nat) (loc : LocalsPreMai)
    (am : List Nat × List Nat × List Nat × List RecordWrite)
    (h : amountBlocksPreMai tabs fd field outF loc = some am)
    (hn : fd.strFieldName = str "MAI_DEV_IMP") :
    currencyDecimalPos tabs.CURRENCYHashArray field loc.l_strDEV_IMP_DECIMAL_POS = some am.1 := by
  unfold amountBlocksPreMai at h
  simp only [Option.bind_eq_some, Option.map_eq_some', hn] at h
  obtain ⟨d1, h1, _, _, _, _, _, _, _, _, _, _, hr⟩ := h
  rw [if_pos True.intro] at h1
  rw [← hr]
  exact h1

theorem amountBlocksPreMai_DEV_GES (tabs : TablesPreMai) (fd : FieldOfRecord) (field : CStr)
    (outF : List Nat) (loc : LocalsPreMai)
    (am : List Nat × List Nat × List Nat × List RecordWrite)
    (h : amountBlocksPreMai tabs fd field outF loc = some am)
    (hn : fd.strFieldName = str "MAI_DEV_GES") :
    currencyDecimalPos tabs.CURRENCYHashArray field loc.l_strDEV_GES_DECIMAL_POS =
      some am.2.1 := by
  unfold amountBlocksPreMai at h
  simp only [Option.bind_eq_some, Option.map_eq_some', hn] at h
  obtain ⟨_, _, _, _, d2, h2, _, _, _, _, _, _, hr⟩ := h
  rw [if_pos True.intro] at h2
  rw [← hr]
  exact h2

theorem amountBlocksPreMai_MNT_IMP (tabs : TablesPreMai) (fd : FieldOfRecord) (field : CStr)
    (outF : List Nat) (loc : LocalsPreMai)
    (am : List Nat × List Nat × List Nat × List RecordWrite)
    (h : amountBlocksPreMai tabs fd field outF loc = some am)
    (hn : fd.strFieldName = str "MAI_MNT_IMP") :
    ∃ ws, amountBlockPreMai fd outF loc.l_strDEV_IMP_DECIMAL_POS = some ws ∧
      ∀ w ∈ ws, w ∈ am.2.2.2 := by
  unfold amountBlocksPreMai at h
  simp only [Option.bind_eq_some, Option.map_eq_some', hn] at h
  obtain ⟨d1, h1, w1, hw1, _, _, _, _, _, _, _, _, hr⟩ := h
  rw [if_neg (by decide)] at h1
  rw [if_pos True.intro] at hw1
  rw [← Option.some.inj h1] at hw1
  refine ⟨w1, hw1, ?_⟩
  intro w hw
  rw [← hr]
  simp [hw]

theorem amountBlocksPreMai_MNT_GES (tabs : TablesPreMai) (fd : FieldOfRecord) (field : CStr)
    (outF : List Nat) (loc : LocalsPreMai)
    (am : List Nat × List Nat × List Nat × List RecordWrite)
    (h : amountBlocksPreMai tabs fd field outF loc = some am)
    (hn : fd.strFieldName = str "MAI_MNT_GES") :
    ∃ ws, amountBlockPreMai fd outF loc.l_strDEV_GES_DECIMAL_POS = some ws ∧
      ∀ w ∈ ws, w ∈ am.2.2.2 := by
  unfold amountBlocksPreMai at h
  simp only [Option.bind_eq_some, Option.map_eq_some', hn] at h
  obtain ⟨_, _, _, _, d2, h2, w2, hw2, _, _, _, _, hr⟩ := h
  rw [if_neg (by decide)] at h2
  rw [if_pos True.intro] at hw2
  rw [← Option.some.inj h2] at hw2
  refine ⟨w2, hw2, ?_⟩
  intro w hw
  rw [← hr]
  simp [hw]

/-- C28. The number of decimals of a currency is computed by the same block
in both programs (`currencyDecimalPos`): for every state of the CURRENCY
table and every currency field that is three spaces or is not found in the
table, the `char[2]` buffer of the number of decimals holds `"3"`; when the
field is found at a position of the table, it holds the `strDECIMAL_POS`
stored there.  In PESTD the field `CODE_DEVISE_ISO` sets the buffer
`l_strDEVISE_ISO_DECIMAL_POS`, which the field `Z_MNT_ESTD_DEVISE` passes to
`CorrectFormatAmount`; in PreMai the fields `MAI_DEV_IMP` and `MAI_DEV_GES`
set the buffers that the fields `MAI_MNT_IMP` and `MAI_MNT_GES` pass to
`CorrectFormatAmount`. -/
theorem currency_default_three_decimals (cur : Table CURRENCYHashElt) (field : CStr)
    (dec : List Nat) (hdec : dec.length = 2) :
    ((field = str "   " ∨ FindElementInCURRENCYHashArrayTable cur field = some notFound) →
      currencyDecimalPos cur field dec = some (str "3" ++ [0]) ∧
      cstrOf (str "3" ++ [0]) = some (str "3")) ∧
    (∀ x y, field ≠ str "   " →
      FindElementInCURRENCYHashArrayTable cur field = some (found x y) →
      (cur x y).strDECIMAL_POS.length ≤ 1 → 0 ∉ (cur x y).strDECIMAL_POS →
      ∃ d, currencyDecimalPos cur field dec = some d ∧
        cstrOf d = some (cur x y).strDECIMAL_POS) ∧
    (∀ (tabs : TablesPESTD) (ds : List FieldOfRecord) (ind : IndeterminatePESTD)
        (rec : List Nat) (idx : Nat) (loc : LocalsPESTD)
        (r : Nat × LocalsPESTD × List RecordWrite),
      recordStepPESTD tabs ds ind rec idx loc = some r →
      ((ds.getD idx blankField).strFieldName = str "CODE_DEVISE_ISO" →
        ∃ inF value,
          loadField loc.l_strInputField rec (ds.getD idx blankField).iFieldStartPosInput
            (ds.getD idx blankField).iFieldLengthInput = some inF ∧
          cstrOf inF = some value ∧
          currencyDecimalPos tabs.CURRENCYHashArray value loc.l_strDEVISE_ISO_DECIMAL_POS =
            some r.2.1.l_strDEVISE_ISO_DECIMAL_POS) ∧
      ((ds.getD idx blankField).strFieldName = str "Z_MNT_ESTD_DEVISE" →
        ∃ amount decimals l_strOutputAmount piece,
          cstrOf loc.l_strDEVISE_ISO_DECIMAL_POS = some decimals ∧
          CorrectFormatAmount amount decimals = some l_strOutputAmount ∧
          bufRead (l_strOutputAmount ++ [0]) SIGN_FIELD_LENGTH
            (ds.getD idx blankField).iFieldLengthOutput = some piece ∧
          ((ds.getD idx blankField).iFieldStartPosOutput, piece) ∈ r.2.2)) ∧
    (∀ (tabs : TablesPreMai) (ds : List FieldOfRecord) (ENTITY : CStr)
        (ind : IndeterminatePreMai) (rec : List Nat) (idx : Nat) (loc : LocalsPreMai)
        (r : Nat × LocalsPreMai × List RecordWrite),
      recordStepPreMai tabs ds ENTITY ind rec idx loc = some r →
      ∃ inF value,
        loadField loc.l_strInputField rec (ds.getD idx blankField).iFieldStartPosInput
          (ds.getD idx blankField).iFieldLengthInput = some inF ∧
        cstrOf inF = some value ∧
        ((ds.getD idx blankField).strFieldName = str "MAI_DEV_IMP" →
          currencyDecimalPos tabs.CURRENCYHashArray value loc.l_strDEV_IMP_DECIMAL_POS =
            some r.2.1.l_strDEV_IMP_DECIMAL_POS) ∧
        ((ds.getD idx blankField).strFieldName = str "MAI_DEV_GES" →
          currencyDecimalPos tabs.CURRENCYHashArray value loc.l_strDEV_GES_DECIMAL_POS =
            some r.2.1.l_strDEV_GES_DECIMAL_POS) ∧
        ((ds.getD idx blankField).strFieldName = str "MAI_MNT_IMP" →
          ∃ amount decimals l_strOutputAmount piece,
            cstrOf loc.l_strDEV_IMP_DECIMAL_POS = some decimals ∧
            CorrectFormatAmount amount decimals = some l_strOutputAmount ∧
            bufRead (l_strOutputAmount ++ [0]) 0 (ds.getD idx blankField).iFieldLengthOutput =
              some piece ∧
            ((ds.getD idx blankField).iFieldStartPosOutput, piece) ∈ r.2.2) ∧
        ((ds.getD idx blankField).strFieldName = str "MAI_MNT_GES" →
          ∃ amount decimals l_strOutputAmount piece,
            cstrOf loc.l_strDEV_GES_DECIMAL_POS = some decimals ∧
            CorrectFormatAmount amount decimals = some l_strOutputAmount ∧
            bufRead (l_strOutputAmount ++ [0]) 0 (ds.getD idx blankField).iFieldLengthOutput =
              some piece ∧
            ((ds.getD idx blankField).iFieldStartPosOutput, piece) ∈ r.2.2)) := by
  refine ⟨fun h => ⟨currencyDecimalPos_default cur field dec hdec h, by decide⟩,
    fun x y h1 h hlen h0 => currencyDecimalPos_found cur field dec hdec x y h1 h hlen h0,
    ?_, ?_⟩
  · intro tabs ds ind rec idx loc r h
    exact ⟨recordStepPESTD_currency tabs ds ind rec idx loc r h,
      recordStepPESTD_amount tabs ds ind rec idx loc r h⟩
  · intro tabs ds ENTITY ind rec idx loc r h
    obtain ⟨inF, c, value, am, hload, hc, hv, ham, e1, e2, e3, hw⟩ :=
      recordStepPreMai_blocks tabs ds ENTITY ind rec idx loc r h
    refine ⟨inF, value, hload, hv, ?_, ?_, ?_, ?_⟩
    · intro hn
      rw [e1]
      exact amountBlocksPreMai_DEV_IMP tabs _ value c.1 loc am ham hn
    · intro hn
      rw [e2]
      exact amountBlocksPreMai_DEV_GES tabs _ value c.1 loc am ham hn
    · intro hn
      obtain ⟨ws, hws, hin⟩ := amountBlocksPreMai_MNT_IMP tabs _ value c.1 loc am ham hn
      obtain ⟨amount, decimals, out, piece, a1, a2, a3, a4⟩ := amountBlockPreMai_eq _ _ _ _ hws
      refine ⟨amount, decimals, out, piece, a1, a2, a3, hw _ (hin _ ?_)⟩
      rw [a4]
      exact List.mem_singleton_self _
    · intro hn
      obtain ⟨ws, hws, hin⟩ := amountBlocksPreMai_MNT_GES tabs _ value c.1 loc am ham hn
      obtain ⟨amount, decimals, out, piece, a1, a2, a3, a4⟩ := amountBlockPreMai_eq _ _ _ _ hws
      refine ⟨amount, decimals, out, piece, a1, a2, a3, hw _ (hin _ ?_)⟩
      rw [a4]
      exact List.mem_singleton_self _

theorem currency_default_three_decimals_witness :
    ([0, 0] : List Nat).length = 2 ∧
    (((str "   " = str "   " ∨ FindElementInCURRENCYHashArrayTable sampleCurrencyTable (str "   ") = some notFound) →
      currencyDecimalPos sampleCurrencyTable (str "   ") [0, 0] = some (str "3" ++ [0]) ∧
      cstrOf (str "3" ++ [0]) = some (str "3")) ∧
    (∀ x y, str "   " ≠ str "   " →
      FindElementInCURRENCYHashArrayTable sampleCurrencyTable (str "   ") = some (found x y) →
      (sampleCurrencyTable x y).strDECIMAL_POS.length ≤ 1 → 0 ∉ (sampleCurrencyTable x y).strDECIMAL_POS →
      ∃ d, currencyDecimalPos sampleCurrencyTable (str "   ") [0, 0] = some d ∧
        cstrOf d = some (sampleCurrencyTable x y).strDECIMAL_POS) ∧
    (∀ (tabs : TablesPESTD) (ds : List FieldOfRecord) (ind : IndeterminatePESTD)
        (rec : List Nat) (idx : Nat) (loc : LocalsPESTD)
        (r : Nat × LocalsPESTD × List RecordWrite),
      recordStepPESTD tabs ds ind rec idx loc = some r →
      ((ds.getD idx blankField).strFieldName = str "CODE_DEVISE_ISO" →
        ∃ inF value,
          loadField loc.l_strInputField rec (ds.getD idx blankField).iFieldStartPosInput
            (ds.getD idx blankField).iFieldLengthInput = some inF ∧
          cstrOf inF = some value ∧
          currencyDecimalPos tabs.CURRENCYHashArray value loc.l_strDEVISE_ISO_DECIMAL_POS =
            some r.2.1.l_strDEVISE_ISO_DECIMAL_POS) ∧
      ((ds.getD idx blankField).strFieldName = str "Z_MNT_ESTD_DEVISE" →
        ∃ amount decimals l_strOutputAmount piece,
          cstrOf loc.l_strDEVISE_ISO_DECIMAL_POS = some decimals ∧
          CorrectFormatAmount amount decimals = some l_strOutputAmount ∧
          bufRead (l_strOutputAmount ++ [0]) SIGN_FIELD_LENGTH
            (ds.getD idx blankField).iFieldLengthOutput = some piece ∧
          ((ds.getD idx blankField).iFieldStartPosOutput, piece) ∈ r.2.2)) ∧
    (∀ (tabs : TablesPreMai) (ds : List FieldOfRecord) (ENTITY : CStr)
        (ind : IndeterminatePreMai) (rec : List Nat) (idx : Nat) (loc : LocalsPreMai)
        (r : Nat × LocalsPreMai × List RecordWrite),
      recordStepPreMai tabs ds ENTITY ind rec idx loc = some r →
      ∃ inF value,
        loadField loc.l_strInputField rec (ds.getD idx blankField).iFieldStartPosInput
          (ds.getD idx blankField).iFieldLengthInput = some inF ∧
        cstrOf inF = some value ∧
        ((ds.getD idx blankField).strFieldName = str "MAI_DEV_IMP" →
          currencyDecimalPos tabs.CURRENCYHashArray value loc.l_strDEV_IMP_DECIMAL_POS =
            some r.2.1.l_strDEV_IMP_DECIMAL_POS) ∧
        ((ds.getD idx blankField).strFieldName = str "MAI_DEV_GES" →
          currencyDecimalPos tabs.CURRENCYHashArray value loc.l_strDEV_GES_DECIMAL_POS =
            some r.2.1.l_strDEV_GES_DECIMAL_POS) ∧
        ((ds.getD idx blankField).strFieldName = str "MAI_MNT_IMP" →
          ∃ amount decimals l_strOutputAmount piece,
            cstrOf loc.l_strDEV_IMP_DECIMAL_POS = some decimals ∧
            CorrectFormatAmount amount decimals = some l_strOutputAmount ∧
            bufRead (l_strOutputAmount ++ [0]) 0 (ds.getD idx blankField).iFieldLengthOutput =
              some piece ∧
            ((ds.getD idx blankField).iFieldStartPosOutput, piece) ∈ r.2.2) ∧
        ((ds.getD idx blankField).strFieldName = str "MAI_MNT_GES" →
          ∃ amount decimals l_strOutputAmount piece,
            cstrOf loc.l_strDEV_GES_DECIMAL_POS = some decimals ∧
            CorrectFormatAmount amount decimals = some l_strOutputAmount ∧
            bufRead (l_strOutputAmount ++ [0]) 0 (ds.getD idx blankField).iFieldLengthOutput =
              some piece ∧
            ((ds.getD idx blankField).iFieldStartPosOutput, piece) ∈ r.2.2))) :=
  ⟨rfl, currency_default_three_decimals sampleCurrencyTable (str "   ") [0, 0] rfl⟩

set_option maxRecDepth 100000 in
/-- The number of decimals computed for three currency fields with only
`("EUR", "2")` in the CURRENCY table: `"3"` for the empty field and for the
unknown `"XXX"`, the stored `"2"` for `"EUR"`. -/
theorem currency_decimals_examples :
    (currencyDecimalPos sampleCurrencyTable (str "   ") [0, 0]).bind cstrOf = some (str "3") ∧
    (currencyDecimalPos sampleCurrencyTable (str "XXX") [0, 0]).bind cstrOf = some (str "3") ∧
    (currencyDecimalPos sampleCurrencyTable (str "EUR") [0, 0]).bind cstrOf = some (str "2") := by
  refine ⟨by decide, by decide, by decide⟩

/-! ### Writes to the output record -/

theorem bufWrite_some (b : List Nat) (off : Int) (src b1 : List Nat)
    (h : bufWrite b off src = some b1) :
    0 ≤ off ∧ off + src.length ≤ b.length ∧
      b1 = b.take off.toNat ++ src ++ b.drop (off.toNat + src.length) := by
  unfold bufWrite at h
  split at h
  · rename_i hc
    exact ⟨hc.1, hc.2, (Option.some.inj h).symm⟩
  · exact absurd h (by simp)

theorem bufWrite_take (b : List Nat) (off : Int) (src b1 : List Nat) (n : Nat)
    (h : bufWrite b off src = some b1) (hn : (n : Int) ≤ off) : b1.take n = b.take n := by
  obtain ⟨h0, _, he⟩ := bufWrite_some b off src b1 h
  have hle : n ≤ off.toNat := by omega
  have hlen : n ≤ (b.take off.toNat).length ∨ b.length < n := by
    rw [List.length_take]
    omega
  rw [he, List.append_assoc]
  rcases hlen with hl | hl
  · rw [List.take_append_of_le_length hl, List.take_take, Nat.min_eq_left hle]
  · omega

theorem bufWrite_slice (b : List Nat) (off : Int) (src b1 : List Nat)
    (h : bufWrite b off src = some b1) : (b1.drop off.toNat).take src.length = src := by
  obtain ⟨h0, h1, he⟩ := bufWrite_some b off src b1 h
  have hl : (b.take off.toNat).length = off.toNat := by
    rw [List.length_take]
    omega
  rw [he, List.append_assoc, List.drop_append_of_le_length (by omega),
    List.drop_of_length_le (by omega), List.nil_append, List.take_left']
  rfl

theorem bufWrite_slice_keep (b : List Nat) (off : Int) (src b1 : List Nat) (p n : Nat)
    (h : bufWrite b off src = some b1) (hp : ((p + n : Nat) : Int) ≤ off) :
    (b1.drop p).take n = (b.drop p).take n := by
  have h1 := bufWrite_take b off src b1 (p + n) h hp
  have e1 : (b1.drop p).take n = (b1.take (p + n)).drop p := by
    rw [List.drop_take]
    congr 1
    omega
  have e2 : (b.drop p).take n = (b.take (p + n)).drop p := by
    rw [List.drop_take]
    congr 1
    omega
  rw [e1, e2, h1]

theorem applyWrites_append (o : List Nat) (w1 w2 : List RecordWrite) :
    applyWrites o (w1 ++ w2) = (applyWrites o w1).bind fun o1 => applyWrites o1 w2 := by
  induction w1 generalizing o with
  | nil => rfl
  | cons w ws ih =>
    rw [List.cons_append, applyWrites, applyWrites]
    cases bufWrite o w.1 w.2 with
    | none => rfl
    | some o1 => exact ih o1

theorem applyWrites_take (n : Nat) :
    ∀ (ws : List RecordWrite) (o o1 : List Nat), applyWrites o ws = some o1 →
      (∀ w ∈ ws, (n : Int) ≤ w.1 ∨ w.1 < 0) → o1.take n = o.take n := by
  intro ws
  induction ws with
  | nil =>
    intro o o1 h _
    rw [applyWrites] at h
    rw [Option.some.inj h]
  | cons w ws ih =>
    intro o o1 h hall
    rw [applyWrites] at h
    cases hb : bufWrite o w.1 w.2 with
    | none =>
      rw [hb] at h
      exact absurd h (by simp)
    | some o2 =>
      rw [hb, Option.some_bind] at h
      have h0 := (bufWrite_some _ _ _ _ hb).1
      have hw : (n : Int) ≤ w.1 := by
        rcases hall w (List.mem_cons_self _ _) with h1 | h1
        · exact h1
        · omega
      rw [ih o2 o1 h (fun x hx => hall x (List.mem_cons_of_mem _ hx)),
        bufWrite_take _ _ _ _ n hb hw]

theorem applyWrites_slice_keep (p n : Nat) :
    ∀ (ws : List RecordWrite) (o o1 : List Nat), applyWrites o ws = some o1 →
      (∀ w ∈ ws, ((p + n : Nat) : Int) ≤ w.1) → (o1.drop p).take n = (o.drop p).take n := by
  intro ws o o1 h hall
  have h1 := applyWrites_take (p + n) ws o o1 h (fun w hw => Or.inl (hall w hw))
  have e1 : (o1.drop p).take n = (o1.take (p + n)).drop p := by
    rw [List.drop_take]
    congr 1
    omega
  have e2 : (o.drop p).take n = (o.take (p + n)).drop p := by
    rw [List.drop_take]
    congr 1
    omega
  rw [e1, e2, h1]

/-- The bytes written by a write followed only by writes that start after its
end are in the output record at the end. -/
theorem applyWrites_slice (o o1 : List Nat) (w1 w2 : List RecordWrite) (off : Int)
    (src : List Nat) (h : applyWrites o (w1 ++ (off, src) :: w2) = some o1)
    (hall : ∀ w ∈ w2, off + src.length ≤ w.1) :
    0 ≤ off ∧ (o1.drop off.toNat).take src.length = src := by
  rw [applyWrites_append] at h
  cases ha : applyWrites o w1 with
  | none =>
    rw [ha] at h
    exact absurd h (by simp)
  | some oa =>
    rw [ha, Option.some_bind, applyWrites] at h
    cases hb : bufWrite oa off src with
    | none =>
      rw [hb] at h
      exact absurd h (by simp)
    | some ob =>
      rw [hb, Option.some_bind] at h
      have h0 := (bufWrite_some _ _ _ _ hb).1
      refine ⟨h0, ?_⟩
      rw [applyWrites_slice_keep off.toNat src.length w2 ob o1 h (by
        intro w hw
        have := hall w hw
        push_cast
        omega)]
      exact bufWrite_slice _ _ _ _ hb

/-! ### Types and output lengths of the entries of the table -/

theorem strtok_ne_nil (s : CStr) (t : CStr × CStr) (h : strtok s = some t) : t.1 ≠ [] := by
  unfold strtok at h
  simp only at h
  split at h
  · exact absurd h (by simp)
  · rename_i hne
    have := Option.some.inj h
    rw [← this]
    simp only
    cases hs : s.dropWhile (fun c => decide (c = 59)) with
    | nil => exact absurd hs hne
    | cons a l =>
      have hh := List.head_dropWhile_not (fun c => decide (c = 59)) s (by rw [hs]; simp)
      simp only [hs, List.head_cons] at hh
      rw [List.takeWhile_cons, hh]
      simp

theorem confRecordFields_name (rec : CStr) (f : CStr × CStr × Int)
    (h : confRecordFields rec = some f) : f.1 ≠ [] := by
  unfold confRecordFields at h
  simp only [Option.bind_eq_some, Option.map_eq_some'] at h
  obtain ⟨t1, h1, t2, _, t3, _, h4⟩ := h
  rw [← h4]
  exact strtok_ne_nil rec t1 h1

theorem readField_type (st : FormatState) (sep : Int) (n f : CStr) (len : Int) :
    (readField st sep n f len).1.iFieldType = -1 ∧
    (readField st sep n f len).1.strFieldName = n ∧
    (readField st sep n f len).1.iFieldLengthInput = len ∧
    (readField st sep n f len).1.iFieldLengthOutput = len := by
  unfold readField
  split <;> exact ⟨rfl, rfl, rfl, rfl⟩

set_option maxRecDepth 100000 in
theorem additionsPESTD_typed (name : CStr) :
    ∀ r ∈ additionsPESTD name,
      ((r.1 = ADD_RICOS_SC_CPY_USING_SIAM ∨ r.1 = ADD_RICOS_SC_CPY_USING_RTS) ∧ r.2.length = 2) ∨
      (r.1 = ADD_RICOS_SC_USING_RTS ∧ r.2.length = 1) := by
  by_cases h1 : name = str "TIERS"
  · subst h1; decide
  by_cases h2 : name = str "Z_ALIAS_ID_TIERS"
  · subst h2; decide
  by_cases h3 : name = str "Z_ALIAS_ID_EMPPRET"
  · subst h3; decide
  by_cases h4 : name = str "Z_ALIAS_ID_GARANT"
  · subst h4; decide
  by_cases h5 : name = str "Z_ALIAS_ID_EMETTIT"
  · subst h5; decide
  by_cases h6 : name = str "Z_ALIAS_ID_DEPOSIT"
  · subst h6; decide
  by_cases h7 : name = str "Z_ALIAS_ID_EMETSSJ"
  · subst h7; decide
  by_cases h8 : name = str "Z_ALIAS_ID_ACTR"
  · subst h8; decide
  by_cases h9 : name = str "Z_ALIAS_ID_TIERORI"
  · subst h9; decide
  have ha : additionsPESTD name = none := by
    unfold additionsPESTD
    rw [if_neg h1, if_neg h2, if_neg h3, if_neg h4, if_neg h5, if_neg h6, if_neg h7, if_neg h8,
      if_neg h9]
  intro r h
  rw [ha] at h
  exact absurd h (by simp)

/-- What the entries written for one record of struct_pestd.conf are, whatever
the state of the reading loop. -/
theorem formatStepPESTD_typed (st st1 : FormatState) (rec : CStr) (f : CStr × CStr × Int)
    (hl : rec.length > 1) (hf : confRecordFields rec = some f) (h0 : 0 ≤ f.2.2)
    (hs : formatStepPESTD st rec = some st1) :
    ∃ e inj, st1.tab = st.tab ++ e :: inj ∧ e.strFieldName = f.1 ∧
      (e.strFieldName ≠ [] ∧ 0 ≤ e.iFieldLengthOutput ∧ TypedGroupPESTD e inj ∧
        ∀ d ∈ inj, d.iFieldLengthOutput = 12) := by
  obtain ⟨rt, rn, rli, rlo⟩ := readField_type st 1 f.1 f.2.1 f.2.2
  have hname := confRecordFields_name rec f hf
  unfold formatStepPESTD at hs
  rw [if_pos hl, hf, Option.map_some'] at hs
  have hs := Option.some.inj hs
  cases ha : additionsPESTD f.1 with
  | none =>
    rw [ha] at hs
    simp only at hs
    refine ⟨(readField st 1 f.1 f.2.1 f.2.2).1, [], by rw [← hs], rn, by rw [rn]; exact hname,
      by rw [rlo]; exact h0, Or.inr (Or.inr ⟨rt, rfl⟩), by simp⟩
  | some ta =>
    obtain ⟨type, adds⟩ := ta
    rw [ha] at hs
    simp only at hs
    obtain ⟨inj, hfold, hmap, _, _⟩ := foldl_addField TIERS_RICOS_FIELD_LENGTH adds
      (st.tab ++ [{ (readField st 1 f.1 f.2.1 f.2.2).1 with iFieldType := type }]) (by simp)
    have hlen : inj.length = adds.length := by
      have := congrArg List.length hmap
      simpa using this
    refine ⟨{ (readField st 1 f.1 f.2.1 f.2.2).1 with iFieldType := type }, inj, ?_, rn,
      by show (readField st 1 f.1 f.2.1 f.2.2).1.strFieldName ≠ []; rw [rn]; exact hname,
      by show 0 ≤ (readField st 1 f.1 f.2.1 f.2.2).1.iFieldLengthOutput; rw [rlo]; exact h0, ?_, ?_⟩
    · rw [← hs]
      show List.foldl _ _ adds = _
      rw [hfold]
      simp
    · have := additionsPESTD_typed f.1 (type, adds) ha
      rcases this with ⟨h1, h2⟩ | ⟨h1, h2⟩
      · exact Or.inl ⟨h1, by rw [hlen]; exact h2⟩
      · exact Or.inr (Or.inl ⟨h1, by rw [hlen]; exact h2⟩)
    · intro d hd
      have : (d.iFieldFormat, d.iFieldLengthOutput) ∈
          adds.map (fun a => (whichOutputFormat a.2.1, TIERS_RICOS_FIELD_LENGTH)) := by
        rw [← hmap]
        exact List.mem_map_of_mem (fun d => (d.iFieldFormat, d.iFieldLengthOutput)) hd
      obtain ⟨a, _, ha2⟩ := List.mem_map.mp this
      have := congrArg Prod.snd ha2
      exact this.symm

theorem amountFormatState_tab (st : FormatState) (r : FieldOfRecord × Int × Int) (type : Int) :
    ∃ e, (amountFormatState st r type).tab = st.tab ++ [e] ∧ e.strFieldName = r.1.strFieldName ∧
      e.iFieldLengthOutput = 20 :=
  ⟨_, rfl, rfl, rfl⟩

/-- What the entries written for one record of struct_premai.conf are. -/
theorem formatStepPreMai_typed (st st1 : FormatState) (rec : CStr) (f : CStr × CStr × Int)
    (hl : rec.length > 1) (hf : confRecordFields rec = some f) (h0 : 0 ≤ f.2.2)
    (hs : formatStepPreMai st rec = some st1) :
    ∃ e inj, st1.tab = st.tab ++ e :: inj ∧ e.strFieldName = f.1 ∧
      (0 ≤ e.iFieldLengthOutput ∧ ∀ d ∈ inj, 0 ≤ d.iFieldLengthOutput) := by
  obtain ⟨rt, rn, rli, rlo⟩ := readField_type st 0 f.1 f.2.1 f.2.2
  have hamt : ∀ type, amountFormatState st (readField st 0 f.1 f.2.1 f.2.2) type = st1 →
      ∃ e inj, st1.tab = st.tab ++ e :: inj ∧ e.strFieldName = f.1 ∧
        (0 ≤ e.iFieldLengthOutput ∧ ∀ d ∈ inj, 0 ≤ d.iFieldLengthOutput) := by
    intro type h
    obtain ⟨e, h1, h2, h3⟩ := amountFormatState_tab st (readField st 0 f.1 f.2.1 f.2.2) type
    exact ⟨e, [], by rw [← h, h1], by rw [h2, rn], by rw [h3]; decide, by simp⟩
  unfold formatStepPreMai at hs
  rw [if_pos hl, hf, Option.map_some'] at hs
  have hs := Option.some.inj hs
  simp only at hs
  split at hs
  · exact hamt _ hs
  split at hs
  · exact hamt _ hs
  split at hs
  · exact hamt _ hs
  split at hs
  · refine ⟨{ (readField st 0 f.1 f.2.1 f.2.2).1 with iFieldType := ADD_CD_TYPIMP_TYPEI_TVA },
      _, by rw [← hs]; simp only [addField, List.append_assoc, List.singleton_append]; rfl, rn,
      by show 0 ≤ (readField st 0 f.1 f.2.1 f.2.2).1.iFieldLengthOutput; rw [rlo]; exact h0, ?_⟩
    intro d hd
    rcases List.mem_cons.mp hd with h | hd1
    · rw [h]
      show (0 : Int) ≤ CD_TYPIMP_FIELD_LENGTH
      decide
    rcases List.mem_cons.mp hd1 with h | hd2
    · rw [h]
      show (0 : Int) ≤ CD_TYPEI_FIELD_LENGTH
      decide
    rcases List.mem_cons.mp hd2 with h | hd3
    · rw [h]
      show (0 : Int) ≤ CD_TVA_APP_FIELD_LENGTH
      decide
    exact absurd hd3 (List.not_mem_nil _)
  · exact ⟨(readField st 0 f.1 f.2.1 f.2.2).1, [], by rw [← hs], rn, by rw [rlo]; exact h0,
      by simp⟩

theorem formatLoop_groups (step : FormatState → CStr → Option FormatState)
    (R : FieldOfRecord → List FieldOfRecord → Prop)
    (hstep : ∀ st st1 rec f, rec.length > 1 → confRecordFields rec = some f → 0 ≤ f.2.2 →
      step st rec = some st1 →
        ∃ e inj, st1.tab = st.tab ++ e :: inj ∧ e.strFieldName = f.1 ∧ R e inj)
    (hskip : ∀ st rec, ¬ rec.length > 1 → step st rec = some st) :
    ∀ (records : List CStr) (st st1 : FormatState), formatLoop step st records = some st1 →
      (∀ rec ∈ records, ConfRecordOk rec) →
      ∃ groups : List (FieldOfRecord × List FieldOfRecord),
        st1.tab = st.tab ++ groups.flatMap (fun g => g.1 :: g.2) ∧
        groups.map (fun g => some g.1.strFieldName) = confNames records ∧
        ∀ g ∈ groups, R g.1 g.2 := by
  intro records
  induction records with
  | nil =>
    intro st st1 h _
    rw [formatLoop] at h
    rw [← Option.some.inj h]
    exact ⟨[], by simp, rfl, by simp⟩
  | cons rec rest ih =>
    intro st st1 h hok
    have hrest : ∀ r ∈ rest, ConfRecordOk r := fun r hr => hok r (List.mem_cons_of_mem _ hr)
    rw [formatLoop] at h
    by_cases hl : rec.length > 1
    · rcases hok rec (List.mem_cons_self _ _) with h1 | ⟨f, hf, h0⟩
      · omega
      cases hs : step st rec with
      | none =>
        rw [hs] at h
        exact absurd h (by simp)
      | some st2 =>
        rw [hs, Option.some_bind] at h
        obtain ⟨e, inj, htab, hname, hr⟩ := hstep st st2 rec f hl hf h0 hs
        obtain ⟨groups, htab2, hnames, hall⟩ := ih st2 st1 h hrest
        refine ⟨(e, inj) :: groups, ?_, ?_, ?_⟩
        · rw [htab2, htab]
          simp
        · unfold confNames
          rw [List.filter_cons_of_pos (by simpa using hl), List.map_cons, List.map_cons, hf]
          simp only [Option.map_some']
          rw [hname]
          congr 1
        · intro g hg
          rcases List.mem_cons.mp hg with h2 | h2
          · rw [h2]
            exact hr
          · exact hall g h2
    · rw [hskip st rec hl, Option.some_bind] at h
      obtain ⟨groups, htab2, hnames, hall⟩ := ih st st1 h hrest
      refine ⟨groups, htab2, ?_, hall⟩
      unfold confNames
      rw [List.filter_cons_of_neg (by simpa using hl)]
      exact hnames

/-! ### One turn of the loop of the PESTD Create_Output_Record -/

theorem bufRead_some (b : List Nat) (off n : Int) (r : List Nat) (h : bufRead b off n = some r) :
    0 ≤ off ∧ 0 ≤ n ∧ off + n ≤ b.length ∧ r = (b.drop off.toNat).take n.toNat ∧
      r.length = n.toNat := by
  unfold bufRead at h
  split at h
  · rename_i hc
    have := Option.some.inj h
    refine ⟨hc.1, hc.2.1, hc.2.2, this.symm, ?_⟩
    rw [← this, List.length_take, List.length_drop]
    omega
  · exact absurd h (by simp)

theorem bufRead_zero (b : List Nat) (n : Int) (r : List Nat) (h : bufRead b 0 n = some r) :
    r = b.take n.toNat := by
  have := (bufRead_some b 0 n r h).2.2.2.1
  simpa using this

theorem takeWhile_stop (xs rest : List Nat) :
    (xs ++ 0 :: rest).takeWhile (fun c => !decide (c = 0)) =
      xs.takeWhile (fun c => !decide (c = 0)) := by
  induction xs with
  | nil => simp
  | cons a l ih =>
    rw [List.cons_append, List.takeWhile_cons, List.takeWhile_cons, ih]

/-- The field held by `l_strInputField` after the copy of the input slice: the
bytes of the slice before its first NUL. -/
theorem loadField_field (b src : List Nat) (off n : Int) (inF : List Nat)
    (h : loadField b src off n = some inF) :
    ∃ bytes, bufRead src off n = some bytes ∧
      cstrOf inF = some (bytes.takeWhile (fun c => !decide (c = 0))) := by
  unfold loadField at h
  simp only [Option.bind_eq_some] at h
  obtain ⟨bytes, h1, b1, h2, h3⟩ := h
  refine ⟨bytes, h1, ?_⟩
  obtain ⟨_, hn, _, _, hlen⟩ := bufRead_some _ _ _ _ h1
  obtain ⟨_, hb, e2⟩ := bufWrite_some _ _ _ _ h2
  obtain ⟨_, hb3, e3⟩ := bufWrite_some _ _ _ _ h3
  have hl1 : b1.length = b.length := bufWrite_length _ _ _ _ h2
  have e2' : b1 = bytes ++ b.drop bytes.length := by
    rw [e2]
    simp
  have ht : b1.take n.toNat = bytes := by
    rw [e2', ← hlen, List.take_left']
    rfl
  rw [e3, ht]
  unfold cstrOf
  rw [if_pos (by simp)]
  congr 1
  rw [List.append_assoc]
  exact takeWhile_stop bytes _

/-- The call of `Convert_InputField` and the copy that follows it, as a write
of the first `iFieldLengthOutput` bytes of the converted field. -/
theorem convertAndCopy_write (fd : FieldOfRecord) (uninit inF outF : List Nat)
    (c : List Nat × RecordWrite) (h : convertAndCopy fd uninit inF outF = some c) :
    ∃ field, cstrOf inF = some field ∧ Convert_InputField fd field uninit outF = some c.1 ∧
      c.2 = (fd.iFieldStartPosOutput, c.1.take fd.iFieldLengthOutput.toNat) ∧
      (c.1.take fd.iFieldLengthOutput.toNat).length = fd.iFieldLengthOutput.toNat ∧
      0 ≤ fd.iFieldLengthOutput := by
  unfold convertAndCopy at h
  simp only [Option.bind_eq_some, Option.map_eq_some'] at h
  obtain ⟨s, h1, out1, h2, piece, h3, h4⟩ := h
  obtain ⟨_, h0, _, _, hlen⟩ := bufRead_some _ _ _ _ h3
  have hp := bufRead_zero _ _ _ h3
  refine ⟨s, h1, by rw [← h4]; exact h2, by rw [← h4, hp], by rw [← h4]; simp only; rw [← hp, hlen],
    h0⟩

theorem addedHashes_write (fd : FieldOfRecord) (outF : List Nat) (r : List Nat × RecordWrite)
    (h : addedHashes fd outF = some r) :
    r.2 = (fd.iFieldStartPosOutput, List.replicate fd.iFieldLengthOutput.toNat 35) := by
  unfold addedHashes at h
  simp only [Option.bind_eq_some, Option.map_eq_some'] at h
  obtain ⟨out1, h1, piece, h2, h3⟩ := h
  unfold memsetBuf at h1
  split at h1
  · obtain ⟨_, _, e1⟩ := bufWrite_some _ _ _ _ h1
    have hp := bufRead_zero _ _ _ h2
    rw [← h3, hp, e1]
    simp
  · exact absurd h1 (by simp)

theorem addedFromTable_write (fd : FieldOfRecord) (uninit src inF outF : List Nat)
    (r : List Nat × List Nat × RecordWrite) (h : addedFromTable fd uninit src inF outF = some r) :
    r.2.2.1 = fd.iFieldStartPosOutput := by
  unfold addedFromTable at h
  simp only [Option.bind_eq_some, Option.map_eq_some'] at h
  obtain ⟨in1, _, c, h2, h3⟩ := h
  obtain ⟨_, _, _, hc, _⟩ := convertAndCopy_write _ _ _ _ _ h2
  rw [← h3]
  simp only
  rw [hc]

/-- The fields added when the lookup gave nothing are filled with `'#'`. -/
theorem addedFieldsPESTD_none (ds : List FieldOfRecord) (ind : IndeterminatePESTD) :
    ∀ (n l_iIdx : Nat) (inF outF : List Nat) (a : Nat × List Nat × List Nat × List RecordWrite),
      addedFieldsPESTD ds ind l_iIdx none n inF outF = some a →
      a.1 = l_iIdx + n ∧
      a.2.2.2 = (List.range n).map fun k =>
        ((ds.getD (l_iIdx + 1 + k) blankField).iFieldStartPosOutput,
          List.replicate (ds.getD (l_iIdx + 1 + k) blankField).iFieldLengthOutput.toNat 35) := by
  intro n
  induction n with
  | zero =>
    intro i inF outF a h
    have := Option.some.inj h
    rw [← this]
    exact ⟨rfl, rfl⟩
  | succ n ih =>
    intro i inF outF a h
    unfold addedFieldsPESTD at h
    simp only at h
    rw [List.range_succ, List.foldl_append, List.foldl_cons, List.foldl_nil] at h
    simp only [Option.bind_eq_some, Option.map_eq_some'] at h
    obtain ⟨a0, h0, r, hr, ha⟩ := h
    obtain ⟨i1, i2⟩ := ih i inF outF a0 h0
    have hw := addedHashes_write _ _ _ hr
    rw [← ha]
    simp only
    refine ⟨by omega, ?_⟩
    have e : i + n + 1 = i + 1 + n := by omega
    rw [List.range_succ, List.map_append, i2, hw, i1, e]
    rfl

/-- The fields added from the payload of a lookup are written at their output
positions. -/
theorem addedFieldsPESTD_some (ds : List FieldOfRecord) (ind : IndeterminatePESTD) (n : Nat) :
    ∀ (members : List (List Nat)) (l_iIdx : Nat) (inF outF : List Nat)
      (a : Nat × List Nat × List Nat × List RecordWrite),
      addedFieldsPESTD ds ind l_iIdx (some members) n inF outF = some a →
      a.1 = l_iIdx + members.length ∧
      a.2.2.2.map Prod.fst = (List.range members.length).map fun k =>
        (ds.getD (l_iIdx + 1 + k) blankField).iFieldStartPosOutput := by
  intro members
  induction members using List.reverseRecOn with
  | nil =>
    intro i inF outF a h
    have := Option.some.inj h
    rw [← this]
    exact ⟨rfl, rfl⟩
  | append_singleton ms m ih =>
    intro i inF outF a h
    unfold addedFieldsPESTD at h
    simp only at h
    rw [List.foldl_append, List.foldl_cons, List.foldl_nil] at h
    simp only [Option.bind_eq_some, Option.map_eq_some'] at h
    obtain ⟨a0, h0, r, hr, ha⟩ := h
    obtain ⟨i1, i2⟩ := ih i inF outF a0 h0
    have hw := addedFromTable_write _ _ _ _ _ _ hr
    rw [← ha]
    simp only [List.length_append, List.length_singleton]
    refine ⟨by omega, ?_⟩
    have e : i + ms.length + 1 = i + 1 + ms.length := by omega
    rw [i1, e] at hw
    rw [List.range_succ, List.map_append, List.map_append, i2]
    simp only [List.map_cons, List.map_nil]
    rw [hw]

/-- The lookup of the `switch` of the PESTD `Create_Output_Record`: nothing for
a field without a type; else the number of added fields is the one of the
type, and a payload has that number of members. -/
theorem lookupPESTD_cases (tabs : TablesPESTD) (type : Int) (field : CStr)
    (look : Option (Option (List (List Nat)) × Nat))
    (h : lookupPESTD tabs type field = some look) :
    (look = none ∧ type ≠ ADD_RICOS_SC_CPY_USING_SIAM ∧ type ≠ ADD_RICOS_SC_CPY_USING_RTS ∧
      type ≠ ADD_RICOS_SC_USING_RTS) ∨
    (∃ p n, look = some (p, n) ∧ (∀ ms, p = some ms → ms.length = n) ∧
      (((type = ADD_RICOS_SC_CPY_USING_SIAM ∨ type = ADD_RICOS_SC_CPY_USING_RTS) ∧ n = 2) ∨
        (type = ADD_RICOS_SC_USING_RTS ∧ n = 1))) := by
  unfold lookupPESTD at h
  split at h
  · rename_i ht
    right
    split at h
    · simp only [Option.map_eq_some'] at h
      obtain ⟨r, _, hr⟩ := h
      split at hr
      · exact ⟨_, 2, hr.symm, by intro ms hms; rw [← Option.some.inj hms]; rfl,
          Or.inl ⟨Or.inl ht, rfl⟩⟩
      · exact ⟨none, 2, hr.symm, by intro ms hms; exact absurd hms (by simp),
          Or.inl ⟨Or.inl ht, rfl⟩⟩
    · exact ⟨none, 2, (Option.some.inj h).symm, by intro ms hms; exact absurd hms (by simp),
        Or.inl ⟨Or.inl ht, rfl⟩⟩
  split at h
  · rename_i ht
    right
    split at h
    · simp only [Option.map_eq_some'] at h
      obtain ⟨r, _, hr⟩ := h
      split at hr
      · exact ⟨_, 2, hr.symm, by intro ms hms; rw [← Option.some.inj hms]; rfl,
          Or.inl ⟨Or.inr ht, rfl⟩⟩
      · exact ⟨none, 2, hr.symm, by intro ms hms; exact absurd hms (by simp),
          Or.inl ⟨Or.inr ht, rfl⟩⟩
    · exact ⟨none, 2, (Option.some.inj h).symm, by intro ms hms; exact absurd hms (by simp),
        Or.inl ⟨Or.inr ht, rfl⟩⟩
  split at h
  · rename_i ht
    right
    split at h
    · simp only [Option.map_eq_some'] at h
      obtain ⟨r, _, hr⟩ := h
      split at hr
      · exact ⟨_, 1, hr.symm, by intro ms hms; rw [← Option.some.inj hms]; rfl,
          Or.inr ⟨ht, rfl⟩⟩
      · exact ⟨none, 1, hr.symm, by intro ms hms; exact absurd hms (by simp),
          Or.inr ⟨ht, rfl⟩⟩
    · exact ⟨none, 1, (Option.some.inj h).symm, by intro ms hms; exact absurd hms (by simp),
        Or.inr ⟨ht, rfl⟩⟩
  · rename_i h1 h2 h3
    exact Or.inl ⟨(Option.some.inj h).symm, h1, h2, h3⟩

/-- The writes of one turn of the loop of the PESTD `Create_Output_Record`:
the converted field at the output position of the entry, then the writes of
the blocks `EMISS_CRS`, `QTE_DECIMALES` and `Z_MNT_ESTD_DEVISE` inside the
output of the entry, then one write per added field at its output position,
made of `'#'` when the lookup gave nothing. -/
theorem recordStepPESTD_writes (tabs : TablesPESTD) (ds : List FieldOfRecord)
    (ind : IndeterminatePESTD) (i_InputRecord : List Nat) (l_iIdx : Nat) (loc : LocalsPESTD)
    (r : Nat × LocalsPESTD × List RecordWrite)
    (h : recordStepPESTD tabs ds ind i_InputRecord l_iIdx loc = some r) :
    ∃ (bytes prev out : List Nat) (look : Option (Option (List (List Nat)) × Nat))
      (Wsp Wadd : List RecordWrite) (m : Nat),
      bufRead i_InputRecord (ds.getD l_iIdx blankField).iFieldStartPosInput
        (ds.getD l_iIdx blankField).iFieldLengthInput = some bytes ∧
      Convert_InputField (ds.getD l_iIdx blankField)
        (bytes.takeWhile (fun c => !decide (c = 0))) (ind.convert l_iIdx) prev = some out ∧
      lookupPESTD tabs (ds.getD l_iIdx blankField).iFieldType
        (bytes.takeWhile (fun c => !decide (c = 0))) = some look ∧
      0 ≤ (ds.getD l_iIdx blankField).iFieldLengthOutput ∧
      (out.take (ds.getD l_iIdx blankField).iFieldLengthOutput.toNat).length =
        (ds.getD l_iIdx blankField).iFieldLengthOutput.toNat ∧
      r.1 = l_iIdx + m + 1 ∧
      r.2.2 = ((ds.getD l_iIdx blankField).iFieldStartPosOutput,
        out.take (ds.getD l_iIdx blankField).iFieldLengthOutput.toNat) :: (Wsp ++ Wadd) ∧
      (∀ w ∈ Wsp, (ds.getD l_iIdx blankField).iFieldStartPosOutput ≤ w.1) ∧
      ((ds.getD l_iIdx blankField).strFieldName ≠ str "EMISS_CRS" →
        (ds.getD l_iIdx blankField).strFieldName ≠ str "QTE_DECIMALES" →
        (ds.getD l_iIdx blankField).strFieldName ≠ str "Z_MNT_ESTD_DEVISE" → Wsp = []) ∧
      Wadd.map Prod.fst = (List.range m).map (fun k =>
        (ds.getD (l_iIdx + 1 + k) blankField).iFieldStartPosOutput) ∧
      (look = none → m = 0) ∧ (∀ p n, look = some (p, n) → m = n) ∧
      (∀ n, look = some (none, n) → Wadd = (List.range n).map fun k =>
        ((ds.getD (l_iIdx + 1 + k) blankField).iFieldStartPosOutput,
          List.replicate (ds.getD (l_iIdx + 1 + k) blankField).iFieldLengthOutput.toNat 35)) := by
  unfold recordStepPESTD at h
  simp only [Option.bind_eq_some, Option.map_eq_some'] at h
  obtain ⟨inF, hload, c, hconv, field, hfield, wEmiss, hE, dec, _, zq, hQ, zs, _, za, hA, look,
    hlook, a, hadd, hr⟩ := h
  obtain ⟨bytes, hbytes, hcs⟩ := loadField_field _ _ _ _ _ hload
  obtain ⟨field', hf', hcv, hcw, hclen, hc0⟩ := convertAndCopy_write _ _ _ _ _ hconv
  have hff : field = bytes.takeWhile (fun c => !decide (c = 0)) := by
    rw [hcs] at hfield
    exact (Option.some.inj hfield).symm
  have hff' : field' = bytes.takeWhile (fun c => !decide (c = 0)) := by
    rw [hcs] at hf'
    exact (Option.some.inj hf').symm
  rw [hff'] at hcv
  rw [hff] at hlook
  -- the writes of the three blocks
  have hEw : (∀ w ∈ wEmiss, (ds.getD l_iIdx blankField).iFieldStartPosOutput ≤ w.1) ∧
      ((ds.getD l_iIdx blankField).strFieldName ≠ str "EMISS_CRS" → wEmiss = []) := by
    split at hE
    · simp only [Option.map_eq_some'] at hE
      obtain ⟨t, _, ht⟩ := hE
      rw [← ht]
      refine ⟨?_, fun hne => absurd ‹_› hne⟩
      intro w hw
      simp only [List.mem_singleton] at hw
      rw [hw]
      show _ ≤ _ + DATE_LENGTH
      have : (0 : Int) ≤ DATE_LENGTH := by decide
      omega
    · rw [← Option.some.inj hE]
      exact ⟨by simp, fun _ => rfl⟩
  have hQw : (∀ w ∈ zq.2, (ds.getD l_iIdx blankField).iFieldStartPosOutput ≤ w.1) ∧
      ((ds.getD l_iIdx blankField).strFieldName ≠ str "QTE_DECIMALES" → zq.2 = []) := by
    split at hQ
    · simp only [Option.bind_eq_some, Option.map_eq_some'] at hQ
      obtain ⟨q, _, z, _, three, _, ht⟩ := hQ
      rw [← ht]
      refine ⟨?_, fun hne => absurd ‹_› hne⟩
      intro w hw
      simp only [List.mem_singleton] at hw
      rw [hw]
    · rw [← Option.some.inj hQ]
      exact ⟨by simp, fun _ => rfl⟩
  have hAw : (∀ w ∈ za.2, (ds.getD l_iIdx blankField).iFieldStartPosOutput ≤ w.1) ∧
      ((ds.getD l_iIdx blankField).strFieldName ≠ str "Z_MNT_ESTD_DEVISE" → za.2 = []) := by
    split at hA
    · simp only [Option.bind_eq_some, Option.map_eq_some'] at hA
      obtain ⟨am, _, z1, _, z2, _, s1, _, s2, _, oa, _, piece, _, ht⟩ := hA
      rw [← ht]
      refine ⟨?_, fun hne => absurd ‹_› hne⟩
      intro w hw
      simp only [List.mem_singleton] at hw
      rw [hw]
    · rw [← Option.some.inj hA]
      exact ⟨by simp, fun _ => rfl⟩
  have hsp : ∀ w ∈ wEmiss ++ zq.2 ++ za.2,
      (ds.getD l_iIdx blankField).iFieldStartPosOutput ≤ w.1 := by
    intro w hw
    simp only [List.mem_append] at hw
    rcases hw with (hw | hw) | hw
    · exact hEw.1 w hw
    · exact hQw.1 w hw
    · exact hAw.1 w hw
  have hspnil : (ds.getD l_iIdx blankField).strFieldName ≠ str "EMISS_CRS" →
      (ds.getD l_iIdx blankField).strFieldName ≠ str "QTE_DECIMALES" →
      (ds.getD l_iIdx blankField).strFieldName ≠ str "Z_MNT_ESTD_DEVISE" →
      wEmiss ++ zq.2 ++ za.2 = [] := by
    intro h1 h2 h3
    rw [hEw.2 h1, hQw.2 h2, hAw.2 h3]
    rfl
  have hwr : r.2.2 = ((ds.getD l_iIdx blankField).iFieldStartPosOutput,
      c.1.take (ds.getD l_iIdx blankField).iFieldLengthOutput.toNat) ::
        ((wEmiss ++ zq.2 ++ za.2) ++ a.2.2.2) := by
    rw [← hr]
    simp only
    rw [hcw]
    simp
  have hr1 : r.1 = a.1 + 1 := by rw [← hr]
  -- the added fields
  rcases lookupPESTD_cases _ _ _ _ hlook with ⟨hl, _⟩ | ⟨p, n, hl, hms, _⟩
  · subst hl
    simp only at hadd
    have ha := Option.some.inj hadd
    refine ⟨bytes, _, c.1, none, wEmiss ++ zq.2 ++ za.2, a.2.2.2, 0, hbytes, hcv, hlook, hc0, hclen,
      by rw [hr1, ← ha], hwr, hsp, hspnil, by rw [← ha]; rfl, fun _ => rfl,
      fun p n hpn => absurd hpn (by simp), fun n hn => absurd hn (by simp)⟩
  · subst hl
    simp only at hadd
    cases p with
    | none =>
      obtain ⟨a1, a2⟩ := addedFieldsPESTD_none ds ind n l_iIdx inF c.1 a hadd
      refine ⟨bytes, _, c.1, some (none, n), wEmiss ++ zq.2 ++ za.2, a.2.2.2, n, hbytes, hcv, hlook,
        hc0, hclen, by rw [hr1, a1], hwr, hsp, hspnil, ?_, fun hn => absurd hn (by simp), ?_, ?_⟩
      · rw [a2, List.map_map]
        rfl
      · intro p n' hpn
        have := Option.some.inj hpn
        exact (congrArg Prod.snd this)
      · intro n' hn
        have := congrArg Prod.snd (Option.some.inj hn)
        simp only at this
        rw [← this]
        exact a2
    | some ms =>
      obtain ⟨a1, a2⟩ := addedFieldsPESTD_some ds ind n ms l_iIdx inF c.1 a hadd
      have hmn := hms ms rfl
      refine ⟨bytes, _, c.1, some (some ms, n), wEmiss ++ zq.2 ++ za.2, a.2.2.2, n, hbytes, hcv,
        hlook, hc0, hclen, by rw [hr1, a1, hmn], hwr, hsp, hspnil, by rw [a2, hmn],
        fun hn => absurd hn (by simp), ?_, ?_⟩
      · intro p n' hpn
        have := Option.some.inj hpn
        exact (congrArg Prod.snd this)
      · intro n' hn
        have := congrArg Prod.fst (Option.some.inj hn)
        exact absurd this (by simp)

/-! ### The loop of the PESTD Create_Output_Record -/

theorem chain_mono :
    ∀ (rest : List FieldOfRecord) (a : FieldOfRecord), (a :: rest).Chain' OutputFollows →
      (∀ d ∈ a :: rest, 0 ≤ d.iFieldLengthOutput) →
      ∀ d ∈ rest, a.iFieldStartPosOutput + a.iFieldLengthOutput ≤ d.iFieldStartPosOutput := by
  intro rest
  induction rest with
  | nil =>
    intro a _ _ d hd
    exact absurd hd (List.not_mem_nil _)
  | cons b l ih =>
    intro a hc hn d hd
    rw [List.chain'_cons] at hc
    have hab : b.iFieldStartPosOutput = a.iFieldStartPosOutput + a.iFieldLengthOutput := hc.1
    rcases List.mem_cons.mp hd with h | h
    · rw [h, hab]
    · have := ih b hc.2 (fun x hx => hn x (List.mem_cons_of_mem _ hx)) d h
      have hb := hn b (List.mem_cons_of_mem _ (List.mem_cons_self _ _))
      omega

/-- In a table whose outputs follow one another, an entry ends before every
later entry starts. -/
theorem chain_split (ds A B : List FieldOfRecord) (d : FieldOfRecord) (h : ds = A ++ d :: B)
    (hc : ds.Chain' OutputFollows) (hn : ∀ x ∈ ds, 0 ≤ x.iFieldLengthOutput) :
    ∀ x ∈ B, d.iFieldStartPosOutput + d.iFieldLengthOutput ≤ x.iFieldStartPosOutput := by
  subst h
  exact chain_mono B d (List.Chain'.right_of_append hc)
    (fun x hx => hn x (List.mem_append_right _ hx))

theorem chain_lower (ds : List FieldOfRecord) (hdr : Int) (hc : ds.Chain' OutputFollows)
    (hn : ∀ x ∈ ds, 0 ≤ x.iFieldLengthOutput)
    (hh : ∀ d ∈ ds.head?, d.iFieldStartPosOutput = hdr) :
    ∀ x ∈ ds, hdr ≤ x.iFieldStartPosOutput := by
  cases ds with
  | nil =>
    intro x hx
    exact absurd hx (List.not_mem_nil _)
  | cons a l =>
    intro x hx
    have ha : a.iFieldStartPosOutput = hdr := hh a rfl
    rcases List.mem_cons.mp hx with h | h
    · rw [h, ha]
    · have := chain_mono l a hc hn x h
      have := hn a (List.mem_cons_self _ _)
      omega

theorem chain_last (ds : List FieldOfRecord) (hc : ds.Chain' OutputFollows)
    (hn : ∀ x ∈ ds, 0 ≤ x.iFieldLengthOutput) :
    ∀ x ∈ ds, x.iFieldStartPosOutput + x.iFieldLengthOutput ≤
      (ds.getD (ds.length - 1) blankField).iFieldStartPosOutput +
        (ds.getD (ds.length - 1) blankField).iFieldLengthOutput := by
  intro x hx
  obtain ⟨A, B, hAB⟩ := List.append_of_mem hx
  have hne : ds ≠ [] := List.ne_nil_of_mem hx
  have hl := getD_last ds hne
  cases hB : B.getLast? with
  | none =>
    have : B = [] := List.getLast?_eq_none_iff.mp hB
    rw [this] at hAB
    have hl2 : ds.getLast? = some x := by
      rw [hAB]
      simp
    rw [hl] at hl2
    rw [Option.some.inj hl2]
  | some y =>
    have hy : y ∈ B := List.mem_of_getLast?_eq_some hB
    have hl2 : ds.getLast? = some y := by
      rw [hAB, List.getLast?_append]
      cases B with
      | nil => simp at hB
      | cons b l =>
        rw [List.getLast?_cons_cons, hB]
        rfl
    rw [hl] at hl2
    rw [Option.some.inj hl2]
    have := chain_split ds A B x hAB hc hn y hy
    have := hn y (by rw [hAB]; simp [hy])
    omega

theorem getD_pre (pre rest : List FieldOfRecord) (e : FieldOfRecord) :
    (pre ++ e :: rest).getD pre.length blankField = e := by
  rw [List.getD_eq_getElem?_getD, List.getElem?_append_right (le_refl _)]
  simp

theorem getD_inj (pre inj rest : List FieldOfRecord) (e : FieldOfRecord) (k : Nat)
    (hk : k < inj.length) :
    (pre ++ e :: (inj ++ rest)).getD (pre.length + 1 + k) blankField = inj.getD k blankField := by
  rw [List.getD_eq_getElem?_getD, List.getD_eq_getElem?_getD,
    List.getElem?_append_right (by omega)]
  have : pre.length + 1 + k - pre.length = k + 1 := by omega
  rw [this, List.getElem?_cons_succ, List.getElem?_append_left hk]

theorem range_map_getD {β : Type} (F : FieldOfRecord → β) (pre inj rest : List FieldOfRecord)
    (e : FieldOfRecord) :
    (List.range inj.length).map
      (fun k => F ((pre ++ e :: (inj ++ rest)).getD (pre.length + 1 + k) blankField)) =
      inj.map F := by
  apply List.ext_getElem
  · simp
  · intro k h1 h2
    simp only [List.getElem_map, List.getElem_range]
    have hk : k < inj.length := by simpa using h2
    rw [getD_inj pre inj rest e k hk, List.getD_eq_getElem?_getD, List.getElem?_eq_getElem hk]
    rfl

theorem GroupWrites_shift (tabs : TablesPESTD) (ind : IndeterminatePESTD) (rec : List Nat)
    (X W : List RecordWrite) (g : FieldOfRecord × List FieldOfRecord)
    (h : GroupWrites tabs ind rec W g) : GroupWrites tabs ind rec (X ++ W) g := by
  obtain ⟨bytes, hb, h1, h2⟩ := h
  refine ⟨bytes, hb, ?_, ?_⟩
  · intro hn
    obtain ⟨i, prev, out, W1, W2, a1, a2, a3, a4⟩ := h1 hn
    exact ⟨i, prev, out, X ++ W1, W2, a1, by rw [a2, List.append_assoc], a3, a4⟩
  · intro n hl d hd
    obtain ⟨W1, W2, a1, a2⟩ := h2 n hl d hd
    exact ⟨X ++ W1, W2, by rw [a1, List.append_assoc], a2⟩

theorem typed_count (tabs : TablesPESTD) (e : FieldOfRecord) (inj : List FieldOfRecord)
    (field : CStr) (look : Option (Option (List (List Nat)) × Nat)) (m : Nat)
    (ht : TypedGroupPESTD e inj) (hl : lookupPESTD tabs e.iFieldType field = some look)
    (h0 : look = none → m = 0) (h1 : ∀ p n, look = some (p, n) → m = n) : m = inj.length := by
  have c1 : ADD_RICOS_SC_CPY_USING_SIAM ≠ ADD_RICOS_SC_USING_RTS := by decide
  have c2 : ADD_RICOS_SC_CPY_USING_RTS ≠ ADD_RICOS_SC_USING_RTS := by decide
  have c3 : (-1 : Int) ≠ ADD_RICOS_SC_USING_RTS := by decide
  have c4 : (-1 : Int) ≠ ADD_RICOS_SC_CPY_USING_RTS := by decide
  have c5 : (-1 : Int) ≠ ADD_RICOS_SC_CPY_USING_SIAM := by decide
  rcases lookupPESTD_cases _ _ _ _ hl with ⟨hn, n1, n2, n3⟩ | ⟨p, n, hpn, _, hc⟩
  · rcases ht with ⟨t | t, _⟩ | ⟨t, _⟩ | ⟨_, t⟩
    · exact absurd t n1
    · exact absurd t n2
    · exact absurd t n3
    · rw [h0 hn, t]
      rfl
  · have hm := h1 p n hpn
    rcases ht with ⟨t, tl⟩ | ⟨t, tl⟩ | ⟨t, _⟩
    · rcases hc with ⟨_, hn⟩ | ⟨t2, _⟩
      · rw [hm, hn, tl]
      · rcases t with t | t
        · rw [t] at t2
          exact absurd t2 c1
        · rw [t] at t2
          exact absurd t2 c2
    · rcases hc with ⟨t2, _⟩ | ⟨_, hn⟩
      · rcases t2 with t2 | t2
        · rw [t] at t2
          exact absurd t2.symm c1
        · rw [t] at t2
          exact absurd t2.symm c2
      · rw [hm, hn, tl]
    · rcases hc with ⟨t2, _⟩ | ⟨t2, _⟩
      · rcases t2 with t2 | t2
        · rw [t] at t2
          exact absurd t2 c5
        · rw [t] at t2
          exact absurd t2 c4
      · rw [t] at t2
        exact absurd t2 c3

/-- The loop of the PESTD `Create_Output_Record` over a table made of the
entries of the fields of the configuration, each followed by the entries
added after it: it visits the entry of every field, reaches the end of the
table, and its writes are those of `GroupWrites` for every field. -/
theorem recordLoopPESTD_groups (tabs : TablesPESTD) (ds : List FieldOfRecord)
    (ind : IndeterminatePESTD) (rec : List Nat) (hch : ds.Chain' OutputFollows)
    (hnn : ∀ x ∈ ds, 0 ≤ x.iFieldLengthOutput) :
    ∀ (groups : List (FieldOfRecord × List FieldOfRecord)) (pre : List FieldOfRecord)
      (fuel : Nat) (loc : LocalsPESTD) (ws : List RecordWrite) (res : Nat × List RecordWrite),
      ds = pre ++ groups.flatMap (fun g => g.1 :: g.2) →
      groups.length < fuel →
      (∀ g ∈ groups, g.1.strFieldName ≠ [] ∧ TypedGroupPESTD g.1 g.2) →
      recordLoopPESTD tabs ds ind rec fuel pre.length loc ws = some res →
      res.1 = ds.length ∧ ∃ Wg, res.2 = ws ++ Wg ∧ (groups = [] → Wg = []) ∧
        (∀ g ∈ groups.head?, ∀ w ∈ Wg, g.1.iFieldStartPosOutput ≤ w.1) ∧
        ∀ g ∈ groups, GroupWrites tabs ind rec Wg g := by
  intro groups
  induction groups with
  | nil =>
    intro pre fuel loc ws res hds hfuel _ h
    cases fuel with
    | zero => omega
    | succ f =>
      have hds' : ds = pre := by simpa using hds
      have hblank : ds.getD pre.length blankField = blankField := by
        rw [hds', List.getD_eq_getElem?_getD, List.getElem?_eq_none (le_refl _)]
        rfl
      rw [recordLoopPESTD, hblank, if_neg (by decide)] at h
      rw [← Option.some.inj h]
      exact ⟨by rw [hds'], [], by simp, fun _ => rfl, by simp, by simp⟩
  | cons g gs ih =>
    intro pre fuel loc ws res hds hfuel hg h
    cases fuel with
    | zero => omega
    | succ f =>
      have hds' : ds = pre ++ g.1 :: (g.2 ++ gs.flatMap (fun g => g.1 :: g.2)) := by
        rw [hds, List.flatMap_cons]
        simp
      have hfd : ds.getD pre.length blankField = g.1 := by
        rw [hds']
        exact getD_pre _ _ _
      obtain ⟨hname, htyped⟩ := hg g (List.mem_cons_self _ _)
      rw [recordLoopPESTD, hfd, if_pos (List.length_pos.mpr hname)] at h
      cases hs : recordStepPESTD tabs ds ind rec pre.length loc with
      | none =>
        rw [hs] at h
        exact absurd h (by simp)
      | some r =>
        rw [hs, Option.some_bind] at h
        obtain ⟨bytes, prev, out, look, Wsp, Wadd, m, s1, s2, s3, s4, s5, s6, s7, s8, s9, s10, s11,
          s12, s13⟩ := recordStepPESTD_writes tabs ds ind rec pre.length loc r hs
        rw [hfd] at s1 s2 s3 s4 s5 s7 s8 s9
        have hm : m = g.2.length := typed_count tabs g.1 g.2 _ look m htyped s3 s11 s12
        have hidx : r.1 = (pre ++ g.1 :: g.2).length := by
          rw [s6, hm]
          simp
          omega
        have hds2 : ds = (pre ++ g.1 :: g.2) ++ gs.flatMap (fun g => g.1 :: g.2) := by
          rw [hds']
          simp
        rw [hidx] at h
        obtain ⟨i1, Wg, i2, i3, i4, i5⟩ := ih (pre ++ g.1 :: g.2) f r.2.1 (ws ++ r.2.2) res hds2
          (by simpa using hfuel) (fun x hx => hg x (List.mem_cons_of_mem _ hx)) h
        -- offsets of the entries that follow `g.1`
        have hafter := chain_split ds pre _ g.1 hds' hch hnn
        have hWadd : Wadd.map Prod.fst = g.2.map (fun d => d.iFieldStartPosOutput) := by
          rw [s10, hm, hds']
          exact range_map_getD (fun d => d.iFieldStartPosOutput) pre g.2 _ g.1
        have hWaddOff : ∀ w ∈ Wadd, ∃ d ∈ g.2, w.1 = d.iFieldStartPosOutput := by
          intro w hw
          have : w.1 ∈ Wadd.map Prod.fst := List.mem_map_of_mem _ hw
          rw [hWadd] at this
          obtain ⟨d, hd, hdw⟩ := List.mem_map.mp this
          exact ⟨d, hd, hdw.symm⟩
        -- the writes of the later fields start after the entries of this one
        have hWg : ∀ w ∈ Wg, ∃ x ∈ gs.flatMap (fun g => g.1 :: g.2),
            x.iFieldStartPosOutput ≤ w.1 := by
          intro w hw
          cases gs with
          | nil =>
            rw [i3 rfl] at hw
            exact absurd hw (List.not_mem_nil _)
          | cons g1 gs1 =>
            exact ⟨g1.1, by simp, i4 g1 rfl w hw⟩
        refine ⟨i1, r.2.2 ++ Wg, by rw [i2, List.append_assoc], fun hh => absurd hh (by simp), ?_,
          ?_⟩
        · intro g0 hg0 w hw
          have hg0' : g = g0 := by simpa using hg0
          subst hg0'
          rcases List.mem_append.mp hw with hw | hw
          · rw [s7] at hw
            rcases List.mem_cons.mp hw with hw | hw
            · rw [hw]
            rcases List.mem_append.mp hw with hw | hw
            · exact s8 w hw
            · obtain ⟨d, hd, hdw⟩ := hWaddOff w hw
              have := hafter d (List.mem_append_left _ hd)
              omega
          · obtain ⟨x, hx, hxw⟩ := hWg w hw
            have := hafter x (List.mem_append_right _ hx)
            omega
        · intro g0 hg0
          rcases List.mem_cons.mp hg0 with hg0 | hg0
          · subst hg0
            refine ⟨bytes, s1, ?_, ?_⟩
            · intro hn
              have hsp : Wsp = [] := s9 (fun hh => hn (Or.inl hh)) (fun hh => hn (Or.inr (Or.inl hh)))
                (fun hh => hn (Or.inr (Or.inr hh)))
              refine ⟨pre.length, prev, out, [], Wadd ++ Wg, s2, ?_, s5, ?_⟩
              · rw [s7, hsp]
                simp
              · intro w hw
                rcases List.mem_append.mp hw with hw | hw
                · obtain ⟨d, hd, hdw⟩ := hWaddOff w hw
                  have := hafter d (List.mem_append_left _ hd)
                  omega
                · obtain ⟨x, hx, hxw⟩ := hWg w hw
                  have := hafter x (List.mem_append_right _ hx)
                  omega
            · intro n hl d hd
              have hlook : look = some (none, n) := by
                rw [show fieldOf bytes = bytes.takeWhile (fun c => !decide (c = 0)) from rfl, s3] at hl
                exact Option.some.inj hl
              have hmn : n = g0.2.length := by rw [← hm]; exact (s12 none n hlook).symm
              have hWa : Wadd = g0.2.map (fun d => (d.iFieldStartPosOutput,
                  List.replicate d.iFieldLengthOutput.toNat 35)) := by
                rw [s13 n hlook, hmn, hds']
                exact range_map_getD (fun d => (d.iFieldStartPosOutput,
                  List.replicate d.iFieldLengthOutput.toNat 35)) pre g0.2 _ g0.1
              obtain ⟨X, Y, hXY⟩ := List.append_of_mem hd
              have hds3 : ds = (pre ++ g0.1 :: X) ++ d ::
                  (Y ++ gs.flatMap (fun g => g.1 :: g.2)) := by
                rw [hds', hXY]
                simp
              have hafterd := chain_split ds _ _ d hds3 hch hnn
              refine ⟨(g0.1.iFieldStartPosOutput, out.take g0.1.iFieldLengthOutput.toNat) ::
                (Wsp ++ X.map (fun d => (d.iFieldStartPosOutput,
                  List.replicate d.iFieldLengthOutput.toNat 35))),
                Y.map (fun d => (d.iFieldStartPosOutput,
                  List.replicate d.iFieldLengthOutput.toNat 35)) ++ Wg, ?_, ?_⟩
              · rw [s7, hWa, hXY]
                simp
              · intro w hw
                rcases List.mem_append.mp hw with hw | hw
                · obtain ⟨y, hy, hyw⟩ := List.mem_map.mp hw
                  have := hafterd y (List.mem_append_left _ hy)
                  rw [← hyw]
                  exact this
                · obtain ⟨x, hx, hxw⟩ := hWg w hw
                  have := hafterd x (List.mem_append_right _ hx)
                  omega
          · exact GroupWrites_shift tabs ind rec r.2.2 Wg g0 (i5 g0 hg0)

/-- The table built by the PESTD `BuildOutputRecordFormat`: outputs that
follow one another from HEADER_LENGTH on, and for every field of the
configuration its entry, with a name, a non-negative output length and a type
that agrees with the entries added after it, of output length 12. -/
theorem BuildOutputRecordFormat_PESTD_typed (records : List CStr)
    (hok : ∀ rec ∈ records, ConfRecordOk rec) :
    ∃ (ds : List FieldOfRecord) (groups : List (FieldOfRecord × List FieldOfRecord)),
      BuildOutputRecordFormat_PESTD records = some ds ∧
      ds.Chain' OutputFollows ∧ (∀ d ∈ ds.head?, d.iFieldStartPosOutput = HEADER_LENGTH_PESTD) ∧
      ds = groups.flatMap (fun g => g.1 :: g.2) ∧
      groups.map (fun g => some g.1.strFieldName) = confNames records ∧
      (∀ g ∈ groups, g.1.strFieldName ≠ [] ∧ 0 ≤ g.1.iFieldLengthOutput ∧
        TypedGroupPESTD g.1 g.2 ∧ ∀ d ∈ g.2, d.iFieldLengthOutput = 12) ∧
      (∀ x ∈ ds, 0 ≤ x.iFieldLengthOutput) ∧
      (∀ x ∈ ds, HEADER_LENGTH_PESTD ≤ x.iFieldStartPosOutput) := by
  obtain ⟨ds, _, h1, h2, h3, _⟩ := BuildOutputRecordFormat_PESTD_ok records hok
  have h1' := h1
  unfold BuildOutputRecordFormat_PESTD at h1'
  simp only [Option.map_eq_some'] at h1'
  obtain ⟨st1, hloop, htab⟩ := h1'
  obtain ⟨groups, g1, g2, g3⟩ := formatLoop_groups formatStepPESTD
    (fun e inj => e.strFieldName ≠ [] ∧ 0 ≤ e.iFieldLengthOutput ∧ TypedGroupPESTD e inj ∧
      ∀ d ∈ inj, d.iFieldLengthOutput = 12)
    formatStepPESTD_typed formatStepPESTD_skip records _ st1 hloop hok
  have hds : ds = groups.flatMap (fun g => g.1 :: g.2) := by
    rw [← htab, g1]
    simp
  have hnn : ∀ x ∈ ds, 0 ≤ x.iFieldLengthOutput := by
    intro x hx
    rw [hds, List.mem_flatMap] at hx
    obtain ⟨g, hg, hxg⟩ := hx
    obtain ⟨_, a2, _, a4⟩ := g3 g hg
    rcases List.mem_cons.mp hxg with h | h
    · rw [h]
      exact a2
    · rw [a4 x h]
      decide
  exact ⟨ds, groups, h1, h2, h3, hds, g2, g3, hnn, chain_lower ds _ h2 hnn h3⟩

/-- The table built by the PreMai `BuildOutputRecordFormat`: outputs that
follow one another from HEADER_LENGTH on. -/
theorem BuildOutputRecordFormat_PreMai_lower (records : List CStr)
    (hok : ∀ rec ∈ records, ConfRecordOk rec) :
    ∃ (ds : List FieldOfRecord) (len : Int),
      BuildOutputRecordFormat_PreMai records = some (ds, len) ∧
      (∀ x ∈ ds, 0 ≤ x.iFieldLengthOutput) ∧
      (∀ x ∈ ds, HEADER_LENGTH_PreMai ≤ x.iFieldStartPosOutput) := by
  obtain ⟨ds, len, _, h1, h2, h3, _⟩ := BuildOutputRecordFormat_PreMai_ok records hok
  have h1' := h1
  unfold BuildOutputRecordFormat_PreMai at h1'
  simp only [Option.map_eq_some'] at h1'
  obtain ⟨st1, hloop, htab⟩ := h1'
  obtain ⟨groups, g1, g2, g3⟩ := formatLoop_groups formatStepPreMai
    (fun e inj => 0 ≤ e.iFieldLengthOutput ∧ ∀ d ∈ inj, 0 ≤ d.iFieldLengthOutput)
    formatStepPreMai_typed formatStepPreMai_skip records _ st1 hloop hok
  have hds : ds = groups.flatMap (fun g => g.1 :: g.2) := by
    have := congrArg Prod.fst htab
    simp only at this
    rw [← this, g1]
    simp
  have hnn : ∀ x ∈ ds, 0 ≤ x.iFieldLengthOutput := by
    intro x hx
    rw [hds, List.mem_flatMap] at hx
    obtain ⟨g, hg, hxg⟩ := hx
    obtain ⟨a2, a4⟩ := g3 g hg
    rcases List.mem_cons.mp hxg with h | h
    · rw [h]
      exact a2
    · exact a4 x h
  exact ⟨ds, len, h1, hnn, chain_lower ds _ h2 hnn h3⟩

/-- The number of turns of the loop of the PESTD `Create_Output_Record` is the
number of fields of the configuration: with more turns allowed than that, the
result of the loop does not depend on the bound. -/
theorem recordLoopPESTD_fuel (tabs : TablesPESTD) (ds : List FieldOfRecord)
    (ind : IndeterminatePESTD) (rec : List Nat) :
    ∀ (groups : List (FieldOfRecord × List FieldOfRecord)) (pre : List FieldOfRecord)
      (f1 f2 : Nat) (loc : LocalsPESTD) (ws : List RecordWrite),
      ds = pre ++ groups.flatMap (fun g => g.1 :: g.2) →
      groups.length < f1 → groups.length < f2 →
      (∀ g ∈ groups, g.1.strFieldName ≠ [] ∧ TypedGroupPESTD g.1 g.2) →
      recordLoopPESTD tabs ds ind rec f1 pre.length loc ws =
        recordLoopPESTD tabs ds ind rec f2 pre.length loc ws := by
  intro groups
  induction groups with
  | nil =>
    intro pre f1 f2 loc ws hds h1 h2 _
    cases f1 with
    | zero => omega
    | succ f1 =>
      cases f2 with
      | zero => omega
      | succ f2 =>
        have hds' : ds = pre := by simpa using hds
        have hblank : ds.getD pre.length blankField = blankField := by
          rw [hds', List.getD_eq_getElem?_getD, List.getElem?_eq_none (le_refl _)]
          rfl
        rw [recordLoopPESTD, recordLoopPESTD, hblank, if_neg (by decide), if_neg (by decide)]
  | cons g gs ih =>
    intro pre f1 f2 loc ws hds h1 h2 hg
    cases f1 with
    | zero => omega
    | succ f1 =>
      cases f2 with
      | zero => omega
      | succ f2 =>
        have hds' : ds = pre ++ g.1 :: (g.2 ++ gs.flatMap (fun g => g.1 :: g.2)) := by
          rw [hds, List.flatMap_cons]
          simp
        have hfd : ds.getD pre.length blankField = g.1 := by
          rw [hds']
          exact getD_pre _ _ _
        obtain ⟨hname, htyped⟩ := hg g (List.mem_cons_self _ _)
        rw [recordLoopPESTD, recordLoopPESTD, hfd, if_pos (List.length_pos.mpr hname),
          if_pos (List.length_pos.mpr hname)]
        cases hs : recordStepPESTD tabs ds ind rec pre.length loc with
        | none => rfl
        | some r =>
          rw [Option.some_bind, Option.some_bind]
          obtain ⟨bytes, prev, out, look, Wsp, Wadd, m, s1, s2, s3, s4, s5, s6, s7, s8, s9, s10,
            s11, s12, s13⟩ := recordStepPESTD_writes tabs ds ind rec pre.length loc r hs
          rw [hfd] at s3
          have hm : m = g.2.length := typed_count tabs g.1 g.2 _ look m htyped s3 s11 s12
          have hidx : r.1 = (pre ++ g.1 :: g.2).length := by
            rw [s6, hm]
            simp
            omega
          have hds2 : ds = (pre ++ g.1 :: g.2) ++ gs.flatMap (fun g => g.1 :: g.2) := by
            rw [hds']
            simp
          rw [hidx]
          exact ih (pre ++ g.1 :: g.2) f1 f2 r.2.1 (ws ++ r.2.2) hds2 (by simpa using h1)
            (by simpa using h2) (fun x hx => hg x (List.mem_cons_of_mem _ hx))

set_option maxRecDepth 100000 in
theorem sampleConfPESTD_built :
    BuildOutputRecordFormat_PESTD sampleConfPESTD = some sampleFieldsPESTD := by decide

set_option maxRecDepth 1000000 in
set_option maxHeartbeats 4000000 in
theorem sampleRecordPESTD_output :
    Create_Output_Record_PESTD emptyTablesPESTD sampleFieldsPESTD sampleIndeterminatePESTD
      sampleRecordPESTD (List.replicate 200 32) =
      some (EXIT_OK, List.replicate 155 32 ++ str "XYZ########################3-0012" ++ [0] ++
        List.replicate 11 32) := by decide

theorem lookupPESTD_empty (tabs : TablesPESTD) (e : FieldOfRecord) (inj : List FieldOfRecord)
    (ht : TypedGroupPESTD e inj) (hne : inj ≠ []) :
    ∃ n, lookupPESTD tabs e.iFieldType [] = some (some (none, n)) := by
  unfold lookupPESTD
  rcases ht with ⟨t | t, _⟩ | ⟨t, _⟩ | ⟨_, t⟩
  · rw [if_pos t, if_neg (by simp)]
    exact ⟨2, rfl⟩
  · rw [t, if_neg (by decide), if_pos rfl, if_neg (by simp)]
    exact ⟨2, rfl⟩
  · rw [t, if_neg (by decide), if_neg (by decide), if_pos rfl, if_neg (by simp)]
    exact ⟨1, rfl⟩
  · exact absurd t hne

/-- The output slices after the PESTD `Create_Output_Record`, from the writes
of its loop. -/
theorem GroupWrites_slices (tabs : TablesPESTD) (ind : IndeterminatePESTD) (rec o o1 : List Nat)
    (W : List RecordWrite) (g : FieldOfRecord × List FieldOfRecord) (z : Int)
    (hg : GroupWrites tabs ind rec W g) (ha : applyWrites o (W ++ [(z, [0])]) = some o1)
    (h0 : 0 ≤ g.1.iFieldLengthOutput) (hz : g.1.iFieldStartPosOutput + g.1.iFieldLengthOutput ≤ z)
    (hd0 : ∀ d ∈ g.2, 0 ≤ d.iFieldLengthOutput)
    (hdz : ∀ d ∈ g.2, d.iFieldStartPosOutput + d.iFieldLengthOutput ≤ z) :
    ∃ bytes, bufRead rec g.1.iFieldStartPosInput g.1.iFieldLengthInput = some bytes ∧
      (¬ rewrittenPESTD g.1.strFieldName →
        ∃ (i : Nat) (prev out : List Nat),
          Convert_InputField g.1 (fieldOf bytes) (ind.convert i) prev = some out ∧
          outputSlice o1 g.1 = out.take g.1.iFieldLengthOutput.toNat) ∧
      (∀ n, lookupPESTD tabs g.1.iFieldType (fieldOf bytes) = some (some (none, n)) →
        ∀ d ∈ g.2, outputSlice o1 d = List.replicate d.iFieldLengthOutput.toNat 35) := by
  obtain ⟨bytes, hb, h1, h2⟩ := hg
  refine ⟨bytes, hb, ?_, ?_⟩
  · intro hn
    obtain ⟨i, prev, out, W1, W2, a1, a2, a3, a4⟩ := h1 hn
    refine ⟨i, prev, out, a1, ?_⟩
    rw [a2, List.append_assoc, List.cons_append] at ha
    have := (applyWrites_slice o o1 W1 (W2 ++ [(z, [0])]) _ _ ha (by
      intro w hw
      rw [a3]
      rcases List.mem_append.mp hw with hw | hw
      · have := a4 w hw
        have e : ((g.1.iFieldLengthOutput.toNat : Nat) : Int) = g.1.iFieldLengthOutput :=
          Int.toNat_of_nonneg h0
        omega
      · simp only [List.mem_singleton] at hw
        rw [hw]
        have e : ((g.1.iFieldLengthOutput.toNat : Nat) : Int) = g.1.iFieldLengthOutput :=
          Int.toNat_of_nonneg h0
        show _ ≤ z
        omega)).2
    rw [a3] at this
    exact this
  · intro n hl d hd
    obtain ⟨W1, W2, a1, a2⟩ := h2 n hl d hd
    rw [a1, List.append_assoc, List.cons_append] at ha
    have e : ((d.iFieldLengthOutput.toNat : Nat) : Int) = d.iFieldLengthOutput :=
      Int.toNat_of_nonneg (hd0 d hd)
    have := (applyWrites_slice o o1 W1 (W2 ++ [(z, [0])]) _ _ ha (by
      intro w hw
      rw [List.length_replicate]
      rcases List.mem_append.mp hw with hw | hw
      · have := a2 w hw
        omega
      · simp only [List.mem_singleton] at hw
        rw [hw]
        have := hdz d hd
        show _ ≤ z
        omega)).2
    rw [List.length_replicate] at this
    exact this

/-- C27. In PESTD, for every configuration whose handled records have the
three fields name, format and a non-negative length, with `ds` the table that
`BuildOutputRecordFormat` builds from it (the entry of every field followed by
the entries added after it), for all tables, input record and output record:
the loop of `Create_Output_Record` needs no more turns than the table has
entries, and when the call is defined it returns EXIT_OK and, for every field
of the configuration, (1) unless the field is `EMISS_CRS`, `QTE_DECIMALES` or
`Z_MNT_ESTD_DEVISE`, the output slice of its entry is the first
`iFieldLengthOutput` bytes of what `Convert_InputField` produces for its input
slice, and (2) when the lookup for the field gives nothing (the field is
empty, or it has no matching entry in the SIAM or RTS table), the output
slice of every entry added after it is made of `'#'` only. -/
theorem missing_enrichment_hash_fill (records : List CStr)
    (hok : ∀ rec ∈ records, ConfRecordOk rec) (tabs : TablesPESTD) (ind : IndeterminatePESTD)
    (i_InputRecord o_OutputRecord : List Nat) :
    ∃ (ds : List FieldOfRecord) (groups : List (FieldOfRecord × List FieldOfRecord)),
      BuildOutputRecordFormat_PESTD records = some ds ∧
      ds = groups.flatMap (fun g => g.1 :: g.2) ∧
      groups.map (fun g => some g.1.strFieldName) = confNames records ∧
      (∀ fuel, ds.length < fuel →
        recordLoopPESTD tabs ds ind i_InputRecord fuel 0 (initialLocalsPESTD ind) [] =
          recordLoopPESTD tabs ds ind i_InputRecord (ds.length + 1) 0 (initialLocalsPESTD ind)
            []) ∧
      ∀ r, Create_Output_Record_PESTD tabs ds ind i_InputRecord o_OutputRecord = some r →
        r.1 = EXIT_OK ∧
        ∀ g ∈ groups, ∃ bytes,
          bufRead i_InputRecord g.1.iFieldStartPosInput g.1.iFieldLengthInput = some bytes ∧
          (¬ rewrittenPESTD g.1.strFieldName →
            ∃ (i : Nat) (prev out : List Nat),
              Convert_InputField g.1 (fieldOf bytes) (ind.convert i) prev = some out ∧
              outputSlice r.2 g.1 = out.take g.1.iFieldLengthOutput.toNat) ∧
          (∀ n, lookupPESTD tabs g.1.iFieldType (fieldOf bytes) = some (some (none, n)) →
            ∀ d ∈ g.2, outputSlice r.2 d = List.replicate d.iFieldLengthOutput.toNat 35) ∧
          (fieldOf bytes = [] →
            ∀ d ∈ g.2, outputSlice r.2 d = List.replicate d.iFieldLengthOutput.toNat 35) := by
  obtain ⟨ds, groups, b1, b2, _, b4, b5, b6, b7, _⟩ :=
    BuildOutputRecordFormat_PESTD_typed records hok
  have htyped : ∀ g ∈ groups, g.1.strFieldName ≠ [] ∧ TypedGroupPESTD g.1 g.2 :=
    fun g hg => ⟨(b6 g hg).1, (b6 g hg).2.2.1⟩
  have hlen : groups.length ≤ ds.length := by
    rw [b4, length_flatMap_groups]
    omega
  have hds : ds = ([] : List FieldOfRecord) ++ groups.flatMap (fun g => g.1 :: g.2) := by
    rw [List.nil_append]
    exact b4
  refine ⟨ds, groups, b1, b4, b5, ?_, ?_⟩
  · intro fuel hf
    exact recordLoopPESTD_fuel tabs ds ind i_InputRecord groups [] fuel (ds.length + 1)
      (initialLocalsPESTD ind) [] hds (by omega) (by omega) htyped
  · intro r hr
    unfold Create_Output_Record_PESTD at hr
    simp only [Option.bind_eq_some, Option.map_eq_some'] at hr
    obtain ⟨ws, hws, o1, ho1, hro⟩ := hr
    unfold recordWritesPESTD at hws
    simp only [Option.bind_eq_some] at hws
    obtain ⟨res, hloop, hres⟩ := hws
    obtain ⟨l1, Wg, l2, _, _, l5⟩ := recordLoopPESTD_groups tabs ds ind i_InputRecord b2 b7
      groups [] (ds.length + 1) (initialLocalsPESTD ind) [] res hds (by omega) htyped hloop
    split at hres
    · exact absurd hres (by simp)
    · have hws2 := (Option.some.inj hres).symm
      rw [l2, l1, List.nil_append] at hws2
      rw [hws2] at ho1
      rw [← hro]
      refine ⟨rfl, ?_⟩
      intro g hg
      have hg1 : g.1 ∈ ds := by
        rw [b4, List.mem_flatMap]
        exact ⟨g, hg, List.mem_cons_self _ _⟩
      have hg2 : ∀ d ∈ g.2, d ∈ ds := by
        intro d hd
        rw [b4, List.mem_flatMap]
        exact ⟨g, hg, List.mem_cons_of_mem _ hd⟩
      obtain ⟨bytes, c1, c2, c3⟩ := GroupWrites_slices tabs ind i_InputRecord o_OutputRecord o1 Wg g
        _ (l5 g hg) ho1 (b7 _ hg1) (chain_last ds b2 b7 _ hg1) (fun d hd => b7 d (hg2 d hd))
        (fun d hd => chain_last ds b2 b7 d (hg2 d hd))
      refine ⟨bytes, c1, c2, c3, ?_⟩
      intro hempty d hd
      obtain ⟨n, hn⟩ := lookupPESTD_empty tabs g.1 g.2 (b6 g hg).2.2.1 (List.ne_nil_of_mem hd)
      rw [← hempty] at hn
      exact c3 n hn d hd

theorem sampleConfPESTD_ok : ∀ rec ∈ sampleConfPESTD, ConfRecordOk rec := by
  intro rec h
  simp only [sampleConfPESTD, List.mem_cons, List.mem_nil_iff, or_false] at h
  rcases h with h | h | h <;> subst h
  · exact Or.inr ⟨(str "TIERS", str "charED", 3), by decide, by decide⟩
  · exact Or.inr ⟨(str "QTE_DECIMALES", str "charED", 1), by decide, by decide⟩
  · exact Or.inr ⟨(str "X", str "entierSZG", 5), by decide, by decide⟩

theorem missing_enrichment_hash_fill_witness :
    (∀ rec ∈ sampleConfPESTD, ConfRecordOk rec) ∧
    ∃ (ds : List FieldOfRecord) (groups : List (FieldOfRecord × List FieldOfRecord)),
      BuildOutputRecordFormat_PESTD sampleConfPESTD = some ds ∧
      ds = groups.flatMap (fun g => g.1 :: g.2) ∧
      groups.map (fun g => some g.1.strFieldName) = confNames sampleConfPESTD ∧
      (∀ fuel, ds.length < fuel →
        recordLoopPESTD emptyTablesPESTD ds sampleIndeterminatePESTD sampleRecordPESTD fuel 0
            (initialLocalsPESTD sampleIndeterminatePESTD) [] =
          recordLoopPESTD emptyTablesPESTD ds sampleIndeterminatePESTD sampleRecordPESTD
            (ds.length + 1) 0 (initialLocalsPESTD sampleIndeterminatePESTD) []) ∧
      ∀ r, Create_Output_Record_PESTD emptyTablesPESTD ds sampleIndeterminatePESTD
          sampleRecordPESTD (List.replicate 200 32) = some r →
        r.1 = EXIT_OK ∧
        ∀ g ∈ groups, ∃ bytes,
          bufRead sampleRecordPESTD g.1.iFieldStartPosInput g.1.iFieldLengthInput = some bytes ∧
          (¬ rewrittenPESTD g.1.strFieldName →
            ∃ (i : Nat) (prev out : List Nat),
              Convert_InputField g.1 (fieldOf bytes) (sampleIndeterminatePESTD.convert i) prev =
                some out ∧
              outputSlice r.2 g.1 = out.take g.1.iFieldLengthOutput.toNat) ∧
          (∀ n, lookupPESTD emptyTablesPESTD g.1.iFieldType (fieldOf bytes) =
              some (some (none, n)) →
            ∀ d ∈ g.2, outputSlice r.2 d = List.replicate d.iFieldLengthOutput.toNat 35) ∧
          (fieldOf bytes = [] →
            ∀ d ∈ g.2, outputSlice r.2 d = List.replicate d.iFieldLengthOutput.toNat 35) :=
  ⟨sampleConfPESTD_ok, missing_enrichment_hash_fill sampleConfPESTD sampleConfPESTD_ok
    emptyTablesPESTD sampleIndeterminatePESTD sampleRecordPESTD (List.replicate 200 32)⟩

theorem Convert_charED_one (name fmt : CStr) (type lenIn posIn posOut : Int)
    (uninit prev out : List Nat)
    (h : Convert_InputField ⟨name, fmt, enumFieldFormat.charED, type, lenIn, 1, posIn, posOut⟩
      (str "2") uninit prev = some out) : out.take 1 = str "2" := by
  unfold Convert_InputField at h
  simp only [Option.bind_eq_some] at h
  obtain ⟨o1, _, h2⟩ := h
  have ht : Trim (str "2") = str "2" := by
    rw [Trim_eq_stripSpaces]
    decide
  rw [ht] at h2
  obtain ⟨_, _, e⟩ := bufWrite_some _ _ _ _ h2
  rw [e]
  have hs : str "2" = [50] := by decide
  rw [hs]
  rfl

set_option maxRecDepth 1000000 in
set_option maxHeartbeats 4000000 in
/-- C27, the claim as first stated fails: with the configuration
`sampleConfPESTD` and the record `XYZ|2|-12`, the entry of `QTE_DECIMALES` is
not an entry added after a trigger field, `Convert_InputField` produces `2`
for its input slice `2`, and its output slice after `Create_Output_Record` is
`3`. -/
theorem missing_enrichment_counterexample :
    BuildOutputRecordFormat_PESTD sampleConfPESTD = some sampleFieldsPESTD ∧
    ∃ o d, Create_Output_Record_PESTD emptyTablesPESTD sampleFieldsPESTD sampleIndeterminatePESTD
        sampleRecordPESTD (List.replicate 200 32) = some (EXIT_OK, o) ∧
      d ∈ sampleFieldsPESTD ∧ d.strFieldName = str "QTE_DECIMALES" ∧ 0 ≤ d.iFieldStartPosInput ∧
      bufRead sampleRecordPESTD d.iFieldStartPosInput d.iFieldLengthInput = some (str "2") ∧
      (∀ uninit prev out, Convert_InputField d (fieldOf (str "2")) uninit prev = some out →
        out.take d.iFieldLengthOutput.toNat = str "2") ∧
      outputSlice o d = str "3" :=
  ⟨by decide, _, ⟨str "QTE_DECIMALES", str "charED", enumFieldFormat.charED, -1, 1, 1, 4, 182⟩,
    sampleRecordPESTD_output, by decide, rfl, by decide, by decide,
    fun uninit prev out h => Convert_charED_one _ _ _ _ _ _ uninit prev out h,
    by decide⟩

/-! ### The header of the output lines -/

theorem getD_frame (ds : List FieldOfRecord) (H : Int)
    (hds : ∀ d ∈ ds, H ≤ d.iFieldStartPosOutput) (k : Nat) :
    H ≤ (ds.getD k blankField).iFieldStartPosOutput ∨
      (ds.getD k blankField).iFieldStartPosOutput < 0 := by
  rw [List.getD_eq_getElem?_getD]
  by_cases hk : k < ds.length
  · rw [List.getElem?_eq_getElem hk]
    exact Or.inl (hds _ (List.getElem_mem hk))
  · rw [List.getElem?_eq_none (by omega)]
    exact Or.inr (by decide)

theorem getD_named (ds : List FieldOfRecord) (k : Nat)
    (h : (ds.getD k blankField).strFieldName.length > 0) : ds.getD k blankField ∈ ds := by
  rw [List.getD_eq_getElem?_getD] at h ⊢
  by_cases hk : k < ds.length
  · rw [List.getElem?_eq_getElem hk]
    exact List.getElem_mem hk
  · rw [List.getElem?_eq_none (by omega)] at h
    exact absurd h (by decide)

/-- The writes of one turn of the loop of the PESTD `Create_Output_Record`
start at or after the output position of an entry of the table, or at the
negative position of an entry that was never filled. -/
theorem recordStepPESTD_frame (tabs : TablesPESTD) (ds : List FieldOfRecord)
    (ind : IndeterminatePESTD) (rec : List Nat) (H : Int)
    (hds : ∀ d ∈ ds, H ≤ d.iFieldStartPosOutput) (l_iIdx : Nat) (loc : LocalsPESTD)
    (r : Nat × LocalsPESTD × List RecordWrite)
    (hname : (ds.getD l_iIdx blankField).strFieldName.length > 0)
    (h : recordStepPESTD tabs ds ind rec l_iIdx loc = some r) :
    ∀ w ∈ r.2.2, H ≤ w.1 ∨ w.1 < 0 := by
  obtain ⟨bytes, prev, out, look, Wsp, Wadd, m, s1, s2, s3, s4, s5, s6, s7, s8, s9, s10, s11,
    s12, s13⟩ := recordStepPESTD_writes tabs ds ind rec l_iIdx loc r h
  have hfd := hds _ (getD_named ds l_iIdx hname)
  intro w hw
  rw [s7] at hw
  rcases List.mem_cons.mp hw with hw | hw
  · rw [hw]
    exact Or.inl hfd
  rcases List.mem_append.mp hw with hw | hw
  · have := s8 w hw
    exact Or.inl (by omega)
  · have : w.1 ∈ Wadd.map Prod.fst := List.mem_map_of_mem _ hw
    rw [s10] at this
    obtain ⟨k, _, hk⟩ := List.mem_map.mp this
    rw [← hk]
    exact getD_frame ds H hds _

theorem recordLoopPESTD_frame (tabs : TablesPESTD) (ds : List FieldOfRecord)
    (ind : IndeterminatePESTD) (rec : List Nat) (H : Int)
    (hds : ∀ d ∈ ds, H ≤ d.iFieldStartPosOutput) :
    ∀ (fuel l_iIdx : Nat) (loc : LocalsPESTD) (ws : List RecordWrite)
      (res : Nat × List RecordWrite),
      recordLoopPESTD tabs ds ind rec fuel l_iIdx loc ws = some res →
      (∀ w ∈ ws, H ≤ w.1 ∨ w.1 < 0) → ∀ w ∈ res.2, H ≤ w.1 ∨ w.1 < 0 := by
  intro fuel
  induction fuel with
  | zero =>
    intro i loc ws res h _
    rw [recordLoopPESTD] at h
    exact absurd h (by simp)
  | succ f ih =>
    intro i loc ws res h hws
    rw [recordLoopPESTD] at h
    split at h
    · rename_i hname
      cases hs : recordStepPESTD tabs ds ind rec i loc with
      | none =>
        rw [hs] at h
        exact absurd h (by simp)
      | some r =>
        rw [hs, Option.some_bind] at h
        refine ih r.1 r.2.1 (ws ++ r.2.2) res h ?_
        intro w hw
        rcases List.mem_append.mp hw with hw | hw
        · exact hws w hw
        · exact recordStepPESTD_frame tabs ds ind rec H hds i loc r hname hs w hw
    · rw [← Option.some.inj h]
      exact hws

/-- The PESTD `Create_Output_Record` returns EXIT_OK and leaves the bytes of
the output record before the first output position untouched. -/
theorem Create_Output_Record_PESTD_take (tabs : TablesPESTD) (ds : List FieldOfRecord)
    (ind : IndeterminatePESTD) (rec o : List Nat) (H : Nat)
    (hds : ∀ d ∈ ds, (H : Int) ≤ d.iFieldStartPosOutput)
    (hnn : ∀ d ∈ ds, 0 ≤ d.iFieldLengthOutput) (r : Int × List Nat)
    (h : Create_Output_Record_PESTD tabs ds ind rec o = some r) :
    r.1 = EXIT_OK ∧ r.2.take H = o.take H := by
  unfold Create_Output_Record_PESTD at h
  simp only [Option.bind_eq_some, Option.map_eq_some'] at h
  obtain ⟨ws, hws, o1, ho1, hro⟩ := h
  unfold recordWritesPESTD at hws
  simp only [Option.bind_eq_some] at hws
  obtain ⟨res, hloop, hres⟩ := hws
  have hW := recordLoopPESTD_frame tabs ds ind rec H hds _ _ _ _ res hloop (by simp)
  split at hres
  · exact absurd hres (by simp)
  · have hws2 := (Option.some.inj hres).symm
    rw [← hro]
    refine ⟨rfl, applyWrites_take H ws o o1 ho1 ?_⟩
    intro w hw
    rw [hws2] at hw
    rcases List.mem_append.mp hw with hw | hw
    · exact hW w hw
    · simp only [List.mem_singleton] at hw
      rw [hw]
      show (H : Int) ≤ _ + _ ∨ _ + _ < 0
      rw [List.getD_eq_getElem?_getD]
      by_cases hk : res.1 - 1 < ds.length
      · rw [List.getElem?_eq_getElem hk]
        have h1 := hds _ (List.getElem_mem hk)
        have h2 := hnn _ (List.getElem_mem hk)
        left
        show (H : Int) ≤ (ds[res.1 - 1]).iFieldStartPosOutput + (ds[res.1 - 1]).iFieldLengthOutput
        omega
      · rw [List.getElem?_eq_none (by omega)]
        exact Or.inr (by decide)

theorem cstrOf_take (b line : List Nat) (n : Nat) (h : cstrOf b = some line)
    (h0 : ∀ x ∈ b.take n, x ≠ 0) : line.take n = b.take n := by
  unfold cstrOf at h
  split at h
  · have hl := (Option.some.inj h).symm
    have hb : b = b.take n ++ b.drop n := (List.take_append_drop n b).symm
    rw [hl]
    conv_lhs => rw [hb]
    rw [List.takeWhile_append_of_pos (by
      intro x hx
      simpa using h0 x hx)]
    by_cases hn : n ≤ b.length
    · rw [List.take_append_of_le_length (by rw [List.length_take]; omega), List.take_take]
      simp
    · rw [List.drop_of_length_le (by omega)]
      simp only [List.takeWhile_nil, List.append_nil]
      rw [List.take_take]
      simp
  · exact absurd h (by simp)

theorem bufWrite_after (b : List Nat) (off : Int) (src b1 : List Nat)
    (h : bufWrite b off src = some b1) :
    b1.drop (off.toNat + src.length) = b.drop (off.toNat + src.length) := by
  obtain ⟨h0, h1, he⟩ := bufWrite_some b off src b1 h
  have hl : (b.take off.toNat ++ src).length = off.toNat + src.length := by
    rw [List.length_append, List.length_take]
    omega
  rw [he, List.drop_append_of_le_length (by omega), List.drop_of_length_le (by omega)]
  rfl

theorem take_add_slice (l : List Nat) (m n : Nat) :
    l.take (m + n) = l.take m ++ (l.drop m).take n := by
  rw [List.take_add]

/-- The first 20 bytes of a header filled with spaces in which a label of 10
or 11 characters is written at offset 0, and the bytes kept after it. -/
theorem header_label (O h1 h2 label : List Nat) (n : Nat) (N : Int) (hn : label.length = n)
    (hn20 : n ≤ 20) (hN : 20 ≤ N)
    (a1 : memsetBuf O 32 N = some h1) (a2 : bufWrite h1 0 label = some h2) :
    h2.take 20 = label ++ List.replicate (20 - n) 32 := by
  unfold memsetBuf at a1
  split at a1
  · have s1 := bufWrite_slice _ _ _ _ a1
    have s2 := bufWrite_slice _ _ _ _ a2
    have s3 := bufWrite_after _ _ _ _ a2
    rw [List.length_replicate] at s1
    simp only [Int.toNat_zero, List.drop_zero, Nat.zero_add] at s1 s2 s3
    rw [hn] at s2 s3
    have e20 : 20 = n + (20 - n) := by omega
    have hN2 : 20 ≤ N.toNat := by omega
    conv_lhs => rw [e20, take_add_slice, s2, s3]
    congr 1
    have : (h1.drop n).take (20 - n) = ((h1.take N.toNat).drop n).take (20 - n) := by
      rw [List.drop_take, List.take_take]
      congr 1
      omega
    rw [this, s1, List.drop_replicate, List.take_replicate]
    congr 1
    omega
  · exact absurd a1 (by simp)

/-- The first 28 bytes of the header of PESTD: the label, spaces up to
HEADER_MVT_LABEL_LENGTH, and the 8 bytes of the accounting date. -/
theorem header_PESTD (O h1 h2 h3 d : List Nat)
    (a1 : memsetBuf O 32 HEADER_LENGTH_PESTD = some h1)
    (a2 : bufWrite h1 0 (str "INV_MARCHE") = some h2)
    (a3 : bufWrite h2 HEADER_MVT_LABEL_LENGTH d = some h3) (hd : d.length = 8) :
    h3.take 28 = str "INV_MARCHE" ++ List.replicate 10 32 ++ d := by
  have hlab := header_label O h1 h2 (str "INV_MARCHE") 10 HEADER_LENGTH_PESTD (by decide)
    (by decide) (by decide) a1 a2
  have s1 := bufWrite_slice _ _ _ _ a3
  have s2 := bufWrite_take _ _ _ _ 20 a3 (by decide)
  rw [hd] at s1
  have e : HEADER_MVT_LABEL_LENGTH.toNat = 20 := by decide
  rw [e] at s1
  rw [show (28 : Nat) = 20 + 8 from rfl, take_add_slice, s1, s2, hlab]

/-- When `main` accepts the accounting date, the buffer `Accounting_Date` holds
the first eight characters of the second argument, none of which is NUL. -/
theorem accountingDate_valid (argv2 s : CStr) (h1 : cstrOf (accountingDate argv2) = some s)
    (h2 : isValidInputDate s ≠ 0) :
    bufRead (accountingDate argv2) 0 DATE_LENGTH = some (argv2.take 8) ∧
      (argv2.take 8).length = 8 ∧ ∀ x ∈ argv2.take 8, x ≠ 0 := by
  have htl : ((argv2 ++ List.replicate 8 0).take 8).length = 8 := by
    rw [List.length_take, List.length_append, List.length_replicate]
    omega
  have hs : s = ((argv2 ++ List.replicate 8 0).take 8).takeWhile (fun c => !decide (c = 0)) := by
    unfold cstrOf accountingDate at h1
    rw [if_pos (by simp)] at h1
    rw [← Option.some.inj h1]
    exact takeWhile_stop _ []
  have hall : ∀ i, i < 8 → isdigit (s.getD i 0) = true := by
    unfold isValidInputDate at h2
    split at h2
    · rename_i hc
      intro i hi
      exact List.all_eq_true.mp hc i (List.mem_range.mpr hi)
    · exact absurd rfl h2
  have hlen : 8 ≤ s.length := by
    by_contra hlt
    have := hall s.length (by omega)
    rw [List.getD_eq_getElem?_getD, List.getElem?_eq_none (le_refl _)] at this
    exact absurd this (by decide)
  have hp : s <+: (argv2 ++ List.replicate 8 0).take 8 := by
    rw [hs]
    exact List.takeWhile_prefix _
  have hle : s.length ≤ 8 := by
    rw [← htl]
    exact hp.length_le
  have hst : s = (argv2 ++ List.replicate 8 0).take 8 := hp.eq_of_length (by omega)
  have hnz : ∀ x ∈ (argv2 ++ List.replicate 8 0).take 8, x ≠ 0 := by
    have : ((argv2 ++ List.replicate 8 0).take 8).takeWhile (fun c => !decide (c = 0)) =
        (argv2 ++ List.replicate 8 0).take 8 := by
      rw [← hs, hst]
    intro x hx
    have := List.takeWhile_eq_self_iff.mp this x hx
    simpa using this
  have hlong : 8 ≤ argv2.length := by
    by_contra hlt
    have hmem : (0 : Nat) ∈ (argv2 ++ List.replicate 8 0).take 8 := by
      rw [List.take_append_eq_append_take, List.take_replicate]
      apply List.mem_append_right
      rw [List.mem_replicate]
      exact ⟨by omega, rfl⟩
    exact hnz 0 hmem rfl
  have ht : (argv2 ++ List.replicate 8 0).take 8 = argv2.take 8 :=
    List.take_append_of_le_length hlong
  rw [ht] at hnz htl
  refine ⟨?_, htl, hnz⟩
  unfold bufRead accountingDate
  rw [ht, if_pos (by
    refine ⟨le_refl _, by decide, ?_⟩
    rw [List.length_append, htl]
    decide)]
  congr 1
  show List.take 8 (List.drop 0 (argv2.take 8 ++ [0])) = _
  rw [List.drop_zero, List.take_append_of_le_length (by omega), List.take_take]
  simp

theorem take_append_line (line a : List Nat) (c : Nat) (n : Nat) (h : line.take n = a)
    (ha : a.length = n) : (line ++ [c]).take n = a := by
  have : n ≤ line.length := by
    have := congrArg List.length h
    rw [List.length_take, ha] at this
    omega
  rw [List.take_append_of_le_length this, h]

/-- Every line written by the reading loop of the PESTD `main` starts with
the label, spaces up to 20 bytes and the accounting date. -/
theorem mainLoopPESTD_header (tabs : TablesPESTD) (ds : List FieldOfRecord)
    (ind : Nat → IndeterminatePESTD) (AD date : List Nat)
    (hds : ∀ d ∈ ds, HEADER_LENGTH_PESTD ≤ d.iFieldStartPosOutput)
    (hnn : ∀ d ∈ ds, 0 ≤ d.iFieldLengthOutput)
    (hAD : bufRead AD 0 DATE_LENGTH = some date) (hdl : date.length = 8)
    (hd0 : ∀ x ∈ date, x ≠ 0) :
    ∀ (records : List CStr) (n : Nat) (inb os : List Nat) (out : List CStr) (res : RunResult),
      mainLoopPESTD tabs ds ind AD records n inb os out = some res →
      (∀ line ∈ out, line.take 28 = str "INV_MARCHE" ++ List.replicate 10 32 ++ date) →
      ∀ line ∈ res.output, line.take 28 = str "INV_MARCHE" ++ List.replicate 10 32 ++ date := by
  intro records
  induction records with
  | nil =>
    intro n inb os out res h hout
    rw [mainLoopPESTD] at h
    rw [← Option.some.inj h]
    exact hout
  | cons rec rest ih =>
    intro n inb os out res h hout
    rw [mainLoopPESTD] at h
    simp only [Option.bind_eq_some] at h
    obtain ⟨inb1, _, s, _, h⟩ := h
    split at h
    · simp only [Option.bind_eq_some] at h
      obtain ⟨h1, a1, h2, a2, d, a3, h3, a4, o, a5, r, a6, h⟩ := h
      split at h
      · rw [← Option.some.inj h]
        exact hout
      · simp only [Option.bind_eq_some] at h
        obtain ⟨line, a7, h⟩ := h
        refine ih _ _ _ _ res h ?_
        intro l hl
        rcases List.mem_append.mp hl with hl | hl
        · exact hout l hl
        · simp only [List.mem_singleton] at hl
          rw [hl]
          have hd : d = date := by
            rw [hAD] at a3
            exact (Option.some.inj a3).symm
          subst hd
          have e1 := header_PESTD os h1 h2 h3 d a1 a2 a4 hdl
          have e2 := bufWrite_take _ _ _ _ 28 a5 (by decide)
          have e3 := (Create_Output_Record_PESTD_take tabs ds (ind n) inb1 o 155 hds hnn r a6).2
          have e4 : r.2.take 28 = str "INV_MARCHE" ++ List.replicate 10 32 ++ d := by
            have t1 : ∀ l : List Nat, (l.take 155).take 28 = l.take 28 := by
              intro l
              rw [List.take_take]
              rfl
            rw [← t1 r.2, e3, t1 o]
            exact e2.trans e1
          have hnz : ∀ x ∈ r.2.take 28, x ≠ 0 := by
            rw [e4]
            intro x hx
            rcases List.mem_append.mp hx with hx | hx
            · rcases List.mem_append.mp hx with hx | hx
              · intro h0
                rw [h0] at hx
                exact absurd hx (by decide)
              · rw [List.mem_replicate] at hx
                rw [hx.2]
                decide
            · exact hd0 x hx
          have e5 := cstrOf_take r.2 line 28 a7 hnz
          refine take_append_line line _ 10 28 (e5.trans e4) ?_
          simp only [List.length_append, List.length_replicate, hdl]
          decide
    · exact ih _ _ _ _ res h hout

/-- Every line written by the PESTD `main` starts with the label `INV_MARCHE`,
spaces up to 20 bytes and the first eight characters of the second
argument. -/
theorem mainPESTD_header (tabs : TablesPESTD) (ds : List FieldOfRecord)
    (ind : Nat → IndeterminatePESTD) (argv2 : CStr) (records : List CStr) (res : RunResult)
    (hds : ∀ d ∈ ds, HEADER_LENGTH_PESTD ≤ d.iFieldStartPosOutput)
    (hnn : ∀ d ∈ ds, 0 ≤ d.iFieldLengthOutput)
    (h : mainPESTD tabs ds ind argv2 records = some res) :
    ∀ line ∈ res.output,
      line.take 28 = str "INV_MARCHE" ++ List.replicate 10 32 ++ argv2.take 8 ∧
        (argv2.take 8).length = 8 := by
  unfold mainPESTD at h
  simp only [Option.bind_eq_some] at h
  obtain ⟨s, hs, h⟩ := h
  split at h
  · rw [← Option.some.inj h]
    intro line hl
    exact absurd hl (List.not_mem_nil _)
  · rename_i hv
    obtain ⟨b1, b2, b3⟩ := accountingDate_valid argv2 s hs hv
    intro line hl
    exact ⟨mainLoopPESTD_header tabs ds ind _ _ hds hnn b1 b2 b3 records _ _ _ _ res h
      (by simp) line hl, b2⟩

theorem amountBlockPreMai_frame (fd : FieldOfRecord) (out dec : List Nat) (ws : List RecordWrite)
    (h : amountBlockPreMai fd out dec = some ws) : ∀ w ∈ ws, w.1 = fd.iFieldStartPosOutput := by
  unfold amountBlockPreMai at h
  simp only [Option.bind_eq_some, Option.map_eq_some'] at h
  obtain ⟨_, _, _, _, _, _, _, _, _, _, _, _, _, _, h⟩ := h
  rw [← h]
  intro w hw
  simp only [List.mem_singleton] at hw
  rw [hw]

theorem amountBlocksPreMai_frame (tabs : TablesPreMai) (fd : FieldOfRecord) (field : CStr)
    (out : List Nat) (loc : LocalsPreMai) (am : List Nat × List Nat × List Nat × List RecordWrite)
    (h : amountBlocksPreMai tabs fd field out loc = some am) :
    ∀ w ∈ am.2.2.2, w.1 = fd.iFieldStartPosOutput := by
  unfold amountBlocksPreMai at h
  simp only [Option.bind_eq_some, Option.map_eq_some'] at h
  obtain ⟨decImp, _, wImp, h1, decGes, _, wGes, h2, _, _, wNom, h3, h⟩ := h
  have f1 : ∀ w ∈ wImp, w.1 = fd.iFieldStartPosOutput := by
    split at h1
    · exact amountBlockPreMai_frame _ _ _ _ h1
    · rw [← Option.some.inj h1]
      simp
  have f2 : ∀ w ∈ wGes, w.1 = fd.iFieldStartPosOutput := by
    split at h2
    · exact amountBlockPreMai_frame _ _ _ _ h2
    · rw [← Option.some.inj h2]
      simp
  have f3 : ∀ w ∈ wNom, w.1 = fd.iFieldStartPosOutput := by
    split at h3
    · exact amountBlockPreMai_frame _ _ _ _ h3
    · rw [← Option.some.inj h3]
      simp
  rw [← h]
  intro w hw
  simp only [List.mem_append] at hw
  rcases hw with (hw | hw) | hw
  · exact f1 w hw
  · exact f2 w hw
  · exact f3 w hw

theorem blockCPT_IMP_frame (tabs : TablesPreMai) (ds : List FieldOfRecord) (ENTITY field : CStr)
    (loc : LocalsPreMai) (cp : LocalsPreMai × List RecordWrite)
    (h : blockCPT_IMP tabs ds ENTITY field loc = some cp) :
    ∀ w ∈ cp.2, w.1 = (ds.getD 19 blankField).iFieldStartPosOutput := by
  unfold blockCPT_IMP at h
  simp only [Option.bind_eq_some] at h
  obtain ⟨_, _, _, _, _, _, _, _, _, _, _, _, h⟩ := h
  split at h
  · simp only [Option.bind_eq_some, Option.map_eq_some'] at h
    obtain ⟨_, _, _, _, h⟩ := h
    rw [← h]
    intro w hw
    simp only [List.mem_singleton] at hw
    rw [hw]
  · rw [← Option.some.inj h]
    simp

theorem addedFieldsPreMai_frame (ds : List FieldOfRecord) (ind : IndeterminatePreMai)
    (l_iIdx : Nat) (loc : LocalsPreMai) (a : Nat × LocalsPreMai × List RecordWrite)
    (h : addedFieldsPreMai ds ind l_iIdx loc = some a) :
    ∀ w ∈ a.2.2, ∃ k, w.1 = (ds.getD k blankField).iFieldStartPosOutput := by
  unfold addedFieldsPreMai at h
  simp only [Option.bind_eq_some, Option.map_eq_some'] at h
  obtain ⟨a1, h1, a2, h2, a3, h3, h⟩ := h
  have w1 := addedFromTable_write _ _ _ _ _ _ h1
  have w2 := addedFromTable_write _ _ _ _ _ _ h2
  have w3 := addedFromTable_write _ _ _ _ _ _ h3
  rw [← h]
  intro w hw
  simp only [List.mem_cons, List.mem_nil_iff, or_false] at hw
  rcases hw with hw | hw | hw <;> rw [hw]
  · exact ⟨_, w1⟩
  · exact ⟨_, w2⟩
  · exact ⟨_, w3⟩

/-- The writes of one turn of the loop of the PreMai `Create_Output_Record`
are at the output positions of entries of the table. -/
theorem recordStepPreMai_frame (tabs : TablesPreMai) (ds : List FieldOfRecord) (ENTITY : CStr)
    (ind : IndeterminatePreMai) (rec : List Nat) (l_iIdx : Nat) (loc : LocalsPreMai)
    (r : Nat × LocalsPreMai × List RecordWrite)
    (h : recordStepPreMai tabs ds ENTITY ind rec l_iIdx loc = some r) :
    ∀ w ∈ r.2.2, ∃ k, w.1 = (ds.getD k blankField).iFieldStartPosOutput := by
  unfold recordStepPreMai at h
  simp only [Option.bind_eq_some, Option.map_eq_some'] at h
  obtain ⟨inF, _, c, hc, field, _, am, ham, loc1, _, cp, hcp, loc2, _, a, ha, hr⟩ := h
  obtain ⟨_, _, _, hcw, _⟩ := convertAndCopy_write _ _ _ _ _ hc
  have f2 := amountBlocksPreMai_frame _ _ _ _ _ _ ham
  have f3 : ∀ w ∈ cp.2, w.1 = (ds.getD 19 blankField).iFieldStartPosOutput := by
    split at hcp
    · exact blockCPT_IMP_frame _ _ _ _ _ _ hcp
    · rw [← Option.some.inj hcp]
      simp
  have f4 : ∀ w ∈ a.2.2, ∃ k, w.1 = (ds.getD k blankField).iFieldStartPosOutput := by
    split at ha
    · exact addedFieldsPreMai_frame _ _ _ _ _ ha
    · rw [← Option.some.inj ha]
      simp
  rw [← hr]
  intro w hw
  simp only [List.mem_append, List.mem_singleton] at hw
  rcases hw with ((hw | hw) | hw) | hw
  · exact ⟨l_iIdx, by rw [hw, hcw]⟩
  · exact ⟨l_iIdx, f2 w hw⟩
  · exact ⟨19, f3 w hw⟩
  · exact f4 w hw

theorem recordLoopPreMai_frame (tabs : TablesPreMai) (ds : List FieldOfRecord) (ENTITY : CStr)
    (ind : IndeterminatePreMai) (rec : List Nat) :
    ∀ (fuel l_iIdx : Nat) (loc : LocalsPreMai) (ws : List RecordWrite)
      (res : Nat × LocalsPreMai × List RecordWrite),
      recordLoopPreMai tabs ds ENTITY ind rec fuel l_iIdx loc ws = some res →
      (∀ w ∈ ws, ∃ k, w.1 = (ds.getD k blankField).iFieldStartPosOutput) →
      ∀ w ∈ res.2.2, ∃ k, w.1 = (ds.getD k blankField).iFieldStartPosOutput := by
  intro fuel
  induction fuel with
  | zero =>
    intro i loc ws res h _
    rw [recordLoopPreMai] at h
    exact absurd h (by simp)
  | succ f ih =>
    intro i loc ws res h hws
    rw [recordLoopPreMai] at h
    split at h
    · cases hs : recordStepPreMai tabs ds ENTITY ind rec i loc with
      | none =>
        rw [hs] at h
        exact absurd h (by simp)
      | some r =>
        rw [hs, Option.some_bind] at h
        refine ih r.1 r.2.1 (ws ++ r.2.2) res h ?_
        intro w hw
        rcases List.mem_append.mp hw with hw | hw
        · exact hws w hw
        · exact recordStepPreMai_frame tabs ds ENTITY ind rec i loc r hs w hw
    · rw [← Option.some.inj h]
      exact hws

theorem label_write (b b2 label : List Nat) (n : Nat) (hn : label.length = n) (hn20 : n ≤ 20)
    (hb : b.take 20 = List.replicate 20 32) (h : bufWrite b 0 label = some b2) :
    b2.take 20 = label ++ List.replicate (20 - n) 32 := by
  have s2 := bufWrite_slice _ _ _ _ h
  have s3 := bufWrite_after _ _ _ _ h
  simp only [Int.toNat_zero, List.drop_zero, Nat.zero_add] at s2 s3
  rw [hn] at s2 s3
  have e20 : 20 = n + (20 - n) := by omega
  conv_lhs => rw [e20, take_add_slice, s2, s3]
  congr 1
  have : (b.drop n).take (20 - n) = ((b.take 20).drop n).take (20 - n) := by
    rw [List.drop_take, List.take_take]
    congr 1
    omega
  rw [this, hb, List.drop_replicate, List.take_replicate]
  congr 1
  omega

/-- The PreMai `Create_Output_Record` leaves at the start of the output record
the label `CPTA_MARCHE` followed by the nine bytes that were there. -/
theorem Create_Output_Record_PreMai_label (tabs : TablesPreMai) (ds : List FieldOfRecord)
    (ENTITY : CStr) (ind : IndeterminatePreMai) (lot : LOTState) (rec o : List Nat)
    (hds : ∀ d ∈ ds, HEADER_LENGTH_PreMai ≤ d.iFieldStartPosOutput)
    (hnn : ∀ d ∈ ds, 0 ≤ d.iFieldLengthOutput) (ho : o.take 20 = List.replicate 20 32)
    (r : Int × List Nat × LOTState)
    (h : Create_Output_Record_PreMai tabs ds ENTITY ind lot rec o = some r) :
    r.2.1.take 20 = str "CPTA_MARCHE" ++ List.replicate 9 32 := by
  unfold Create_Output_Record_PreMai at h
  simp only [Option.bind_eq_some, Option.map_eq_some'] at h
  obtain ⟨wl, hwl, o1, ho1, hro⟩ := h
  unfold recordWritesPreMai at hwl
  simp only [Option.bind_eq_some] at hwl
  obtain ⟨res, hloop, datOpe, _, ae, _, idLot, _, f, _, ae3, _, lotNum, _, ecr, _, hres⟩ := hwl
  have hW := recordLoopPreMai_frame tabs ds ENTITY ind rec _ _ _ _ res hloop (by simp)
  split at hres
  · exact absurd hres (by simp)
  · have hw := congrArg Prod.fst (Option.some.inj hres)
    simp only at hw
    rw [← hw, applyWrites_append] at ho1
    simp only [Option.bind_eq_some] at ho1
    obtain ⟨oa, hoa, ho1⟩ := ho1
    have ta : oa.take 20 = o.take 20 := by
      refine applyWrites_take 20 _ o oa hoa ?_
      intro w hw
      obtain ⟨k, hk⟩ := hW w hw
      rw [hk]
      rcases getD_frame ds HEADER_LENGTH_PreMai hds k with h1 | h1
      · left
        have : (20 : Int) ≤ HEADER_LENGTH_PreMai := by decide
        have e : ((20 : Nat) : Int) = 20 := rfl
        omega
      · exact Or.inr h1
    rw [applyWrites] at ho1
    simp only [Option.bind_eq_some] at ho1
    obtain ⟨ob, hob, ho1⟩ := ho1
    have tb := label_write oa ob (str "CPTA_MARCHE") 11 (by decide) (by decide)
      (by rw [ta, ho]) hob
    have tc : o1.take 20 = ob.take 20 := by
      refine applyWrites_take 20 _ ob o1 ho1 ?_
      intro w hw
      simp only [List.mem_cons, List.mem_nil_iff, or_false] at hw
      rcases hw with hw | hw | hw | hw | hw <;> rw [hw]
      · exact Or.inl (show ((20 : Nat) : Int) ≤ HEADER_CD_CRE_LENGTH by decide)
      · exact Or.inl (show ((20 : Nat) : Int) ≤ HEADER_CD_CRE_LENGTH + 4 by decide)
      · exact Or.inl (show ((20 : Nat) : Int) ≤ HEADER_CD_CRE_LENGTH + 4 + 3 by decide)
      · exact Or.inl (show ((20 : Nat) : Int) ≤
          HEADER_CD_CRE_LENGTH + HEADER_ID_LOT_LENGTH + HEADER_ID_COMPOST_LENGTH by decide)
      · show ((20 : Nat) : Int) ≤ _ + _ ∨ _ + _ < 0
        rw [List.getD_eq_getElem?_getD]
        by_cases hk : res.1 - 1 < ds.length
        · rw [List.getElem?_eq_getElem hk]
          have h1 := hds _ (List.getElem_mem hk)
          have h2 := hnn _ (List.getElem_mem hk)
          left
          show ((20 : Nat) : Int) ≤
            (ds[res.1 - 1]).iFieldStartPosOutput + (ds[res.1 - 1]).iFieldLengthOutput
          have : (20 : Int) ≤ HEADER_LENGTH_PreMai := by decide
          have e : ((20 : Nat) : Int) = 20 := rfl
          omega
        · rw [List.getElem?_eq_none (by omega)]
          exact Or.inr (by decide)
    rw [← hro]
    show o1.take 20 = _
    rw [tc, tb]

/-- Every line written by the reading loop of the PreMai `main` starts with
the label and spaces up to 20 bytes. -/
theorem mainLoopPreMai_header (tabs : TablesPreMai) (ds : List FieldOfRecord) (ENTITY : CStr)
    (ind : Nat → IndeterminatePreMai) (L : Int)
    (hds : ∀ d ∈ ds, HEADER_LENGTH_PreMai ≤ d.iFieldStartPosOutput)
    (hnn : ∀ d ∈ ds, 0 ≤ d.iFieldLengthOutput) :
    ∀ (records : List CStr) (n : Nat) (lot : LOTState) (inb os : List Nat) (out : List CStr)
      (res : RunResult),
      mainLoopPreMai tabs ds ENTITY ind L records n lot inb os out = some res →
      (∀ line ∈ out, line.take 20 = str "CPTA_MARCHE" ++ List.replicate 9 32) →
      ∀ line ∈ res.output, line.take 20 = str "CPTA_MARCHE" ++ List.replicate 9 32 := by
  intro records
  induction records with
  | nil =>
    intro n lot inb os out res h hout
    rw [mainLoopPreMai] at h
    rw [← Option.some.inj h]
    exact hout
  | cons rec rest ih =>
    intro n lot inb os out res h hout
    rw [mainLoopPreMai] at h
    simp only [Option.bind_eq_some] at h
    obtain ⟨inb1, _, s, _, h⟩ := h
    split at h
    · split at h
      · simp only [Option.bind_eq_some] at h
        obtain ⟨h1, a1, o, a5, r, a6, h⟩ := h
        split at h
        · rw [← Option.some.inj h]
          exact hout
        · simp only [Option.bind_eq_some] at h
          obtain ⟨line, a7, h⟩ := h
          refine ih _ _ _ _ _ res h ?_
          intro l hl
          rcases List.mem_append.mp hl with hl | hl
          · exact hout l hl
          · simp only [List.mem_singleton] at hl
            rw [hl]
            have e1 : h1.take 20 = List.replicate 20 32 := by
              unfold memsetBuf at a1
              rw [if_pos (by decide)] at a1
              have s1 := bufWrite_slice _ _ _ _ a1
              rw [List.length_replicate] at s1
              simp only [Int.toNat_zero, List.drop_zero] at s1
              have : h1.take 20 = (h1.take HEADER_LENGTH_PreMai.toNat).take 20 := by
                rw [List.take_take]
                rfl
              rw [this, s1, List.take_replicate]
              rfl
            have e2 := bufWrite_take _ _ _ _ 20 a5 (by decide)
            have e4 := Create_Output_Record_PreMai_label tabs ds ENTITY (ind n) lot inb1 o hds hnn
              (by rw [e2, e1]) r a6
            have hnz : ∀ x ∈ r.2.1.take 20, x ≠ 0 := by
              rw [e4]
              intro x hx
              rcases List.mem_append.mp hx with hx | hx
              · intro h0
                rw [h0] at hx
                exact absurd hx (by decide)
              · rw [List.mem_replicate] at hx
                rw [hx.2]
                decide
            have e5 := cstrOf_take r.2.1 line 20 a7 hnz
            refine take_append_line line _ 10 20 (e5.trans e4) ?_
            simp only [List.length_append, List.length_replicate]
            decide
      · rw [← Option.some.inj h]
        exact hout
    · exact ih _ _ _ _ _ res h hout

/-- Every line written by the PreMai `main` starts with the label
`CPTA_MARCHE` and spaces up to 20 bytes. -/
theorem mainPreMai_header (tabs : TablesPreMai) (ds : List FieldOfRecord) (ENTITY : CStr)
    (ind : Nat → IndeterminatePreMai) (L : Int) (argv2 : CStr) (records : List CStr)
    (res : RunResult)
    (hds : ∀ d ∈ ds, HEADER_LENGTH_PreMai ≤ d.iFieldStartPosOutput)
    (hnn : ∀ d ∈ ds, 0 ≤ d.iFieldLengthOutput)
    (h : mainPreMai tabs ds ENTITY ind L argv2 records = some res) :
    ∀ line ∈ res.output, line.take 20 = str "CPTA_MARCHE" ++ List.replicate 9 32 := by
  unfold mainPreMai at h
  simp only [Option.bind_eq_some] at h
  obtain ⟨s, hs, h⟩ := h
  split at h
  · rw [← Option.some.inj h]
    intro line hl
    exact absurd hl (List.not_mem_nil _)
  · exact mainLoopPreMai_header tabs ds ENTITY ind L hds hnn records _ _ _ _ _ res h (by simp)

theorem bufRead_ext (a p : List Nat) (off n : Int) (x : List Nat)
    (h : bufRead a off n = some x) : bufRead (a ++ p) off n = some x := by
  obtain ⟨h0, h1, h2, hx, _⟩ := bufRead_some a off n x h
  unfold bufRead
  rw [if_pos ⟨h0, h1, by rw [List.length_append]; push_cast; omega⟩, hx]
  congr 1
  have e1 : off.toNat ≤ a.length := by omega
  rw [List.drop_append_of_le_length e1, List.take_append_of_le_length]
  rw [List.length_drop]
  omega

theorem bufWrite_ext (b q : List Nat) (off : Int) (src b1 : List Nat)
    (h : bufWrite b off src = some b1) : bufWrite (b ++ q) off src = some (b1 ++ q) := by
  obtain ⟨h0, h1, hb⟩ := bufWrite_some b off src b1 h
  unfold bufWrite
  rw [if_pos ⟨h0, by rw [List.length_append]; push_cast; omega⟩, hb]
  congr 1
  have e1 : off.toNat ≤ b.length := by omega
  have e2 : off.toNat + src.length ≤ b.length := by omega
  rw [List.take_append_of_le_length e1, List.drop_append_of_le_length e2]
  simp only [List.append_assoc]

theorem applyWrites_ext (q : List Nat) (ws : List RecordWrite) :
    ∀ (o o1 : List Nat), applyWrites o ws = some o1 →
      applyWrites (o ++ q) ws = some (o1 ++ q) := by
  induction ws with
  | nil =>
    intro o o1 h
    rw [applyWrites] at h ⊢
    rw [Option.some.inj h]
  | cons w rest ih =>
    intro o o1 h
    rw [applyWrites] at h ⊢
    simp only [Option.bind_eq_some] at h
    obtain ⟨o2, h1, h2⟩ := h
    rw [bufWrite_ext o q w.1 w.2 o2 h1, Option.some_bind]
    exact ih o2 o1 h2

theorem loadField_ext (b a p : List Nat) (off n : Int) (x : List Nat)
    (h : loadField b a off n = some x) : loadField b (a ++ p) off n = some x := by
  unfold loadField at h ⊢
  simp only [Option.bind_eq_some] at h
  obtain ⟨bytes, h1, h2⟩ := h
  rw [bufRead_ext a p off n bytes h1, Option.some_bind]
  simpa only [Option.bind_eq_some] using h2

set_option maxHeartbeats 2000000 in
/-- A step of the PESTD `Create_Output_Record` that is defined on an input
buffer is the same on a longer buffer. -/
theorem recordStepPESTD_ext (tabs : TablesPESTD) (ds : List FieldOfRecord)
    (ind : IndeterminatePESTD) (a p : List Nat) (idx : Nat) (loc : LocalsPESTD)
    (r : Nat × LocalsPESTD × List RecordWrite)
    (h : recordStepPESTD tabs ds ind a idx loc = some r) :
    recordStepPESTD tabs ds ind (a ++ p) idx loc = some r := by
  unfold recordStepPESTD at h
  simp only [Option.bind_eq_some, Option.map_eq_some'] at h
  obtain ⟨inF, h1, c, h2, field, h3, wE, h4, dec, h5, zq, h6, rest⟩ := h
  unfold recordStepPESTD
  simp only [Option.bind_eq_some, Option.map_eq_some']
  refine ⟨inF, loadField_ext _ a p _ _ inF h1, c, h2, field, h3, wE, h4, dec, h5, zq, ?_, rest⟩
  split at h6
  · rename_i hq
    rw [if_pos hq]
    simp only [Option.bind_eq_some, Option.map_eq_some'] at h6 ⊢
    obtain ⟨q, hb, h6⟩ := h6
    exact ⟨q, bufRead_ext a p _ _ q hb, h6⟩
  · rename_i hq
    rw [if_neg hq]
    exact h6

theorem recordLoopPESTD_ext (tabs : TablesPESTD) (ds : List FieldOfRecord)
    (ind : IndeterminatePESTD) (a p : List Nat) :
    ∀ (fuel idx : Nat) (loc : LocalsPESTD) (ws : List RecordWrite) (r : Nat × List RecordWrite),
      recordLoopPESTD tabs ds ind a fuel idx loc ws = some r →
      recordLoopPESTD tabs ds ind (a ++ p) fuel idx loc ws = some r := by
  intro fuel
  induction fuel with
  | zero =>
    intro idx loc ws r h
    rw [recordLoopPESTD] at h
    exact absurd h (by simp)
  | succ fuel ih =>
    intro idx loc ws r h
    rw [recordLoopPESTD] at h ⊢
    split at h
    · rename_i hn
      rw [if_pos hn]
      simp only [Option.bind_eq_some] at h
      obtain ⟨s, hs, h⟩ := h
      rw [recordStepPESTD_ext tabs ds ind a p idx loc s hs, Option.some_bind]
      exact ih _ _ _ r h
    · rename_i hn
      rw [if_neg hn]
      exact h

/-- The PESTD `Create_Output_Record`, when it is defined on an input buffer
and an output buffer, gives the same result on longer buffers: the bytes
added to the output buffer are left as they are. -/
theorem Create_Output_Record_PESTD_ext (tabs : TablesPESTD) (ds : List FieldOfRecord)
    (ind : IndeterminatePESTD) (a p o q : List Nat) (r : Int × List Nat)
    (h : Create_Output_Record_PESTD tabs ds ind a o = some r) :
    Create_Output_Record_PESTD tabs ds ind (a ++ p) (o ++ q) = some (r.1, r.2 ++ q) := by
  unfold Create_Output_Record_PESTD recordWritesPESTD at h ⊢
  simp only [Option.bind_eq_some, Option.map_eq_some'] at h
  obtain ⟨ws, ⟨l, hl, hw⟩, o1, ho, hr⟩ := h
  rw [recordLoopPESTD_ext tabs ds ind a p _ _ _ _ l hl, Option.some_bind, hw, Option.some_bind,
    applyWrites_ext q ws o o1 ho, ← hr]
  rfl

theorem replicate_split (K n : Nat) (c : Nat) (h : n ≤ K) :
    List.replicate K c = List.replicate n c ++ List.replicate (K - n) c := by
  rw [← List.replicate_add]
  congr 1
  omega

theorem bufWrite_fill (K : Nat) (c : Nat) (src : List Nat) (h : src.length ≤ K) :
    bufWrite (List.replicate K c) 0 src = some (src ++ List.replicate (K - src.length) c) := by
  rw [replicate_split K src.length c h]
  exact bufWrite_mid [] (List.replicate src.length c) (List.replicate (K - src.length) c) src 0
    rfl (List.length_replicate _ _)

/-- The PESTD `main` on a file of one record: when the second argument is
accepted and `Create_Output_Record`, on the record in its buffer and on the
header followed by spaces, returns EXIT_OK with a NUL after `line`, the run
writes `line` and returns at the end of `main`. -/
theorem mainPESTD_single (tabs : TablesPESTD) (ds : List FieldOfRecord)
    (ind : Nat → IndeterminatePESTD) (argv2 rec d d8 line rest : List Nat) (k : Nat)
    (hd : cstrOf (accountingDate argv2) = some d) (hv : isValidInputDate d ≠ 0)
    (hd8 : bufRead (accountingDate argv2) 0 DATE_LENGTH = some d8) (hl8 : d8.length = 8)
    (hrec0 : 0 ∉ rec) (hrec1 : rec.length > 1)
    (hrec2 : rec.length + 1 ≤ MAX_INPUT_REC_LENGTH_PESTD)
    (hk : k ≤ MAX_INPUT_REC_LENGTH_PESTD + 11 * 12)
    (hrun : Create_Output_Record_PESTD tabs ds (ind 0) (rec ++ [0])
      (str "INV_MARCHE" ++ List.replicate 10 32 ++ d8 ++ List.replicate 127 32 ++
        List.replicate k 32) = some (EXIT_OK, line ++ 0 :: rest))
    (hline : 0 ∉ line) :
    mainPESTD tabs ds ind argv2 [rec] = some ⟨none, [line ++ [10]]⟩ := by
  unfold mainPESTD
  rw [hd, Option.some_bind, if_neg hv, mainLoopPESTD]
  have hK : MAX_INPUT_REC_LENGTH_PESTD = 3500 := rfl
  -- the record in its buffer
  have w1 := bufWrite_fill MAX_INPUT_REC_LENGTH_PESTD 0 (rec ++ [0])
    (by rw [List.length_append]; exact hrec2)
  rw [w1, Option.some_bind]
  have c1 : cstrOf (rec ++ [0] ++
      List.replicate (MAX_INPUT_REC_LENGTH_PESTD - (rec ++ [0]).length) 0) = some rec := by
    rw [List.append_assoc, List.singleton_append]
    exact cstrOf_terminated rec _ hrec0
  rw [c1, Option.some_bind, if_pos hrec1]
  -- the header
  have m1 : memsetBuf (List.replicate (155 + (MAX_INPUT_REC_LENGTH_PESTD + 11 * 12)) 0) 32
      HEADER_LENGTH_PESTD =
      some (List.replicate 155 32 ++ List.replicate (MAX_INPUT_REC_LENGTH_PESTD + 11 * 12) 0) := by
    unfold memsetBuf
    rw [if_pos (by decide)]
    have t : HEADER_LENGTH_PESTD.toNat = 155 := by decide
    rw [t, replicate_split (155 + (MAX_INPUT_REC_LENGTH_PESTD + 11 * 12)) 155 0 (by omega),
      Nat.add_sub_cancel_left]
    exact bufWrite_mid [] (List.replicate 155 0) _ (List.replicate 155 32) 0 rfl
      (by rw [List.length_replicate, List.length_replicate])
  rw [m1, Option.some_bind]
  have s155 : List.replicate 155 (32 : Nat) =
      List.replicate 10 32 ++ (List.replicate 10 32 ++ (List.replicate 8 32 ++
        List.replicate 127 32)) := by
    rw [← List.replicate_add, ← List.replicate_add, ← List.replicate_add]
  have m2 : bufWrite (List.replicate 155 32 ++
      List.replicate (MAX_INPUT_REC_LENGTH_PESTD + 11 * 12) 0) 0 (str "INV_MARCHE") =
      some (str "INV_MARCHE" ++ (List.replicate 10 32 ++ (List.replicate 8 32 ++
        List.replicate 127 32) ++ List.replicate (MAX_INPUT_REC_LENGTH_PESTD + 11 * 12) 0)) := by
    rw [s155, List.append_assoc]
    exact bufWrite_mid [] (List.replicate 10 32) _ (str "INV_MARCHE") 0 rfl (by decide)
  rw [m2, Option.some_bind, hd8, Option.some_bind]
  have m3 : bufWrite (str "INV_MARCHE" ++ (List.replicate 10 32 ++ (List.replicate 8 32 ++
        List.replicate 127 32) ++ List.replicate (MAX_INPUT_REC_LENGTH_PESTD + 11 * 12) 0))
      HEADER_MVT_LABEL_LENGTH d8 =
      some ((str "INV_MARCHE" ++ List.replicate 10 32) ++ d8 ++ (List.replicate 127 32 ++
        List.replicate (MAX_INPUT_REC_LENGTH_PESTD + 11 * 12) 0)) := by
    have e : str "INV_MARCHE" ++ (List.replicate 10 32 ++ (List.replicate 8 32 ++
        List.replicate 127 32) ++ List.replicate (MAX_INPUT_REC_LENGTH_PESTD + 11 * 12) 0) =
        (str "INV_MARCHE" ++ List.replicate 10 32) ++ List.replicate 8 32 ++
          (List.replicate 127 32 ++
            List.replicate (MAX_INPUT_REC_LENGTH_PESTD + 11 * 12) 0) := by
      simp only [List.append_assoc]
    rw [e]
    exact bufWrite_mid _ (List.replicate 8 32) _ d8 _ (by decide)
      (by rw [List.length_replicate, hl8])
  rw [m3, Option.some_bind]
  have m4 : bufWrite ((str "INV_MARCHE" ++ List.replicate 10 32) ++ d8 ++
      (List.replicate 127 32 ++ List.replicate (MAX_INPUT_REC_LENGTH_PESTD + 11 * 12) 0))
      HEADER_LENGTH_PESTD (List.replicate (MAX_INPUT_REC_LENGTH_PESTD + 11 * 12) 32) =
      some ((str "INV_MARCHE" ++ List.replicate 10 32 ++ d8 ++ List.replicate 127 32 ++
        List.replicate k 32) ++
        List.replicate (MAX_INPUT_REC_LENGTH_PESTD + 11 * 12 - k) 32) := by
    have e : (str "INV_MARCHE" ++ List.replicate 10 32) ++ d8 ++
        (List.replicate 127 32 ++ List.replicate (MAX_INPUT_REC_LENGTH_PESTD + 11 * 12) 0) =
        (str "INV_MARCHE" ++ List.replicate 10 32 ++ d8 ++ List.replicate 127 32) ++
          List.replicate (MAX_INPUT_REC_LENGTH_PESTD + 11 * 12) 0 ++ [] := by
      simp only [List.append_assoc, List.append_nil]
    have e2 : (str "INV_MARCHE" ++ List.replicate 10 32 ++ d8 ++ List.replicate 127 32 ++
        List.replicate k 32) ++
        List.replicate (MAX_INPUT_REC_LENGTH_PESTD + 11 * 12 - k) 32 =
        (str "INV_MARCHE" ++ List.replicate 10 32 ++ d8 ++ List.replicate 127 32) ++
          List.replicate (MAX_INPUT_REC_LENGTH_PESTD + 11 * 12) 32 ++ [] := by
      rw [replicate_split (MAX_INPUT_REC_LENGTH_PESTD + 11 * 12) k 32 hk]
      simp only [List.append_assoc, List.append_nil]
    rw [e, e2]
    refine bufWrite_mid _ _ [] _ _ ?_ (by rw [List.length_replicate, List.length_replicate])
    simp only [List.length_append, List.length_replicate, hl8]
    decide
  rw [m4, Option.some_bind]
  -- the record
  have r1 := Create_Output_Record_PESTD_ext tabs ds (ind 0) (rec ++ [0])
    (List.replicate (MAX_INPUT_REC_LENGTH_PESTD - (rec ++ [0]).length) 0) _
    (List.replicate (MAX_INPUT_REC_LENGTH_PESTD + 11 * 12 - k) 32) _ hrun
  rw [r1, Option.some_bind, if_neg (show ¬ EXIT_OK = EXIT_ERR by decide)]
  have c2 : cstrOf ((line ++ 0 :: rest) ++
      List.replicate (MAX_INPUT_REC_LENGTH_PESTD + 11 * 12 - k) 32) = some line := by
    rw [List.append_assoc, List.cons_append]
    exact cstrOf_terminated line _ hline
  show (cstrOf ((line ++ 0 :: rest) ++
      List.replicate (MAX_INPUT_REC_LENGTH_PESTD + 11 * 12 - k) 32)).bind _ = _
  rw [c2, Option.some_bind, mainLoopPESTD]
  rfl

set_option maxRecDepth 1000000 in
set_option maxHeartbeats 4000000 in
theorem sampleLinePESTD_record :
    Create_Output_Record_PESTD emptyTablesPESTD sampleFieldsPESTD sampleIndeterminatePESTD
      (sampleLinePESTD ++ [0])
      (str "INV_MARCHE" ++ List.replicate 10 32 ++ str "20231231" ++ List.replicate 127 32 ++
        List.replicate 45 32) =
      some (EXIT_OK, (str "INV_MARCHE          20231231" ++ List.replicate 127 32 ++
        str "XYZ########################3-0012") ++ 0 :: List.replicate 11 32) := by decide

set_option maxRecDepth 1000000 in
/-- A run of the PESTD `main` with the table built from `sampleConfPESTD`, the
accounting date `20231231` and the line `sampleLinePESTD`: one line is
written, with the label, the accounting date at offset 20 and the fields from
offset 155. -/
theorem sampleLinePESTD_run :
    mainPESTD emptyTablesPESTD sampleFieldsPESTD (fun _ => sampleIndeterminatePESTD)
      (str "20231231") [sampleLinePESTD] = some ⟨none, [sampleOutputPESTD]⟩ := by
  have h := mainPESTD_single emptyTablesPESTD sampleFieldsPESTD
    (fun _ => sampleIndeterminatePESTD) (str "20231231") sampleLinePESTD (str "20231231")
    (str "20231231")
    (str "INV_MARCHE          20231231" ++ List.replicate 127 32 ++
      str "XYZ########################3-0012") (List.replicate 11 32) 45
    (by decide) (by decide) (by decide) (by decide) (by decide) (by decide) (by decide)
    (by decide) sampleLinePESTD_record (by decide)
  rw [h]
  decide

/-- The PreMai `main` only checks its second argument: two arguments that
pass the check of the date give the same run. -/
theorem mainPreMai_date_unused (tabs : TablesPreMai) (ds : List FieldOfRecord) (ENTITY : CStr)
    (ind : Nat → IndeterminatePreMai) (L : Int) (argv2 argv2b d db : CStr)
    (records : List CStr)
    (h1 : cstrOf (accountingDate argv2) = some d) (v1 : isValidInputDate d ≠ 0)
    (h2 : cstrOf (accountingDate argv2b) = some db) (v2 : isValidInputDate db ≠ 0) :
    mainPreMai tabs ds ENTITY ind L argv2 records =
      mainPreMai tabs ds ENTITY ind L argv2b records := by
  unfold mainPreMai
  rw [h1, h2, Option.some_bind, Option.some_bind, if_neg v1, if_neg v2]

/-- C29. For every configuration of PESTD and of PreMai whose handled records
have the three fields name, format and a non-negative length, with the tables
that `BuildOutputRecordFormat` builds from them: every line written by the
PESTD `main` starts with `INV_MARCHE` followed by spaces up to 20 bytes, and
has at offset 20 the first eight characters of the second argument, which has
at least eight characters; every line written by the PreMai `main` starts with
`CPTA_MARCHE` followed by spaces up to 20 bytes, and the PreMai `main` only
checks the accounting date: two second arguments that pass the check give the
same returned value and the same lines. -/
theorem header_label_and_date (confPESTD confPreMai : List CStr)
    (hP : ∀ rec ∈ confPESTD, ConfRecordOk rec) (hM : ∀ rec ∈ confPreMai, ConfRecordOk rec) :
    (∃ ds, BuildOutputRecordFormat_PESTD confPESTD = some ds ∧
      ∀ (tabs : TablesPESTD) (ind : Nat → IndeterminatePESTD) (argv2 : CStr)
        (records : List CStr) (res : RunResult),
        mainPESTD tabs ds ind argv2 records = some res →
        ∀ line ∈ res.output, line.take 20 = str "INV_MARCHE          " ∧
          (line.drop 20).take 8 = argv2.take 8 ∧ (argv2.take 8).length = 8) ∧
    (∃ ds len, BuildOutputRecordFormat_PreMai confPreMai = some (ds, len) ∧
      (∀ (tabs : TablesPreMai) (ENTITY : CStr) (ind : Nat → IndeterminatePreMai) (argv2 : CStr)
        (records : List CStr) (res : RunResult),
        mainPreMai tabs ds ENTITY ind len argv2 records = some res →
        ∀ line ∈ res.output, line.take 20 = str "CPTA_MARCHE         ") ∧
      (∀ (tabs : TablesPreMai) (ENTITY : CStr) (ind : Nat → IndeterminatePreMai)
        (argv2 argv2b d db : CStr) (records : List CStr),
        cstrOf (accountingDate argv2) = some d → isValidInputDate d ≠ 0 →
        cstrOf (accountingDate argv2b) = some db → isValidInputDate db ≠ 0 →
        mainPreMai tabs ds ENTITY ind len argv2 records =
          mainPreMai tabs ds ENTITY ind len argv2b records)) := by
  constructor
  · obtain ⟨ds, _, b1, _, _, _, _, _, b7, b8⟩ := BuildOutputRecordFormat_PESTD_typed confPESTD hP
    refine ⟨ds, b1, ?_⟩
    intro tabs ind argv2 records res h line hl
    obtain ⟨h28, h8⟩ := mainPESTD_header tabs ds ind argv2 records res b8 b7 h line hl
    have hlab : (str "INV_MARCHE" ++ List.replicate 10 32).length = 20 := by decide
    have e1 : line.take 20 = (line.take 28).take 20 := by
      rw [List.take_take]
      rfl
    have e2 : (line.drop 20).take 8 = (line.take 28).drop 20 := by
      rw [List.drop_take]
    refine ⟨?_, ?_, h8⟩
    · rw [e1, h28, List.take_append_of_le_length (by rw [hlab]), List.take_of_length_le
        (by rw [hlab])]
      decide
    · rw [e2, h28, List.drop_append_of_le_length (by rw [hlab]), List.drop_of_length_le
        (by rw [hlab])]
      rfl
  · obtain ⟨ds, len, b1, b2, b3⟩ := BuildOutputRecordFormat_PreMai_lower confPreMai hM
    refine ⟨ds, len, b1, ?_, ?_⟩
    · intro tabs ENTITY ind argv2 records res h line hl
      rw [mainPreMai_header tabs ds ENTITY ind len argv2 records res b3 b2 h line hl]
      decide
    · intro tabs ENTITY ind argv2 argv2b d db records h1 v1 h2 v2
      exact mainPreMai_date_unused tabs ds ENTITY ind len argv2 argv2b d db records h1 v1 h2 v2

set_option maxRecDepth 1000000 in
set_option maxHeartbeats 4000000 in
theorem sampleLinePreMai_run :
    mainPreMai emptyTablesPreMai sampleFieldsPreMai (str "CA")
      (fun _ => sampleIndeterminatePreMai) 39 (str "20231231") [sampleLinePreMai] =
      some ⟨none, [sampleOutputPreMai]⟩ := by decide

set_option maxRecDepth 1000000 in
/-- Witness of C29: the configurations `sampleConfPESTD` and
`sampleConfPreMai`, with a run of each program on one line: the line written
by PESTD has the accounting date `20231231` at offset 20, the one written by
PreMai is the same for the accounting dates `20231231` and `20240229`. -/
theorem header_label_and_date_witness :
    (∀ rec ∈ sampleConfPESTD, ConfRecordOk rec) ∧ (∀ rec ∈ sampleConfPreMai, ConfRecordOk rec) ∧
    ((∃ ds, BuildOutputRecordFormat_PESTD sampleConfPESTD = some ds ∧
      ∀ (tabs : TablesPESTD) (ind : Nat → IndeterminatePESTD) (argv2 : CStr)
        (records : List CStr) (res : RunResult),
        mainPESTD tabs ds ind argv2 records = some res →
        ∀ line ∈ res.output, line.take 20 = str "INV_MARCHE          " ∧
          (line.drop 20).take 8 = argv2.take 8 ∧ (argv2.take 8).length = 8) ∧
    (∃ ds len, BuildOutputRecordFormat_PreMai sampleConfPreMai = some (ds, len) ∧
      (∀ (tabs : TablesPreMai) (ENTITY : CStr) (ind : Nat → IndeterminatePreMai) (argv2 : CStr)
        (records : List CStr) (res : RunResult),
        mainPreMai tabs ds ENTITY ind len argv2 records = some res →
        ∀ line ∈ res.output, line.take 20 = str "CPTA_MARCHE         ") ∧
      (∀ (tabs : TablesPreMai) (ENTITY : CStr) (ind : Nat → IndeterminatePreMai)
        (argv2 argv2b d db : CStr) (records : List CStr),
        cstrOf (accountingDate argv2) = some d → isValidInputDate d ≠ 0 →
        cstrOf (accountingDate argv2b) = some db → isValidInputDate db ≠ 0 →
        mainPreMai tabs ds ENTITY ind len argv2 records =
          mainPreMai tabs ds ENTITY ind len argv2b records))) ∧
    BuildOutputRecordFormat_PESTD sampleConfPESTD = some sampleFieldsPESTD ∧
    mainPESTD emptyTablesPESTD sampleFieldsPESTD (fun _ => sampleIndeterminatePESTD)
      (str "20231231") [sampleLinePESTD] = some ⟨none, [sampleOutputPESTD]⟩ ∧
    sampleOutputPESTD.take 20 = str "INV_MARCHE          " ∧
    (sampleOutputPESTD.drop 20).take 8 = str "20231231" ∧
    BuildOutputRecordFormat_PreMai sampleConfPreMai = some (sampleFieldsPreMai, 39) ∧
    mainPreMai emptyTablesPreMai sampleFieldsPreMai (str "CA")
      (fun _ => sampleIndeterminatePreMai) 39 (str "20231231") [sampleLinePreMai] =
      some ⟨none, [sampleOutputPreMai]⟩ ∧
    mainPreMai emptyTablesPreMai sampleFieldsPreMai (str "CA")
      (fun _ => sampleIndeterminatePreMai) 39 (str "20240229") [sampleLinePreMai] =
      some ⟨none, [sampleOutputPreMai]⟩ ∧
    sampleOutputPreMai.take 20 = str "CPTA_MARCHE         " :=
  ⟨sampleConfPESTD_ok, sampleConfPreMai_ok,
    header_label_and_date sampleConfPESTD sampleConfPreMai sampleConfPESTD_ok sampleConfPreMai_ok,
    sampleConfPESTD_built, sampleLinePESTD_run, by decide, by decide, sampleConfPreMai_built,
    sampleLinePreMai_run,
    (mainPreMai_date_unused emptyTablesPreMai sampleFieldsPreMai (str "CA")
      (fun _ => sampleIndeterminatePreMai) 39 (str "20240229") (str "20231231")
      (str "20240229") (str "20231231") [sampleLinePreMai] (by decide) (by decide) (by decide)
      (by decide)).trans sampleLinePreMai_run,
    by decide⟩

set_option maxRecDepth 1000000 in
/-- C29, the claim as first stated fails for PreMai: with the configuration
`sampleConfPreMai` and the accounting date `20231231`, the line written for
an input line whose date of operation is `20240131` does not hold the
accounting date anywhere; its bytes 20 to 23 are the first four characters of
the date of operation. -/
theorem header_date_counterexample :
    BuildOutputRecordFormat_PreMai sampleConfPreMai = some (sampleFieldsPreMai, 39) ∧
    mainPreMai emptyTablesPreMai sampleFieldsPreMai (str "CA")
      (fun _ => sampleIndeterminatePreMai) 39 (str "20231231") [sampleLinePreMai] =
      some ⟨none, [sampleOutputPreMai]⟩ ∧
    occursIn (str "20231231") sampleOutputPreMai = false ∧
    (sampleOutputPreMai.drop 20).take 4 = str "2024" :=
  ⟨sampleConfPreMai_built, sampleLinePreMai_run, by decide, by decide⟩


/-! ### Trim and LZTrim -/

theorem LZTrim_eq (s : CStr) : LZTrim s = s.dropWhile (fun c => decide (c = 48)) := by
  have hd := drop_scanLeft 48 s
  have hl := scanLeft_le 48 s
  unfold LZTrim
  by_cases h0 : s.length ≠ 0
  · simp only [h0, ne_eq, not_false_eq_true, if_true]
    by_cases h1 : (scanLeft 48 s : Int) ≤ (s.length : Int) - 1
    · rw [if_pos h1]
      exact hd
    · rw [if_neg h1]
      have : scanLeft 48 s = s.length := by omega
      rw [this, List.drop_length] at hd
      exact hd
  · have : s = [] := List.length_eq_zero.mp (by omega)
    subst this
    rfl

theorem stripSpaces_split (s : CStr) :
    ∃ pre suf, s = pre ++ stripSpaces s ++ suf ∧ (∀ c ∈ pre, c = 32) ∧ (∀ c ∈ suf, c = 32) := by
  have h1 : s = s.takeWhile isSpaceChar ++ s.dropWhile isSpaceChar :=
    (List.takeWhile_append_dropWhile isSpaceChar s).symm
  have h2 : s.dropWhile isSpaceChar =
      (s.dropWhile isSpaceChar).rdropWhile isSpaceChar ++
        (s.dropWhile isSpaceChar).rtakeWhile isSpaceChar := by
    unfold List.rdropWhile List.rtakeWhile
    rw [← List.reverse_append, List.takeWhile_append_dropWhile, List.reverse_reverse]
  refine ⟨s.takeWhile isSpaceChar, (s.dropWhile isSpaceChar).rtakeWhile isSpaceChar, ?_, ?_, ?_⟩
  · unfold stripSpaces
    rw [List.append_assoc, ← h2, ← h1]
  · intro c hc
    have := List.mem_takeWhile_imp hc
    simpa [isSpaceChar] using this
  · intro c hc
    unfold List.rtakeWhile at hc
    rw [List.mem_reverse] at hc
    have := List.mem_takeWhile_imp hc
    simpa [isSpaceChar] using this

theorem stripSpaces_head (s : CStr) : (stripSpaces s).head? ≠ some 32 := by
  intro h
  have hp : stripSpaces s <+: s.dropWhile isSpaceChar := List.rdropWhile_prefix _ _
  obtain ⟨t, ht⟩ := hp
  have hh := List.head?_dropWhile_not isSpaceChar s
  rw [← ht] at hh
  cases hs : stripSpaces s with
  | nil =>
    rw [hs] at h
    exact absurd h (by simp)
  | cons a l =>
    rw [hs] at h hh
    simp only [List.head?_cons, Option.some.injEq] at h
    rw [h] at hh
    simp [isSpaceChar] at hh

theorem stripSpaces_last (s : CStr) : (stripSpaces s).getLast? ≠ some 32 := by
  intro h
  have hne : stripSpaces s ≠ [] := by
    intro e
    rw [e] at h
    exact absurd h (by simp)
  have := List.rdropWhile_last_not isSpaceChar (s.dropWhile isSpaceChar) hne
  rw [List.getLast?_eq_getLast _ hne] at h
  have e := Option.some.inj h
  apply this
  show isSpaceChar ((stripSpaces s).getLast hne) = true
  rw [e]
  rfl

theorem stripSpaces_idem (s : CStr) : stripSpaces (stripSpaces s) = stripSpaces s := by
  have h1 : (stripSpaces s).dropWhile isSpaceChar = stripSpaces s := by
    rw [List.dropWhile_eq_self_iff]
    intro hl
    have hh := stripSpaces_head s
    intro hp
    apply hh
    cases hs : stripSpaces s with
    | nil =>
      rw [hs] at hl
      simp at hl
    | cons a l =>
      simp only [hs, List.get_eq_getElem, List.getElem_cons_zero] at hp
      have : a = 32 := by simpa [isSpaceChar] using hp
      rw [this]
      rfl
  have h2 : (stripSpaces s).rdropWhile isSpaceChar = stripSpaces s :=
    List.rdropWhile_idempotent _ _
  have e : stripSpaces (stripSpaces s) =
      ((stripSpaces s).dropWhile isSpaceChar).rdropWhile isSpaceChar := rfl
  rw [e, h1, h2]

/-- C40. For every string `s`, `Trim(s)` is `s` without its longest run of
spaces at the left and, of what is left, its longest run of spaces at the
right: `s` is spaces, then `Trim(s)` unchanged, then spaces; `Trim(s)` neither
starts nor ends with a space; it is empty for a string made of spaces only
(the empty string included); `Trim(Trim(s)) = Trim(s)`.  `LZTrim(s)` is `s`
without its longest run of `'0'` at the left, and is empty for a string made
of `'0'` only. -/
theorem Trim_removes_surrounding_spaces (s : CStr) :
    Trim s = (s.dropWhile (fun c => decide (c = 32))).rdropWhile (fun c => decide (c = 32)) ∧
    (∃ pre suf, s = pre ++ Trim s ++ suf ∧ (∀ c ∈ pre, c = 32) ∧ (∀ c ∈ suf, c = 32)) ∧
    (Trim s).head? ≠ some 32 ∧ (Trim s).getLast? ≠ some 32 ∧
    (∀ n, Trim (List.replicate n 32) = []) ∧
    Trim (Trim s) = Trim s ∧
    LZTrim s = s.dropWhile (fun c => decide (c = 48)) ∧
    (LZTrim s).head? ≠ some 48 ∧
    (∀ n, LZTrim (List.replicate n 48) = []) := by
  refine ⟨Trim_eq_stripSpaces s, ?_, ?_, ?_, ?_, ?_, LZTrim_eq s, ?_, ?_⟩
  · rw [Trim_eq_stripSpaces]
    exact stripSpaces_split s
  · rw [Trim_eq_stripSpaces]
    exact stripSpaces_head s
  · rw [Trim_eq_stripSpaces]
    exact stripSpaces_last s
  · intro n
    exact Trim_blank _ (fun c hc => (List.mem_replicate.mp hc).2)
  · rw [Trim_eq_stripSpaces, Trim_eq_stripSpaces, stripSpaces_idem]
  · rw [LZTrim_eq]
    intro h
    have hh := List.head?_dropWhile_not (fun c => decide (c = 48)) s
    rw [h] at hh
    simp at hh
  · intro n
    rw [LZTrim_eq, List.dropWhile_eq_nil_iff]
    intro x hx
    simp [(List.mem_replicate.mp hx).2]

/-- Examples for C40. -/
theorem Trim_examples :
    Trim (str "  a b  ") = str "a b" ∧ Trim (str "    ") = [] ∧ Trim [] = [] ∧
    LZTrim (str "00120") = str "120" ∧ LZTrim (str "000") = [] := by decide

/-! ### The hash value as a recurrence -/

theorem digitSum_of_le (l : List Nat) :
    ∀ m n : Nat, l.length ≤ m → l.length ≤ n → digitSum l m = digitSum l n := by
  induction l with
  | nil => intro m n _ _; simp [digitSum]
  | cons c rest ih =>
    intro m n hm hn
    cases m with
    | zero => simp at hm
    | succ m =>
      cases n with
      | zero => simp at hn
      | succ n =>
        rw [digitSum, digitSum, ih m n (by simpa using hm) (by simpa using hn)]

theorem digitSum_spaces (k : Nat) : ∀ m : Nat, digitSum (List.replicate k 32) m = 0 := by
  induction k with
  | zero => intro m; rfl
  | succ k ihk =>
    intro m
    cases m with
    | zero => rfl
    | succ m =>
      rw [List.replicate_succ, digitSum, ihk m]
      rfl

theorem digitSum_append_spaces (l : List Nat) (k : Nat) :
    ∀ m : Nat, digitSum (l ++ List.replicate k 32) m = digitSum l m := by
  induction l with
  | nil =>
    intro m
    rw [List.nil_append, digitSum_spaces]
    cases m <;> rfl
  | cons c rest ih =>
    intro m
    cases m with
    | zero => rfl
    | succ m => rw [List.cons_append, digitSum, digitSum, ih m]

/-- The hash value of a key of fewer than 18 characters followed by one more
character. -/
theorem BuildHashKey_snoc (s : CStr) (c size : Nat) (hs : s.length < 18) :
    (BuildHashKey (s ++ [c]) size).2 =
      wrapLL (10 * (BuildHashKey s size).2 + hashDigit c) := by
  rw [BuildHashKey_hash_eq, BuildHashKey_hash_eq, List.reverse_append, List.reverse_singleton,
    List.singleton_append, digitSum,
    digitSum_of_le s.reverse 17 18 (by simp; omega) (by simp; omega)]
  apply wrapLL_congr
  have := wrapLL_modEq (digitSum s.reverse 18)
  calc hashDigit c + 10 * digitSum s.reverse 18
      = 10 * digitSum s.reverse 18 + hashDigit c := by ring
    _ ≡ 10 * wrapLL (digitSum s.reverse 18) + hashDigit c [ZMOD 18446744073709551616] :=
        ((this.symm.mul_left 10).add_right _)

theorem BuildHashKey_spaces (s : CStr) (k size : Nat) :
    BuildHashKey (List.replicate k 32 ++ s) size = BuildHashKey s size := by
  have h2 : (BuildHashKey (List.replicate k 32 ++ s) size).2 = (BuildHashKey s size).2 := by
    rw [BuildHashKey_hash_eq, BuildHashKey_hash_eq, List.reverse_append, List.reverse_replicate,
      digitSum_append_spaces]
  have h1 : (BuildHashKey (List.replicate k 32 ++ s) size).1 = (BuildHashKey s size).1 := by
    rw [BuildHashKey_pos_eq, BuildHashKey_pos_eq, h2]
  exact Prod.ext h1 h2

/-- C37. For every key `s` of fewer than 18 characters and every character
`c`, the hash value of `s` followed by `c` is `10 * hash(s) + adj(c)` reduced
to 64 bits, where `adj(c)` is `c` when the `char` `c` is below `' '` and
`c - ' '` otherwise (the `adj` of the description for every ASCII character);
the hash value of the empty key is 0; and a key of fewer than 18 characters
with spaces before it has the hash value and the position of the key alone,
for every table size. -/
theorem hash_horner_recurrence (s : CStr) (c size : Nat) (hs : s.length < 18) :
    (BuildHashKey (s ++ [c]) size).2 =
      wrapLL (10 * (BuildHashKey s size).2 + hashDigit c) ∧
    (hashDigit c = if charVal c < 32 then charVal c else charVal c - 32) ∧
    (c < 128 → hashDigit c = adj c) ∧
    (BuildHashKey [] size).2 = 0 ∧
    ∀ k, BuildHashKey (List.replicate k 32 ++ s) size = BuildHashKey s size := by
  exact ⟨BuildHashKey_snoc s c size hs, rfl, fun h => hashDigit_eq_adj h, rfl,
    fun k => BuildHashKey_spaces s k size⟩

set_option maxRecDepth 100000 in
theorem hash_horner_recurrence_witness :
    (str "EU").length < 18 ∧
    ((BuildHashKey (str "EU" ++ [82]) 50).2 =
      wrapLL (10 * (BuildHashKey (str "EU") 50).2 + hashDigit 82) ∧
    (hashDigit 82 = if charVal 82 < 32 then charVal 82 else charVal 82 - 32) ∧
    (82 < 128 → hashDigit 82 = adj 82) ∧
    (BuildHashKey [] 50).2 = 0 ∧
    ∀ k, BuildHashKey (List.replicate k 32 ++ str "EU") 50 = BuildHashKey (str "EU") 50) :=
  ⟨by decide, hash_horner_recurrence (str "EU") 82 50 (by decide)⟩

set_option maxRecDepth 100000 in
/-- Examples for C37: the hash values of `EU` and `EUR`, and of `EUR` after
two spaces. -/
theorem hash_horner_examples :
    (BuildHashKey (str "EU") 50).2 = 423 ∧ (BuildHashKey (str "EUR") 50).2 = 4280 ∧
    (BuildHashKey (str "  EUR") 50).2 = 4280 := by decide

/-! ### Blank numeric fields -/

theorem blank_find_minus (f : CStr) (hb : ∀ c ∈ f.eraseP isSignChar, c = 32) :
    f.find? isSignChar = some 45 ↔ 45 ∈ f := by
  constructor
  · intro h
    exact List.mem_of_find?_eq_some h
  · intro hm
    cases hf : f.find? isSignChar with
    | none =>
      have := List.find?_eq_none.mp hf 45 hm
      exact absurd rfl this
    | some c =>
      by_cases hc : c = 45
      · rw [hc]
      · have := hb 45 (mem_eraseP_of_ne 45 c f hf hm (fun h => hc h.symm))
        exact absurd this (by decide)

/-- A field made of spaces, with at most one sign, is numeric with no
digit. -/
theorem isNumeric_blank (f : CStr) (hne : f ≠ [])
    (hb : ∀ c ∈ f.eraseP isSignChar, c = 32) :
    isNumeric f 0 = (TRUE, [], if 45 ∈ f then -1 else 1) := by
  have hr : numericRemainder f = [] := by
    unfold numericRemainder deleteFirstSign
    rw [← Trim_eq_stripSpaces]
    exact Trim_blank _ hb
  rw [isNumeric_eq f hne 0, hr]
  simp only [List.all_nil, if_true]
  unfold describedSign
  by_cases h : (45 : Nat) ∈ f
  · rw [if_pos ((blank_find_minus f hb).mpr h), if_pos h]
  · rw [if_neg (fun hh => h ((blank_find_minus f hb).mp hh)), if_neg h]

/-- C38. For every non-empty field that is made of spaces only once its first
`'+'` or `'-'`, if any, is deleted (spaces, with at most one sign among
them), `isNumeric` returns TRUE with an empty string of digits and the sign -1
when the field holds a `'-'`, +1 otherwise; and `Convert_InputField` with the
format entierZG and an output length `W` leaves `W` characters `'0'` in the
output field. -/
theorem blank_field_is_numeric (f : CStr) (hne : f ≠ [])
    (hb : ∀ c ∈ f.eraseP isSignChar, c = 32) (fd : FieldOfRecord) (uninit o : List Nat)
    (W : Nat) (hfmt : fd.iFieldFormat = enumFieldFormat.entierZG)
    (hW : fd.iFieldLengthOutput = (W : Int)) (hbuf : W ≤ o.length) :
    isNumeric f 0 = (TRUE, [], if 45 ∈ f then -1 else 1) ∧
    ∃ o', Convert_InputField fd f uninit o = some o' ∧
      outputField fd o' = List.replicate W 48 := by
  have hn := isNumeric_blank f hne hb
  refine ⟨hn, ?_⟩
  have hacc : (isNumeric f 0).1 = TRUE := by rw [hn]
  have hd : (isNumeric f 0).2.1 = [] := by rw [hn]
  have hc := Convert_unsigned_buffer fd f uninit o W 48 (Or.inr ⟨hfmt, rfl⟩) hW hacc
    (by rw [hd]; simp) hbuf
  rw [hd] at hc
  refine ⟨_, hc, ?_⟩
  simp only [List.length_nil, Nat.sub_zero, List.append_nil]
  exact outputField_append fd W _ _ hW (by simp)

set_option maxRecDepth 100000 in
theorem blank_field_is_numeric_witness :
    str "  - " ≠ [] ∧ (∀ c ∈ (str "  - ").eraseP isSignChar, c = 32) ∧
    (isNumeric (str "  - ") 0 = (TRUE, [], if 45 ∈ str "  - " then -1 else 1) ∧
    ∃ o', Convert_InputField ⟨[], [], enumFieldFormat.entierZG, 0, 4, 4, 0, 0⟩ (str "  - ") []
        (List.replicate 8 35) = some o' ∧
      outputField ⟨[], [], enumFieldFormat.entierZG, 0, 4, 4, 0, 0⟩ o' = List.replicate 4 48) :=
  ⟨by decide, by decide,
    blank_field_is_numeric (str "  - ") (by decide) (by decide)
      ⟨[], [], enumFieldFormat.entierZG, 0, 4, 4, 0, 0⟩ [] (List.replicate 8 35) 4 rfl rfl
      (by decide)⟩

set_option maxRecDepth 100000 in
/-- Examples for C38: three spaces, and two spaces around a `'-'`. -/
theorem blank_field_examples :
    isNumeric (str "   ") 0 = (TRUE, [], 1) ∧ isNumeric (str " - ") 0 = (TRUE, [], -1) ∧
    Convert_InputField ⟨[], [], enumFieldFormat.entierZG, 0, 3, 3, 0, 0⟩ (str " - ") []
      (List.replicate 5 35) = some (str "000##") := by decide

/-! ### CorrectFormatAmount : amounts with fewer decimals than the currency -/

/-- The branch of `CorrectFormatAmount` taken when the currency has more
decimals than the amount: the first `c - a` bytes of the magnitude are
dropped and `c - a` zeroes are appended. -/
theorem CorrectFormatAmount_more_decimals (sign : Nat) (m : List Nat) (a c : Nat)
    (hm : m.length = 18) (hc : c ≤ 9) (hac : a < c) :
    CorrectFormatAmount ([sign] ++ m ++ [48 + a]) [48 + c] =
      some ([sign] ++ m.drop (c - a) ++ List.replicate (c - a) 48 ++ [51]) := by
  have hlast : ([sign] ++ m ++ [48 + a]).getLast? = some (48 + a) :=
    List.getLast?_concat _
  have hhead : ([sign] ++ m ++ [48 + a]).headD 0 = sign := by simp
  have hata := atoi_digit a (by omega)
  have hatc := atoi_digit c hc
  have hrd : readBytes ([sign] ++ m ++ [48 + a]) (1 + ((c : Int) - (a : Int)))
      (18 - ((c : Int) - (a : Int))) = some (m.drop (c - a)) := by
    have e : [sign] ++ m ++ [48 + a] =
        ([sign] ++ m.take (c - a)) ++ m.drop (c - a) ++ [48 + a] := by
      simp
    rw [e]
    exact readBytes_mid _ _ _ _ _ (by simp; omega) (by simp; omega)
  have hne : ¬ ((c : Int) = (a : Int)) := by omega
  have hgt : (c : Int) > (a : Int) := by omega
  unfold CorrectFormatAmount
  simp only [hlast, hhead, hata, hatc, List.length_singleton, gt_iff_lt, lt_self_iff_false,
    if_false, hne, hrd, Option.some_bind]
  rw [if_pos hgt, amountOut_eq sign _ (by simp; omega)]
  congr 2
  simp
  omega

/-- C34. For every sign byte, every magnitude `m` of 18 characters, every
number of decimals `a` of the amount and every number of decimals `c` of
the currency with `a < c <= 9`, `CorrectFormatAmount` gives 20 bytes: the
sign byte, the last `18 - (c - a)` characters of `m`, then `c - a` characters
`'0'`, then `'3'`; no character of `m` is changed. -/
theorem rescale_shift_left (sign : Nat) (m : List Nat) (a c : Nat)
    (hm : m.length = 18) (hc : c ≤ 9) (hac : a < c) :
    ∃ out, CorrectFormatAmount ([sign] ++ m ++ [48 + a]) [48 + c] = some out ∧
      out.length = 20 ∧ out.head? = some sign ∧
      (out.drop 1).take 18 = m.drop (c - a) ++ List.replicate (c - a) 48 ∧
      (m.drop (c - a)).length = 18 - (c - a) ∧
      out.getLast? = some 51 := by
  refine ⟨_, CorrectFormatAmount_more_decimals sign m a c hm hc hac, ?_, ?_, ?_, ?_, ?_⟩
  · simp only [List.length_append, List.length_singleton, List.length_drop,
      List.length_replicate, hm]
    omega
  · simp
  · have hl : (m.drop (c - a) ++ List.replicate (c - a) 48).length = 18 := by
      simp only [List.length_append, List.length_drop, List.length_replicate, hm]
      omega
    rw [List.append_assoc, List.append_assoc, List.singleton_append, List.drop_succ_cons,
      List.drop_zero, ← List.append_assoc, List.take_append_of_le_length (by rw [hl]),
      List.take_of_length_le (by rw [hl])]
  · rw [List.length_drop, hm]
  · exact List.getLast?_concat _

set_option maxRecDepth 100000 in
theorem rescale_shift_left_witness :
    (str "000000000000012345").length = 18 ∧ 3 ≤ 9 ∧ 1 < 3 ∧
    ∃ out, CorrectFormatAmount ([43] ++ str "000000000000012345" ++ [48 + 1]) [48 + 3] =
        some out ∧
      out.length = 20 ∧ out.head? = some 43 ∧
      (out.drop 1).take 18 = (str "000000000000012345").drop (3 - 1) ++
        List.replicate (3 - 1) 48 ∧
      ((str "000000000000012345").drop (3 - 1)).length = 18 - (3 - 1) ∧
      out.getLast? = some 51 :=
  ⟨by decide, by decide, by decide,
    rescale_shift_left 43 (str "000000000000012345") 1 3 (by decide) (by decide) (by decide)⟩

set_option maxRecDepth 100000 in
/-- Example for C34: an amount of 1 decimal in a currency of 3 decimals. -/
theorem rescale_shift_left_example :
    CorrectFormatAmount (str "+0000000000000123451") (str "3") =
      some (str "+0000000000012345003") := by decide

theorem digitsVal_append_zeros (l : CStr) (k : Nat) :
    digitsVal (l ++ List.replicate k 48) = digitsVal l * 10 ^ k := by
  unfold digitsVal
  rw [List.foldl_append]
  generalize List.foldl (fun acc c => acc * 10 + (c - 48)) 0 l = v
  induction k generalizing v with
  | zero => simp
  | succ k ih =>
    rw [List.replicate_succ, List.foldl_cons, ih, pow_succ]
    ring

/-- The value kept by the shift of `CorrectFormatAmount`: when the `k` digits
dropped at the left of the magnitude are zeroes, the magnitude left is the
input magnitude times `10 ^ k`. -/
theorem shifted_value (m : CStr) (k : Nat) (hz : m.take k = List.replicate k 48) :
    digitsVal (m.drop k ++ List.replicate k 48) = digitsVal m * 10 ^ k := by
  have hm : digitsVal m = digitsVal (m.drop k) := by
    conv_lhs => rw [← List.take_append_drop k m, hz]
    exact digitsVal_zeros k _
  rw [digitsVal_append_zeros, hm]

/-- The two cases in which `CorrectFormatAmount` keeps the value of an amount
with no more decimals than the currency: the same number of decimals
`a = c <= 3`, or a currency of exactly 3 decimals.  The output magnitude read
with 3 decimals is the input magnitude read with `a` decimals. -/
theorem rescale_value_preserved (sign : Nat) (m : List Nat) (a c : Nat)
    (hm : m.length = 18) (hac : a ≤ c) (hc : a = c ∧ c ≤ 3 ∨ c = 3)
    (hz : m.take (3 - a) = List.replicate (3 - a) 48) :
    ∃ mag, CorrectFormatAmount ([sign] ++ m ++ [48 + a]) [48 + c] =
        some ([sign] ++ mag ++ [51]) ∧ mag.length = 18 ∧
      digitsVal mag * 10 ^ a = digitsVal m * 10 ^ 3 := by
  have hval := shifted_value m (3 - a) hz
  have hpow : 10 ^ (3 - a) * 10 ^ a = 10 ^ 3 := by
    rw [← pow_add]
    congr 1
    omega
  refine ⟨m.drop (3 - a) ++ List.replicate (3 - a) 48, ?_, ?_, ?_⟩
  · rcases hc with ⟨h1, h2⟩ | h1
    · subst h1
      rw [CorrectFormatAmount_same_decimals sign m a hm h2]
      simp
    · subst h1
      rcases Nat.lt_or_ge a 3 with h | h
      · rw [CorrectFormatAmount_more_decimals sign m a 3 hm (by omega) h]
        simp
      · have : a = 3 := by omega
        subst this
        rw [CorrectFormatAmount_same_decimals sign m 3 hm (le_refl _)]
        simp
  · simp only [List.length_append, List.length_drop, List.length_replicate, hm]
    omega
  · rw [hval, Nat.mul_assoc, hpow]

set_option maxRecDepth 100000 in
/-- C33. With an amount of 1 decimal and a currency of 2 decimals, the
magnitude 125 (the amount 12.5) comes out as the magnitude 1250, which read
with 3 decimals is 1.250: the digits dropped by the shift are zeroes and the
value is not kept.  The same amount written with 2 decimals (12.50) or with 3
decimals (12.500) comes out as 12500, that is 12.500. -/
theorem rescale_fewer_decimals_changes_value :
    CorrectFormatAmount (str "+0000000000000001251") (str "2") =
      some (str "+0000000000000012503") ∧
    (str "000000000000000125").take (2 - 1) = List.replicate (2 - 1) 48 ∧
    digitsVal (str "000000000000001250") * 10 ^ 1 ≠ digitsVal (str "000000000000000125") * 10 ^ 3 ∧
    CorrectFormatAmount (str "+0000000000000012502") (str "2") =
      some (str "+0000000000000125003") ∧
    CorrectFormatAmount (str "+0000000000000125003") (str "2") =
      some (str "+0000000000000125003") := by
  refine ⟨by decide, by decide, by decide, by decide, by decide⟩

/-! ### Validation of the accounting date -/

theorem isLeapYear_iff (y : Int) :
    (isLeapYear y = TRUE ↔ leapYear y) ∧ (isLeapYear y = TRUE ∨ isLeapYear y = FALSE) := by
  unfold isLeapYear leapYear cRem
  have h4 : Int.tmod y 4 = 0 ↔ (4 : Int) ∣ y := Int.dvd_iff_tmod_eq_zero.symm
  have h100 : Int.tmod y 100 = 0 ↔ (100 : Int) ∣ y := Int.dvd_iff_tmod_eq_zero.symm
  have h400 : Int.tmod y 400 = 0 ↔ (400 : Int) ∣ y := Int.dvd_iff_tmod_eq_zero.symm
  have ht : TRUE ≠ FALSE := by decide
  by_cases a : Int.tmod y 4 = 0
  · rw [if_neg (not_not.mpr a)]
    by_cases b : Int.tmod y 400 = 0
    · rw [if_pos b]
      exact ⟨⟨fun _ => ⟨h4.mp a, Or.inr (h400.mp b)⟩, fun _ => rfl⟩, Or.inl rfl⟩
    · rw [if_neg b]
      by_cases c : Int.tmod y 100 = 0
      · rw [if_pos c]
        refine ⟨⟨fun h => absurd h.symm ht, ?_⟩, Or.inr rfl⟩
        intro h
        rcases h.2 with h1 | h1
        · exact absurd (h100.mp c) h1
        · exact absurd (h400.mpr h1) b
      · rw [if_neg c]
        exact ⟨⟨fun _ => ⟨h4.mp a, Or.inl (fun h => c (h100.mpr h))⟩, fun _ => rfl⟩, Or.inl rfl⟩
  · rw [if_pos a]
    refine ⟨⟨fun h => absurd h.symm ht, ?_⟩, Or.inr rfl⟩
    intro h
    exact absurd (h4.mpr h.1) a

theorem atoi_digits (l : CStr) (h : ∀ c ∈ l, 48 ≤ c ∧ c ≤ 57) : atoi l = (digitsVal l : Int) := by
  have ht : l.takeWhile isdigit = l := by
    rw [List.takeWhile_eq_self_iff]
    intro x hx
    have := h x hx
    simp [isdigit, this.1, this.2]
  cases l with
  | nil => rfl
  | cons c rest =>
    have hc := h c (List.mem_cons_self _ _)
    have hs : isspace c = false := by
      unfold isspace
      have h1 : ¬ c = 32 := by omega
      have h2 : ¬ c ≤ 13 := by omega
      simp [h1, h2]
    have hd : (c :: rest).dropWhile isspace = c :: rest := by
      rw [List.dropWhile_cons, hs]
      rfl
    unfold atoi
    rw [hd]
    have h45 : c ≠ 45 := by omega
    have h43 : c ≠ 43 := by omega
    split
    · rename_i heq
      exact absurd (List.cons.inj heq).1 h45
    · rename_i heq
      exact absurd (List.cons.inj heq).1 h43
    · rw [ht]

theorem mem_slice (s : CStr) (a b c : Nat) (h : c ∈ (s.drop a).take b) :
    ∃ i, i < a + b ∧ i < s.length ∧ s.getD i 0 = c := by
  obtain ⟨k, hk, hkc⟩ := List.mem_iff_getElem.mp h
  rw [List.length_take, List.length_drop] at hk
  rw [List.getElem_take, List.getElem_drop] at hkc
  refine ⟨a + k, by omega, by omega, ?_⟩
  rw [List.getD_eq_getElem?_getD, List.getElem?_eq_getElem (by omega)]
  exact hkc

theorem slice_digits (s : CStr) (hd : ∀ i, i < 8 → 48 ≤ s.getD i 0 ∧ s.getD i 0 ≤ 57)
    (a b : Nat) (hab : a + b ≤ 8) : ∀ c ∈ (s.drop a).take b, 48 ≤ c ∧ c ≤ 57 := by
  intro c hc
  obtain ⟨i, h1, _, h3⟩ := mem_slice s a b c hc
  rw [← h3]
  exact hd i (by omega)

theorem digitsVal_two (l : CStr) (hl : l.length ≤ 2) (h : ∀ c ∈ l, 48 ≤ c ∧ c ≤ 57) :
    digitsVal l < 100 := by
  have := digitsVal_lt l (fun x hx => by
    have := h x hx
    simp [isdigit, this.1, this.2])
  have h2 : 10 ^ l.length ≤ 10 ^ 2 := Nat.pow_le_pow_right (by norm_num) hl
  omega

theorem daysTable (y : Int) (m : Nat) (h1 : 1 ≤ m) (h12 : m ≤ 12) :
    ([0, 31, if isLeapYear y ≠ 0 then 29 else 28, 31, 30, 31, 30, 31, 31, 30, 31, 30, 31] :
      List Int).getD m 0 = (daysInMonth y m : Int) := by
  have hleap : (isLeapYear y ≠ 0) ↔ (4 ∣ y ∧ (¬ 100 ∣ y ∨ 400 ∣ y)) := by
    obtain ⟨h, hc⟩ := isLeapYear_iff y
    unfold leapYear at h
    rw [← h]
    rcases hc with e | e
    · rw [e]
      exact ⟨fun _ => rfl, fun _ => by decide⟩
    · rw [e]
      exact ⟨fun hh => absurd rfl hh, fun hh => absurd hh (by decide)⟩
  unfold daysInMonth
  interval_cases m
  all_goals first
    | rfl
    | (by_cases hl : 4 ∣ y ∧ (¬ 100 ∣ y ∨ 400 ∣ y)
       · simp only [List.getD_cons_succ, List.getD_cons_zero, if_true, if_pos (hleap.mpr hl),
           if_pos hl]
         rfl
       · simp only [List.getD_cons_succ, List.getD_cons_zero, if_true, if_neg (fun h => hl (hleap.mp h)),
           if_neg hl]
         rfl)

/-- The value returned by `isValidInputDate`, in terms of the described
date. -/
theorem isValidInputDate_iff (s : CStr) :
    (isValidInputDate s = TRUE ↔ validDate s) ∧
      (isValidInputDate s = TRUE ∨ isValidInputDate s = FALSE) := by
  have ht : TRUE ≠ FALSE := by decide
  unfold isValidInputDate
  by_cases hd : (List.range 8).all (fun i => isdigit (s.getD i 0)) = true
  · rw [if_pos hd]
    have hdig : ∀ i, i < 8 → 48 ≤ s.getD i 0 ∧ s.getD i 0 ≤ 57 := by
      intro i hi
      have := List.all_eq_true.mp hd i (List.mem_range.mpr hi)
      simpa [isdigit] using this
    have hy := atoi_digits (s.take 4) (by
      have := slice_digits s hdig 0 4 (by omega)
      simpa using this)
    have hm := atoi_digits ((s.drop 4).take 2) (slice_digits s hdig 4 2 (by omega))
    have hdd := atoi_digits ((s.drop 6).take 2) (slice_digits s hdig 6 2 (by omega))
    simp only [hy, hm, hdd]
    by_cases hmr : ((digitsVal ((s.drop 4).take 2) : Nat) : Int) < 1 ∨
        ((digitsVal ((s.drop 4).take 2) : Nat) : Int) > 12
    · rw [if_pos hmr]
      refine ⟨⟨fun h => absurd h.symm ht, ?_⟩, Or.inr rfl⟩
      intro hv
      obtain ⟨_, h1, h2, _⟩ := hv
      omega
    · rw [if_neg hmr]
      have h1 : 1 ≤ digitsVal ((s.drop 4).take 2) := by omega
      have h12 : digitsVal ((s.drop 4).take 2) ≤ 12 := by omega
      rw [Int.toNat_natCast, daysTable _ _ h1 h12]
      by_cases hdr : ((digitsVal ((s.drop 6).take 2) : Nat) : Int) < 1 ∨
          ((digitsVal ((s.drop 6).take 2) : Nat) : Int) >
            (daysInMonth (digitsVal (s.take 4)) (digitsVal ((s.drop 4).take 2)) : Int)
      · rw [if_pos hdr]
        refine ⟨⟨fun h => absurd h.symm ht, ?_⟩, Or.inr rfl⟩
        intro hv
        obtain ⟨_, _, _, h3, h4⟩ := hv
        omega
      · rw [if_neg hdr]
        refine ⟨⟨fun _ => ⟨hdig, h1, h12, by omega, by omega⟩, fun _ => rfl⟩, Or.inl rfl⟩
  · rw [if_neg hd]
    refine ⟨⟨fun h => absurd h.symm ht, ?_⟩, Or.inr rfl⟩
    intro hv
    refine absurd ?_ hd
    rw [List.all_eq_true]
    intro i hi
    have := hv.1 i (List.mem_range.mp hi)
    show isdigit (s.getD i 0) = true
    unfold isdigit
    rw [decide_eq_true this.1, decide_eq_true this.2]
    rfl

/-- C32. For every string `s`, `isValidInputDate(s)` returns TRUE when the
first eight characters of `s` are decimal digits `YYYYMMDD` with
`1 <= MM <= 12` and `1 <= DD <=` the number of days of the month `MM` of the
year `YYYY` (February has 29 days in a leap year, 28 otherwise), and FALSE in
every other case, a string of fewer than eight characters included; and
`isLeapYear(y)` returns TRUE when `y` is divisible by 4 and, not divisible by
100 or divisible by 400, FALSE otherwise. -/
theorem accounting_date_validation (s : CStr) (y : Int) :
    (isValidInputDate s = TRUE ↔ validDate s) ∧
    (isValidInputDate s = TRUE ∨ isValidInputDate s = FALSE) ∧
    (isLeapYear y = TRUE ↔ leapYear y) ∧
    (isLeapYear y = TRUE ∨ isLeapYear y = FALSE) ∧
    (leapYear y → daysInMonth y 2 = 29) ∧ (¬ leapYear y → daysInMonth y 2 = 28) ∧
    (List.range 13).map (daysInMonth 2023) = [31, 31, 28, 31, 30, 31, 30, 31, 31, 30, 31, 30, 31] :=
  ⟨(isValidInputDate_iff s).1, (isValidInputDate_iff s).2, (isLeapYear_iff y).1,
    (isLeapYear_iff y).2, 
    fun h => by
      have h' : 4 ∣ y ∧ (¬ 100 ∣ y ∨ 400 ∣ y) := h
      unfold daysInMonth
      rw [if_pos rfl, if_pos h'],
    fun h => by
      have h' : ¬ (4 ∣ y ∧ (¬ 100 ∣ y ∨ 400 ∣ y)) := h
      unfold daysInMonth
      rw [if_pos rfl, if_neg h'],
    by decide⟩

set_option maxRecDepth 100000 in
/-- Examples for C32: the 29th of February of 2024, 2023, 1900 and 2000, a
month 13, a day 31 in April, a letter, a short string. -/
theorem accounting_date_examples :
    isValidInputDate (str "20240229") = TRUE ∧ isValidInputDate (str "20230229") = FALSE ∧
    isValidInputDate (str "19000229") = FALSE ∧ isValidInputDate (str "20000229") = TRUE ∧
    isValidInputDate (str "20231301") = FALSE ∧ isValidInputDate (str "20230431") = FALSE ∧
    isValidInputDate (str "2023043A") = FALSE ∧ isValidInputDate (str "2023") = FALSE ∧
    isValidInputDate (str "20231231XYZ") = TRUE := by decide


/-! ## Lengths and formats of the built table -/

theorem foldl_addField_lenIn (w : Int) :
    ∀ (adds : List (CStr × CStr × Int)) (base : List FieldOfRecord),
      ∃ inj, adds.foldl (fun tab a => addField tab a.1 a.2.1 w a.2.2) base = base ++ inj ∧
        ∀ d ∈ inj, d.iFieldLengthInput = -1 ∧ d.iFieldLengthOutput = w := by
  intro adds
  induction adds with
  | nil =>
    intro base
    exact ⟨[], by simp, by simp⟩
  | cons a adds ih =>
    intro base
    obtain ⟨e, he, _, _, hw, _, hli, _⟩ := addField_eq base a.1 a.2.1 w a.2.2
    obtain ⟨inj, h1, h2⟩ := ih (base ++ [e])
    refine ⟨e :: inj, ?_, ?_⟩
    · rw [List.foldl_cons, he, h1]
      simp
    · intro d hd
      rcases List.mem_cons.mp hd with h | h
      · rw [h]
        exact ⟨hli, hw⟩
      · exact h2 d h

theorem readField_all (st : FormatState) (sep : Int) (n f : CStr) (len : Int) :
    (readField st sep n f len).1.strFieldName = n ∧
    (readField st sep n f len).1.strFieldFormat = f ∧
    (readField st sep n f len).1.iFieldFormat = whichOutputFormat f ∧
    (readField st sep n f len).1.iFieldLengthInput = len ∧
    (readField st sep n f len).1.iFieldLengthOutput = len := by
  unfold readField
  split <;> exact ⟨rfl, rfl, rfl, rfl, rfl⟩

/-- The entry written for one record of struct_pestd.conf has the name, the
format and, as input and output lengths, the length of the record; the
entries added after it have the input length -1. -/
theorem formatStepPESTD_fields (st st1 : FormatState) (rec : CStr) (f : CStr × CStr × Int)
    (hl : rec.length > 1) (hf : confRecordFields rec = some f) (h0 : 0 ≤ f.2.2)
    (hs : formatStepPESTD st rec = some st1) :
    ∃ e inj, st1.tab = st.tab ++ e :: inj ∧
      (0 ≤ f.2.2 ∧ e.strFieldName = f.1 ∧ e.strFieldFormat = f.2.1 ∧
        e.iFieldFormat = whichOutputFormat f.2.1 ∧ e.iFieldLengthInput = f.2.2 ∧
        e.iFieldLengthOutput = f.2.2 ∧
        ∀ d ∈ inj, d.iFieldLengthInput = -1 ∧ d.iFieldLengthOutput = 12) := by
  obtain ⟨rn, rf, rfm, rli, rlo⟩ := readField_all st 1 f.1 f.2.1 f.2.2
  unfold formatStepPESTD at hs
  rw [if_pos hl, hf, Option.map_some'] at hs
  have hs := Option.some.inj hs
  cases ha : additionsPESTD f.1 with
  | none =>
    rw [ha] at hs
    simp only at hs
    exact ⟨(readField st 1 f.1 f.2.1 f.2.2).1, [], by rw [← hs], h0, rn, rf, rfm, rli, rlo,
      by simp⟩
  | some ta =>
    obtain ⟨type, adds⟩ := ta
    rw [ha] at hs
    simp only at hs
    obtain ⟨inj, hfold, hinj⟩ := foldl_addField_lenIn TIERS_RICOS_FIELD_LENGTH adds
      (st.tab ++ [{ (readField st 1 f.1 f.2.1 f.2.2).1 with iFieldType := type }])
    refine ⟨{ (readField st 1 f.1 f.2.1 f.2.2).1 with iFieldType := type }, inj, ?_, h0, rn, rf,
      rfm, rli, rlo, hinj⟩
    rw [← hs]
    show List.foldl _ _ adds = _
    rw [hfold]
    simp

theorem amountFormatState_fields (st : FormatState) (r : FieldOfRecord × Int × Int)
    (type : Int) :
    ∃ e, (amountFormatState st r type).tab = st.tab ++ [e] ∧
      e.strFieldName = r.1.strFieldName ∧ e.iFieldLengthInput = r.1.iFieldLengthInput ∧
      e.iFieldLengthOutput = 20 ∧ e.iFieldFormat = enumFieldFormat.amount3DEC ∧
      e.strFieldFormat = str "amount3DEC" ∧
      (amountFormatState st r type).iInputRecordLength =
        st.iInputRecordLength + r.1.iFieldLengthInput :=
  ⟨_, rfl, rfl, rfl, rfl,
    show whichOutputFormat (str "amount3DEC") = enumFieldFormat.amount3DEC by decide, rfl, rfl⟩

/-- The entry written for one record of struct_premai.conf: an amount field
gets the output length 20 and the format amount3DEC, any other field the
format and the length of the record; the entries added after it have the
input length -1. -/
theorem formatStepPreMai_fields (st st1 : FormatState) (rec : CStr) (f : CStr × CStr × Int)
    (hl : rec.length > 1) (hf : confRecordFields rec = some f) (h0 : 0 ≤ f.2.2)
    (hs : formatStepPreMai st rec = some st1) :
    ∃ e inj, st1.tab = st.tab ++ e :: inj ∧
      (0 ≤ f.2.2 ∧ e.strFieldName = f.1 ∧ e.iFieldLengthInput = f.2.2 ∧
        (isAmountNamePreMai f.1 → e.iFieldLengthOutput = 20 ∧
          e.iFieldFormat = enumFieldFormat.amount3DEC ∧ e.strFieldFormat = str "amount3DEC") ∧
        (¬ isAmountNamePreMai f.1 → e.iFieldLengthOutput = f.2.2 ∧
          e.iFieldFormat = whichOutputFormat f.2.1 ∧ e.strFieldFormat = f.2.1) ∧
        ∀ d ∈ inj, d.iFieldLengthInput = -1 ∧ 0 ≤ d.iFieldLengthOutput) := by
  obtain ⟨rn, rf, rfm, rli, rlo⟩ := readField_all st 0 f.1 f.2.1 f.2.2
  have hamt : ∀ type, isAmountNamePreMai f.1 →
      amountFormatState st (readField st 0 f.1 f.2.1 f.2.2) type = st1 →
      ∃ e inj, st1.tab = st.tab ++ e :: inj ∧
      (0 ≤ f.2.2 ∧ e.strFieldName = f.1 ∧ e.iFieldLengthInput = f.2.2 ∧
        (isAmountNamePreMai f.1 → e.iFieldLengthOutput = 20 ∧
          e.iFieldFormat = enumFieldFormat.amount3DEC ∧ e.strFieldFormat = str "amount3DEC") ∧
        (¬ isAmountNamePreMai f.1 → e.iFieldLengthOutput = f.2.2 ∧
          e.iFieldFormat = whichOutputFormat f.2.1 ∧ e.strFieldFormat = f.2.1) ∧
        ∀ d ∈ inj, d.iFieldLengthInput = -1 ∧ 0 ≤ d.iFieldLengthOutput) := by
    intro type hn h
    obtain ⟨e, h1, h2, h3, h4, h5, h6, _⟩ :=
      amountFormatState_fields st (readField st 0 f.1 f.2.1 f.2.2) type
    exact ⟨e, [], by rw [← h, h1], h0, by rw [h2, rn], by rw [h3, rli], fun _ => ⟨h4, h5, h6⟩,
      fun hh => absurd hn hh, by simp⟩
  unfold formatStepPreMai at hs
  rw [if_pos hl, hf, Option.map_some'] at hs
  have hs := Option.some.inj hs
  simp only at hs
  split at hs
  · rename_i h1
    exact hamt _ (Or.inl h1) hs
  split at hs
  · rename_i _ h2
    exact hamt _ (Or.inr (Or.inl h2)) hs
  split at hs
  · rename_i _ _ h3
    exact hamt _ (Or.inr (Or.inr h3)) hs
  rename_i n1 n2 n3
  have hna : ¬ isAmountNamePreMai f.1 := by
    intro h
    rcases h with h | h | h
    · exact n1 h
    · exact n2 h
    · exact n3 h
  split at hs
  · refine ⟨{ (readField st 0 f.1 f.2.1 f.2.2).1 with iFieldType := ADD_CD_TYPIMP_TYPEI_TVA },
      _, by rw [← hs]; simp only [addField, List.append_assoc, List.singleton_append]; rfl, h0,
      rn, rli, fun h => absurd h hna, fun _ => ⟨rlo, rfm, rf⟩, ?_⟩
    intro d hd
    rcases List.mem_cons.mp hd with h | hd1
    · rw [h]
      exact ⟨rfl, show (0 : Int) ≤ CD_TYPIMP_FIELD_LENGTH by decide⟩
    rcases List.mem_cons.mp hd1 with h | hd2
    · rw [h]
      exact ⟨rfl, show (0 : Int) ≤ CD_TYPEI_FIELD_LENGTH by decide⟩
    rcases List.mem_cons.mp hd2 with h | hd3
    · rw [h]
      exact ⟨rfl, show (0 : Int) ≤ CD_TVA_APP_FIELD_LENGTH by decide⟩
    exact absurd hd3 (List.not_mem_nil _)
  · exact ⟨(readField st 0 f.1 f.2.1 f.2.2).1, [], by rw [← hs], h0, rn, rli,
      fun h => absurd h hna, fun _ => ⟨rlo, rfm, rf⟩, by simp⟩

/-- The table built by the reading loop, paired with the fields of the
records of the configuration that are handled. -/
theorem formatLoop_fields (step : FormatState → CStr → Option FormatState)
    (R : (CStr × CStr × Int) → FieldOfRecord → List FieldOfRecord → Prop)
    (hstep : ∀ st st1 rec f, rec.length > 1 → confRecordFields rec = some f → 0 ≤ f.2.2 →
      step st rec = some st1 → ∃ e inj, st1.tab = st.tab ++ e :: inj ∧ R f e inj)
    (hskip : ∀ st rec, ¬ rec.length > 1 → step st rec = some st) :
    ∀ (records : List CStr) (st st1 : FormatState), formatLoop step st records = some st1 →
      (∀ rec ∈ records, ConfRecordOk rec) →
      ∃ groups : List (FieldOfRecord × List FieldOfRecord),
        st1.tab = st.tab ++ groups.flatMap (fun g => g.1 :: g.2) ∧
        List.Forall₂ (fun f g => R f g.1 g.2) (confFields records) groups := by
  intro records
  induction records with
  | nil =>
    intro st st1 h _
    rw [formatLoop] at h
    rw [← Option.some.inj h]
    exact ⟨[], by simp, List.Forall₂.nil⟩
  | cons rec rest ih =>
    intro st st1 h hok
    have hrest : ∀ r ∈ rest, ConfRecordOk r := fun r hr => hok r (List.mem_cons_of_mem _ hr)
    rw [formatLoop] at h
    by_cases hl : rec.length > 1
    · rcases hok rec (List.mem_cons_self _ _) with h1 | ⟨f, hf, h0⟩
      · omega
      cases hs : step st rec with
      | none =>
        rw [hs] at h
        exact absurd h (by simp)
      | some st2 =>
        rw [hs, Option.some_bind] at h
        obtain ⟨e, inj, htab, hr⟩ := hstep st st2 rec f hl hf h0 hs
        obtain ⟨groups, htab2, hall⟩ := ih st2 st1 h hrest
        refine ⟨(e, inj) :: groups, ?_, ?_⟩
        · rw [htab2, htab]
          simp
        · unfold confFields
          rw [List.filter_cons_of_pos (by simpa using hl), List.filterMap_cons_some hf]
          exact List.Forall₂.cons hr hall
    · rw [hskip st rec hl, Option.some_bind] at h
      obtain ⟨groups, htab2, hall⟩ := ih st st1 h hrest
      refine ⟨groups, htab2, ?_⟩
      unfold confFields
      rw [List.filter_cons_of_neg (by simpa using hl)]
      exact hall

theorem confLengths_eq (records : List CStr) (hok : ∀ rec ∈ records, ConfRecordOk rec) :
    confLengths records = (confFields records).map (fun f => f.2.2) := by
  induction records with
  | nil => rfl
  | cons rec rest ih =>
    have hrest : ∀ r ∈ rest, ConfRecordOk r := fun r hr => hok r (List.mem_cons_of_mem _ hr)
    have ih := ih hrest
    unfold confLengths confFields at ih ⊢
    by_cases hl : rec.length > 1
    · rcases hok rec (List.mem_cons_self _ _) with h1 | ⟨f, hf, _⟩
      · omega
      rw [List.filter_cons_of_pos (by simpa using hl), List.filterMap_cons_some hf, List.map_cons,
        List.map_cons, ih, hf]
      rfl
    · rw [List.filter_cons_of_neg (by simpa using hl)]
      exact ih

/-- The table built by the PESTD `BuildOutputRecordFormat`, paired with the
records of the configuration. -/
theorem BuildOutputRecordFormat_PESTD_fields (records : List CStr)
    (hok : ∀ rec ∈ records, ConfRecordOk rec) :
    ∃ (ds : List FieldOfRecord) (groups : List (FieldOfRecord × List FieldOfRecord)),
      BuildOutputRecordFormat_PESTD records = some ds ∧
      ds = groups.flatMap (fun g => g.1 :: g.2) ∧
      List.Forall₂ (fun f g => 0 ≤ f.2.2 ∧ g.1.strFieldName = f.1 ∧ g.1.strFieldFormat = f.2.1 ∧
        g.1.iFieldFormat = whichOutputFormat f.2.1 ∧ g.1.iFieldLengthInput = f.2.2 ∧
        g.1.iFieldLengthOutput = f.2.2 ∧
        ∀ d ∈ g.2, d.iFieldLengthInput = -1 ∧ d.iFieldLengthOutput = 12)
        (confFields records) groups := by
  obtain ⟨ds, _, h1, _⟩ := BuildOutputRecordFormat_PESTD_ok records hok
  have h1' := h1
  unfold BuildOutputRecordFormat_PESTD at h1'
  simp only [Option.map_eq_some'] at h1'
  obtain ⟨st1, hloop, htab⟩ := h1'
  obtain ⟨groups, g1, g2⟩ := formatLoop_fields formatStepPESTD _ formatStepPESTD_fields
    formatStepPESTD_skip records _ st1 hloop hok
  refine ⟨ds, groups, h1, ?_, g2⟩
  rw [← htab, g1]
  simp

/-- The table built by the PreMai `BuildOutputRecordFormat`, paired with the
records of the configuration. -/
theorem BuildOutputRecordFormat_PreMai_fields (records : List CStr)
    (hok : ∀ rec ∈ records, ConfRecordOk rec) :
    ∃ (ds : List FieldOfRecord) (len : Int)
        (groups : List (FieldOfRecord × List FieldOfRecord)),
      BuildOutputRecordFormat_PreMai records = some (ds, len) ∧
      ds = groups.flatMap (fun g => g.1 :: g.2) ∧
      List.Forall₂ (fun f g => 0 ≤ f.2.2 ∧ g.1.strFieldName = f.1 ∧
        g.1.iFieldLengthInput = f.2.2 ∧
        (isAmountNamePreMai f.1 → g.1.iFieldLengthOutput = 20 ∧
          g.1.iFieldFormat = enumFieldFormat.amount3DEC ∧
          g.1.strFieldFormat = str "amount3DEC") ∧
        (¬ isAmountNamePreMai f.1 → g.1.iFieldLengthOutput = f.2.2 ∧
          g.1.iFieldFormat = whichOutputFormat f.2.1 ∧ g.1.strFieldFormat = f.2.1) ∧
        ∀ d ∈ g.2, d.iFieldLengthInput = -1 ∧ 0 ≤ d.iFieldLengthOutput)
        (confFields records) groups ∧
      len = 1 + ((confFields records).map (fun f => f.2.2)).sum := by
  obtain ⟨ds, len, _, h1, _⟩ := BuildOutputRecordFormat_PreMai_ok records hok
  have h1' := h1
  unfold BuildOutputRecordFormat_PreMai at h1'
  simp only [Option.map_eq_some'] at h1'
  obtain ⟨st1, hloop, htab⟩ := h1'
  obtain ⟨groups, g1, g2⟩ := formatLoop_fields formatStepPreMai _ formatStepPreMai_fields
    formatStepPreMai_skip records _ st1 hloop hok
  refine ⟨ds, len, groups, h1, ?_, g2, ?_⟩
  · have := congrArg Prod.fst htab
    simp only at this
    rw [← this, g1]
    simp
  · rw [← confLengths_eq records hok]
    exact BuildOutputRecordFormat_PreMai_length records ds len h1

/-- C36. For every configuration whose handled records have the three fields
name, format and a non-negative length, the table built by
`BuildOutputRecordFormat` is, record after record, the entry of the field
followed by the entries added after it, and the entry of the field has as
input length the length of its record.  In PESTD its output length is that
length too and its format is the one of the record.  In PreMai the same holds
for every field but `MAI_MNT_IMP`, `MAI_MNT_GES` and `MAI_MNT_NOM`, which get
the output length 20 and the format amount3DEC whatever the format of their
record; and `iInputRecordLength` is 1 plus the sum of the lengths of the
records. -/
theorem output_length_defaults (records : List CStr)
    (hok : ∀ rec ∈ records, ConfRecordOk rec) :
    (∃ (ds : List FieldOfRecord) (groups : List (FieldOfRecord × List FieldOfRecord)),
      BuildOutputRecordFormat_PESTD records = some ds ∧
      ds = groups.flatMap (fun g => g.1 :: g.2) ∧
      List.Forall₂ (fun f g => g.1.strFieldName = f.1 ∧
        g.1.iFieldFormat = whichOutputFormat f.2.1 ∧ g.1.iFieldLengthInput = f.2.2 ∧
        g.1.iFieldLengthOutput = f.2.2) (confFields records) groups) ∧
    (∃ (ds : List FieldOfRecord) (len : Int)
        (groups : List (FieldOfRecord × List FieldOfRecord)),
      BuildOutputRecordFormat_PreMai records = some (ds, len) ∧
      ds = groups.flatMap (fun g => g.1 :: g.2) ∧
      List.Forall₂ (fun f g => g.1.strFieldName = f.1 ∧ g.1.iFieldLengthInput = f.2.2 ∧
        (isAmountNamePreMai f.1 → g.1.iFieldLengthOutput = 20 ∧
          g.1.iFieldFormat = enumFieldFormat.amount3DEC) ∧
        (¬ isAmountNamePreMai f.1 → g.1.iFieldLengthOutput = f.2.2 ∧
          g.1.iFieldFormat = whichOutputFormat f.2.1)) (confFields records) groups ∧
      len = 1 + ((confFields records).map (fun f => f.2.2)).sum) := by
  constructor
  · obtain ⟨ds, groups, h1, h2, h3⟩ := BuildOutputRecordFormat_PESTD_fields records hok
    refine ⟨ds, groups, h1, h2, ?_⟩
    refine List.Forall₂.imp ?_ h3
    intro f g h
    exact ⟨h.2.1, h.2.2.2.1, h.2.2.2.2.1, h.2.2.2.2.2.1⟩
  · obtain ⟨ds, len, groups, h1, h2, h3, h4⟩ := BuildOutputRecordFormat_PreMai_fields records hok
    refine ⟨ds, len, groups, h1, h2, ?_, h4⟩
    refine List.Forall₂.imp ?_ h3
    intro f g h
    exact ⟨h.2.1, h.2.2.1, fun hn => ⟨(h.2.2.2.1 hn).1, (h.2.2.2.1 hn).2.1⟩,
      fun hn => ⟨(h.2.2.2.2.1 hn).1, (h.2.2.2.2.1 hn).2.1⟩⟩

theorem output_length_defaults_witness :
    (∀ rec ∈ sampleConf, ConfRecordOk rec) ∧
    ((∃ (ds : List FieldOfRecord) (groups : List (FieldOfRecord × List FieldOfRecord)),
      BuildOutputRecordFormat_PESTD sampleConf = some ds ∧
      ds = groups.flatMap (fun g => g.1 :: g.2) ∧
      List.Forall₂ (fun f g => g.1.strFieldName = f.1 ∧
        g.1.iFieldFormat = whichOutputFormat f.2.1 ∧ g.1.iFieldLengthInput = f.2.2 ∧
        g.1.iFieldLengthOutput = f.2.2) (confFields sampleConf) groups) ∧
    (∃ (ds : List FieldOfRecord) (len : Int)
        (groups : List (FieldOfRecord × List FieldOfRecord)),
      BuildOutputRecordFormat_PreMai sampleConf = some (ds, len) ∧
      ds = groups.flatMap (fun g => g.1 :: g.2) ∧
      List.Forall₂ (fun f g => g.1.strFieldName = f.1 ∧ g.1.iFieldLengthInput = f.2.2 ∧
        (isAmountNamePreMai f.1 → g.1.iFieldLengthOutput = 20 ∧
          g.1.iFieldFormat = enumFieldFormat.amount3DEC) ∧
        (¬ isAmountNamePreMai f.1 → g.1.iFieldLengthOutput = f.2.2 ∧
          g.1.iFieldFormat = whichOutputFormat f.2.1)) (confFields sampleConf) groups ∧
      len = 1 + ((confFields sampleConf).map (fun f => f.2.2)).sum)) :=
  ⟨sampleConf_ok, output_length_defaults sampleConf sampleConf_ok⟩

set_option maxRecDepth 100000 in
/-- The fields of the example configuration. -/
theorem sampleConf_fields :
    confFields sampleConf =
      [(str "A", str "charED", 3), (str "TIERS", str "charED", 7),
        (str "MAI_MNT_IMP", str "entierZG", 15), (str "MAI_TOP_MAJ", str "charED", 1)] := by
  decide

/-! ## The input length of the added entries -/

/-- The verbatim copy of `Convert_InputField` is not defined for an entry
whose input length is negative: the case of a zero-padded number that is
not numeric. -/
theorem Convert_InputField_negative (fd : FieldOfRecord) (s : CStr) (uninit o : List Nat)
    (hf : fd.iFieldFormat = enumFieldFormat.entierZG) (hn : (isNumeric s 0).1 = 0)
    (hl : fd.iFieldLengthInput < 0) : Convert_InputField fd s uninit o = none := by
  unfold Convert_InputField
  simp only [hf]
  rw [if_neg (by simp [hn])]
  unfold copyRaw
  rw [if_neg (by omega)]

/-- Each element of the second list of a pairing has a partner in the first. -/
theorem forall₂_right {α β : Type} {R : α → β → Prop} {l1 : List α} {l2 : List β}
    (h : List.Forall₂ R l1 l2) : ∀ b ∈ l2, ∃ a ∈ l1, R a b := by
  induction h with
  | nil => intro b hb; cases hb
  | cons hab _ ih =>
    intro b hb
    rcases List.mem_cons.mp hb with rfl | hb
    · exact ⟨_, List.mem_cons_self _ _, hab⟩
    · obtain ⟨a, ha, hr⟩ := ih b hb
      exact ⟨a, List.mem_cons_of_mem _ ha, hr⟩

/-- Every entry that the PESTD `BuildOutputRecordFormat` adds after a field
has the input length -1 and the output length 12, and every entry of a field
has the length of its record as input and output length. -/
theorem BuildOutputRecordFormat_PESTD_lengths (records : List CStr)
    (hok : ∀ rec ∈ records, ConfRecordOk rec) :
    ∃ (ds : List FieldOfRecord) (groups : List (FieldOfRecord × List FieldOfRecord)),
      BuildOutputRecordFormat_PESTD records = some ds ∧
      ds = groups.flatMap (fun g => g.1 :: g.2) ∧
      ∀ g ∈ groups, (0 ≤ g.1.iFieldLengthInput ∧ 0 ≤ g.1.iFieldLengthOutput) ∧
        ∀ d ∈ g.2, d.iFieldLengthInput = -1 ∧ d.iFieldLengthOutput = 12 := by
  obtain ⟨ds, groups, h1, h2, h3⟩ := BuildOutputRecordFormat_PESTD_fields records hok
  refine ⟨ds, groups, h1, h2, ?_⟩
  intro g hg
  obtain ⟨f, _, hf⟩ := forall₂_right h3 g hg
  exact ⟨⟨by rw [hf.2.2.2.2.1]; exact hf.1, by rw [hf.2.2.2.2.2.1]; exact hf.1⟩, hf.2.2.2.2.2.2⟩

set_option maxRecDepth 1000000 in
set_option maxHeartbeats 4000000 in
/-- C35. The entries that `BuildOutputRecordFormat` adds after a field keep
the input length -1 of the initialisation.  For the configuration
`Z_ALIAS_ID_TIERS;charED;4` the table has the entry `TIERS_EXT_RICOS_CY` of
format entierZG with input length -1 and output length 12;
`Convert_InputField` on this entry with the text `20A1`, which is not
numeric, copies -1 bytes and has no defined result; and the PESTD
`Create_Output_Record` on the record `6464` has no defined result when
REF_TIERS.dat gives `20A1` as RICOS_CPY_ID of the RTS key 6464, while with
`2091` it writes `6464SC0000002325000000002091`. -/
theorem injected_descriptor_input_length :
    BuildOutputRecordFormat_PESTD aliasConfPESTD = some aliasFieldsPESTD ∧
    (aliasFieldsPESTD.getD 2 blankField).strFieldName = str "TIERS_EXT_RICOS_CY" ∧
    (aliasFieldsPESTD.getD 2 blankField).iFieldFormat = enumFieldFormat.entierZG ∧
    (aliasFieldsPESTD.getD 2 blankField).iFieldLengthInput = -1 ∧
    (aliasFieldsPESTD.getD 2 blankField).iFieldLengthOutput = 12 ∧
    (isNumeric (str "20A1") 0).1 = 0 ∧
    Convert_InputField (aliasFieldsPESTD.getD 2 blankField) (str "20A1") []
      (List.replicate 500 32) = none ∧
    (tablesWithTiers [str "CALYHKG;SC0000002325;20A1;6464;CALYON;SIA\n"]).isSome = true ∧
    (tablesWithTiers [str "CALYHKG;SC0000002325;20A1;6464;CALYON;SIA\n"]).bind
      (fun tabs => Create_Output_Record_PESTD tabs aliasFieldsPESTD sampleIndeterminatePESTD
        aliasRecordPESTD (List.replicate 200 32)) = none ∧
    (tablesWithTiers [str "CALYHKG;SC0000002325;2091;6464;CALYON;SIA\n"]).bind
      (fun tabs => Create_Output_Record_PESTD tabs aliasFieldsPESTD sampleIndeterminatePESTD
        aliasRecordPESTD (List.replicate 200 32)) =
      some (EXIT_OK, List.replicate 155 32 ++ str "6464SC0000002325000000002091" ++ [0] ++
        List.replicate 16 32) := by
  refine ⟨by decide, by decide, by decide, by decide, by decide, by decide, by decide, ?_,
    by decide, by decide⟩
  decide

/-! ## The decimals of `MAI_DEV_CTP` reach no byte of the output -/

theorem currencyDecimalPos_length (cur : Table CURRENCYHashElt) (field : CStr) (dec d : List Nat)
    (h : currencyDecimalPos cur field dec = some d) : d.length = dec.length := by
  unfold currencyDecimalPos at h
  have hw : ∀ d, (bufWrite dec 0 [51]).bind (fun d1 => bufWrite d1 1 [0]) = some d →
      d.length = dec.length := by
    intro d hd
    simp only [Option.bind_eq_some] at hd
    obtain ⟨d1, h1, h2⟩ := hd
    rw [bufWrite_length _ _ _ _ h2, bufWrite_length _ _ _ _ h1]
  split at h
  · exact hw d h
  · simp only [Option.bind_eq_some] at h
    obtain ⟨r, _, h⟩ := h
    split at h
    · exact bufWrite_length _ _ _ _ h
    · exact hw d h

/-- The currency and amount blocks of PreMai leave the length of the buffer
of the decimals of `MAI_DEV_CTP` unchanged. -/
theorem amountBlocksPreMai_ctp_length (tabs : TablesPreMai) (fd : FieldOfRecord) (field : CStr)
    (out : List Nat) (loc : LocalsPreMai) (am : List Nat × List Nat × List Nat × List RecordWrite)
    (h : amountBlocksPreMai tabs fd field out loc = some am) :
    am.2.2.1.length = loc.l_strDEV_CTP_DECIMAL_POS.length := by
  unfold amountBlocksPreMai at h
  simp only [Option.bind_eq_some, Option.map_eq_some'] at h
  obtain ⟨_, _, _, _, _, _, _, _, decCtp, h5, _, _, h⟩ := h
  rw [← h]
  show decCtp.length = _
  split at h5
  · exact currencyDecimalPos_length _ _ _ _ h5
  · rw [← Option.some.inj h5]

/-- The currency and amount blocks of PreMai with two CURRENCY tables that
give the same number of decimals for the fields `MAI_DEV_IMP` and
`MAI_DEV_GES`: whatever the buffer of the decimals of `MAI_DEV_CTP` holds,
the two other buffers and the writes are the same. -/
theorem amountBlocksPreMai_ctp (tabs1 tabs2 : TablesPreMai) (fd : FieldOfRecord) (field : CStr)
    (out : List Nat) (loc : LocalsPreMai) (x1 x2 : List Nat)
    (hagree : (fd.strFieldName = str "MAI_DEV_IMP" ∨ fd.strFieldName = str "MAI_DEV_GES") →
      ∀ dec, currencyDecimalPos tabs1.CURRENCYHashArray field dec =
        currencyDecimalPos tabs2.CURRENCYHashArray field dec)
    (hdef : fd.strFieldName = str "MAI_DEV_CTP" →
      (currencyDecimalPos tabs1.CURRENCYHashArray field x1).isSome =
        (currencyDecimalPos tabs2.CURRENCYHashArray field x2).isSome) :
    (amountBlocksPreMai tabs1 fd field out (setCtp x1 loc)).map
        (fun am => (am.1, am.2.1, am.2.2.2)) =
      (amountBlocksPreMai tabs2 fd field out (setCtp x2 loc)).map
        (fun am => (am.1, am.2.1, am.2.2.2)) := by
  unfold amountBlocksPreMai
  simp only [setCtp]
  have hA : (if fd.strFieldName = str "MAI_DEV_IMP" then
        currencyDecimalPos tabs1.CURRENCYHashArray field loc.l_strDEV_IMP_DECIMAL_POS
      else some loc.l_strDEV_IMP_DECIMAL_POS) =
      (if fd.strFieldName = str "MAI_DEV_IMP" then
        currencyDecimalPos tabs2.CURRENCYHashArray field loc.l_strDEV_IMP_DECIMAL_POS
      else some loc.l_strDEV_IMP_DECIMAL_POS) := by
    split
    · rename_i hn
      exact hagree (Or.inl hn) _
    · rfl
  have hC : (if fd.strFieldName = str "MAI_DEV_GES" then
        currencyDecimalPos tabs1.CURRENCYHashArray field loc.l_strDEV_GES_DECIMAL_POS
      else some loc.l_strDEV_GES_DECIMAL_POS) =
      (if fd.strFieldName = str "MAI_DEV_GES" then
        currencyDecimalPos tabs2.CURRENCYHashArray field loc.l_strDEV_GES_DECIMAL_POS
      else some loc.l_strDEV_GES_DECIMAL_POS) := by
    split
    · rename_i hn
      exact hagree (Or.inr hn) _
    · rfl
  have hE : (if fd.strFieldName = str "MAI_DEV_CTP" then
        currencyDecimalPos tabs1.CURRENCYHashArray field x1 else some x1).isSome =
      (if fd.strFieldName = str "MAI_DEV_CTP" then
        currencyDecimalPos tabs2.CURRENCYHashArray field x2 else some x2).isSome := by
    split
    · rename_i hn
      exact hdef hn
    · rfl
  rw [hA, hC]
  generalize (if fd.strFieldName = str "MAI_DEV_CTP" then
        currencyDecimalPos tabs1.CURRENCYHashArray field x1 else some x1) = E1 at hE ⊢
  generalize (if fd.strFieldName = str "MAI_DEV_CTP" then
        currencyDecimalPos tabs2.CURRENCYHashArray field x2 else some x2) = E2 at hE ⊢
  generalize (if fd.strFieldName = str "MAI_DEV_IMP" then
        currencyDecimalPos tabs2.CURRENCYHashArray field loc.l_strDEV_IMP_DECIMAL_POS
      else some loc.l_strDEV_IMP_DECIMAL_POS) = A
  generalize (if fd.strFieldName = str "MAI_DEV_GES" then
        currencyDecimalPos tabs2.CURRENCYHashArray field loc.l_strDEV_GES_DECIMAL_POS
      else some loc.l_strDEV_GES_DECIMAL_POS) = C
  cases A with
  | none => rfl
  | some decImp =>
    simp only [Option.some_bind]
    generalize (if fd.strFieldName = str "MAI_MNT_IMP" then amountBlockPreMai fd out decImp
      else some []) = B
    cases B with
    | none => rfl
    | some wImp =>
      simp only [Option.some_bind]
      cases C with
      | none => rfl
      | some decGes =>
        simp only [Option.some_bind]
        generalize (if fd.strFieldName = str "MAI_MNT_GES" then amountBlockPreMai fd out decGes
          else some []) = D
        generalize (if fd.strFieldName = str "MAI_MNT_NOM" then amountBlockPreMai fd out decGes
          else some []) = F
        cases D with
        | none => rfl
        | some wGes =>
          simp only [Option.some_bind]
          cases E1 with
          | none =>
            cases E2 with
            | none => rfl
            | some e2 => exact absurd hE (by simp)
          | some e1 =>
            cases E2 with
            | none => exact absurd hE (by simp)
            | some e2 =>
              simp only [Option.some_bind]
              cases F with
              | none => rfl
              | some wNom => rfl

theorem blockDAT_OPE_setCtp (fd : FieldOfRecord) (loc : LocalsPreMai) (x : List Nat) :
    blockDAT_OPE fd (setCtp x loc) = (blockDAT_OPE fd loc).map (setCtp x) := by
  unfold blockDAT_OPE
  split
  · simp only [setCtp]
    cases bufRead loc.l_strInputField 0 4 with
    | none => rfl
    | some d4 =>
      simp only [Option.some_bind]
      cases bufWrite loc.l_strDAT_OPE 0 d4 with
      | none => rfl
      | some datOpe =>
        simp only [Option.some_bind]
        cases bufRead loc.l_strInputField 0 DATE_LENGTH with
        | none => rfl
        | some d8 =>
          simp only [Option.some_bind]
          cases bufWrite loc.l_strIdLot 0 d8 with
          | none => rfl
          | some idLot => rfl
  · rfl

theorem blockCPT_IMP_setCtp (tabs1 tabs2 : TablesPreMai) (ds : List FieldOfRecord)
    (ENTITY field : CStr) (loc : LocalsPreMai) (x : List Nat)
    (hd : tabs1.COMPTE_DODGEHashArray = tabs2.COMPTE_DODGEHashArray) :
    blockCPT_IMP tabs1 ds ENTITY field (setCtp x loc) =
      (blockCPT_IMP tabs2 ds ENTITY field loc).map (fun r => (setCtp x r.1, r.2)) := by
  unfold blockCPT_IMP
  rw [hd]
  simp only [setCtp]
  cases FindElementInCOMPTE_DODGEHashArrayTable tabs2.COMPTE_DODGEHashArray field with
  | none => rfl
  | some r =>
    simp only [Option.some_bind]
    generalize (if r.ret ≠ 0 then
      (strcpyBuf loc.l_strHB_IMPUTATION
        (tabs2.COMPTE_DODGEHashArray r.o_lPositXHashKey.toNat
          r.o_lPositYHashKey.toNat).strHB_IMPUTATION).bind fun hb =>
        (strcpyBuf loc.l_strTOP_INT_EXT
          (tabs2.COMPTE_DODGEHashArray r.o_lPositXHashKey.toNat
            r.o_lPositYHashKey.toNat).strTOP_INT_EXT).bind fun top =>
          (strcpyBuf loc.l_strTVA
            (tabs2.COMPTE_DODGEHashArray r.o_lPositXHashKey.toNat
              r.o_lPositYHashKey.toNat).strTVA).map fun tva => (hb, top, tva)
      else some (loc.l_strHB_IMPUTATION, loc.l_strTOP_INT_EXT, loc.l_strTVA)) = H
    cases H with
    | none => rfl
    | some h =>
      simp only [Option.some_bind]
      cases bufRead h.1 0 CD_TYPIMP_FIELD_LENGTH with
      | none => rfl
      | some hb2 =>
        simp only [Option.some_bind]
        cases bufWrite loc.l_strIdLot DATE_LENGTH hb2 with
        | none => rfl
        | some lot1 =>
          simp only [Option.some_bind]
          cases bufRead h.2.1 0 CD_TYPEI_FIELD_LENGTH with
          | none => rfl
          | some top1 =>
            simp only [Option.some_bind]
            cases bufWrite lot1 (DATE_LENGTH + CD_TYPIMP_FIELD_LENGTH) top1 with
            | none => rfl
            | some lot2 =>
              simp only [Option.some_bind]
              split
              · cases strcpyBuf loc.l_strInputField (str "530001003") with
                | none => rfl
                | some in1 =>
                  simp only [Option.some_bind]
                  cases bufRead in1 0 9 with
                  | none => rfl
                  | some acc => rfl
              · rfl

theorem blockREF_OPE_setCtp (fd : FieldOfRecord) (loc : LocalsPreMai) (x : List Nat) :
    blockREF_OPE fd (setCtp x loc) = (blockREF_OPE fd loc).map (setCtp x) := by
  unfold blockREF_OPE
  simp only [setCtp]
  generalize (if fd.strFieldName = str "MAI_REF_OPE" then
    (bufRead loc.l_strInputField 11 NUM_CRE_IN_CD_REFOPER_LENGTH).bind fun num =>
      (bufWrite loc.l_strIdLot (DATE_LENGTH + CD_TYPIMP_FIELD_LENGTH + CD_TYPEI_FIELD_LENGTH)
        num).bind fun idLot =>
        (bufRead loc.l_strInputField 17 3).bind fun ae =>
          (bufWrite loc.l_strAppliEmet 0 ae).bind fun ae1 =>
            (bufWrite ae1 3 [0]).map fun ae2 => (idLot, ae2)
    else some (loc.l_strIdLot, loc.l_strAppliEmet)) = R
  cases R with
  | none => rfl
  | some ro =>
    simp only [Option.some_bind]
    cases bufWrite ro.1 (DATE_LENGTH + CD_TYPIMP_FIELD_LENGTH + CD_TYPEI_FIELD_LENGTH +
      NUM_CRE_IN_CD_REFOPER_LENGTH) [0] with
    | none => rfl
    | some idLot => rfl

theorem addedFieldsPreMai_setCtp (ds : List FieldOfRecord) (ind : IndeterminatePreMai)
    (l_iIdx : Nat) (loc : LocalsPreMai) (x : List Nat) :
    addedFieldsPreMai ds ind l_iIdx (setCtp x loc) =
      (addedFieldsPreMai ds ind l_iIdx loc).map (fun r => (r.1, setCtp x r.2.1, r.2.2)) := by
  unfold addedFieldsPreMai
  simp only [setCtp]
  cases addedFromTable (ds.getD (l_iIdx + 1) blankField) (ind.convert (l_iIdx + 1))
    loc.l_strHB_IMPUTATION loc.l_strInputField loc.l_strOutputField with
  | none => rfl
  | some a1 =>
    simp only [Option.some_bind]
    cases addedFromTable (ds.getD (l_iIdx + 2) blankField) (ind.convert (l_iIdx + 2))
      loc.l_strTOP_INT_EXT a1.1 a1.2.1 with
    | none => rfl
    | some a2 =>
      simp only [Option.some_bind]
      cases addedFromTable (ds.getD (l_iIdx + 3) blankField) (ind.convert (l_iIdx + 3))
        loc.l_strTVA a2.1 a2.2.1 with
      | none => rfl
      | some a3 => rfl

/-- The blocks of the PreMai step that follow the currency and amount blocks
do not read the buffer of the decimals of `MAI_DEV_CTP`, and they read the
DODGE table only. -/
theorem recordStepPreMai_tail (tabs1 tabs2 : TablesPreMai) (ds : List FieldOfRecord)
    (ENTITY : CStr) (ind : IndeterminatePreMai) (idx : Nat) (field : CStr) (fd : FieldOfRecord)
    (L : LocalsPreMai) (y : List Nat) (W : List RecordWrite)
    (hd : tabs1.COMPTE_DODGEHashArray = tabs2.COMPTE_DODGEHashArray) :
    ((blockDAT_OPE fd (setCtp y L)).bind fun loc1 =>
      (if fd.strFieldName = str "MAI_CPT_IMP" then blockCPT_IMP tabs1 ds ENTITY field loc1
        else some (loc1, [])).bind fun cp =>
      (blockREF_OPE fd cp.1).bind fun loc2 =>
      (if fd.iFieldType = ADD_CD_TYPIMP_TYPEI_TVA then addedFieldsPreMai ds ind idx loc2
        else some (idx, loc2, [])).map
        fun (a : Nat × LocalsPreMai × List RecordWrite) =>
          (a.1 + 1, a.2.1, W ++ cp.2 ++ a.2.2)) =
    ((blockDAT_OPE fd L).bind fun loc1 =>
      (if fd.strFieldName = str "MAI_CPT_IMP" then blockCPT_IMP tabs2 ds ENTITY field loc1
        else some (loc1, [])).bind fun cp =>
      (blockREF_OPE fd cp.1).bind fun loc2 =>
      (if fd.iFieldType = ADD_CD_TYPIMP_TYPEI_TVA then addedFieldsPreMai ds ind idx loc2
        else some (idx, loc2, [])).map
        fun (a : Nat × LocalsPreMai × List RecordWrite) =>
          (a.1 + 1, a.2.1, W ++ cp.2 ++ a.2.2)).map
      (fun r => (r.1, setCtp y r.2.1, r.2.2)) := by
  rw [blockDAT_OPE_setCtp]
  cases blockDAT_OPE fd L with
  | none => rfl
  | some loc1 =>
    simp only [Option.map_some', Option.some_bind]
    have hcp : (if fd.strFieldName = str "MAI_CPT_IMP" then
          blockCPT_IMP tabs1 ds ENTITY field (setCtp y loc1)
        else some (setCtp y loc1, [])) =
        (if fd.strFieldName = str "MAI_CPT_IMP" then blockCPT_IMP tabs2 ds ENTITY field loc1
        else some (loc1, [])).map (fun r => (setCtp y r.1, r.2)) := by
      split
      · exact blockCPT_IMP_setCtp tabs1 tabs2 ds ENTITY field loc1 y hd
      · rfl
    rw [hcp]
    cases (if fd.strFieldName = str "MAI_CPT_IMP" then blockCPT_IMP tabs2 ds ENTITY field loc1
        else some (loc1, [])) with
    | none => rfl
    | some cp =>
      simp only [Option.map_some', Option.some_bind]
      rw [blockREF_OPE_setCtp]
      cases blockREF_OPE fd cp.1 with
      | none => rfl
      | some loc2 =>
        simp only [Option.map_some', Option.some_bind]
        have ha : (if fd.iFieldType = ADD_CD_TYPIMP_TYPEI_TVA then
              addedFieldsPreMai ds ind idx (setCtp y loc2)
            else some (idx, setCtp y loc2, [])) =
            (if fd.iFieldType = ADD_CD_TYPIMP_TYPEI_TVA then addedFieldsPreMai ds ind idx loc2
            else some (idx, loc2, [])).map (fun r => (r.1, setCtp y r.2.1, r.2.2)) := by
          split
          · exact addedFieldsPreMai_setCtp ds ind idx loc2 y
          · rfl
        rw [ha]
        cases (if fd.iFieldType = ADD_CD_TYPIMP_TYPEI_TVA then addedFieldsPreMai ds ind idx loc2
            else some (idx, loc2, [])) with
        | none => rfl
        | some a => rfl

/-- The step of the PreMai `Create_Output_Record` with two sets of tables
that have the same DODGE table and give the same number of decimals for the
fields `MAI_DEV_IMP` and `MAI_DEV_GES`: whatever the buffer of the decimals
of `MAI_DEV_CTP` holds, the next index, the writes and the other buffers are
the same. -/
theorem recordStepPreMai_ctp (tabs1 tabs2 : TablesPreMai) (ds : List FieldOfRecord)
    (ENTITY : CStr) (ind : IndeterminatePreMai) (rec : List Nat) (idx : Nat)
    (loc : LocalsPreMai) (x1 x2 : List Nat)
    (hd : tabs1.COMPTE_DODGEHashArray = tabs2.COMPTE_DODGEHashArray)
    (hagree : ((ds.getD idx blankField).strFieldName = str "MAI_DEV_IMP" ∨
        (ds.getD idx blankField).strFieldName = str "MAI_DEV_GES") →
      ∀ bytes, bufRead rec (ds.getD idx blankField).iFieldStartPosInput
        (ds.getD idx blankField).iFieldLengthInput = some bytes →
      ∀ dec, currencyDecimalPos tabs1.CURRENCYHashArray (fieldOf bytes) dec =
        currencyDecimalPos tabs2.CURRENCYHashArray (fieldOf bytes) dec)
    (hdef : (ds.getD idx blankField).strFieldName = str "MAI_DEV_CTP" →
      ∀ bytes, bufRead rec (ds.getD idx blankField).iFieldStartPosInput
        (ds.getD idx blankField).iFieldLengthInput = some bytes →
      (currencyDecimalPos tabs1.CURRENCYHashArray (fieldOf bytes) x1).isSome =
        (currencyDecimalPos tabs2.CURRENCYHashArray (fieldOf bytes) x2).isSome) :
    (recordStepPreMai tabs1 ds ENTITY ind rec idx (setCtp x1 loc)).map
        (fun r => (r.1, setCtp [] r.2.1, r.2.2)) =
      (recordStepPreMai tabs2 ds ENTITY ind rec idx (setCtp x2 loc)).map
        (fun r => (r.1, setCtp [] r.2.1, r.2.2)) := by
  unfold recordStepPreMai
  simp only []
  have e1 : (setCtp x1 loc).l_strInputField = loc.l_strInputField := rfl
  have e2 : (setCtp x2 loc).l_strInputField = loc.l_strInputField := rfl
  have e3 : (setCtp x1 loc).l_strOutputField = loc.l_strOutputField := rfl
  have e4 : (setCtp x2 loc).l_strOutputField = loc.l_strOutputField := rfl
  rw [e1, e2, e3, e4]
  cases hload : loadField loc.l_strInputField rec (ds.getD idx blankField).iFieldStartPosInput
    (ds.getD idx blankField).iFieldLengthInput with
  | none => rfl
  | some inF =>
    simp only [Option.some_bind]
    cases convertAndCopy (ds.getD idx blankField) (ind.convert idx) inF loc.l_strOutputField with
    | none => rfl
    | some c =>
      simp only [Option.some_bind]
      obtain ⟨bytes, hb, hf⟩ := loadField_field _ _ _ _ _ hload
      rw [hf]
      simp only [Option.some_bind]
      have R := amountBlocksPreMai_ctp tabs1 tabs2 (ds.getD idx blankField) (fieldOf bytes) c.1
        loc x1 x2 (fun hn => hagree hn bytes hb) (fun hn => hdef hn bytes hb)
      change (Option.bind (amountBlocksPreMai tabs1 (ds.getD idx blankField) (fieldOf bytes) c.1
        (setCtp x1 loc)) _).map _ = (Option.bind (amountBlocksPreMai tabs2
        (ds.getD idx blankField) (fieldOf bytes) c.1 (setCtp x2 loc)) _).map _
      cases h1 : amountBlocksPreMai tabs1 (ds.getD idx blankField) (fieldOf bytes) c.1
        (setCtp x1 loc) with
      | none =>
        cases h2 : amountBlocksPreMai tabs2 (ds.getD idx blankField) (fieldOf bytes) c.1
          (setCtp x2 loc) with
        | none => rfl
        | some am2 =>
          rw [h1, h2] at R
          exact absurd R (by simp)
      | some am1 =>
        cases h2 : amountBlocksPreMai tabs2 (ds.getD idx blankField) (fieldOf bytes) c.1
          (setCtp x2 loc) with
        | none =>
          rw [h1, h2] at R
          exact absurd R (by simp)
        | some am2 =>
          rw [h1, h2] at R
          simp only [Option.map_some', Option.some.injEq, Prod.mk.injEq] at R
          obtain ⟨r1, r2, r3⟩ := R
          simp only [Option.some_bind]
          have T1 := recordStepPreMai_tail tabs1 tabs2 ds ENTITY ind idx (fieldOf bytes)
            (ds.getD idx blankField)
            { loc with
              l_strInputField := inF
              l_strOutputField := c.1
              l_strDEV_IMP_DECIMAL_POS := am1.1
              l_strDEV_GES_DECIMAL_POS := am1.2.1 } am1.2.2.1 ([c.2] ++ am1.2.2.2) hd
          have T2 := recordStepPreMai_tail tabs2 tabs2 ds ENTITY ind idx (fieldOf bytes)
            (ds.getD idx blankField)
            { loc with
              l_strInputField := inF
              l_strOutputField := c.1
              l_strDEV_IMP_DECIMAL_POS := am2.1
              l_strDEV_GES_DECIMAL_POS := am2.2.1 } am2.2.2.1 ([c.2] ++ am2.2.2.2) rfl
          refine Eq.trans (congrArg (Option.map _) T1) ?_
          refine Eq.trans ?_ (congrArg (Option.map _) T2).symm
          rw [r1, r2, r3, Option.map_map, Option.map_map]
          rfl

theorem setCtp_self (loc : LocalsPreMai) : setCtp loc.l_strDEV_CTP_DECIMAL_POS loc = loc := rfl

/-- The step of the PreMai `Create_Output_Record` leaves the length of the
buffer of the decimals of `MAI_DEV_CTP` unchanged. -/
theorem recordStepPreMai_ctp_length (tabs : TablesPreMai) (ds : List FieldOfRecord)
    (ENTITY : CStr) (ind : IndeterminatePreMai) (rec : List Nat) (idx : Nat) (loc : LocalsPreMai)
    (r : Nat × LocalsPreMai × List RecordWrite)
    (h : recordStepPreMai tabs ds ENTITY ind rec idx loc = some r) :
    r.2.1.l_strDEV_CTP_DECIMAL_POS.length = loc.l_strDEV_CTP_DECIMAL_POS.length := by
  obtain ⟨_, c, field, am, _, _, _, ham, _, _, e3, _⟩ :=
    recordStepPreMai_blocks tabs ds ENTITY ind rec idx loc r h
  rw [e3]
  exact amountBlocksPreMai_ctp_length tabs _ field c.1 loc am ham

/-- The loop of the PreMai `Create_Output_Record` with two sets of tables
that have the same DODGE table and give the same number of decimals for the
fields `MAI_DEV_IMP` and `MAI_DEV_GES` of the record: the final index, the
writes and the buffers other than the one of the decimals of `MAI_DEV_CTP`
are the same. -/
theorem recordLoopPreMai_ctp (tabs1 tabs2 : TablesPreMai) (ds : List FieldOfRecord)
    (ENTITY : CStr) (ind : IndeterminatePreMai) (rec : List Nat)
    (hd : tabs1.COMPTE_DODGEHashArray = tabs2.COMPTE_DODGEHashArray)
    (hagree : ∀ idx, ((ds.getD idx blankField).strFieldName = str "MAI_DEV_IMP" ∨
        (ds.getD idx blankField).strFieldName = str "MAI_DEV_GES") →
      ∀ bytes, bufRead rec (ds.getD idx blankField).iFieldStartPosInput
        (ds.getD idx blankField).iFieldLengthInput = some bytes →
      ∀ dec, currencyDecimalPos tabs1.CURRENCYHashArray (fieldOf bytes) dec =
        currencyDecimalPos tabs2.CURRENCYHashArray (fieldOf bytes) dec)
    (hdef : ∀ idx, (ds.getD idx blankField).strFieldName = str "MAI_DEV_CTP" →
      ∀ bytes, bufRead rec (ds.getD idx blankField).iFieldStartPosInput
        (ds.getD idx blankField).iFieldLengthInput = some bytes →
      ∀ x1 x2 : List Nat, x1.length = 2 → x2.length = 2 →
      (currencyDecimalPos tabs1.CURRENCYHashArray (fieldOf bytes) x1).isSome =
        (currencyDecimalPos tabs2.CURRENCYHashArray (fieldOf bytes) x2).isSome) :
    ∀ (fuel idx : Nat) (loc : LocalsPreMai) (x1 x2 : List Nat) (ws : List RecordWrite),
      x1.length = 2 → x2.length = 2 →
      (recordLoopPreMai tabs1 ds ENTITY ind rec fuel idx (setCtp x1 loc) ws).map
          (fun r => (r.1, setCtp [] r.2.1, r.2.2)) =
        (recordLoopPreMai tabs2 ds ENTITY ind rec fuel idx (setCtp x2 loc) ws).map
          (fun r => (r.1, setCtp [] r.2.1, r.2.2)) := by
  intro fuel
  induction fuel with
  | zero => intro idx loc x1 x2 ws _ _; rfl
  | succ fuel ih =>
    intro idx loc x1 x2 ws h1 h2
    unfold recordLoopPreMai
    by_cases hn : (ds.getD idx blankField).strFieldName.length > 0
    · rw [if_pos hn, if_pos hn]
      have R := recordStepPreMai_ctp tabs1 tabs2 ds ENTITY ind rec idx loc x1 x2 hd
        (hagree idx) (fun hc bytes hb => hdef idx hc bytes hb x1 x2 h1 h2)
      cases s1 : recordStepPreMai tabs1 ds ENTITY ind rec idx (setCtp x1 loc) with
      | none =>
        cases s2 : recordStepPreMai tabs2 ds ENTITY ind rec idx (setCtp x2 loc) with
        | none => rfl
        | some r2 =>
          rw [s1, s2] at R
          exact absurd R (by simp)
      | some r1 =>
        cases s2 : recordStepPreMai tabs2 ds ENTITY ind rec idx (setCtp x2 loc) with
        | none =>
          rw [s1, s2] at R
          exact absurd R (by simp)
        | some r2 =>
          rw [s1, s2] at R
          simp only [Option.map_some', Option.some.injEq, Prod.mk.injEq] at R
          obtain ⟨q1, q2, q3⟩ := R
          simp only [Option.some_bind]
          have l1 := recordStepPreMai_ctp_length _ _ _ _ _ _ _ _ s1
          have l2 := recordStepPreMai_ctp_length _ _ _ _ _ _ _ _ s2
          have hl1 : r1.2.1.l_strDEV_CTP_DECIMAL_POS.length = 2 := l1.trans h1
          have hl2 : r2.2.1.l_strDEV_CTP_DECIMAL_POS.length = 2 := l2.trans h2
          have k1 : r1.2.1 = setCtp r1.2.1.l_strDEV_CTP_DECIMAL_POS (setCtp [] r1.2.1) := rfl
          have k2 : r2.2.1 = setCtp r2.2.1.l_strDEV_CTP_DECIMAL_POS (setCtp [] r1.2.1) := by
            rw [q2]
            rfl
          rw [← q1, ← q3]
          have I := ih r1.1 (setCtp [] r1.2.1) r1.2.1.l_strDEV_CTP_DECIMAL_POS
            r2.2.1.l_strDEV_CTP_DECIMAL_POS (ws ++ r1.2.2) hl1 hl2
          rw [← k1, ← k2] at I
          exact I
    · rw [if_neg hn, if_neg hn]
      rfl

/-- The writes of the PreMai `Create_Output_Record` with two sets of tables
that have the same DODGE table and give the same number of decimals for the
fields `MAI_DEV_IMP` and `MAI_DEV_GES` of the record. -/
theorem recordWritesPreMai_ctp (tabs1 tabs2 : TablesPreMai) (ds : List FieldOfRecord)
    (ENTITY : CStr) (ind : IndeterminatePreMai) (lot : LOTState) (rec : List Nat)
    (hd : tabs1.COMPTE_DODGEHashArray = tabs2.COMPTE_DODGEHashArray)
    (hagree : ∀ idx, ((ds.getD idx blankField).strFieldName = str "MAI_DEV_IMP" ∨
        (ds.getD idx blankField).strFieldName = str "MAI_DEV_GES") →
      ∀ bytes, bufRead rec (ds.getD idx blankField).iFieldStartPosInput
        (ds.getD idx blankField).iFieldLengthInput = some bytes →
      ∀ dec, currencyDecimalPos tabs1.CURRENCYHashArray (fieldOf bytes) dec =
        currencyDecimalPos tabs2.CURRENCYHashArray (fieldOf bytes) dec)
    (hdef : ∀ idx, (ds.getD idx blankField).strFieldName = str "MAI_DEV_CTP" →
      ∀ bytes, bufRead rec (ds.getD idx blankField).iFieldStartPosInput
        (ds.getD idx blankField).iFieldLengthInput = some bytes →
      ∀ x1 x2 : List Nat, x1.length = 2 → x2.length = 2 →
      (currencyDecimalPos tabs1.CURRENCYHashArray (fieldOf bytes) x1).isSome =
        (currencyDecimalPos tabs2.CURRENCYHashArray (fieldOf bytes) x2).isSome) :
    recordWritesPreMai tabs1 ds ENTITY ind lot rec =
      recordWritesPreMai tabs2 ds ENTITY ind lot rec := by
  have R := recordLoopPreMai_ctp tabs1 tabs2 ds ENTITY ind rec hd hagree hdef (ds.length + 1) 0
    (initialLocalsPreMai ind) ((List.range 2).map ind.decimalPosCtp)
    ((List.range 2).map ind.decimalPosCtp) [] rfl rfl
  have e : setCtp ((List.range 2).map ind.decimalPosCtp) (initialLocalsPreMai ind) =
      initialLocalsPreMai ind := rfl
  rw [e] at R
  unfold recordWritesPreMai
  cases s1 : recordLoopPreMai tabs1 ds ENTITY ind rec (ds.length + 1) 0
    (initialLocalsPreMai ind) [] with
  | none =>
    cases s2 : recordLoopPreMai tabs2 ds ENTITY ind rec (ds.length + 1) 0
      (initialLocalsPreMai ind) [] with
    | none => rfl
    | some r2 =>
      rw [s1, s2] at R
      exact absurd R (by simp)
  | some r1 =>
    cases s2 : recordLoopPreMai tabs2 ds ENTITY ind rec (ds.length + 1) 0
      (initialLocalsPreMai ind) [] with
    | none =>
      rw [s1, s2] at R
      exact absurd R (by simp)
    | some r2 =>
      rw [s1, s2] at R
      simp only [Option.map_some', Option.some.injEq, Prod.mk.injEq] at R
      obtain ⟨q1, q2, q3⟩ := R
      simp only [Option.some_bind]
      have a1 : r1.2.1.l_strDAT_OPE = r2.2.1.l_strDAT_OPE := by
        have t := congrArg (fun l : LocalsPreMai => l.l_strDAT_OPE) q2
        exact t
      have a2 : r1.2.1.l_strAppliEmet = r2.2.1.l_strAppliEmet := by
        have t := congrArg (fun l : LocalsPreMai => l.l_strAppliEmet) q2
        exact t
      have a3 : r1.2.1.l_strIdLot = r2.2.1.l_strIdLot := by
        have t := congrArg (fun l : LocalsPreMai => l.l_strIdLot) q2
        exact t
      rw [a1, a2, a3, q1, q3]

theorem getD_mem_or_blank (ds : List FieldOfRecord) (i : Nat) :
    ds.getD i blankField ∈ ds ∨ ds.getD i blankField = blankField := by
  by_cases h : i < ds.length
  · left
    rw [List.getD_eq_getElem _ _ h]
    exact List.getElem_mem _
  · right
    exact List.getD_eq_default _ _ (by omega)

theorem amountBlocksPreMai_MNT_NOM (tabs : TablesPreMai) (fd : FieldOfRecord) (field : CStr)
    (outF : List Nat) (loc : LocalsPreMai)
    (am : List Nat × List Nat × List Nat × List RecordWrite)
    (h : amountBlocksPreMai tabs fd field outF loc = some am)
    (hn : fd.strFieldName = str "MAI_MNT_NOM") :
    ∃ ws, amountBlockPreMai fd outF loc.l_strDEV_GES_DECIMAL_POS = some ws ∧
      ∀ w ∈ ws, w ∈ am.2.2.2 := by
  unfold amountBlocksPreMai at h
  simp only [Option.bind_eq_some, Option.map_eq_some', hn] at h
  obtain ⟨_, _, _, _, d2, h2, _, _, _, _, w3, hw3, hr⟩ := h
  rw [if_neg (by decide)] at h2
  rw [if_pos True.intro] at hw3
  rw [← Option.some.inj h2] at hw3
  refine ⟨w3, hw3, ?_⟩
  intro w hw
  rw [← hr]
  simp [hw]

/-- The buffers of the decimals of `MAI_DEV_IMP` and `MAI_DEV_GES` are left
as they are by the blocks of every other field. -/
theorem amountBlocksPreMai_keep (tabs : TablesPreMai) (fd : FieldOfRecord) (field : CStr)
    (outF : List Nat) (loc : LocalsPreMai)
    (am : List Nat × List Nat × List Nat × List RecordWrite)
    (h : amountBlocksPreMai tabs fd field outF loc = some am) :
    (fd.strFieldName ≠ str "MAI_DEV_IMP" → am.1 = loc.l_strDEV_IMP_DECIMAL_POS) ∧
    (fd.strFieldName ≠ str "MAI_DEV_GES" → am.2.1 = loc.l_strDEV_GES_DECIMAL_POS) := by
  unfold amountBlocksPreMai at h
  simp only [Option.bind_eq_some, Option.map_eq_some'] at h
  obtain ⟨d1, h1, _, _, d2, h2, _, _, _, _, _, _, hr⟩ := h
  rw [← hr]
  constructor
  · intro hn
    rw [if_neg hn] at h1
    exact (Option.some.inj h1).symm
  · intro hn
    rw [if_neg hn] at h2
    exact (Option.some.inj h2).symm

/-- Two CURRENCY tables in which a field is found at the same position with
the same number of decimals give the same buffer of decimals. -/
theorem currencyDecimalPos_congr (cur1 cur2 : Table CURRENCYHashElt) (field : CStr)
    (r : FindResult)
    (h1 : FindElementInCURRENCYHashArrayTable cur1 field = some r)
    (h2 : FindElementInCURRENCYHashArrayTable cur2 field = some r)
    (he : (cur1 r.o_lPositXHashKey.toNat r.o_lPositYHashKey.toNat).strDECIMAL_POS =
      (cur2 r.o_lPositXHashKey.toNat r.o_lPositYHashKey.toNat).strDECIMAL_POS)
    (dec : List Nat) :
    currencyDecimalPos cur1 field dec = currencyDecimalPos cur2 field dec := by
  unfold currencyDecimalPos
  rw [h1, h2]
  simp only [Option.some_bind]
  rw [he]

/-- C39. In the PreMai `Create_Output_Record`, for every table of fields and
every input record: when two sets of tables have the same DODGE table, give
the same number of decimals for the content of every field `MAI_DEV_IMP` and
`MAI_DEV_GES` of the record, and both have a defined lookup for the content of
every field `MAI_DEV_CTP`, the two runs return the same value, the same
output record and the same LOT table: the number of decimals looked up for
`MAI_DEV_CTP` reaches no byte of the output.  And in every step of the loop,
the field `MAI_DEV_IMP` (`MAI_DEV_GES`) sets the buffer of the decimals of
IMP (GES) from the CURRENCY table, every other field leaves that buffer as it
is, the field `MAI_MNT_IMP` is rescaled with the buffer of IMP, and the fields
`MAI_MNT_GES` and `MAI_MNT_NOM` are both rescaled with the buffer of GES. -/
theorem amount_currency_pairing (tabs1 tabs2 : TablesPreMai) (ds : List FieldOfRecord)
    (ENTITY : CStr) (ind : IndeterminatePreMai) (lot : LOTState)
    (i_InputRecord o_OutputRecord : List Nat)
    (hd : tabs1.COMPTE_DODGEHashArray = tabs2.COMPTE_DODGEHashArray)
    (hagree : ∀ d ∈ ds,
      (d.strFieldName = str "MAI_DEV_IMP" ∨ d.strFieldName = str "MAI_DEV_GES") →
      ∀ bytes, bufRead i_InputRecord d.iFieldStartPosInput d.iFieldLengthInput = some bytes →
      ∀ dec, currencyDecimalPos tabs1.CURRENCYHashArray (fieldOf bytes) dec =
        currencyDecimalPos tabs2.CURRENCYHashArray (fieldOf bytes) dec)
    (hdef : ∀ d ∈ ds, d.strFieldName = str "MAI_DEV_CTP" →
      ∀ bytes, bufRead i_InputRecord d.iFieldStartPosInput d.iFieldLengthInput = some bytes →
      ∀ x1 x2 : List Nat, x1.length = 2 → x2.length = 2 →
      (currencyDecimalPos tabs1.CURRENCYHashArray (fieldOf bytes) x1).isSome =
        (currencyDecimalPos tabs2.CURRENCYHashArray (fieldOf bytes) x2).isSome) :
    Create_Output_Record_PreMai tabs1 ds ENTITY ind lot i_InputRecord o_OutputRecord =
      Create_Output_Record_PreMai tabs2 ds ENTITY ind lot i_InputRecord o_OutputRecord ∧
    ∀ (idx : Nat) (loc : LocalsPreMai) (r : Nat × LocalsPreMai × List RecordWrite),
      recordStepPreMai tabs1 ds ENTITY ind i_InputRecord idx loc = some r →
      ∃ inF c value,
        loadField loc.l_strInputField i_InputRecord (ds.getD idx blankField).iFieldStartPosInput
          (ds.getD idx blankField).iFieldLengthInput = some inF ∧
        convertAndCopy (ds.getD idx blankField) (ind.convert idx) inF loc.l_strOutputField =
          some c ∧
        cstrOf inF = some value ∧
        ((ds.getD idx blankField).strFieldName = str "MAI_DEV_IMP" →
          currencyDecimalPos tabs1.CURRENCYHashArray value loc.l_strDEV_IMP_DECIMAL_POS =
            some r.2.1.l_strDEV_IMP_DECIMAL_POS) ∧
        ((ds.getD idx blankField).strFieldName ≠ str "MAI_DEV_IMP" →
          r.2.1.l_strDEV_IMP_DECIMAL_POS = loc.l_strDEV_IMP_DECIMAL_POS) ∧
        ((ds.getD idx blankField).strFieldName = str "MAI_DEV_GES" →
          currencyDecimalPos tabs1.CURRENCYHashArray value loc.l_strDEV_GES_DECIMAL_POS =
            some r.2.1.l_strDEV_GES_DECIMAL_POS) ∧
        ((ds.getD idx blankField).strFieldName ≠ str "MAI_DEV_GES" →
          r.2.1.l_strDEV_GES_DECIMAL_POS = loc.l_strDEV_GES_DECIMAL_POS) ∧
        ((ds.getD idx blankField).strFieldName = str "MAI_MNT_IMP" →
          ∃ ws, amountBlockPreMai (ds.getD idx blankField) c.1 loc.l_strDEV_IMP_DECIMAL_POS =
            some ws ∧ ∀ w ∈ ws, w ∈ r.2.2) ∧
        ((ds.getD idx blankField).strFieldName = str "MAI_MNT_GES" →
          ∃ ws, amountBlockPreMai (ds.getD idx blankField) c.1 loc.l_strDEV_GES_DECIMAL_POS =
            some ws ∧ ∀ w ∈ ws, w ∈ r.2.2) ∧
        ((ds.getD idx blankField).strFieldName = str "MAI_MNT_NOM" →
          ∃ ws, amountBlockPreMai (ds.getD idx blankField) c.1 loc.l_strDEV_GES_DECIMAL_POS =
            some ws ∧ ∀ w ∈ ws, w ∈ r.2.2) := by
  constructor
  · have hb : ∀ idx : Nat, (ds.getD idx blankField).strFieldName ≠ [] →
        ds.getD idx blankField ∈ ds := by
      intro idx hne
      rcases getD_mem_or_blank ds idx with h | h
      · exact h
      · rw [h] at hne
        exact absurd rfl hne
    have W := recordWritesPreMai_ctp tabs1 tabs2 ds ENTITY ind lot i_InputRecord hd
      (fun idx hn => hagree _ (hb idx (by
        rcases hn with h | h <;> rw [h] <;> decide)) hn)
      (fun idx hn => hdef _ (hb idx (by rw [hn]; decide)) hn)
    unfold Create_Output_Record_PreMai
    rw [W]
  · intro idx loc r h
    obtain ⟨inF, c, value, am, hload, hc, hv, ham, e1, e2, _, hw⟩ :=
      recordStepPreMai_blocks tabs1 ds ENTITY ind i_InputRecord idx loc r h
    have hk := amountBlocksPreMai_keep tabs1 _ value c.1 loc am ham
    refine ⟨inF, c, value, hload, hc, hv, ?_, ?_, ?_, ?_, ?_, ?_, ?_⟩
    · intro hn
      rw [e1]
      exact amountBlocksPreMai_DEV_IMP tabs1 _ value c.1 loc am ham hn
    · intro hn
      rw [e1]
      exact hk.1 hn
    · intro hn
      rw [e2]
      exact amountBlocksPreMai_DEV_GES tabs1 _ value c.1 loc am ham hn
    · intro hn
      rw [e2]
      exact hk.2 hn
    · intro hn
      obtain ⟨ws, h1, h2⟩ := amountBlocksPreMai_MNT_IMP tabs1 _ value c.1 loc am ham hn
      exact ⟨ws, h1, fun w hw1 => hw w (h2 w hw1)⟩
    · intro hn
      obtain ⟨ws, h1, h2⟩ := amountBlocksPreMai_MNT_GES tabs1 _ value c.1 loc am ham hn
      exact ⟨ws, h1, fun w hw1 => hw w (h2 w hw1)⟩
    · intro hn
      obtain ⟨ws, h1, h2⟩ := amountBlocksPreMai_MNT_NOM tabs1 _ value c.1 loc am ham hn
      exact ⟨ws, h1, fun w hw1 => hw w (h2 w hw1)⟩

set_option maxRecDepth 1000000 in
theorem pairFieldsPreMai_agree : ∀ d ∈ pairFieldsPreMai,
    (d.strFieldName = str "MAI_DEV_IMP" ∨ d.strFieldName = str "MAI_DEV_GES") →
    ∀ bytes, bufRead pairRecordPreMai d.iFieldStartPosInput d.iFieldLengthInput = some bytes →
    ∀ dec, currencyDecimalPos (pairTablesPreMai (str "2")).CURRENCYHashArray (fieldOf bytes) dec =
      currencyDecimalPos (pairTablesPreMai (str "0")).CURRENCYHashArray (fieldOf bytes) dec := by
  intro d hd hn bytes hb dec
  simp only [pairFieldsPreMai, List.mem_cons, List.mem_singleton, List.mem_nil_iff,
    or_false] at hd
  rcases hd with rfl | rfl | rfl | rfl | rfl | rfl | rfl | rfl
  · exact absurd hn (by decide)
  · exact absurd hn (by decide)
  · have hb1 : bufRead pairRecordPreMai 28 3 = some (str "USD") := by decide
    have e : str "USD" = bytes := Option.some.inj (hb1.symm.trans hb)
    rw [← e]
    exact currencyDecimalPos_congr _ _ _ (found 0 46) (by decide) (by decide) (by decide) dec
  · have hb1 : bufRead pairRecordPreMai 31 3 = some (str "JPY") := by decide
    have e : str "JPY" = bytes := Option.some.inj (hb1.symm.trans hb)
    rw [← e]
    exact currencyDecimalPos_congr _ _ _ (found 0 37) (by decide) (by decide) (by decide) dec
  · exact absurd hn (by decide)
  · exact absurd hn (by decide)
  · exact absurd hn (by decide)
  · exact absurd hn (by decide)


set_option maxRecDepth 1000000 in
theorem pairFieldsPreMai_defined : ∀ d ∈ pairFieldsPreMai,
    d.strFieldName = str "MAI_DEV_CTP" →
    ∀ bytes, bufRead pairRecordPreMai d.iFieldStartPosInput d.iFieldLengthInput = some bytes →
    ∀ x1 x2 : List Nat, x1.length = 2 → x2.length = 2 →
    (currencyDecimalPos (pairTablesPreMai (str "2")).CURRENCYHashArray (fieldOf bytes)
        x1).isSome =
      (currencyDecimalPos (pairTablesPreMai (str "0")).CURRENCYHashArray (fieldOf bytes)
        x2).isSome := by
  intro d hd hn bytes hb x1 x2 h1 h2
  simp only [pairFieldsPreMai, List.mem_cons, List.mem_singleton, List.mem_nil_iff,
    or_false] at hd
  rcases hd with rfl | rfl | rfl | rfl | rfl | rfl | rfl | rfl
  · exact absurd hn (by decide)
  · exact absurd hn (by decide)
  · exact absurd hn (by decide)
  · exact absurd hn (by decide)
  · have hb1 : bufRead pairRecordPreMai 34 3 = some (str "EUR") := by decide
    have e : str "EUR" = bytes := Option.some.inj (hb1.symm.trans hb)
    rw [← e]
    obtain ⟨d1, q1, _⟩ := currencyDecimalPos_found
      (pairTablesPreMai (str "2")).CURRENCYHashArray (fieldOf (str "EUR")) x1 h1 0 30
      (by decide) (by decide) (by decide) (by decide)
    obtain ⟨d2, q2, _⟩ := currencyDecimalPos_found
      (pairTablesPreMai (str "0")).CURRENCYHashArray (fieldOf (str "EUR")) x2 h2 0 30
      (by decide) (by decide) (by decide) (by decide)
    rw [q1, q2]
    rfl
  · exact absurd hn (by decide)
  · exact absurd hn (by decide)
  · exact absurd hn (by decide)


theorem amount_currency_pairing_witness :
    (pairTablesPreMai (str "2")).COMPTE_DODGEHashArray =
      (pairTablesPreMai (str "0")).COMPTE_DODGEHashArray ∧
    (∀ d ∈ pairFieldsPreMai,
      (d.strFieldName = str "MAI_DEV_IMP" ∨ d.strFieldName = str "MAI_DEV_GES") →
      ∀ bytes, bufRead pairRecordPreMai d.iFieldStartPosInput d.iFieldLengthInput = some bytes →
      ∀ dec, currencyDecimalPos (pairTablesPreMai (str "2")).CURRENCYHashArray (fieldOf bytes)
          dec =
        currencyDecimalPos (pairTablesPreMai (str "0")).CURRENCYHashArray (fieldOf bytes) dec) ∧
    (∀ d ∈ pairFieldsPreMai, d.strFieldName = str "MAI_DEV_CTP" →
      ∀ bytes, bufRead pairRecordPreMai d.iFieldStartPosInput d.iFieldLengthInput = some bytes →
      ∀ x1 x2 : List Nat, x1.length = 2 → x2.length = 2 →
      (currencyDecimalPos (pairTablesPreMai (str "2")).CURRENCYHashArray (fieldOf bytes)
          x1).isSome =
        (currencyDecimalPos (pairTablesPreMai (str "0")).CURRENCYHashArray (fieldOf bytes)
          x2).isSome) ∧
    (Create_Output_Record_PreMai (pairTablesPreMai (str "2")) pairFieldsPreMai (str "CA") sampleIndeterminatePreMai initialLOTState pairRecordPreMai (List.replicate 300 32) =
      Create_Output_Record_PreMai (pairTablesPreMai (str "0")) pairFieldsPreMai (str "CA") sampleIndeterminatePreMai initialLOTState pairRecordPreMai (List.replicate 300 32) ∧
    ∀ (idx : Nat) (loc : LocalsPreMai) (r : Nat × LocalsPreMai × List RecordWrite),
      recordStepPreMai (pairTablesPreMai (str "2")) pairFieldsPreMai (str "CA") sampleIndeterminatePreMai pairRecordPreMai idx loc = some r →
      ∃ inF c value,
        loadField loc.l_strInputField pairRecordPreMai (pairFieldsPreMai.getD idx blankField).iFieldStartPosInput
          (pairFieldsPreMai.getD idx blankField).iFieldLengthInput = some inF ∧
        convertAndCopy (pairFieldsPreMai.getD idx blankField) (sampleIndeterminatePreMai.convert idx) inF loc.l_strOutputField =
          some c ∧
        cstrOf inF = some value ∧
        ((pairFieldsPreMai.getD idx blankField).strFieldName = str "MAI_DEV_IMP" →
          currencyDecimalPos (pairTablesPreMai (str "2")).CURRENCYHashArray value loc.l_strDEV_IMP_DECIMAL_POS =
            some r.2.1.l_strDEV_IMP_DECIMAL_POS) ∧
        ((pairFieldsPreMai.getD idx blankField).strFieldName ≠ str "MAI_DEV_IMP" →
          r.2.1.l_strDEV_IMP_DECIMAL_POS = loc.l_strDEV_IMP_DECIMAL_POS) ∧
        ((pairFieldsPreMai.getD idx blankField).strFieldName = str "MAI_DEV_GES" →
          currencyDecimalPos (pairTablesPreMai (str "2")).CURRENCYHashArray value loc.l_strDEV_GES_DECIMAL_POS =
            some r.2.1.l_strDEV_GES_DECIMAL_POS) ∧
        ((pairFieldsPreMai.getD idx blankField).strFieldName ≠ str "MAI_DEV_GES" →
          r.2.1.l_strDEV_GES_DECIMAL_POS = loc.l_strDEV_GES_DECIMAL_POS) ∧
        ((pairFieldsPreMai.getD idx blankField).strFieldName = str "MAI_MNT_IMP" →
          ∃ ws, amountBlockPreMai (pairFieldsPreMai.getD idx blankField) c.1 loc.l_strDEV_IMP_DECIMAL_POS =
            some ws ∧ ∀ w ∈ ws, w ∈ r.2.2) ∧
        ((pairFieldsPreMai.getD idx blankField).strFieldName = str "MAI_MNT_GES" →
          ∃ ws, amountBlockPreMai (pairFieldsPreMai.getD idx blankField) c.1 loc.l_strDEV_GES_DECIMAL_POS =
            some ws ∧ ∀ w ∈ ws, w ∈ r.2.2) ∧
        ((pairFieldsPreMai.getD idx blankField).strFieldName = str "MAI_MNT_NOM" →
          ∃ ws, amountBlockPreMai (pairFieldsPreMai.getD idx blankField) c.1 loc.l_strDEV_GES_DECIMAL_POS =
            some ws ∧ ∀ w ∈ ws, w ∈ r.2.2)) :=
  ⟨rfl, pairFieldsPreMai_agree, pairFieldsPreMai_defined,
    amount_currency_pairing (pairTablesPreMai (str "2")) (pairTablesPreMai (str "0"))
      pairFieldsPreMai (str "CA") sampleIndeterminatePreMai initialLOTState pairRecordPreMai
      (List.replicate 300 32) rfl pairFieldsPreMai_agree pairFieldsPreMai_defined⟩

set_option maxRecDepth 1000000 in
set_option maxHeartbeats 4000000 in
/-- The configuration `pairConfPreMai` and the record `pairRecordPreMai`: the
amount 12.50 of `MAI_MNT_IMP` is written with the 2 decimals of USD, the
amount 1000 of `MAI_MNT_GES` with the 0 decimals of JPY, and the amount 7.25
of `MAI_MNT_NOM` is rounded to 7, with the 0 decimals of JPY, whether the
table gives 2 decimals or 0 for EUR, the currency of `MAI_DEV_CTP`.  The
elements of `pairCurrency` are where three calls of
`AddElementInCURRENCYHashKeyTable` put them. -/
theorem amount_currency_pairing_example :
    BuildOutputRecordFormat_PreMai pairConfPreMai = some (pairFieldsPreMai, 62) ∧
    (((AddElementInCURRENCYHashKeyTable InitializeCURRENCYHashKeyTable
        ⟨str "USD", str "2"⟩).bind
      fun t => AddElementInCURRENCYHashKeyTable t ⟨str "JPY", str "0"⟩).bind
      fun t => AddElementInCURRENCYHashKeyTable t ⟨str "EUR", str "2"⟩).map
      (fun t => [t 0 46, t 0 37, t 0 30, t 0 0, t 1 46]) =
      some [pairCurrency (str "2") 0 46, pairCurrency (str "2") 0 37,
        pairCurrency (str "2") 0 30, pairCurrency (str "2") 0 0, pairCurrency (str "2") 1 46] ∧
    currencyDecimalPos (pairCurrency (str "2")) (str "EUR") [0, 0] = some (str "2" ++ [0]) ∧
    currencyDecimalPos (pairCurrency (str "0")) (str "EUR") [0, 0] = some (str "0" ++ [0]) ∧
    (Create_Output_Record_PreMai (pairTablesPreMai (str "2")) pairFieldsPreMai (str "CA")
      sampleIndeterminatePreMai initialLOTState pairRecordPreMai (List.replicate 300 32)).map
      (fun r => (r.1, r.2.1)) =
      some (EXIT_OK, str "CPTA_MARCHE         2024ABC00000000000000001" ++ List.replicate 25 32 ++
        str "000001" ++ List.replicate 94 32 ++ str "20240131REFERENCE00000012ABCUSDJPYEUR" ++
        str "+0000000000000125003+0000000000010000003+0000000000000070003" ++ [0] ++
        List.replicate 33 32) ∧
    (Create_Output_Record_PreMai (pairTablesPreMai (str "0")) pairFieldsPreMai (str "CA")
      sampleIndeterminatePreMai initialLOTState pairRecordPreMai (List.replicate 300 32)).map
      (fun r => (r.1, r.2.1)) =
      some (EXIT_OK, str "CPTA_MARCHE         2024ABC00000000000000001" ++ List.replicate 25 32 ++
        str "000001" ++ List.replicate 94 32 ++ str "20240131REFERENCE00000012ABCUSDJPYEUR" ++
        str "+0000000000000125003+0000000000010000003+0000000000000070003" ++ [0] ++
        List.replicate 33 32) := by
  refine ⟨by decide, by decide, by decide, by decide, by decide, by decide⟩


/-! ## The checks of the formats of the reference files -/

theorem bufWrite_pad (acc src : List Nat) (k : Nat) (h : src.length ≤ k) :
    bufWrite (acc ++ List.replicate k 0) (acc.length : Int) src =
      some (acc ++ src ++ List.replicate (k - src.length) 0) := by
  unfold bufWrite
  rw [if_pos]
  · congr 1
    simp only [Int.toNat_ofNat, List.take_left', List.append_assoc, List.append_cancel_left_eq]
    rw [List.drop_append_eq_append_drop, List.drop_of_length_le (by omega)]
    simp
  · constructor
    · exact Int.ofNat_nonneg _
    · simp only [List.length_append, List.length_replicate]
      push_cast
      omega

theorem refTiersFormatStep_pad (acc : List Nat) (k : Nat) (line : CStr) (hl : line.length > 1)
    (h : (line.take (line.length - 1)).length < k) :
    refTiersFormatStep (acc ++ List.replicate k 0, (acc.length : Int)) line =
      some (acc ++ (line.take (line.length - 1) ++
          (if memcmpEq line (str "SIA_CIT_TYPE") 12 then [] else [59])) ++
        List.replicate (k - (line.take (line.length - 1) ++
          (if memcmpEq line (str "SIA_CIT_TYPE") 12 then [] else [59])).length) 0,
        ((acc ++ (line.take (line.length - 1) ++
          (if memcmpEq line (str "SIA_CIT_TYPE") 12 then [] else [59])) : List Nat).length :
          Int)) := by
  unfold refTiersFormatStep
  rw [if_pos hl]
  simp only []
  generalize line.take (line.length - 1) = piece at h ⊢
  rw [bufWrite_pad acc piece k (by omega)]
  simp only [Option.some_bind]
  have e : ((acc.length : Int) + (piece.length : Int)) = ((acc ++ piece).length : Int) := by
    simp
  by_cases hm : memcmpEq line (str "SIA_CIT_TYPE") 12 = true
  · simp only [if_pos hm]
    rw [e, bufWrite_pad (acc ++ piece) [0] (k - piece.length) (by simp; omega)]
    simp only [Option.map_some', List.append_nil, List.length_singleton,
      Option.some.injEq, Prod.mk.injEq, and_true]
    have : k - piece.length = (k - piece.length - 1) + 1 := by omega
    rw [List.append_assoc (acc ++ piece), List.singleton_append]
    conv_rhs => rw [this, List.replicate_succ]
  · simp only [if_neg hm]
    rw [e, bufWrite_pad (acc ++ piece) [59] (k - piece.length) (by simp; omega)]
    simp only [Option.map_some', List.length_singleton, List.length_append,
      Option.some.injEq, Prod.mk.injEq]
    constructor
    · rw [List.append_assoc acc piece, Nat.sub_sub]
    · push_cast
      ring

theorem refTiersFormat_fold (records : List CStr) :
    ∀ (acc : List Nat) (k : Nat), (refTiersFormatText records).length < k →
      records.foldl (fun st line => st.bind fun s => refTiersFormatStep s line)
        (some (acc ++ List.replicate k 0, (acc.length : Int))) =
      some (acc ++ refTiersFormatText records ++
        List.replicate (k - (refTiersFormatText records).length) 0,
        ((acc ++ refTiersFormatText records : List Nat).length : Int)) := by
  induction records with
  | nil =>
    intro acc k _
    simp [refTiersFormatText, handledLines]
  | cons line rest ih =>
    intro acc k h
    rw [List.foldl_cons, Option.some_bind]
    by_cases hl : line.length > 1
    · have ht : refTiersFormatText (line :: rest) =
          (line.take (line.length - 1) ++
            (if memcmpEq line (str "SIA_CIT_TYPE") 12 then [] else [59])) ++
          refTiersFormatText rest := by
        unfold refTiersFormatText handledLines
        rw [List.filter_cons_of_pos (by simpa using hl), List.flatMap_cons]
      rw [ht] at h ⊢
      rw [List.length_append] at h
      have h1 : (line.take (line.length - 1)).length < k := by
        rw [List.length_append] at h
        omega
      rw [refTiersFormatStep_pad acc k line hl h1]
      generalize (line.take (line.length - 1) ++
        (if memcmpEq line (str "SIA_CIT_TYPE") 12 then [] else [59])) = p at h ⊢
      rw [ih (acc ++ p) (k - p.length) (by omega)]
      simp only [List.append_assoc, List.length_append, Nat.sub_sub]
    · have ht : refTiersFormatText (line :: rest) = refTiersFormatText rest := by
        unfold refTiersFormatText handledLines
        rw [List.filter_cons_of_neg (by simpa using hl)]
      rw [ht] at h ⊢
      have hs : refTiersFormatStep (acc ++ List.replicate k 0, (acc.length : Int)) line =
          some (acc ++ List.replicate k 0, (acc.length : Int)) := by
        unfold refTiersFormatStep
        rw [if_neg hl]
      rw [hs]
      exact ih acc k h

theorem take_pad_eq (text : List Nat) (m : Nat) (e : List Nat) (he : 0 ∉ e) (hm : 0 < m) :
    (text ++ List.replicate m 0).take e.length = e ↔ ∃ rest, text = e ++ rest := by
  constructor
  · intro h
    by_cases hl : e.length ≤ text.length
    · rw [List.take_append_of_le_length hl] at h
      refine ⟨text.drop e.length, ?_⟩
      conv_lhs => rw [← List.take_append_drop e.length text]
      rw [h]
    · exfalso
      apply he
      rw [← h, List.take_append_eq_append_take, List.take_replicate]
      apply List.mem_append_right
      rw [List.mem_replicate]
      exact ⟨by omega, rfl⟩
  · rintro ⟨rest, rfl⟩
    rw [List.append_assoc, List.take_left']
    rfl

/-- The value returned by `BuildRefTiersRecordFormat`, when the text built
from the lines fits in the buffer: EXIT_OK exactly when the text starts with
the expected one. -/
theorem BuildRefTiersRecordFormat_eq (records : List CStr)
    (h : (refTiersFormatText records).length < REF_TIERS_RECORD_LENGTH) :
    ∃ r buf, BuildRefTiersRecordFormat records = some (r, buf) ∧
      (r = EXIT_OK ∨ r = EXIT_ERR) ∧
      (r = EXIT_OK ↔ ∃ rest, refTiersFormatText records = expectedRefTiersFormat ++ rest) := by
  have F := refTiersFormat_fold records [] REF_TIERS_RECORD_LENGTH h
  simp only [List.nil_append, List.length_nil] at F
  have hz : ((0 : Nat) : Int) = 0 := rfl
  unfold BuildRefTiersRecordFormat
  rw [← hz, F]
  simp only [Option.map_some']
  have hlen : expectedRefTiersFormat.length = 70 := by decide
  have h0 : (0 : Nat) ∉ expectedRefTiersFormat := by decide
  have ht : expectedRefTiersFormat.take 70 = expectedRefTiersFormat := by
    rw [← hlen, List.take_length]
  have T := take_pad_eq (refTiersFormatText records)
    (REF_TIERS_RECORD_LENGTH - (refTiersFormatText records).length) expectedRefTiersFormat h0
    (by omega)
  rw [hlen] at T
  rw [ht]
  by_cases hc : (refTiersFormatText records ++ List.replicate
      (REF_TIERS_RECORD_LENGTH - (refTiersFormatText records).length) 0).take 70 =
      expectedRefTiersFormat
  · rw [if_neg (by simpa using hc)]
    exact ⟨_, _, rfl, Or.inl rfl, fun _ => T.mp hc, fun _ => rfl⟩
  · rw [if_pos hc]
    refine ⟨_, _, rfl, Or.inr rfl, fun e => absurd e (by decide), fun e => absurd (T.mpr e) hc⟩

theorem handledLines_cons_pos (line : CStr) (rest : List CStr) (h : line.length > 1) :
    handledLines (line :: rest) = line :: handledLines rest := by
  unfold handledLines
  rw [List.filter_cons_of_pos (by simpa using h)]

theorem handledLines_cons_neg (line : CStr) (rest : List CStr) (h : ¬ line.length > 1) :
    handledLines (line :: rest) = handledLines rest := by
  unfold handledLines
  rw [List.filter_cons_of_neg (by simpa using h)]

theorem handledLines_length (records : List CStr) :
    ∀ line ∈ handledLines records, line.length > 1 := by
  intro line hm
  unfold handledLines at hm
  simpa using (List.mem_filter.mp hm).2

theorem handledLines_idem (records : List CStr) :
    handledLines (handledLines records) = handledLines records := by
  unfold handledLines
  rw [List.filter_filter]
  simp

/-- The loop of `BuildRefCurrencyRecordFormat` sees the handled lines only. -/
theorem refCurrencyFormatLoop_handled (records : List CStr) :
    ∀ st, refCurrencyFormatLoop records st = refCurrencyFormatLoop (handledLines records) st := by
  induction records with
  | nil => intro st; rfl
  | cons line rest ih =>
    intro st
    by_cases hl : line.length > 1
    · rw [handledLines_cons_pos line rest hl]
      unfold refCurrencyFormatLoop
      simp only [ih]
    · rw [handledLines_cons_neg line rest hl]
      rw [refCurrencyFormatLoop, if_neg hl]
      exact ih st

theorem refFormat_exclusive (name : CStr)
    (h : memcmpEq name (str "CURRENCY_CD") 11 = true) :
    ¬ memcmpEq name (str "DECIMAL_POS") 11 = true := by
  unfold memcmpEq at h ⊢
  rw [decide_eq_true_iff] at h ⊢
  rw [h]
  decide

/-- One handled line of REF_CURRENCY.conf, the first or the second one: the
loop returns EXIT_ERR when the first line starts with `DECIMAL_POS` or the
second one with `CURRENCY_CD`, and goes on otherwise. -/
theorem refCurrencyFormatLoop_step (line : CStr) (rest : List CStr)
    (st : RefCurrencyFormatState) (hl : line.length > 1) (hok : RefFormatLineOk line)
    (hn : st.l_iRefCurrencyFieldNumber = -1 ∨ st.l_iRefCurrencyFieldNumber = 0) :
    ∃ st1 : RefCurrencyFormatState,
      st1.l_iRefCurrencyFieldNumber = st.l_iRefCurrencyFieldNumber + 1 ∧
      refCurrencyFormatLoop (line :: rest) st =
        if (st.l_iRefCurrencyFieldNumber = -1 ∧
              memcmpEq (refFormatName line) (str "DECIMAL_POS") 11 = true) ∨
            (st.l_iRefCurrencyFieldNumber = 0 ∧
              memcmpEq (refFormatName line) (str "CURRENCY_CD") 11 = true) then
          some (EXIT_ERR, st1)
        else refCurrencyFormatLoop rest st1 := by
  obtain ⟨t1, t2, t3, h1, h2, h3, l1, l2⟩ := hok
  have hname : refFormatName line = t1.1 := by
    unfold refFormatName
    rw [h1]
    rfl
  have c1 : strcpyToken FIELD_NAME_LENGTH (strtok line) = some t1 := by
    unfold strcpyToken
    rw [h1, Option.some_bind, if_pos l1]
  have c2 : strcpyToken FIELD_FORMAT_LENGTH (strtok t1.2) = some t2 := by
    unfold strcpyToken
    rw [h2, Option.some_bind, if_pos l2]
  have hlt : st.l_iRefCurrencyFieldNumber + 1 < MAX_FIELD_NUMBER_CURRENCY := by
    unfold MAX_FIELD_NUMBER_CURRENCY
    omega
  rw [refCurrencyFormatLoop, if_pos hl]
  simp only []
  rw [if_pos hlt, c1, Option.some_bind, hname]
  by_cases hcur : memcmpEq t1.1 (str "CURRENCY_CD") 11 = true
  · have hdec := refFormat_exclusive t1.1 hcur
    rw [if_pos hcur]
    rcases hn with hn | hn
    · rw [if_pos (by omega), c2, Option.some_bind, h3, Option.some_bind]
      refine ⟨{ l_iRefCurrencyFieldNumber := st.l_iRefCurrencyFieldNumber + 1
                field0 := ⟨t1.1, t2.1, whichOutputFormat t2.1, atoi t3.1, atoi t3.1⟩
                field1 := st.field1 }, rfl, ?_⟩
      rw [if_neg]
      rintro (⟨_, h⟩ | ⟨h, _⟩)
      · exact hdec h
      · omega
    · rw [if_neg (by omega)]
      refine ⟨{ st with l_iRefCurrencyFieldNumber := st.l_iRefCurrencyFieldNumber + 1 }, rfl, ?_⟩
      rw [if_pos (Or.inr ⟨hn, hcur⟩)]
  · rw [if_neg hcur]
    by_cases hdec : memcmpEq t1.1 (str "DECIMAL_POS") 11 = true
    · rw [if_pos hdec]
      rcases hn with hn | hn
      · rw [if_neg (by omega)]
        refine ⟨{ st with l_iRefCurrencyFieldNumber := st.l_iRefCurrencyFieldNumber + 1 }, rfl,
          ?_⟩
        rw [if_pos (Or.inl ⟨hn, hdec⟩)]
      · rw [if_pos (by omega), c2, Option.some_bind, h3, Option.some_bind]
        refine ⟨{ l_iRefCurrencyFieldNumber := st.l_iRefCurrencyFieldNumber + 1
                  field0 := st.field0
                  field1 := ⟨t1.1, t2.1, whichOutputFormat t2.1, atoi t3.1,
                    st.field0.iFieldLength + 1 + atoi t3.1⟩ }, rfl, ?_⟩
        rw [if_neg]
        rintro (⟨h, _⟩ | ⟨_, h⟩)
        · omega
        · exact hcur h
    · rw [if_neg hdec]
      refine ⟨{ st with l_iRefCurrencyFieldNumber := st.l_iRefCurrencyFieldNumber + 1 }, rfl, ?_⟩
      rw [if_neg]
      rintro (⟨_, h⟩ | ⟨_, h⟩)
      · exact hdec h
      · exact hcur h

theorem refCurrencyFormatLoop_over (line : CStr) (rest : List CStr)
    (st : RefCurrencyFormatState) (hl : line.length > 1)
    (hn : st.l_iRefCurrencyFieldNumber = 1) :
    ∃ st1, refCurrencyFormatLoop (line :: rest) st = some (EXIT_ERR, st1) := by
  rw [refCurrencyFormatLoop, if_pos hl]
  simp only []
  rw [if_neg (by unfold MAX_FIELD_NUMBER_CURRENCY; omega)]
  exact ⟨_, rfl⟩

theorem refFormatName_nil : memcmpEq (refFormatName []) (str "DECIMAL_POS") 11 = false ∧
    memcmpEq (refFormatName []) (str "CURRENCY_CD") 11 = false := by decide

/-- The value returned by `BuildRefCurrencyRecordFormat`, when the first two
handled lines have their three tokens: EXIT_OK exactly when there are at most
two handled lines, the first one does not start with `DECIMAL_POS` and the
second one does not start with `CURRENCY_CD`. -/
theorem BuildRefCurrencyRecordFormat_eq (records : List CStr)
    (hok : ∀ line ∈ (handledLines records).take 2, RefFormatLineOk line) :
    ∃ r st, BuildRefCurrencyRecordFormat records = some (r, st) ∧
      (r = EXIT_OK ∨ r = EXIT_ERR) ∧
      (r = EXIT_OK ↔ (handledLines records).length ≤ 2 ∧
        memcmpEq (refFormatName ((handledLines records).getD 0 [])) (str "DECIMAL_POS") 11 =
          false ∧
        memcmpEq (refFormatName ((handledLines records).getD 1 [])) (str "CURRENCY_CD") 11 =
          false) := by
  unfold BuildRefCurrencyRecordFormat
  rw [refCurrencyFormatLoop_handled]
  have hlen := handledLines_length records
  have hne : EXIT_ERR ≠ EXIT_OK := by decide
  generalize handledLines records = H at hok hlen
  match H, hok, hlen with
  | [], _, _ =>
    exact ⟨_, _, rfl, Or.inl rfl, fun _ => ⟨by simp, refFormatName_nil.1, refFormatName_nil.2⟩,
      fun _ => rfl⟩
  | l0 :: T, hok, hlen =>
    have hl0 := hlen l0 (List.mem_cons_self _ _)
    have ok0 : RefFormatLineOk l0 := hok l0 (by simp)
    obtain ⟨st1, n1, e1⟩ := refCurrencyFormatLoop_step l0 T
      ⟨-1, blankRefFormatField, blankRefFormatField⟩ hl0 ok0 (Or.inl rfl)
    rw [e1]
    simp only [true_and, show ((-1 : Int) = 0) = False from by simp, false_and, or_false]
    by_cases d0 : memcmpEq (refFormatName l0) (str "DECIMAL_POS") 11 = true
    · rw [if_pos d0]
      refine ⟨_, _, rfl, Or.inr rfl, fun e => absurd e hne, ?_⟩
      rintro ⟨_, h, _⟩
      rw [List.getD_cons_zero, d0] at h
      exact absurd h (by simp)
    · rw [if_neg d0]
      have d0f : memcmpEq (refFormatName l0) (str "DECIMAL_POS") 11 = false := by
        simpa using d0
      have n1z : st1.l_iRefCurrencyFieldNumber = 0 := by rw [n1]; rfl
      match T, hok, hlen with
      | [], _, _ =>
        exact ⟨_, _, rfl, Or.inl rfl,
          fun _ => ⟨by simp, by rw [List.getD_cons_zero]; exact d0f, refFormatName_nil.2⟩,
          fun _ => rfl⟩
      | l1 :: T1, hok, hlen =>
        have hl1 := hlen l1 (by simp)
        have ok1 : RefFormatLineOk l1 := hok l1 (by simp)
        obtain ⟨st2, n2, e2⟩ := refCurrencyFormatLoop_step l1 T1 st1 hl1 ok1 (Or.inr n1z)
        rw [e2]
        simp only [n1z, true_and, show ((0 : Int) = -1) = False from by simp, false_and,
          false_or]
        by_cases c1 : memcmpEq (refFormatName l1) (str "CURRENCY_CD") 11 = true
        · rw [if_pos c1]
          refine ⟨_, _, rfl, Or.inr rfl, fun e => absurd e hne, ?_⟩
          rintro ⟨_, _, h⟩
          rw [List.getD_cons_succ, List.getD_cons_zero, c1] at h
          exact absurd h (by simp)
        · rw [if_neg c1]
          have c1f : memcmpEq (refFormatName l1) (str "CURRENCY_CD") 11 = false := by
            simpa using c1
          have n2o : st2.l_iRefCurrencyFieldNumber = 1 := by rw [n2, n1z]; rfl
          match T1, hlen with
          | [], _ =>
            exact ⟨_, _, rfl, Or.inl rfl,
              fun _ => ⟨by simp, by rw [List.getD_cons_zero]; exact d0f,
                by rw [List.getD_cons_succ, List.getD_cons_zero]; exact c1f⟩,
              fun _ => rfl⟩
          | l2 :: T2, hlen =>
            have hl2 := hlen l2 (by simp)
            obtain ⟨st3, e3⟩ := refCurrencyFormatLoop_over l2 T2 st2 hl2 n2o
            rw [e3]
            refine ⟨_, _, rfl, Or.inr rfl, fun e => absurd e hne, ?_⟩
            rintro ⟨h, _⟩
            simp at h

/-- The value returned by the loop of `BuildRefRcaCptRecordFormat` depends on
the number of handled lines only. -/
theorem refRcaCptFormatLoop_ret (records : List CStr) :
    ∀ st : RefRcaCptFormatState, st.l_iRefRcaCptFieldNumber < MAX_FIELD_NUMBER_REF_RCA_CPT →
      (refRcaCptFormatLoop records st).1 =
        if st.l_iRefRcaCptFieldNumber + (handledLines records).length <
            MAX_FIELD_NUMBER_REF_RCA_CPT then EXIT_OK
        else EXIT_ERR := by
  induction records with
  | nil =>
    intro st hst
    unfold refRcaCptFormatLoop
    simp only [handledLines, List.filter_nil, List.length_nil, Nat.cast_zero, add_zero]
    rw [if_pos hst]
  | cons line rest ih =>
    intro st hst
    by_cases hl : line.length > 1
    · rw [handledLines_cons_pos line rest hl, refRcaCptFormatLoop, if_pos hl]
      simp only []
      have hcast : st.l_iRefRcaCptFieldNumber + ((line :: handledLines rest).length : Nat) =
          st.l_iRefRcaCptFieldNumber + 1 + ((handledLines rest).length : Nat) := by
        rw [List.length_cons]
        push_cast
        ring
      rw [hcast]
      by_cases hn : st.l_iRefRcaCptFieldNumber + 1 < MAX_FIELD_NUMBER_REF_RCA_CPT
      · rw [if_pos hn]
        split
        · exact ih _ hn
        · split
          · exact ih _ hn
          · split
            · exact ih _ hn
            · split
              · exact ih _ hn
              · exact ih _ hn
      · rw [if_neg hn, if_neg]
        have : (0 : Int) ≤ ((handledLines rest).length : Nat) := Int.ofNat_nonneg _
        omega
    · rw [handledLines_cons_neg line rest hl, refRcaCptFormatLoop, if_neg hl]
      exact ih st hst

/-- The value returned by `BuildRefRcaCptRecordFormat`: EXIT_OK exactly when
there are at most 55 handled lines. -/
theorem BuildRefRcaCptRecordFormat_eq (records : List CStr) :
    ((BuildRefRcaCptRecordFormat records).1 = EXIT_OK ∨
      (BuildRefRcaCptRecordFormat records).1 = EXIT_ERR) ∧
    ((BuildRefRcaCptRecordFormat records).1 = EXIT_OK ↔ (handledLines records).length ≤ 55) := by
  have hR : (BuildRefRcaCptRecordFormat records).1 =
      if (-1 : Int) + ((handledLines records).length : Nat) < 55 then EXIT_OK else EXIT_ERR :=
    refRcaCptFormatLoop_ret records _ (by decide)
  by_cases h : (-1 : Int) + ((handledLines records).length : Nat) < 55
  · rw [if_pos h] at hR
    rw [hR]
    exact ⟨Or.inl rfl, fun _ => by omega, fun _ => rfl⟩
  · rw [if_neg h] at hR
    rw [hR]
    exact ⟨Or.inr rfl, fun e => absurd e (by decide), fun e => absurd (by omega) h⟩

theorem sampleRefCurrencyConf_ok :
    ∀ line ∈ (handledLines sampleRefCurrencyConf).take 2, RefFormatLineOk line := by
  intro line hm
  have e : (handledLines sampleRefCurrencyConf).take 2 =
      [str "CURRENCY_CD;charED;3\n", str "DECIMAL_POS;entierZG;1\n"] := by decide
  rw [e] at hm
  simp only [List.mem_cons, List.mem_singleton, List.mem_nil_iff, or_false] at hm
  rcases hm with rfl | rfl
  · exact ⟨(str "CURRENCY_CD", str "charED;3\n"), (str "charED", str "3\n"), (str "3\n", []),
      by decide, by decide, by decide, by decide, by decide⟩
  · exact ⟨(str "DECIMAL_POS", str "entierZG;1\n"), (str "entierZG", str "1\n"),
      (str "1\n", []), by decide, by decide, by decide, by decide, by decide⟩

set_option maxRecDepth 100000 in
/-- C31. `BuildRefTiersRecordFormat` compares the first 70 bytes of the text
it builds with the expected text: it returns EXIT_OK for the six expected
names followed by a seventh one, and for a last name `SIA_CIT_TYPE_OLD`.
`BuildRefCurrencyRecordFormat` returns EXIT_OK for two lines with other
names, for the line of `CURRENCY_CD` alone and for no line at all;
`BuildRefRcaCptRecordFormat` returns EXIT_OK for a single line with any name.
A reordered REF_CURRENCY.conf and a missing name in REF_TIERS.conf are
refused. -/
theorem reference_format_extra_field_accepted :
    (BuildRefTiersRecordFormat (sampleRefTiersConf ++ [str "EXTRA_FIELD\n"])).map
      (fun r => r.1) = some EXIT_OK ∧
    (BuildRefTiersRecordFormat [str "SIAM\n", str "RICOS_SC_ID\n", str "RICOS_CPY_ID\n",
      str "RTS_SC_ID\n", str "SC_INTITULE_USUEL\n", str "SIA_CIT_TYPE_OLD\n"]).map
      (fun r => r.1) = some EXIT_OK ∧
    (BuildRefCurrencyRecordFormat [str "CURRENCY;charED;3\n", str "DECIMALS;entierZG;1\n"]).map
      (fun r => r.1) = some EXIT_OK ∧
    (BuildRefCurrencyRecordFormat [str "CURRENCY_CD;charED;3\n"]).map (fun r => r.1) =
      some EXIT_OK ∧
    (BuildRefCurrencyRecordFormat []).map (fun r => r.1) = some EXIT_OK ∧
    (BuildRefRcaCptRecordFormat [str "ANY_NAME\n"]).1 = EXIT_OK ∧
    (BuildRefCurrencyRecordFormat sampleRefCurrencyConf.reverse).map (fun r => r.1) =
      some EXIT_ERR ∧
    (BuildRefTiersRecordFormat (sampleRefTiersConf.take 5)).map (fun r => r.1) =
      some EXIT_ERR := by
  refine ⟨by decide, by decide, by decide, by decide, by decide, by decide, by decide,
    by decide⟩

set_option maxRecDepth 100000 in
/-- What the three builders check.  `BuildRefTiersRecordFormat`, when
the text built from the handled lines of REF_TIERS.conf (each line without
its last character, followed by `";"` unless the line starts with
`SIA_CIT_TYPE`) fits in the buffer, returns EXIT_OK exactly when this text
starts with the 70 characters
`SIAM;RICOS_SC_ID;RICOS_CPY_ID;RTS_SC_ID;SC_INTITULE_USUEL;SIA_CIT_TYPE`, and
EXIT_ERR otherwise.  `BuildRefCurrencyRecordFormat`, when the first two
handled lines of REF_CURRENCY.conf have three tokens, returns EXIT_OK exactly
when there are at most two handled lines, the name of the first one does not
start with `DECIMAL_POS` and the name of the second one does not start with
`CURRENCY_CD`, and EXIT_ERR otherwise.  `BuildRefRcaCptRecordFormat` returns
EXIT_OK exactly when REF_RCA_CPT.conf has at most 55 handled lines, and
EXIT_ERR otherwise.  The expected lines of REF_TIERS.conf and of
REF_CURRENCY.conf give EXIT_OK. -/
theorem reference_format_validation (tiers currency rcaCpt : List CStr)
    (ht : (refTiersFormatText tiers).length < REF_TIERS_RECORD_LENGTH)
    (hc : ∀ line ∈ (handledLines currency).take 2, RefFormatLineOk line) :
    (∃ r buf, BuildRefTiersRecordFormat tiers = some (r, buf) ∧
      (r = EXIT_OK ∨ r = EXIT_ERR) ∧
      (r = EXIT_OK ↔ ∃ rest, refTiersFormatText tiers = expectedRefTiersFormat ++ rest)) ∧
    (∃ r st, BuildRefCurrencyRecordFormat currency = some (r, st) ∧
      (r = EXIT_OK ∨ r = EXIT_ERR) ∧
      (r = EXIT_OK ↔ (handledLines currency).length ≤ 2 ∧
        memcmpEq (refFormatName ((handledLines currency).getD 0 [])) (str "DECIMAL_POS") 11 =
          false ∧
        memcmpEq (refFormatName ((handledLines currency).getD 1 [])) (str "CURRENCY_CD") 11 =
          false)) ∧
    ((BuildRefRcaCptRecordFormat rcaCpt).1 = EXIT_OK ∨
      (BuildRefRcaCptRecordFormat rcaCpt).1 = EXIT_ERR) ∧
    ((BuildRefRcaCptRecordFormat rcaCpt).1 = EXIT_OK ↔ (handledLines rcaCpt).length ≤ 55) ∧
    (BuildRefTiersRecordFormat sampleRefTiersConf).map (fun r => r.1) = some EXIT_OK ∧
    refTiersFormatText sampleRefTiersConf = expectedRefTiersFormat ∧
    (BuildRefCurrencyRecordFormat sampleRefCurrencyConf).map (fun r => r.1) = some EXIT_OK :=
  ⟨BuildRefTiersRecordFormat_eq tiers ht, BuildRefCurrencyRecordFormat_eq currency hc,
    (BuildRefRcaCptRecordFormat_eq rcaCpt).1, (BuildRefRcaCptRecordFormat_eq rcaCpt).2,
    by decide, by decide, by decide⟩

set_option maxRecDepth 100000 in
theorem reference_format_validation_witness :
    (refTiersFormatText sampleRefTiersConf).length < REF_TIERS_RECORD_LENGTH ∧
    (∀ line ∈ (handledLines sampleRefCurrencyConf).take 2, RefFormatLineOk line) ∧
    ((∃ r buf, BuildRefTiersRecordFormat sampleRefTiersConf = some (r, buf) ∧
      (r = EXIT_OK ∨ r = EXIT_ERR) ∧
      (r = EXIT_OK ↔
        ∃ rest, refTiersFormatText sampleRefTiersConf = expectedRefTiersFormat ++ rest)) ∧
    (∃ r st, BuildRefCurrencyRecordFormat sampleRefCurrencyConf = some (r, st) ∧
      (r = EXIT_OK ∨ r = EXIT_ERR) ∧
      (r = EXIT_OK ↔ (handledLines sampleRefCurrencyConf).length ≤ 2 ∧
        memcmpEq (refFormatName ((handledLines sampleRefCurrencyConf).getD 0 []))
          (str "DECIMAL_POS") 11 = false ∧
        memcmpEq (refFormatName ((handledLines sampleRefCurrencyConf).getD 1 []))
          (str "CURRENCY_CD") 11 = false)) ∧
    ((BuildRefRcaCptRecordFormat [str "COMPTE_DODGE\n", str "TOP_BILAN\n"]).1 = EXIT_OK ∨
      (BuildRefRcaCptRecordFormat [str "COMPTE_DODGE\n", str "TOP_BILAN\n"]).1 = EXIT_ERR) ∧
    ((BuildRefRcaCptRecordFormat [str "COMPTE_DODGE\n", str "TOP_BILAN\n"]).1 = EXIT_OK ↔
      (handledLines [str "COMPTE_DODGE\n", str "TOP_BILAN\n"]).length ≤ 55) ∧
    (BuildRefTiersRecordFormat sampleRefTiersConf).map (fun r => r.1) = some EXIT_OK ∧
    refTiersFormatText sampleRefTiersConf = expectedRefTiersFormat ∧
    (BuildRefCurrencyRecordFormat sampleRefCurrencyConf).map (fun r => r.1) = some EXIT_OK) :=
  ⟨by decide, sampleRefCurrencyConf_ok,
    reference_format_validation sampleRefTiersConf sampleRefCurrencyConf
      [str "COMPTE_DODGE\n", str "TOP_BILAN\n"] (by decide) sampleRefCurrencyConf_ok⟩

set_option maxRecDepth 100000 in
/-- The variables left by the builders on the expected lines, and a
REF_RCA_CPT.conf of 56 lines. -/
theorem reference_format_examples :
    (BuildRefCurrencyRecordFormat sampleRefCurrencyConf).map (fun r => r.2) =
      some ⟨1, ⟨str "CURRENCY_CD", str "charED", enumFieldFormat.charED, 3, 3⟩,
        ⟨str "DECIMAL_POS", str "entierZG", enumFieldFormat.entierZG, 1, 5⟩⟩ ∧
    BuildRefRcaCptRecordFormat [str "A\n", str "COMPTE_DODGE\n", str "\n", str "TOP_BILAN\n",
      str "CHAMPS_TVA\n", str "TOP_INT_EXT\n"] =
      (EXIT_OK, ⟨4, [(str "COMPTE_DODGE", 1), (str "TOP_BILAN", 2), (str "TOP_INT_EXT", 4),
        (str "CHAMPS_TVA", 3)]⟩) ∧
    (BuildRefRcaCptRecordFormat (List.replicate 55 (str "A\n"))).1 = EXIT_OK ∧
    (BuildRefRcaCptRecordFormat (List.replicate 56 (str "A\n"))).1 = EXIT_ERR := by
  refine ⟨by decide, by decide, by decide, by decide⟩

end HarTransco
